import Mathlib

/-!
# BZIP2 stream driver of Harbour (`contrib/hbbz2io/bz2io.c`)

A shallow embedding of the driver and theorems about it.

Modelling conventions

* The driver is compiled for a 64-bit `HB_SIZE` (the `#else` branch of
  `#if HB_SIZE_MAX <= UINT_MAX`): an `HB_SIZE` is a `Nat` below `2^64` and
  `( HB_SIZE ) -1` is `2^64 - 1`.  `unsigned int` fields of `bz_stream` are
  `Nat` reduced modulo `2^32` at every assignment.
* `seek_pos` (`HB_FOFFSET`) and the last-error slot are mathematical integers.
* Memory is a map from addresses to bytes.  Two regions exist: the staging
  buffer `pFile->buffer` and the buffer the caller handed to the last
  Read/Write call that reached the codec (`World.user`; the assignment of the
  caller's pointer to `next_out` or `next_in` makes the caller's buffer that
  region).  A pointer is a region tag and an offset.
* The codec engine (libbz2) and the underlying file handle are external
  collaborators.  They are parameters (`Env`): arbitrary functions on an
  opaque state.  The wrappers `BZ2_bz...` and `underlying...` apply the
  documented calling contract (a codec step consumes at most `avail_in`
  input bytes and produces at most `avail_out` output bytes, an underlying
  transfer moves at most the requested number of bytes) and move the
  `bz_stream` cursors the way libbz2 does.
* Every call to a collaborator is appended to `World.trace` together with
  what it returned.
* Loops whose length depends on the collaborators take a `fuel` bound on the
  number of iterations and give `none` when it is exceeded.
-/

namespace HbBz2

/-! ## Constants -/

/-- bz2io.c: `#define HB_BZ2_ERROR_BASE 100`. -/
def HB_BZ2_ERROR_BASE : Int := 100
/-- bz2io.c: `#define HB_BZ2_BUFSIZE 8192`. -/
def HB_BZ2_BUFSIZE : Nat := 8192
/-- bz2io.c: `#define HB_BZ2_BLOCKSIZE 9`. -/
def HB_BZ2_BLOCKSIZE : Int := 9

/-- Modelled from the spec: `FO_READ` is declared in Harbour's fileio.ch, not in
this source file; it is the spec's mode Read, with the header's value. -/
def FO_READ : Int := 0
/-- Modelled from the spec: `FO_WRITE` is declared in fileio.ch; it is the spec's
mode Write, with the header's value. -/
def FO_WRITE : Int := 1
/-- Modelled from the spec: `FO_READWRITE` is declared in fileio.ch; a handle
opened with it has the spec's mode Unset until its first Read or Write. -/
def FO_READWRITE : Int := 2
/-- Modelled from the spec: `FS_SET` is declared in fileio.ch; a seek to an
absolute position. -/
def FS_SET : Nat := 0
/-- Modelled from the spec: `FS_RELATIVE` is declared in fileio.ch; the spec's
relative seek. -/
def FS_RELATIVE : Nat := 1
/-- Modelled from the spec: `FS_END` is declared in fileio.ch; a seek from the
end. -/
def FS_END : Nat := 2

/-- libbz2 (bzlib.h): action `BZ_RUN`, the spec's accumulate mode. -/
def BZ_RUN : Int := 0
/-- libbz2 (bzlib.h): action `BZ_FLUSH`. -/
def BZ_FLUSH : Int := 1
/-- libbz2 (bzlib.h): action `BZ_FINISH`, the spec's finish mode. -/
def BZ_FINISH : Int := 2
/-- libbz2 (bzlib.h): status `BZ_OK`. -/
def BZ_OK : Int := 0
/-- libbz2 (bzlib.h): status `BZ_RUN_OK`. -/
def BZ_RUN_OK : Int := 1
/-- libbz2 (bzlib.h): status `BZ_FLUSH_OK`. -/
def BZ_FLUSH_OK : Int := 2
/-- libbz2 (bzlib.h): status `BZ_FINISH_OK`. -/
def BZ_FINISH_OK : Int := 3
/-- libbz2 (bzlib.h): status `BZ_STREAM_END`, the spec's logical end. -/
def BZ_STREAM_END : Int := 4
/-- libbz2 (bzlib.h): status `BZ_PARAM_ERROR`. -/
def BZ_PARAM_ERROR : Int := -2
/-- libbz2 (bzlib.h): status `BZ_DATA_ERROR`. -/
def BZ_DATA_ERROR : Int := -4

/-- libbz2 (bzlib.h): status `BZ_SEQUENCE_ERROR`. -/
def BZ_SEQUENCE_ERROR : Int := -1

/-- The failure sentinel `( HB_SIZE ) -1` of a 64-bit `HB_SIZE`. -/
def HB_SIZE_ERROR : Nat := 2 ^ 64 - 1

/-- Modelled from the spec: `HB_FILE_ERR_UNSUPPORTED` is declared in hbapifs.h as
`( HB_ERRCODE ) FS_ERROR`; it is the spec's UnsupportedOperation error. -/
def HB_FILE_ERR_UNSUPPORTED : Int := 65535

/-- Modelled from the spec: `HB_VF_TIMEOUT` is declared in hbapifs.h; the
Configure option that gets or sets the timeout budget. -/
def HB_VF_TIMEOUT : Int := 1
/-- Modelled from the spec: `HB_VF_SHUTDOWN` is declared in hbapifs.h; the
Configure option that reports the mode. -/
def HB_VF_SHUTDOWN : Int := 4
/-- Modelled from the spec: `HB_VF_RDHANDLE` is declared in hbapifs.h; the
Configure option that reports the descriptor of the read slot. -/
def HB_VF_RDHANDLE : Int := 5
/-- Modelled from the spec: `HB_VF_WRHANDLE` is declared in hbapifs.h; the
Configure option that reports the descriptor of the write slot. -/
def HB_VF_WRHANDLE : Int := 6
/-- Modelled from the spec: `HB_VF_IONAME` is declared in hbapifs.h; the
Configure option that reconstructs the display name. -/
def HB_VF_IONAME : Int := 7

/-- Modelled from the spec: `hb_fileResult` is declared in hbapifs.h and its body
is not part of this source file.  The spec has the logical position advance
by the bytes actually transferred and treats the `-1` byte count as the
failure sentinel, so the sentinel counts as zero bytes and every other value
counts as itself. -/
def hb_fileResult (nSize : Nat) : Nat :=
  if nSize = HB_SIZE_ERROR then 0 else nSize

/-! ## Memory and pointers -/

/-- Byte memory of one region: address to byte. -/
abbrev Mem := Int → Nat

/-- The `n` bytes of `m` starting at `off`. -/
def memLoad (m : Mem) : Int → Nat → List Nat
  | _, 0 => []
  | off, n + 1 => m off :: memLoad m (off + 1) n

/-- Memory `m` with the bytes `bs` written from `off` on. -/
def memStore (m : Mem) (off : Int) (bs : List Nat) : Mem :=
  fun a => if off ≤ a ∧ a < off + bs.length then bs.getD (a - off).toNat 0 else m a

/-- C `memmove( base + dst, base + src, n )` inside one region. -/
def memMove (m : Mem) (dst src : Int) (n : Nat) : Mem :=
  memStore m dst (memLoad m src n)

/-- All-zero memory, as left by `hb_xgrabz`. -/
def memZero : Mem := fun _ => 0

/-- A `char *` held by the driver: null, into the staging buffer
`pFile->buffer`, or into the caller's buffer. -/
inductive Ptr
  | null
  | staging (off : Int)
  | user (off : Int)
  deriving DecidableEq, Repr

/-- Pointer arithmetic `p + n`. -/
def Ptr.add : Ptr → Int → Ptr
  | .null, _ => .null
  | .staging off, n => .staging (off + n)
  | .user off, n => .user (off + n)

/-! ## Calls to the collaborators, as recorded in the trace -/

/-- One call to the underlying handle or to the codec engine, with its
arguments and what it returned. -/
inductive Event
  | uRead (size : Nat) (timeout : Int) (result : Nat) (data : List Nat)
  | uWrite (data : List Nat) (timeout : Int) (result : Nat)
  | uClose
  | uFlush (dirty : Bool)
  | uCommit
  | uEof (result : Bool)
  | uConfigure (index : Int)
  | uHandle
  | decompressInit (status : Int)
  | decompress (status : Int) (consumed : List Nat) (produced : List Nat)
  | decompressEnd
  | compressInit (blockSize : Int) (status : Int)
  | compress (action : Int) (status : Int) (consumed : List Nat) (produced : List Nat)
  | compressEnd
  deriving DecidableEq, Repr

/-! ## Data model -/

/-- The fields of libbz2's `bz_stream` the driver reads or writes, and the
engine's private state. -/
structure bz_stream (K : Type) where
  next_in : Ptr
  avail_in : Nat
  next_out : Ptr
  avail_out : Nat
  total_out_lo32 : Nat
  total_out_hi32 : Nat
  state : K

/-- The driver's `struct _HB_FILE`; `pFile` is the underlying handle. -/
structure HB_FILE (U K : Type) where
  pFile : U
  seek_pos : Int
  nTimeout : Int
  fEof : Bool
  fInited : Bool
  iMode : Int
  iBlockSize : Int
  bz2 : bz_stream K
  buffer : Mem

/-- Everything a driver call can read or change: the handle, the caller's
buffer of the last Read/Write, the last-error slot of `hb_fsSetError`, and
the trace of collaborator calls. -/
structure World (U K : Type) where
  file : HB_FILE U K
  user : Mem
  fsError : Int
  trace : List Event

/-- A Harbour item as far as `s_fileConfigure` looks at it. -/
inductive Item
  | nil
  | num (n : Int)
  | str (s : String)
  deriving DecidableEq, Repr

/-- What a call to the underlying handle gives back: its return value, the
error code it left through `hb_fsSetError` (if it set one), and the handle's
new state. -/
structure CallRes (U : Type) (α : Type) where
  value : α
  error : Option Int
  handle : U

/-- What one codec step gives back: status, number of input bytes taken,
output bytes, new engine state. -/
structure BzStep (K : Type) where
  status : Int
  consumed : Nat
  produced : List Nat
  state : K

/-- The external collaborators: the underlying handle's function table and
the libbz2 entry points.  `Read` and `Write` give `none` for `( HB_SIZE ) -1`. -/
structure Env (U K : Type) where
  Read : U → Nat → Int → CallRes U (Option (List Nat))
  Write : U → List Nat → Int → CallRes U (Option Nat)
  Close : U → CallRes U Unit
  Flush : U → Bool → CallRes U Unit
  Commit : U → CallRes U Unit
  Eof : U → CallRes U Bool
  Configure : U → Int → Item → CallRes U (Bool × Item)
  Handle : U → CallRes U Int
  bzDecompressInit : K → Int × K
  bzDecompress : K → List Nat → Nat → BzStep K
  bzDecompressEnd : K → K
  bzCompressInit : K → Int → Int × K
  bzCompress : K → Int → List Nat → Nat → BzStep K
  bzCompressEnd : K → K

variable {U K : Type}

/-! ## Primitive steps -/

/-- Modelled from the spec: `hb_fsSetError` belongs to the Harbour core and is
not in this source file; it stores the last error, the spec's last-error slot. -/
def hb_fsSetError (w : World U K) (e : Int) : World U K :=
  { w with fsError := e }

/-- Book-keeping after a call to the underlying handle. -/
def World.called {α : Type} (w : World U K) (r : CallRes U α) (ev : Event) : World U K :=
  { w with
    file := { w.file with pFile := r.handle }
    fsError := r.error.getD w.fsError
    trace := w.trace ++ [ev] }

/-- Replace the `bz_stream` of the handle. -/
def World.setBz (w : World U K) (s : bz_stream K) : World U K :=
  { w with file := { w.file with bz2 := s } }

/-- The `n` bytes a pointer refers to (zeros behind a null pointer). -/
def World.load (w : World U K) : Ptr → Nat → List Nat
  | .null, n => List.replicate n 0
  | .staging off, n => memLoad w.file.buffer off n
  | .user off, n => memLoad w.user off n

/-- Write bytes through a pointer. -/
def World.store (w : World U K) : Ptr → List Nat → World U K
  | .null, _ => w
  | .staging off, bs => { w with file := { w.file with buffer := memStore w.file.buffer off bs } }
  | .user off, bs => { w with user := memStore w.user off bs }

/-- The underlying `Read( _PHB_FILE, pFile->buffer, size, timeout )`: at most
`size` bytes land at the start of the staging buffer. -/
def underlyingRead (E : Env U K) (w : World U K) (size : Nat) (timeout : Int) :
    Nat × World U K :=
  let r := E.Read w.file.pFile size timeout
  match r.value with
  | none => (HB_SIZE_ERROR, w.called r (.uRead size timeout HB_SIZE_ERROR []))
  | some bs =>
    let bs := bs.take size
    let w1 : World U K :=
      { w with file := { w.file with buffer := memStore w.file.buffer 0 bs } }
    (bs.length, w1.called r (.uRead size timeout bs.length bs))

/-- The underlying `Write( _PHB_FILE, pFile->buffer + off, len, timeout )`: at
most `len` bytes are accepted. -/
def underlyingWrite (E : Env U K) (w : World U K) (off len : Nat) (timeout : Int) :
    Nat × World U K :=
  let data := memLoad w.file.buffer off len
  let r := E.Write w.file.pFile data timeout
  match r.value with
  | none => (HB_SIZE_ERROR, w.called r (.uWrite data timeout HB_SIZE_ERROR))
  | some n => (min n len, w.called r (.uWrite data timeout (min n len)))

/-- How libbz2 moves the cursors of a `bz_stream` after a step that took `c`
input bytes and produced `p` output bytes. -/
def bz_stream.advance (s : bz_stream K) (c p : Nat) (st : K) : bz_stream K :=
  { next_in := s.next_in.add c
    avail_in := s.avail_in - c
    next_out := s.next_out.add p
    avail_out := s.avail_out - p
    total_out_lo32 := (s.total_out_lo32 + p) % 2 ^ 32
    total_out_hi32 := (s.total_out_hi32 + (s.total_out_lo32 + p) / 2 ^ 32) % 2 ^ 32
    state := st }

/-- libbz2 `BZ2_bzDecompressInit( &bz2, 0, 0 )`. -/
def BZ2_bzDecompressInit (E : Env U K) (w : World U K) : Int × World U K :=
  let r := E.bzDecompressInit w.file.bz2.state
  (r.1, { w.setBz { w.file.bz2 with state := r.2, total_out_lo32 := 0, total_out_hi32 := 0 } with
          trace := w.trace ++ [.decompressInit r.1] })

/-- libbz2 `BZ2_bzDecompress( &bz2 )`. -/
def BZ2_bzDecompress (E : Env U K) (w : World U K) : Int × World U K :=
  let s := w.file.bz2
  let input := w.load s.next_in s.avail_in
  let r := E.bzDecompress s.state input s.avail_out
  let c := min r.consumed s.avail_in
  let out := r.produced.take s.avail_out
  let w1 := w.store s.next_out out
  (r.status, { w1.setBz (s.advance c out.length r.state) with
               trace := w.trace ++ [.decompress r.status (input.take c) out] })

/-- libbz2 `BZ2_bzDecompressEnd( &bz2 )`. -/
def BZ2_bzDecompressEnd (E : Env U K) (w : World U K) : World U K :=
  { w.setBz { w.file.bz2 with state := E.bzDecompressEnd w.file.bz2.state } with
    trace := w.trace ++ [.decompressEnd] }

/-- libbz2 `BZ2_bzCompressInit( &bz2, blockSize, 0, 0 )`. -/
def BZ2_bzCompressInit (E : Env U K) (w : World U K) (blockSize : Int) : Int × World U K :=
  let r := E.bzCompressInit w.file.bz2.state blockSize
  (r.1, { w.setBz { w.file.bz2 with state := r.2, total_out_lo32 := 0, total_out_hi32 := 0 } with
          trace := w.trace ++ [.compressInit blockSize r.1] })

/-- libbz2 `BZ2_bzCompress( &bz2, action )`. -/
def BZ2_bzCompress (E : Env U K) (w : World U K) (action : Int) : Int × World U K :=
  let s := w.file.bz2
  let input := w.load s.next_in s.avail_in
  let r := E.bzCompress s.state action input s.avail_out
  let c := min r.consumed s.avail_in
  let out := r.produced.take s.avail_out
  let w1 := w.store s.next_out out
  (r.status, { w1.setBz (s.advance c out.length r.state) with
               trace := w.trace ++ [.compress action r.status (input.take c) out] })

/-- libbz2 `BZ2_bzCompressEnd( &bz2 )`. -/
def BZ2_bzCompressEnd (E : Env U K) (w : World U K) : World U K :=
  { w.setBz { w.file.bz2 with state := E.bzCompressEnd w.file.bz2.state } with
    trace := w.trace ++ [.compressEnd] }

/-! ## The driver -/

/-- The loop of `s_bz2_write`.  The first component of the result is `none`
when the function left through `return nWr` with `nWr == ( HB_SIZE ) -1`, and
the value of `nWritten` at loop exit otherwise.  Every round that continues
adds at least one to `nWritten`, so the loop runs at most `nSize` times; the
first argument is that bound. -/
def s_bz2_write_loop (E : Env U K) :
    Nat → World U K → Nat → Nat → Int → Option Nat × World U K
  | 0, w, _, nWritten, _ => (some nWritten, w)
  | rounds + 1, w, nSize, nWritten, nTimeout =>
    if nWritten < nSize then
      let r := underlyingWrite E w nWritten (nSize - nWritten) nTimeout
      if r.1 = HB_SIZE_ERROR then (none, r.2)
      else if r.1 = 0 then (some nWritten, r.2)
      else s_bz2_write_loop E rounds r.2 nSize ((nWritten + r.1) % 2 ^ 64)
             (if nTimeout > 0 then 0 else nTimeout)
    else (some nWritten, w)

/-- bz2io.c `s_bz2_write`: drain the staged bytes to the underlying handle. -/
def s_bz2_write (E : Env U K) (w : World U K) (nTimeout : Int) : Nat × World U K :=
  let nSize := (HB_BZ2_BUFSIZE + 2 ^ 32 - w.file.bz2.avail_out % 2 ^ 32) % 2 ^ 32
  match s_bz2_write_loop E nSize w nSize 0 nTimeout with
  | (none, w1) => (HB_SIZE_ERROR, w1)
  | (some nWritten, w1) =>
    if nWritten > 0 then
      let w2 : World U K :=
        if nWritten < nSize then
          { w1 with file := { w1.file with
              buffer := memMove w1.file.buffer 0 nWritten (nSize - nWritten) } }
        else w1
      (nWritten, w2.setBz { w2.file.bz2 with
          avail_out := (w2.file.bz2.avail_out + nWritten % 2 ^ 32) % 2 ^ 32
          next_out := w2.file.bz2.next_out.add (-(nWritten : Int)) })
    else (nWritten, w1)

/-- The `while` loop of `s_bz2_flush`.  `some ( w, none )` is the early
`return` after a stalled or failed drain, `some ( w, some err )` is the normal
loop exit with the last engine status, `none` is fuel exhaustion. -/
def s_bz2_flush_loop (E : Env U K) :
    Nat → World U K → Bool → Int → Option (World U K × Option Int)
  | fuel, w, fClose, err =>
    if w.file.bz2.avail_out < HB_BZ2_BUFSIZE then
      match fuel with
      | 0 => none
      | fuel + 1 =>
        let r := s_bz2_write E w w.file.nTimeout
        if r.1 = 0 ∨ r.1 = HB_SIZE_ERROR then some (r.2, none)
        else if err = BZ_FLUSH_OK ∨ err = BZ_FINISH_OK then
          let c := BZ2_bzCompress E r.2 (if fClose then BZ_FINISH else BZ_FLUSH)
          s_bz2_flush_loop E fuel c.2 fClose c.1
        else s_bz2_flush_loop E fuel r.2 fClose err
    else some (w, some err)

/-- bz2io.c `s_bz2_flush`. -/
def s_bz2_flush (E : Env U K) (fuel : Nat) (w : World U K) (fClose : Bool) :
    Option (World U K) :=
  let first : Int × World U K :=
    if w.file.bz2.avail_out > 0 then
      BZ2_bzCompress E w (if fClose then BZ_FINISH else BZ_FLUSH)
    else if w.file.bz2.avail_out < HB_BZ2_BUFSIZE then (BZ_FLUSH_OK, w)
    else (BZ_STREAM_END, w)
  match s_bz2_flush_loop E fuel first.2 fClose first.1 with
  | none => none
  | some (w1, none) => some w1
  | some (w1, some err) =>
    if err = BZ_STREAM_END ∨ err = BZ_RUN_OK then some (hb_fsSetError w1 0)
    else some (hb_fsSetError w1 (HB_BZ2_ERROR_BASE - err))

/-- bz2io.c `s_filebz2New`: `none` stands for the `NULL` underlying handle.
`hb_xgrabz` zeroes every field that is not assigned. -/
def s_filebz2New (pFile : Option U) (iMode : Int) (iBlockSize : Int) (k0 : K) :
    Option (HB_FILE U K) :=
  match pFile with
  | none => none
  | some u =>
    some
      { pFile := u
        seek_pos := 0
        nTimeout := -1
        fEof := false
        fInited := false
        iMode := iMode
        iBlockSize := iBlockSize
        bz2 :=
          { next_in := .null, avail_in := 0, next_out := .null, avail_out := 0
            total_out_lo32 := 0, total_out_hi32 := 0, state := k0 }
        buffer := memZero }

/-- bz2io.c `s_fileClose`.  The result is the world left behind once the
handle is released. -/
def s_fileClose (E : Env U K) (fuel : Nat) (w : World U K) : Option (World U K) :=
  match (if w.file.iMode ≠ FO_READ ∧ w.file.fInited = true
         then s_bz2_flush E fuel w true else some w) with
  | none => none
  | some w1 =>
    let w2 := w1.called (E.Close w1.file.pFile) .uClose
    if w2.file.fInited = true then
      if w2.file.iMode = FO_READ then some (BZ2_bzDecompressEnd E w2)
      else some (BZ2_bzCompressEnd E w2)
    else some w2

/-- The `while( pFile->bz2.avail_out )` loop of `s_fileRead`; the `Nat` carried
along and returned is the local `nResult`. -/
def s_fileRead_loop (E : Env U K) :
    Nat → World U K → Int → Nat → Option (Nat × World U K)
  | fuel, w, nTimeout, nResult =>
    if w.file.bz2.avail_out ≠ 0 then
      match fuel with
      | 0 => none
      | fuel + 1 =>
        let d := BZ2_bzDecompress E w
        if d.1 ≠ BZ_OK then
          if d.1 = BZ_STREAM_END then
            let w1 := BZ2_bzDecompressEnd E d.2
            some (nResult, { w1 with file := { w1.file with fInited := false, fEof := true } })
          else
            some (HB_SIZE_ERROR, hb_fsSetError d.2 (HB_BZ2_ERROR_BASE - d.1))
        else if d.2.file.bz2.avail_in = 0 then
          let r := underlyingRead E d.2 HB_BZ2_BUFSIZE
                     (if d.2.file.bz2.avail_out ≠ 0 then nTimeout else 0)
          if r.1 = 0 ∨ r.1 = HB_SIZE_ERROR then some (r.1, r.2)
          else
            s_fileRead_loop E fuel
              (r.2.setBz { r.2.file.bz2 with next_in := .staging 0, avail_in := r.1 % 2 ^ 32 })
              nTimeout r.1
        else s_fileRead_loop E fuel d.2 nTimeout nResult
    else some (nResult, w)

/-- bz2io.c `s_fileRead`.  `buffer` is the caller's buffer as it is before the
call; after a call that reached the decoder the caller's buffer is
`World.user` of the result. -/
def s_fileRead (E : Env U K) (fuel : Nat) (w : World U K) (buffer : Mem) (nSize : Nat)
    (nTimeout : Int) : Option (Nat × World U K) :=
  if w.file.iMode ≠ FO_WRITE then
    if w.file.fEof = true then some (0, hb_fsSetError w 0)
    else
      let i : Int × World U K :=
        if w.file.fInited = false then BZ2_bzDecompressInit E w else (BZ_OK, w)
      if i.1 ≠ BZ_OK then some (HB_SIZE_ERROR, hb_fsSetError i.2 (HB_BZ2_ERROR_BASE - i.1))
      else
        let w1 : World U K :=
          if w.file.fInited = false then
            { i.2 with file := { i.2.file with fInited := true, iMode := FO_READ } }
          else i.2
        let w2 := hb_fsSetError w1 0
        let nTimeout := if nTimeout = -1 then w2.file.nTimeout else nTimeout
        let w3 : World U K :=
          { w2.setBz { w2.file.bz2 with
              next_out := .user 0, avail_out := nSize % 2 ^ 32
              total_out_lo32 := 0, total_out_hi32 := 0 } with user := buffer }
        match s_fileRead_loop E fuel w3 nTimeout 0 with
        | none => none
        | some (nResult, w4) =>
          let nResult :=
            if w4.file.bz2.total_out_lo32 ≠ 0 ∨ w4.file.bz2.total_out_hi32 ≠ 0 then
              (w4.file.bz2.total_out_hi32 * 2 ^ 32 % 2 ^ 64) ||| w4.file.bz2.total_out_lo32
            else nResult
          some (nResult,
            { w4 with file := { w4.file with
                seek_pos := w4.file.seek_pos + (hb_fileResult nResult : Int) } })
  else some (0, hb_fsSetError w HB_FILE_ERR_UNSUPPORTED)

/-- The `while( pFile->bz2.avail_in )` loop of `s_fileWrite`; the `Nat` carried
along and returned is the local `nResult`. -/
def s_fileWrite_loop (E : Env U K) :
    Nat → World U K → Int → Nat → Option (Nat × World U K)
  | fuel, w, nTimeout, nResult =>
    if w.file.bz2.avail_in ≠ 0 then
      match fuel with
      | 0 => none
      | fuel + 1 =>
        let dr : Nat × World U K :=
          if w.file.bz2.avail_out = 0 then s_bz2_write E w nTimeout else (nResult, w)
        if w.file.bz2.avail_out = 0 ∧ (dr.1 = 0 ∨ dr.1 = HB_SIZE_ERROR) then some dr
        else
          let c := BZ2_bzCompress E dr.2 BZ_RUN
          if c.1 ≠ BZ_RUN_OK then
            some (HB_SIZE_ERROR, hb_fsSetError c.2 (HB_BZ2_ERROR_BASE - c.1))
          else s_fileWrite_loop E fuel c.2 nTimeout dr.1
    else some (nResult, w)

/-- bz2io.c `s_fileWrite`.  `buffer` is the caller's data. -/
def s_fileWrite (E : Env U K) (fuel : Nat) (w : World U K) (buffer : Mem) (nSize : Nat)
    (nTimeout : Int) : Option (Nat × World U K) :=
  if w.file.iMode ≠ FO_READ then
    let i : Int × World U K :=
      if w.file.fInited = false then
        BZ2_bzCompressInit E
          (w.setBz { w.file.bz2 with next_out := .staging 0, avail_out := HB_BZ2_BUFSIZE })
          w.file.iBlockSize
      else (BZ_OK, w)
    if i.1 ≠ BZ_OK then some (HB_SIZE_ERROR, hb_fsSetError i.2 (HB_BZ2_ERROR_BASE - i.1))
    else
      let w1 : World U K :=
        if w.file.fInited = false then
          { i.2 with file := { i.2.file with fInited := true, iMode := FO_WRITE } }
        else i.2
      let w2 := hb_fsSetError w1 0
      let nTimeout := if nTimeout = -1 then w2.file.nTimeout else nTimeout
      let w3 : World U K :=
        { w2.setBz { w2.file.bz2 with next_in := .user 0, avail_in := nSize % 2 ^ 32 } with
          user := buffer }
      match s_fileWrite_loop E fuel w3 nTimeout 0 with
      | none => none
      | some (nResult, w4) =>
        let nResult :=
          if nResult ≠ HB_SIZE_ERROR then (nSize + 2 ^ 64 - w4.file.bz2.avail_in) % 2 ^ 64
          else nResult
        some (nResult,
          { w4 with file := { w4.file with
              seek_pos := w4.file.seek_pos + (hb_fileResult nResult : Int) } })
  else some (0, hb_fsSetError w HB_FILE_ERR_UNSUPPORTED)

/-- bz2io.c `s_fileReadAt`; `pFile->pFuncs->Read` is `s_fileRead`. -/
def s_fileReadAt (E : Env U K) (fuel : Nat) (w : World U K) (buffer : Mem) (nSize : Nat)
    (nOffset : Int) : Option (Nat × World U K) :=
  if w.file.iMode ≠ FO_WRITE ∧ w.file.seek_pos = nOffset then
    s_fileRead E fuel w buffer nSize w.file.nTimeout
  else some (0, hb_fsSetError w HB_FILE_ERR_UNSUPPORTED)

/-- bz2io.c `s_fileWriteAt`; `pFile->pFuncs->Write` is `s_fileWrite`. -/
def s_fileWriteAt (E : Env U K) (fuel : Nat) (w : World U K) (buffer : Mem) (nSize : Nat)
    (nOffset : Int) : Option (Nat × World U K) :=
  if w.file.iMode ≠ FO_READ ∧ w.file.seek_pos = nOffset then
    s_fileWrite E fuel w buffer nSize w.file.nTimeout
  else some (0, hb_fsSetError w HB_FILE_ERR_UNSUPPORTED)

/-- bz2io.c `s_fileTruncAt`. -/
def s_fileTruncAt (w : World U K) (nOffset : Int) : Bool × World U K :=
  if w.file.iMode ≠ FO_READ ∧ w.file.seek_pos = nOffset then (true, hb_fsSetError w 0)
  else (false, hb_fsSetError w HB_FILE_ERR_UNSUPPORTED)

/-- bz2io.c `s_fileSeek`. -/
def s_fileSeek (w : World U K) (nOffset : Int) (uiFlags : Nat) : Int × World U K :=
  if (uiFlags = FS_SET ∧ nOffset = w.file.seek_pos) ∨ (uiFlags = FS_RELATIVE ∧ nOffset = 0) then
    (w.file.seek_pos, hb_fsSetError w 0)
  else (w.file.seek_pos, hb_fsSetError w 25)

/-- bz2io.c `s_fileSize`. -/
def s_fileSize (w : World U K) : Int × World U K :=
  (0, hb_fsSetError w HB_FILE_ERR_UNSUPPORTED)

/-- bz2io.c `s_fileEof`; `||` asks the underlying handle only when the first
two tests are false. -/
def s_fileEof (E : Env U K) (w : World U K) : Bool × World U K :=
  if w.file.iMode = FO_WRITE ∨ w.file.fEof = true then (true, w)
  else
    let r := E.Eof w.file.pFile
    (r.value, w.called r (.uEof r.value))

/-- bz2io.c `s_fileFlush`. -/
def s_fileFlush (E : Env U K) (w : World U K) (fDirty : Bool) : World U K :=
  if w.file.iMode ≠ FO_READ ∧ w.file.fInited = true then
    w.called (E.Flush w.file.pFile fDirty) (.uFlush fDirty)
  else hb_fsSetError w 0

/-- bz2io.c `s_fileCommit`; `pFile->pFuncs->Flush` is `s_fileFlush`. -/
def s_fileCommit (E : Env U K) (w : World U K) : World U K :=
  if w.file.iMode ≠ FO_READ ∧ w.file.fInited = true then
    let w1 := s_fileFlush E w true
    w1.called (E.Commit w1.file.pFile) .uCommit
  else hb_fsSetError w 0

/-- Modelled from the spec: `hb_itemGetCPtr` belongs to the Harbour core and is
not in this source file; it gives the string of a string item and the empty
string otherwise. -/
def hb_itemGetCPtr : Item → String
  | .str s => s
  | _ => ""

/-- bz2io.c `s_fileConfigure`. -/
def s_fileConfigure (E : Env U K) (w : World U K) (iIndex : Int) (pValue : Item) :
    (Bool × Item) × World U K :=
  if iIndex = HB_VF_TIMEOUT then
    let nTimeout := w.file.nTimeout
    let w1 : World U K :=
      match pValue with
      | .num n => { w with file := { w.file with nTimeout := n } }
      | _ => w
    ((true, .num nTimeout), w1)
  else if iIndex = HB_VF_SHUTDOWN then ((true, .num w.file.iMode), w)
  else if iIndex = HB_VF_RDHANDLE ∨ iIndex = HB_VF_WRHANDLE then
    let r := E.Handle w.file.pFile
    ((true, .num r.value), w.called r .uHandle)
  else if iIndex = HB_VF_IONAME then
    let r := E.Configure w.file.pFile iIndex pValue
    let w1 := w.called r (.uConfigure iIndex)
    if r.value.1 = true then ((true, .str ("BZ:" ++ hb_itemGetCPtr r.value.2)), w1)
    else ((true, .str "BZ:"), w1)
  else
    let r := E.Configure w.file.pFile iIndex pValue
    (r.value, w.called r (.uConfigure iIndex))

/-- Modelled from the spec: `HB_TOUPPER` is a macro of Harbour's hbdefs.h, not of
this source file; the spec takes the tag letters "in any letter case", so it
maps the ASCII letters `a`..`z` to `A`..`Z` and leaves every other character
code alone. -/
def HB_TOUPPER (c : Nat) : Nat :=
  if 97 ≤ c ∧ c ≤ 122 then c - 32 else c

/-- The character `psz[ i ]` of a C string given by the codes of its characters
before the terminating NUL; the terminator reads as 0. -/
def charAt (psz : List Nat) (i : Nat) : Nat := psz.getD i 0

/-- bz2io.c `s_bz2io_name`.  The string is the list of its character codes
(`'B'` is 66, `'Z'` 90, `':'` 58, `'0'` 48).  The result is the number of
characters the returned pointer is ahead of `pszFileName`, and the integer
behind `piBlockSize` after the call (`none` for a `NULL` pointer). -/
def s_bz2io_name (pszFileName : List Nat) (piBlockSize : Option Int) : Nat × Option Int :=
  if HB_TOUPPER (charAt pszFileName 0) = 66 ∧ HB_TOUPPER (charAt pszFileName 1) = 90 then
    if charAt pszFileName 2 = 58 then (3, piBlockSize)
    else if 49 ≤ charAt pszFileName 2 ∧ charAt pszFileName 2 ≤ 57 ∧ charAt pszFileName 3 = 58 then
      (4, piBlockSize.map fun _ => (charAt pszFileName 2 : Int) - 48)
    else (0, piBlockSize)
  else (0, piBlockSize)

/-- bz2io.c `s_fileAccept`: the returned pointer differs from the argument. -/
def s_fileAccept (pszFileName : List Nat) : Bool :=
  decide ((s_bz2io_name pszFileName none).1 ≠ 0)

/-- bz2io.c `s_fileOpen`.  `hb_fileExtOpen` is a parameter: it maps the name it
is given to the underlying handle or to `NULL`.  The copy of the resolved name
back into the caller's string under `FXO_COPYNAME` is not modelled.  The mask
`FO_READ | FO_WRITE | FO_READWRITE` is 3. -/
def s_fileOpen (hb_fileExtOpen : List Nat → Option U) (pszFileName : List Nat)
    (nExFlags : Nat) (k0 : K) : Option (HB_FILE U K) :=
  let r := s_bz2io_name pszFileName (some HB_BZ2_BLOCKSIZE)
  s_filebz2New (hb_fileExtOpen (pszFileName.drop r.1)) ((nExFlags &&& 3 : Nat) : Int)
    (r.2.getD HB_BZ2_BLOCKSIZE) k0

/-! ## Operations as data, and what a call added to the trace -/

/-- The operations of the driver that act on an open handle. -/
inductive Op
  | read (buffer : Mem) (nSize : Nat) (nTimeout : Int)
  | write (buffer : Mem) (nSize : Nat) (nTimeout : Int)
  | readAt (buffer : Mem) (nSize : Nat) (nOffset : Int)
  | writeAt (buffer : Mem) (nSize : Nat) (nOffset : Int)
  | truncAt (nOffset : Int)
  | seek (nOffset : Int) (uiFlags : Nat)
  | size
  | eof
  | flush (fDirty : Bool)
  | commit
  | configure (iIndex : Int) (pValue : Item)

/-- The world after one operation (`none`: the fuel did not suffice). -/
def applyOp (E : Env U K) (fuel : Nat) : Op → World U K → Option (World U K)
  | .read b n t, w => (s_fileRead E fuel w b n t).map Prod.snd
  | .write b n t, w => (s_fileWrite E fuel w b n t).map Prod.snd
  | .readAt b n o, w => (s_fileReadAt E fuel w b n o).map Prod.snd
  | .writeAt b n o, w => (s_fileWriteAt E fuel w b n o).map Prod.snd
  | .truncAt o, w => some (s_fileTruncAt w o).2
  | .seek o f, w => some (s_fileSeek w o f).2
  | .size, w => some (s_fileSize w).2
  | .eof, w => some (s_fileEof E w).2
  | .flush d, w => some (s_fileFlush E w d)
  | .commit, w => some (s_fileCommit E w)
  | .configure i v, w => some (s_fileConfigure E w i v).2

/-- The world after a sequence of operations. -/
def runOps (E : Env U K) (fuel : Nat) : List Op → World U K → Option (World U K)
  | [], w => some w
  | op :: ops, w =>
    match applyOp E fuel op w with
    | none => none
    | some w1 => runOps E fuel ops w1

/-- The collaborator calls made between world `w` and the later world `w1`. -/
def newEvents (w w1 : World U K) : List Event :=
  w1.trace.drop w.trace.length

/-- Number of plain bytes the decoder produced in the given calls. -/
def producedCount : List Event → Nat
  | [] => 0
  | .decompress _ _ p :: es => p.length + producedCount es
  | _ :: es => producedCount es

/-- Number of input bytes the encoder consumed in the given calls. -/
def consumedCount : List Event → Nat
  | [] => 0
  | .compress _ _ c _ :: es => c.length + consumedCount es
  | _ :: es => consumedCount es

/-- An underlying `Write` that returned `( HB_SIZE ) -1` is among the calls. -/
def writeFailed (evs : List Event) : Prop :=
  ∃ d t, Event.uWrite d t HB_SIZE_ERROR ∈ evs

/-- An underlying `Write` that was offered the whole staging buffer and took
nothing is among the calls: a drain that stalled with no progress. -/
def drainStalled (evs : List Event) : Prop :=
  ∃ d t, Event.uWrite d t 0 ∈ evs ∧ d.length = HB_BZ2_BUFSIZE

/-- An encoder step with a status other than `BZ_RUN_OK` is among the calls. -/
def encodeFailed (evs : List Event) : Prop :=
  ∃ a st c p, Event.compress a st c p ∈ evs ∧ st ≠ BZ_RUN_OK

/-- The state invariant of a handle: a live codec session fixes the mode to
read or write, and the end-of-stream flag is only set in read mode. -/
def HandleInv (w : World U K) : Prop :=
  (w.file.fInited = true → w.file.iMode = FO_READ ∨ w.file.iMode = FO_WRITE) ∧
  (w.file.fEof = true → w.file.iMode = FO_READ)

/-- The handle fields outside the `bz_stream`, the staging buffer and the
underlying handle are the same in both worlds. -/
def SameCtl (w w1 : World U K) : Prop :=
  w1.file.seek_pos = w.file.seek_pos ∧ w1.file.nTimeout = w.file.nTimeout ∧
  w1.file.fEof = w.file.fEof ∧ w1.file.fInited = w.file.fInited ∧
  w1.file.iMode = w.file.iMode ∧ w1.file.iBlockSize = w.file.iBlockSize

/-- What every operation keeps: the state invariant, a set end-of-stream flag,
and a mode that is already `FO_READ` or `FO_WRITE`. -/
def Stable (w w1 : World U K) : Prop :=
  (HandleInv w → HandleInv w1) ∧
  (w.file.fEof = true → w1.file.fEof = true) ∧
  (w.file.iMode = FO_READ → w1.file.iMode = FO_READ) ∧
  (w.file.iMode = FO_WRITE → w1.file.iMode = FO_WRITE)

/-- The operation is one of the four entry points that move data: Read, Write,
ReadAt, WriteAt. -/
def Op.transfers : Op → Bool
  | .read _ _ _ => true
  | .write _ _ _ => true
  | .readAt _ _ _ => true
  | .writeAt _ _ _ => true
  | _ => false

/-- The call uses the staging buffer on behalf of the input cursor: a refill
from the underlying handle or a decoder step. -/
def Event.onInput : Event → Bool
  | .uRead _ _ _ _ => true
  | .decompress _ _ _ => true
  | _ => false

/-- The call uses the staging buffer on behalf of the output cursor: an encoder
step or a drain to the underlying handle. -/
def Event.onOutput : Event → Bool
  | .uWrite _ _ _ => true
  | .compress _ _ _ _ => true
  | _ => false

/-- The bytes the underlying handle accepted in the given calls, in order: of
every `Write` that did not fail, the first `result` bytes of what it was
offered. -/
def acceptedBytes : List Event → List Nat
  | [] => []
  | .uWrite d _ res :: es => (if res = HB_SIZE_ERROR then [] else d.take res) ++ acceptedBytes es
  | _ :: es => acceptedBytes es

/-- The bytes the encoder put into the staging buffer in the given calls, in
order. -/
def emittedBytes : List Event → List Nat
  | [] => []
  | .compress _ _ _ p :: es => p ++ emittedBytes es
  | _ :: es => emittedBytes es

/-- The status of the last encoder step among the calls; `acc` when there is
none. -/
def lastStatus (acc : Option Int) : List Event → Option Int
  | [] => acc
  | .compress _ st _ _ :: es => lastStatus (some st) es
  | _ :: es => lastStatus acc es

/-! ## Predicates used to state what the loops guarantee -/

/-- Postcondition of the read loop. -/
def ReadLoopPost (w : World U K) (r : Nat × World U K) (evs : List Event) : Prop :=
  r.2.trace = w.trace ++ evs ∧
  r.2.file.bz2.total_out_hi32 = 0 ∧
  r.2.file.bz2.total_out_lo32 = w.file.bz2.total_out_lo32 + producedCount evs ∧
  (∀ st c p, Event.decompress st c p ∈ evs → st ≠ BZ_OK → st ≠ BZ_STREAM_END →
      r.1 = HB_SIZE_ERROR ∧ r.2.fsError = HB_BZ2_ERROR_BASE - st) ∧
  (∀ c p, Event.decompress BZ_STREAM_END c p ∈ evs → r.2.file.fEof = true) ∧
  r.2.file.seek_pos = w.file.seek_pos ∧ r.2.file.nTimeout = w.file.nTimeout ∧
  r.2.file.iMode = w.file.iMode ∧ r.2.file.iBlockSize = w.file.iBlockSize ∧
  ((r.2.file.fEof = w.file.fEof ∧ r.2.file.fInited = w.file.fInited) ∨
    (r.2.file.fEof = true ∧ r.2.file.fInited = false))

/-- Postcondition of the drain loop started with `nWritten` of `nSize` staged
bytes already written. -/
def DrainLoopPost (w : World U K) (nSize nWritten : Nat) (r : Option Nat × World U K)
    (evs : List Event) : Prop :=
  r.2.trace = w.trace ++ evs ∧ SameCtl w r.2 ∧ r.2.file.bz2 = w.file.bz2 ∧
  r.2.file.buffer = w.file.buffer ∧
  (∀ e ∈ evs, ∃ d t res, e = Event.uWrite d t res ∧ d.length ≤ nSize - nWritten) ∧
  (r.1 = none ↔ writeFailed evs) ∧
  (∀ n, r.1 = some n → nWritten ≤ n ∧ n ≤ nSize) ∧
  (∀ d t, Event.uWrite d t 0 ∈ evs → d.length = nSize - nWritten → r.1 = some nWritten)

/-- Number of staged bytes `s_bz2_write` computes from `avail_out`. -/
def stagedSize (w : World U K) : Nat :=
  (HB_BZ2_BUFSIZE + 2 ^ 32 - w.file.bz2.avail_out % 2 ^ 32) % 2 ^ 32

/-- Postcondition of `s_bz2_write`. -/
def DrainPost (w : World U K) (r : Nat × World U K) (evs : List Event) : Prop :=
  r.2.trace = w.trace ++ evs ∧ SameCtl w r.2 ∧
  r.2.file.bz2.avail_in = w.file.bz2.avail_in ∧
  (∀ e ∈ evs, ∃ d t res, e = Event.uWrite d t res) ∧
  (r.1 = HB_SIZE_ERROR ↔ writeFailed evs) ∧
  (r.1 ≠ HB_SIZE_ERROR → r.1 ≤ stagedSize w) ∧
  (∀ d t, Event.uWrite d t 0 ∈ evs → d.length = stagedSize w → r.1 = 0)

/-- Postcondition of the write loop entered with `nResult = n`. -/
def WriteLoopPost (w : World U K) (n : Nat) (r : Nat × World U K) (evs : List Event) : Prop :=
  r.2.trace = w.trace ++ evs ∧ SameCtl w r.2 ∧
  r.2.file.bz2.avail_in + consumedCount evs = w.file.bz2.avail_in ∧
  (writeFailed evs ∨ encodeFailed evs → r.1 = HB_SIZE_ERROR) ∧
  (¬ writeFailed evs → ¬ encodeFailed evs → r.1 = n ∨ r.1 ≤ HB_BZ2_BUFSIZE) ∧
  (drainStalled evs → r.2.file.bz2.avail_in ≠ 0 ∧ r.1 = 0) ∧
  (∀ a st c p, Event.compress a st c p ∈ evs → st ≠ BZ_RUN_OK →
    r.2.fsError = HB_BZ2_ERROR_BASE - st)

/-- The world `s_fileWrite` hands to `BZ2_bzCompressInit`. -/
def compressInitWorld (w : World U K) : World U K :=
  w.setBz { w.file.bz2 with next_out := .staging 0, avail_out := HB_BZ2_BUFSIZE }

/-- The output cursor is where the staged bytes end: `next_out` points into
the staging buffer right behind them, and `avail_out` is the room left. -/
def Staging (w : World U K) : Prop :=
  w.file.bz2.avail_out ≤ HB_BZ2_BUFSIZE ∧
  w.file.bz2.next_out = .staging ((HB_BZ2_BUFSIZE - w.file.bz2.avail_out : Nat) : Int)

/-- The underlying `Write` never fails and accepts at least one byte of every
non-empty offer. -/
def AcceptsSome (E : Env U K) : Prop :=
  ∀ u d t, d ≠ [] → ∃ n, (E.Write u d t).value = some n ∧ 0 < n

/-- The staged bytes: the front of the staging buffer that `s_bz2_write` offers
to the underlying handle. -/
def stagedBytes (w : World U K) : List Nat :=
  memLoad w.file.buffer 0 (stagedSize w)

/-- What a handle holds back for the underlying handle: the staged bytes of a
live encoder session, nothing otherwise. -/
def pendingBytes (w : World U K) : List Nat :=
  if w.file.fInited = true then stagedBytes w else []

/-- Between world `w0` and the later world `w1` the calls `evs` were made, the
output cursor is behind the staged bytes again, the control fields are the
same, and the bytes are conserved: the bytes staged before followed by the
bytes the encoder emitted are the bytes the underlying handle accepted
followed by the bytes staged afterwards. -/
def Moves (w0 w1 : World U K) (evs : List Event) : Prop :=
  w1.trace = w0.trace ++ evs ∧ Staging w1 ∧ SameCtl w0 w1 ∧
  stagedBytes w0 ++ emittedBytes evs = acceptedBytes evs ++ stagedBytes w1

/-- A live session of the handle is an encoder session with the output cursor
behind the staged bytes. -/
def WriteReady (w : World U K) : Prop :=
  w.file.fInited = true → w.file.iMode ≠ FO_READ ∧ Staging w

/-- The underlying handle leaves the last-error slot alone or clears it in
every `Read` and `Write`. -/
def QuietHandle (E : Env U K) : Prop :=
  (∀ u n t, (E.Read u n t).error.getD 0 = 0) ∧ (∀ u d t, (E.Write u d t).error.getD 0 = 0)

/-- The compressed bytes the underlying handle returned in the given calls, in
order: the data of every `Read`. -/
def deliveredBytes : List Event → List Nat
  | [] => []
  | .uRead _ _ _ d :: es => d ++ deliveredBytes es
  | _ :: es => deliveredBytes es

/-- The compressed bytes the decoder consumed in the given calls, in order. -/
def takenBytes : List Event → List Nat
  | [] => []
  | .decompress _ c _ :: es => c ++ takenBytes es
  | _ :: es => takenBytes es

/-- The input side as a queue: the bytes of the last refill the decoder has
not consumed yet, and the number of bytes of that refill it has consumed. -/
structure InputQueue where
  taken : Nat
  waiting : List Nat
  deriving DecidableEq, Repr

/-- One collaborator call replayed on the queue.  A `Read` is allowed only
when no byte waits and asks for the whole staging buffer; one that returns
bytes replaces the queue by them, at most 8192, and one that returns 0 or fails
brings no bytes.  A decoder step consumes bytes from the head of the queue.
`none`: the call does not fit this discipline. -/
def feed (q : InputQueue) : Event → Option InputQueue
  | .uRead size _ res d =>
    if q.waiting = [] ∧ size = HB_BZ2_BUFSIZE then
      if res = 0 ∨ res = HB_SIZE_ERROR then (if d = [] then some q else none)
      else if d.length = res ∧ res ≤ HB_BZ2_BUFSIZE then some { taken := 0, waiting := d }
      else none
    else none
  | .decompress _ c _ =>
    if q.waiting.take c.length = c then
      some { taken := q.taken + c.length, waiting := q.waiting.drop c.length }
    else none
  | _ => some q

/-- A sequence of calls replayed on the queue. -/
def feedAll : InputQueue → List Event → Option InputQueue
  | q, [] => some q
  | q, e :: es =>
    match feed q e with
    | none => none
    | some q1 => feedAll q1 es

/-- The input cursor of the handle stands for the queue: `avail_in` bytes wait,
they lie in the staging buffer behind the consumed bytes of the last refill,
and `next_in` points at them. -/
def InputHolds (w : World U K) (q : InputQueue) : Prop :=
  w.file.bz2.avail_in = q.waiting.length ∧
  q.taken + q.waiting.length ≤ HB_BZ2_BUFSIZE ∧
  (q.waiting ≠ [] → w.file.bz2.next_in = .staging (q.taken : Int)) ∧
  memLoad w.file.buffer (q.taken : Int) q.waiting.length = q.waiting

/-- The engine status a call to libbz2 reported, for the calls that report
one: the two inits and the decoder and encoder steps. -/
def Event.status : Event → Option Int
  | .decompressInit st => some st
  | .decompress st _ _ => some st
  | .compressInit _ st => some st
  | .compress _ st _ _ => some st
  | _ => none

/-- The three engine statuses the spec's error mapping (§4.4) translates to
"no error": ok (0), run-ok (1) and stream-end (4). -/
def NoError (s : Int) : Prop :=
  s = BZ_OK ∨ s = BZ_RUN_OK ∨ s = BZ_STREAM_END

/-- The error mapping in the words of the spec (§4.4), to be compared with what
the driver stores: 0 for ok, run-ok and stream-end, the fixed offset 100 minus
the status for every other engine status. -/
def specError (s : Int) : Int :=
  if s = BZ_OK ∨ s = BZ_RUN_OK ∨ s = BZ_STREAM_END then 0 else HB_BZ2_ERROR_BASE - s

/-- One of the error codes of libbz2 (bzlib.h): `BZ_SEQUENCE_ERROR` (-1) down
to `BZ_CONFIG_ERROR` (-9). -/
def BzError (s : Int) : Prop := -9 ≤ s ∧ s ≤ -1

/-- The return values the libbz2 manual gives for `BZ2_bzCompressInit` and
`BZ2_bzDecompressInit`: `BZ_OK` or an error code. -/
def DocInit (s : Int) : Prop := s = BZ_OK ∨ BzError s

/-- The return values the libbz2 manual gives for `BZ2_bzDecompress`: `BZ_OK`,
`BZ_STREAM_END` or an error code. -/
def DocDecompress (s : Int) : Prop := s = BZ_OK ∨ s = BZ_STREAM_END ∨ BzError s

/-- The return values the libbz2 manual gives for `BZ2_bzCompress`, by action:
`BZ_RUN_OK` for `BZ_RUN`; `BZ_FLUSH_OK` or `BZ_RUN_OK` for `BZ_FLUSH`;
`BZ_FINISH_OK` or `BZ_STREAM_END` for `BZ_FINISH`; or an error code. -/
def DocCompress (a s : Int) : Prop :=
  (a = BZ_RUN ∧ s = BZ_RUN_OK) ∨ (a = BZ_FLUSH ∧ (s = BZ_FLUSH_OK ∨ s = BZ_RUN_OK)) ∨
  (a = BZ_FINISH ∧ (s = BZ_FINISH_OK ∨ s = BZ_STREAM_END)) ∨ BzError s

/-- The engine keeps to the return values libbz2 documents for each entry point
and, for `BZ2_bzCompress`, each of the three actions. -/
def DocumentedStatuses (E : Env U K) : Prop :=
  (∀ k, DocInit (E.bzDecompressInit k).1) ∧
  (∀ k i r, DocDecompress (E.bzDecompress k i r).status) ∧
  (∀ k b, DocInit (E.bzCompressInit k b).1) ∧
  (∀ k a i r, a = BZ_RUN ∨ a = BZ_FLUSH ∨ a = BZ_FINISH →
    DocCompress a (E.bzCompress k a i r).status)

/-- A call a read loop makes: a refill, the end of the decoder session, or a
decoder step with a documented status. -/
def Event.readStep : Event → Prop
  | .uRead _ _ _ _ => True
  | .decompressEnd => True
  | .decompress st _ _ => DocDecompress st
  | _ => False

/-- A call a write loop or a flush makes: a write to the underlying handle, or
an encoder step with a status documented for its action. -/
def Event.encodeStep : Event → Prop
  | .uWrite _ _ _ => True
  | .compress a st _ _ => DocCompress a st
  | _ => False

/-! ## Concrete collaborators

A byte store with scripted transfer sizes as the underlying handle, and a
small streaming codec: a byte `b` is encoded as `1, b`, the end of the stream
as `0`.  They are used to run the driver on concrete inputs. -/

/-- An underlying handle: the stored bytes, the read position, and the answers
of the coming `Write` and `Read` calls (`none`: the call fails, `some k`: at
most `k` bytes are moved; with no answer left a call moves all it can). -/
structure Disk where
  bytes : List Nat
  pos : Nat
  writes : List (Option Nat)
  reads : List (Option Nat)
  closed : Bool
  deriving DecidableEq, Repr

/-- An empty, writable store with the given `Write` answers. -/
def Disk.blank (writes : List (Option Nat)) : Disk :=
  { bytes := [], pos := 0, writes := writes, reads := [], closed := false }

/-- A store holding `bytes`, read from the start with the given `Read` answers. -/
def Disk.holding (bytes : List Nat) (reads : List (Option Nat)) : Disk :=
  { bytes := bytes, pos := 0, writes := [], reads := reads, closed := false }

/-- `Read` of the byte store. -/
def diskRead (u : Disk) (size : Nat) (_timeout : Int) : CallRes Disk (Option (List Nat)) :=
  match u.reads with
  | none :: rest => { value := none, error := some 30, handle := { u with reads := rest } }
  | some k :: rest =>
    let bs := (u.bytes.drop u.pos).take (min k size)
    { value := some bs, error := some 0
      handle := { u with pos := u.pos + bs.length, reads := rest } }
  | [] =>
    let bs := (u.bytes.drop u.pos).take size
    { value := some bs, error := some 0, handle := { u with pos := u.pos + bs.length } }

/-- `Write` of the byte store. -/
def diskWrite (u : Disk) (data : List Nat) (_timeout : Int) : CallRes Disk (Option Nat) :=
  match u.writes with
  | none :: rest => { value := none, error := some 29, handle := { u with writes := rest } }
  | some k :: rest =>
    let bs := data.take k
    { value := some bs.length, error := some 0
      handle := { u with bytes := u.bytes ++ bs, writes := rest } }
  | [] =>
    { value := some data.length, error := some 0, handle := { u with bytes := u.bytes ++ data } }

/-- State of the small codec: encoded bytes that did not fit the output yet,
whether the end marker was queued, and whether the decoder is in the middle
of a `1, b` pair. -/
structure Toy where
  pending : List Nat
  trailer : Bool
  literal : Bool
  deriving DecidableEq, Repr

/-- Fresh codec state. -/
def Toy.fresh : Toy := { pending := [], trailer := false, literal := false }

/-- Encode input bytes while output room is left: the encoded bytes and the
number of input bytes taken.  The last pair may exceed the room by one byte. -/
def toyEncode : List Nat → Nat → List Nat × Nat
  | [], _ => ([], 0)
  | _ :: _, 0 => ([], 0)
  | b :: rest, room + 1 =>
    let r := toyEncode rest (room - 1)
    (1 :: b :: r.1, r.2 + 1)

/-- One encoder step of the small codec.  Like libbz2, a `BZ_RUN` step that
makes no progress reports `BZ_PARAM_ERROR`. -/
def toyCompress (k : Toy) (action : Int) (input : List Nat) (room : Nat) : BzStep Toy :=
  let e := toyEncode input (room - k.pending.length)
  let queued :=
    k.pending ++ e.1 ++ (if action = BZ_FINISH ∧ k.trailer = false then [0] else [])
  let out := queued.take room
  let rest := queued.drop room
  let status :=
    if action = BZ_RUN then (if e.2 = 0 ∧ out = [] then BZ_PARAM_ERROR else BZ_RUN_OK)
    else if action = BZ_FINISH then (if rest = [] then BZ_STREAM_END else BZ_FINISH_OK)
    else (if rest = [] then BZ_RUN_OK else BZ_FLUSH_OK)
  { status := status, consumed := e.2, produced := out
    state := { k with pending := rest, trailer := k.trailer || decide (action = BZ_FINISH) } }

/-- The decoder of the small codec on the available input with `room` bytes
of output space: status, input bytes taken, output, and whether it stopped
inside a `1, b` pair.  A tag other than `0` and `1` is a data error. -/
def toyDecode : Bool → List Nat → Nat → Int × Nat × List Nat × Bool
  | lit, [], _ => (BZ_OK, 0, [], lit)
  | false, t :: rest, room =>
    if t = 0 then (BZ_STREAM_END, 1, [], false)
    else if t = 1 then
      let r := toyDecode true rest room
      (r.1, r.2.1 + 1, r.2.2.1, r.2.2.2)
    else (BZ_DATA_ERROR, 0, [], false)
  | true, b :: rest, room =>
    match room with
    | 0 => (BZ_OK, 0, [], true)
    | room + 1 =>
      let r := toyDecode false rest room
      (r.1, r.2.1 + 1, b :: r.2.2.1, r.2.2.2)

/-- One decoder step of the small codec. -/
def toyDecompress (k : Toy) (input : List Nat) (room : Nat) : BzStep Toy :=
  let r := toyDecode k.literal input room
  { status := r.1, consumed := r.2.1, produced := r.2.2.1
    state := { k with literal := r.2.2.2 } }

/-- The byte store and the small codec as collaborators. -/
def toyEnv : Env Disk Toy :=
  { Read := diskRead
    Write := diskWrite
    Close := fun u => { value := (), error := some 0, handle := { u with closed := true } }
    Flush := fun u _ => { value := (), error := some 0, handle := u }
    Commit := fun u => { value := (), error := some 0, handle := u }
    Eof := fun u => { value := decide (u.bytes.length ≤ u.pos), error := none, handle := u }
    Configure := fun u _ v => { value := (false, v), error := none, handle := u }
    Handle := fun u => { value := 3, error := none, handle := u }
    bzDecompressInit := fun _ => (BZ_OK, Toy.fresh)
    bzDecompress := toyDecompress
    bzDecompressEnd := fun k => k
    bzCompressInit := fun _ _ => (BZ_OK, Toy.fresh)
    bzCompress := toyCompress
    bzCompressEnd := fun k => k }

/-- The world right after `s_fileOpen`: a handle made by `s_filebz2New` on the
store `u`, a zeroed caller buffer, no error, an empty trace. -/
def openWorld (u : Disk) (iMode : Int) (iBlockSize : Int) : Option (World Disk Toy) :=
  (s_filebz2New (some u) iMode iBlockSize Toy.fresh).map
    (fun f => { file := f, user := memZero, fsError := 0, trace := [] })

/-- A caller buffer holding `bs` from its start. -/
def memOf (bs : List Nat) : Mem := memStore memZero 0 bs

/-- Read calls until one returns 0 or the failure sentinel: the bytes the
caller collected (the first `n` bytes of its buffer after a call returning
`n`) and the sum of the returned counts.  `calls` bounds the number of calls. -/
def readToEnd (fuel : Nat) : Nat → World Disk Toy → Nat → List Nat → Nat →
    Option (List Nat × Nat)
  | 0, _, _, _, _ => none
  | calls + 1, w, bufSize, acc, total =>
    match s_fileRead toyEnv fuel w memZero bufSize (-1) with
    | none => none
    | some (n, w1) =>
      if n = 0 ∨ n = HB_SIZE_ERROR then some (acc, total)
      else readToEnd fuel calls w1 bufSize (acc ++ memLoad w1.user 0 n) (total + n)

/-- The round-trip scenario on the byte store with the small codec: write the
payload with one `s_fileWrite`, close, reopen the stored bytes, and read to the
end with a caller buffer of `bufSize` bytes.  The result is the stored
(compressed) bytes, the bytes read back, and the sum of the read counts. -/
def roundTrip (level : Int) (payload : List Nat) (bufSize : Nat) :
    Option (List Nat × List Nat × Nat) :=
  (openWorld (Disk.blank []) FO_WRITE level).bind fun w0 =>
  (s_fileWrite toyEnv 16 w0 (memOf payload) payload.length (-1)).bind fun wr =>
  (s_fileClose toyEnv 16 wr.2).bind fun w2 =>
  (openWorld (Disk.holding w2.file.pFile.bytes []) FO_READ level).bind fun r0 =>
  (readToEnd 16 16 r0 bufSize [] 0).map fun res => (w2.file.pFile.bytes, res.1, res.2)

/-- `Write` of a byte store that takes the first half, rounded up, of what it
is offered. -/
def diskWriteHalf (u : Disk) (data : List Nat) (_timeout : Int) : CallRes Disk (Option Nat) :=
  { value := some (data.take ((data.length + 1) / 2)).length, error := some 0
    handle := { u with bytes := u.bytes ++ data.take ((data.length + 1) / 2) } }

/-- The small codec over a byte store that accepts half of every offer. -/
def halfEnv : Env Disk Toy := { toyEnv with Write := diskWriteHalf }

/-- One scripted answer of a codec engine: the status it reports, the number of
input bytes it takes and the bytes it emits. -/
structure Answer where
  status : Int
  consumed : Nat
  produced : List Nat
  deriving DecidableEq, Repr

/-- The next answer of a scripted engine; an engine out of answers reports
`BZ_SEQUENCE_ERROR`. -/
def scriptedStep : List Answer → BzStep (List Answer)
  | [] => { status := BZ_SEQUENCE_ERROR, consumed := 0, produced := [], state := [] }
  | a :: rest =>
    { status := a.status, consumed := a.consumed, produced := a.produced, state := rest }

/-- The byte store with a codec engine that gives scripted answers, one per
init or step call, whatever it is asked. -/
def scriptedEnv : Env Disk (List Answer) :=
  { Read := diskRead
    Write := diskWrite
    Close := toyEnv.Close
    Flush := toyEnv.Flush
    Commit := toyEnv.Commit
    Eof := toyEnv.Eof
    Configure := toyEnv.Configure
    Handle := toyEnv.Handle
    bzDecompressInit := fun k => ((scriptedStep k).status, (scriptedStep k).state)
    bzDecompress := fun k _ _ => scriptedStep k
    bzDecompressEnd := fun k => k
    bzCompressInit := fun k _ => ((scriptedStep k).status, (scriptedStep k).state)
    bzCompress := fun k _ _ _ => scriptedStep k
    bzCompressEnd := fun k => k }

/-- The world right after opening the store `u` over the scripted engine. -/
def scriptedOpen (u : Disk) (iMode : Int) (script : List Answer) : World Disk (List Answer) :=
  ((s_filebz2New (some u) iMode HB_BZ2_BLOCKSIZE script).map
    (fun f => ({ file := f, user := memZero, fsError := 0, trace := [] } :
      World Disk (List Answer)))).get rfl

/-! ## Concrete runs -/

/-- A collaborator call without its payload bytes: the kind of call, its
status or result, and the byte counts. -/
inductive Brief
  | codecInit (status : Int)
  | codecStep (status : Int) (consumed produced : Nat)
  | codecEnd
  | read (size : Nat) (timeout : Int) (result : Nat)
  | write (offered : Nat) (timeout : Int) (result : Nat)
  | other
  deriving DecidableEq, Repr

/-- The payload-free summary of a call. -/
def Event.brief : Event → Brief
  | .uRead size t res _ => .read size t res
  | .uWrite d t res => .write d.length t res
  | .decompressInit st => .codecInit st
  | .compressInit _ st => .codecInit st
  | .decompress st c p => .codecStep st c.length p.length
  | .compress _ st c p => .codecStep st c.length p.length
  | .decompressEnd => .codecEnd
  | .compressEnd => .codecEnd
  | _ => .other

/-- The call is an underlying `Write` that was offered the whole staging
buffer and took nothing. -/
def stallEvent : Event → Bool
  | .uWrite d _ res => res == 0 && d.length == HB_BZ2_BUFSIZE
  | _ => false

/-- The world right after opening the store `u` with the default block size. -/
def toyOpen (u : Disk) (iMode : Int) : World Disk Toy :=
  (openWorld u iMode HB_BZ2_BLOCKSIZE).get rfl

/-- A reader on the compressed form of the empty payload. -/
def emptyStreamReader : World Disk Toy := toyOpen (Disk.holding [0] []) FO_READ

/-- Its first `s_fileRead`, with a 4-byte buffer. -/
def emptyStreamRead : Nat × World Disk Toy :=
  (s_fileRead toyEnv 8 emptyStreamReader memZero 4 (-1)).getD (0, emptyStreamReader)

/-- A reader on a stream that is corrupt after one byte of payload. -/
def corruptReader : World Disk Toy := toyOpen (Disk.holding [1, 65, 7] []) FO_READ

/-- Its first `s_fileRead`, with a 4-byte buffer. -/
def corruptRead : Nat × World Disk Toy :=
  (s_fileRead toyEnv 8 corruptReader memZero 4 (-1)).getD (0, corruptReader)

/-- A reader on the compressed form of the one-byte payload `65`. -/
def plainReader : World Disk Toy := toyOpen (Disk.holding [1, 65, 0] []) FO_READ

/-- Its first `s_fileRead`, with a 4-byte buffer. -/
def plainRead : Nat × World Disk Toy :=
  (s_fileRead toyEnv 8 plainReader memZero 4 (-1)).getD (0, plainReader)

/-- The world after the first read of `emptyStreamReader` followed by a seek, a
write attempt and a truncate attempt. -/
def emptyStreamLater : World Disk Toy :=
  (runOps toyEnv 8 [Op.seek 0 FS_SET, Op.write (memOf [1]) 1 0, Op.truncAt 0]
    emptyStreamRead.2).getD emptyStreamReader

/-- A writer on an empty store that accepts everything. -/
def smallWriter : World Disk Toy := toyOpen (Disk.blank []) FO_WRITE

/-- Its first `s_fileWrite`, of three bytes. -/
def smallWrite : Nat × World Disk Toy :=
  (s_fileWrite toyEnv 8 smallWriter (memOf [65, 66, 67]) 3 (-1)).getD (0, smallWriter)

/-- A writer on a store whose first `Write` takes nothing. -/
def stalledWriter : World Disk Toy := toyOpen (Disk.blank [some 0]) FO_WRITE

/-- Its first `s_fileWrite`, of 4097 bytes `65`. -/
def stalledWrite : Nat × World Disk Toy :=
  (s_fileWrite toyEnv 8 stalledWriter (fun _ => 65) 4097 (-1)).getD (0, stalledWriter)

/-- A writer on a store whose first `Write` fails. -/
def failingWriter : World Disk Toy := toyOpen (Disk.blank [none]) FO_WRITE

/-- Its first `s_fileWrite`, of 4097 bytes `65`. -/
def failingWrite : Nat × World Disk Toy :=
  (s_fileWrite toyEnv 8 failingWriter (fun _ => 65) 4097 (-1)).getD (0, failingWriter)

/-- Its first `s_fileWrite` when 5000 bytes `65` are written instead. -/
def failingWrite5000 : Nat × World Disk Toy :=
  (s_fileWrite toyEnv 8 failingWriter (fun _ => 65) 5000 (-1)).getD (0, failingWriter)

/-- The character codes of a string. -/
def codes (s : String) : List Nat := s.toList.map Char.toNat

/-- A handle opened for reading and writing on an empty store, after a
three-byte write, a read attempt, a seek and an end-of-file query. -/
def mixedUse : World Disk Toy :=
  (runOps toyEnv 8
    [Op.write (memOf [65, 66, 67]) 3 (-1), Op.read memZero 4 (-1), Op.seek 0 FS_RELATIVE, Op.eof]
    (toyOpen (Disk.blank []) FO_READWRITE)).getD (toyOpen (Disk.blank []) FO_READWRITE)

/-- A handle opened for reading and writing on an empty store, after a seek, a
timeout setting, a flush and a commit. -/
def idleUse : World Disk Toy :=
  (runOps toyEnv 0
    [Op.seek 0 FS_SET, Op.configure HB_VF_TIMEOUT (Item.num 50), Op.flush true, Op.commit]
    (toyOpen (Disk.blank []) FO_READWRITE)).getD (toyOpen (Disk.blank []) FO_READWRITE)

/-- A writer on a store whose first `Write` takes two bytes. -/
def partialWriter : World Disk Toy := toyOpen (Disk.blank [some 2]) FO_WRITE

/-- Its first `s_fileWrite`, of three bytes; six encoded bytes are staged and
none is written yet. -/
def partialWrite : Nat × World Disk Toy :=
  (s_fileWrite toyEnv 8 partialWriter (memOf [65, 66, 67]) 3 (-1)).getD (0, partialWriter)

/-- A reader on the compressed form of the payload `65, 66` in a store that
hands out one byte per `Read` for the first three calls. -/
def trickleReader : World Disk Toy :=
  toyOpen (Disk.holding [1, 65, 1, 66, 0] [some 1, some 1, some 1]) FO_READ

/-- Its first `s_fileRead`, with a 1-byte buffer and timeout 500. -/
def trickleRead : Nat × World Disk Toy :=
  (s_fileRead toyEnv 8 trickleReader memZero 1 500).getD (0, trickleReader)

/-- A writer over the store that accepts half of every offer, after two
writes of three and two bytes. -/
def halfWrites : World Disk Toy :=
  (runOps halfEnv 8 [Op.write (memOf [65, 66, 67]) 3 (-1), Op.write (memOf [68, 69]) 2 (-1)]
    (toyOpen (Disk.blank []) FO_WRITE)).getD (toyOpen (Disk.blank []) FO_WRITE)

/-- The world after closing `halfWrites`. -/
def halfClosed : World Disk Toy :=
  (s_fileClose halfEnv 8 halfWrites).getD halfWrites

/-- A three-byte write over an engine that accepts the init, takes the three
bytes and emits `7, 8, 9`, and then answers the finish step with `last`. -/
def scriptedWrite (last : Answer) : Nat × World Disk (List Answer) :=
  (s_fileWrite scriptedEnv 8
    (scriptedOpen (Disk.blank []) FO_WRITE
      [{ status := BZ_OK, consumed := 0, produced := [] },
       { status := BZ_RUN_OK, consumed := 3, produced := [7, 8, 9] }, last])
    (memOf [65, 66, 67]) 3 (-1)).getD (0, scriptedOpen (Disk.blank []) FO_WRITE [])

/-- The finalization flush after `scriptedWrite`. -/
def scriptedFlush (last : Answer) : World Disk (List Answer) :=
  (s_bz2_flush scriptedEnv 8 (scriptedWrite last).2 true).getD (scriptedWrite last).2

/-- The finalization flush after the three-byte write of `smallWriter`. -/
def smallFlush : World Disk Toy :=
  (s_bz2_flush toyEnv 8 smallWrite.2 true).getD smallWrite.2

/-- A read with a 4-byte buffer from an empty store over the scripted engine. -/
def scriptedRead (script : List Answer) : Nat × World Disk (List Answer) :=
  (s_fileRead scriptedEnv 8 (scriptedOpen (Disk.holding [] []) FO_READ script) memZero 4
    (-1)).getD (0, scriptedOpen (Disk.holding [] []) FO_READ [])

/-- A one-byte write to an empty store over the scripted engine. -/
def scriptedPut (script : List Answer) : Nat × World Disk (List Answer) :=
  (s_fileWrite scriptedEnv 8 (scriptedOpen (Disk.blank []) FO_WRITE script) (memOf [65]) 1
    (-1)).getD (0, scriptedOpen (Disk.blank []) FO_WRITE [])

/-- A writer on a store whose first `Write` takes two bytes and whose second
`Write` fails. -/
def brokenWriter : World Disk Toy := toyOpen (Disk.blank [some 2, none]) FO_WRITE

/-- Its first `s_fileWrite`, of three bytes; six encoded bytes are staged and
none is written yet. -/
def brokenWrite : Nat × World Disk Toy :=
  (s_fileWrite toyEnv 8 brokenWriter (memOf [65, 66, 67]) 3 (-1)).getD (0, brokenWriter)

/-- A drain of the six staged bytes of `brokenWrite`. -/
def brokenDrain : Nat × World Disk Toy := s_bz2_write toyEnv brokenWrite.2 (-1)

/-- A write of `2^32 + 5` bytes `65` on `smallWriter`. -/
def hugeWrite : Nat × World Disk Toy :=
  (s_fileWrite toyEnv 8 smallWriter (fun _ => 65) (2 ^ 32 + 5) (-1)).getD (0, smallWriter)

/-- The small codec over a byte store whose `Read` and `Write` never fail:
reads ignore the scripted answers, writes accept half of every offer. -/
def steadyEnv : Env Disk Toy :=
  { halfEnv with Read := fun u size t => diskRead { u with reads := [] } size t }

/-- The first read of `plainReader` over `steadyEnv`, with a 4-byte buffer. -/
def steadyRead : Nat × World Disk Toy :=
  (s_fileRead steadyEnv 8 plainReader memZero 4 (-1)).getD (0, plainReader)

/-- A handle opened for reading and writing on the compressed form of the
payload `65, 66, 67` in a store that hands out three bytes, one byte and two
bytes for the first three `Read` calls. -/
def pacedReader : World Disk Toy :=
  toyOpen (Disk.holding [1, 65, 1, 66, 1, 67, 0] [some 3, some 1, some 2]) FO_READWRITE

/-- The handle after two reads into a 1-byte buffer with an end-of-file query
in between; the second read ends with a refill of two bytes. -/
def pacedReads : World Disk Toy :=
  (runOps toyEnv 8 [Op.read memZero 1 500, Op.eof, Op.read memZero 1 500] pacedReader).getD
    pacedReader

/-! ## Basic facts about traces, memory and the primitive steps -/

theorem newEvents_of_append {w w1 : World U K} {evs : List Event}
    (h : w1.trace = w.trace ++ evs) : newEvents w w1 = evs := by
  simp [newEvents, h]

theorem producedCount_append (a b : List Event) :
    producedCount (a ++ b) = producedCount a + producedCount b := by
  induction a with
  | nil => simp [producedCount]
  | cons e es ih => cases e <;> simp [producedCount, ih, Nat.add_assoc]

theorem consumedCount_append (a b : List Event) :
    consumedCount (a ++ b) = consumedCount a + consumedCount b := by
  induction a with
  | nil => simp [consumedCount]
  | cons e es ih => cases e <;> simp [consumedCount, ih, Nat.add_assoc]

theorem sameCtl_refl (w : World U K) : SameCtl w w := ⟨rfl, rfl, rfl, rfl, rfl, rfl⟩

theorem sameCtl_trans {a b c : World U K} (h1 : SameCtl a b) (h2 : SameCtl b c) : SameCtl a c :=
  ⟨h2.1.trans h1.1, h2.2.1.trans h1.2.1, h2.2.2.1.trans h1.2.2.1,
    h2.2.2.2.1.trans h1.2.2.2.1, h2.2.2.2.2.1.trans h1.2.2.2.2.1,
    h2.2.2.2.2.2.trans h1.2.2.2.2.2⟩

theorem memLoad_length (m : Mem) (n : Nat) : ∀ off : Int, (memLoad m off n).length = n := by
  induction n with
  | zero => intro off; rfl
  | succ k ih => intro off; simp [memLoad, ih]

theorem world_load_length (w : World U K) (p : Ptr) (n : Nat) : (w.load p n).length = n := by
  cases p <;> simp [World.load, memLoad_length]

@[simp]
theorem world_store_seek_pos (w : World U K) (p : Ptr) (bs : List Nat) :
    (w.store p bs).file.seek_pos = w.file.seek_pos := by
  cases p <;> rfl

@[simp]
theorem world_store_nTimeout (w : World U K) (p : Ptr) (bs : List Nat) :
    (w.store p bs).file.nTimeout = w.file.nTimeout := by
  cases p <;> rfl

@[simp]
theorem world_store_fEof (w : World U K) (p : Ptr) (bs : List Nat) :
    (w.store p bs).file.fEof = w.file.fEof := by
  cases p <;> rfl

@[simp]
theorem world_store_fInited (w : World U K) (p : Ptr) (bs : List Nat) :
    (w.store p bs).file.fInited = w.file.fInited := by
  cases p <;> rfl

@[simp]
theorem world_store_iMode (w : World U K) (p : Ptr) (bs : List Nat) :
    (w.store p bs).file.iMode = w.file.iMode := by
  cases p <;> rfl

@[simp]
theorem world_store_iBlockSize (w : World U K) (p : Ptr) (bs : List Nat) :
    (w.store p bs).file.iBlockSize = w.file.iBlockSize := by
  cases p <;> rfl

@[simp]
theorem world_store_bz2 (w : World U K) (p : Ptr) (bs : List Nat) :
    (w.store p bs).file.bz2 = w.file.bz2 := by
  cases p <;> rfl

@[simp]
theorem world_store_pFile (w : World U K) (p : Ptr) (bs : List Nat) :
    (w.store p bs).file.pFile = w.file.pFile := by
  cases p <;> rfl

@[simp]
theorem world_store_trace (w : World U K) (p : Ptr) (bs : List Nat) :
    (w.store p bs).trace = w.trace := by
  cases p <;> rfl

@[simp]
theorem world_store_fsError (w : World U K) (p : Ptr) (bs : List Nat) :
    (w.store p bs).fsError = w.fsError := by
  cases p <;> rfl


/-- A decoder step: what it leaves in the trace and how the cursors move. -/
theorem BZ2_bzDecompress_step (E : Env U K) (w : World U K) :
    ∃ c p : List Nat,
      (BZ2_bzDecompress E w).2.trace = w.trace ++ [Event.decompress (BZ2_bzDecompress E w).1 c p] ∧
      c.length ≤ w.file.bz2.avail_in ∧ p.length ≤ w.file.bz2.avail_out ∧
      (BZ2_bzDecompress E w).2.file.bz2.avail_in = w.file.bz2.avail_in - c.length ∧
      (BZ2_bzDecompress E w).2.file.bz2.avail_out = w.file.bz2.avail_out - p.length ∧
      (BZ2_bzDecompress E w).2.file.bz2.total_out_lo32 = (w.file.bz2.total_out_lo32 + p.length) % 2 ^ 32 ∧
      (BZ2_bzDecompress E w).2.file.bz2.total_out_hi32 =
        (w.file.bz2.total_out_hi32 + (w.file.bz2.total_out_lo32 + p.length) / 2 ^ 32) % 2 ^ 32 ∧
      SameCtl w (BZ2_bzDecompress E w).2 ∧ (BZ2_bzDecompress E w).2.fsError = w.fsError := by
  refine ⟨_, _, rfl, ?_, ?_, ?_, ?_, ?_, ?_, ?_, ?_⟩
  · simp [world_load_length]
  · simp
  · simp [BZ2_bzDecompress, World.setBz, bz_stream.advance, world_load_length]
  · simp [BZ2_bzDecompress, World.setBz, bz_stream.advance]
  · simp [BZ2_bzDecompress, World.setBz, bz_stream.advance]
  · simp [BZ2_bzDecompress, World.setBz, bz_stream.advance]
  · simp [BZ2_bzDecompress, World.setBz, SameCtl]
  · simp [BZ2_bzDecompress, World.setBz]

/-- An encoder step: what it leaves in the trace and how the cursors move. -/
theorem BZ2_bzCompress_step (E : Env U K) (w : World U K) (action : Int) :
    ∃ c p : List Nat,
      (BZ2_bzCompress E w action).2.trace =
        w.trace ++ [Event.compress action (BZ2_bzCompress E w action).1 c p] ∧
      c.length ≤ w.file.bz2.avail_in ∧ p.length ≤ w.file.bz2.avail_out ∧
      (BZ2_bzCompress E w action).2.file.bz2.avail_in = w.file.bz2.avail_in - c.length ∧
      (BZ2_bzCompress E w action).2.file.bz2.avail_out = w.file.bz2.avail_out - p.length ∧
      SameCtl w (BZ2_bzCompress E w action).2 ∧ (BZ2_bzCompress E w action).2.fsError = w.fsError := by
  refine ⟨_, _, rfl, ?_, ?_, ?_, ?_, ?_, ?_⟩
  · simp [world_load_length]
  · simp
  · simp [BZ2_bzCompress, World.setBz, bz_stream.advance, world_load_length]
  · simp [BZ2_bzCompress, World.setBz, bz_stream.advance]
  · simp [BZ2_bzCompress, World.setBz, SameCtl]
  · simp [BZ2_bzCompress, World.setBz]

/-- An underlying read: what it leaves in the trace; the handle's control
fields and the stream cursors stay. -/
theorem underlyingRead_step (E : Env U K) (w : World U K) (size : Nat) (t : Int) :
    ∃ d : List Nat,
      (underlyingRead E w size t).2.trace =
        w.trace ++ [Event.uRead size t (underlyingRead E w size t).1 d] ∧
      SameCtl w (underlyingRead E w size t).2 ∧
      (underlyingRead E w size t).2.file.bz2 = w.file.bz2 ∧
      ((underlyingRead E w size t).1 = HB_SIZE_ERROR ∨ (underlyingRead E w size t).1 ≤ size) := by
  simp only [underlyingRead]
  split
  · exact ⟨_, rfl, ⟨rfl, rfl, rfl, rfl, rfl, rfl⟩, rfl, Or.inl rfl⟩
  · refine ⟨_, rfl, ⟨rfl, rfl, rfl, rfl, rfl, rfl⟩, rfl, Or.inr ?_⟩
    simp

/-- An underlying write: what it leaves in the trace; nothing of the handle
but the underlying handle changes. -/
theorem underlyingWrite_step (E : Env U K) (w : World U K) (off len : Nat) (t : Int) :
    (underlyingWrite E w off len t).2.trace =
        w.trace ++ [Event.uWrite (memLoad w.file.buffer off len) t (underlyingWrite E w off len t).1] ∧
      SameCtl w (underlyingWrite E w off len t).2 ∧
      (underlyingWrite E w off len t).2.file.bz2 = w.file.bz2 ∧
      (underlyingWrite E w off len t).2.file.buffer = w.file.buffer ∧
      ((underlyingWrite E w off len t).1 = HB_SIZE_ERROR ∨ (underlyingWrite E w off len t).1 ≤ len) := by
  simp only [underlyingWrite]
  split
  · exact ⟨rfl, ⟨rfl, rfl, rfl, rfl, rfl, rfl⟩, rfl, rfl, Or.inl rfl⟩
  · refine ⟨rfl, ⟨rfl, rfl, rfl, rfl, rfl, rfl⟩, rfl, rfl, Or.inr ?_⟩
    simp

theorem total_out_step {lo hi av len : Nat} (hhi : hi = 0) (hlo : lo + av < 2 ^ 32) (hp : len ≤ av) :
    (lo + len) % 2 ^ 32 = lo + len ∧ (hi + (lo + len) / 2 ^ 32) % 2 ^ 32 = 0 ∧
      (lo + len) + (av - len) < 2 ^ 32 := by
  have h1 : lo + len < 2 ^ 32 := by omega
  refine ⟨Nat.mod_eq_of_lt h1, ?_, by omega⟩
  rw [hhi, Nat.div_eq_of_lt h1]
  rfl

theorem readLoopPost_prepend {w w1 : World U K} {r : Nat × World U K} {pre evs : List Event}
    (htr : w1.trace = w.trace ++ pre)
    (hlo : w1.file.bz2.total_out_lo32 = w.file.bz2.total_out_lo32 + producedCount pre)
    (hctl : SameCtl w w1)
    (hpre : ∀ st c p, Event.decompress st c p ∈ pre → st = BZ_OK)
    (h : ReadLoopPost w1 r evs) : ReadLoopPost w r (pre ++ evs) := by
  obtain ⟨h1, h2, h3, h4, h5, h6, h7, h8, h9, h10⟩ := h
  obtain ⟨c1, c2, c3, c4, c5, c6⟩ := hctl
  refine ⟨?_, h2, ?_, ?_, ?_, h6.trans c1, h7.trans c2, h8.trans c5, h9.trans c6, ?_⟩
  · rw [h1, htr, List.append_assoc]
  · rw [h3, hlo, producedCount_append, Nat.add_assoc]
  · intro st c p hm hne1 hne2
    rcases List.mem_append.1 hm with hm | hm
    · exact absurd (hpre st c p hm) hne1
    · exact h4 st c p hm hne1 hne2
  · intro c p hm
    rcases List.mem_append.1 hm with hm | hm
    · exact absurd (hpre _ c p hm) (by decide)
    · exact h5 c p hm
  · rcases h10 with ⟨a, b⟩ | ⟨a, b⟩
    · exact Or.inl ⟨a.trans c3, b.trans c4⟩
    · exact Or.inr ⟨a, b⟩

/-- What one run of the read loop guarantees. -/
theorem s_fileRead_loop_spec (E : Env U K) (fuel : Nat) :
    ∀ (w : World U K) (t : Int) (n : Nat) (r : Nat × World U K),
      s_fileRead_loop E fuel w t n = some r →
      w.file.bz2.total_out_hi32 = 0 →
      w.file.bz2.total_out_lo32 + w.file.bz2.avail_out < 2 ^ 32 →
      ∃ evs : List Event, ReadLoopPost w r evs := by
  induction fuel with
  | zero =>
    intro w t n r h hhi _
    unfold s_fileRead_loop at h
    split at h
    · simp at h
    · injection h with h
      subst h
      exact ⟨[], by simp, hhi, by simp [producedCount], by simp, by simp,
        rfl, rfl, rfl, rfl, Or.inl ⟨rfl, rfl⟩⟩
  | succ k ih =>
    intro w t n r h hhi hlo
    unfold s_fileRead_loop at h
    split at h
    · obtain ⟨c, p, htr, hc, hp, hin, hout, hlo', hhi', hctl, herr⟩ := BZ2_bzDecompress_step E w
      obtain ⟨n1, n2, n3⟩ := total_out_step hhi hlo hp
      rw [n1] at hlo'
      rw [n2] at hhi'
      simp only at h
      generalize BZ2_bzDecompress E w = d at *
      obtain ⟨c1, c2, c3, c4, c5, c6⟩ := hctl
      split at h
      · split at h
        · -- stream end
          rename_i hst
          injection h with h
          subst h
          refine ⟨[Event.decompress d.1 c p, Event.decompressEnd], ?_, ?_, ?_, ?_, ?_, ?_, ?_, ?_, ?_, ?_⟩
          · simp [BZ2_bzDecompressEnd, World.setBz, htr]
          · simpa [BZ2_bzDecompressEnd, World.setBz] using hhi'
          · simpa [BZ2_bzDecompressEnd, World.setBz, producedCount] using hlo'
          · intro st c' p' hm _ hne2
            simp at hm
            exact absurd (hm.1.trans hst) hne2
          · intro _ _ _
            rfl
          · simpa [BZ2_bzDecompressEnd, World.setBz] using c1
          · simpa [BZ2_bzDecompressEnd, World.setBz] using c2
          · simpa [BZ2_bzDecompressEnd, World.setBz] using c5
          · simpa [BZ2_bzDecompressEnd, World.setBz] using c6
          · exact Or.inr ⟨rfl, rfl⟩
        · -- engine failure
          rename_i hst
          injection h with h
          subst h
          refine ⟨[Event.decompress d.1 c p], ?_, ?_, ?_, ?_, ?_, ?_, ?_, ?_, ?_, ?_⟩
          · simp [hb_fsSetError, htr]
          · simpa [hb_fsSetError] using hhi'
          · simpa [hb_fsSetError, producedCount] using hlo'
          · intro st c' p' hm _ _
            simp at hm
            simp [hb_fsSetError, hm.1]
          · intro c' p' hm
            simp at hm
            exact absurd hm.1.symm hst
          · simpa [hb_fsSetError] using c1
          · simpa [hb_fsSetError] using c2
          · simpa [hb_fsSetError] using c5
          · simpa [hb_fsSetError] using c6
          · exact Or.inl ⟨by simpa [hb_fsSetError] using c3, by simpa [hb_fsSetError] using c4⟩
      · rename_i hok
        have hok : d.1 = BZ_OK := by simpa using hok
        split at h
        · -- refill
          obtain ⟨dat, utr, uctl, ubz, _⟩ := underlyingRead_step E d.2 HB_BZ2_BUFSIZE
            (if d.2.file.bz2.avail_out ≠ 0 then t else 0)
          generalize underlyingRead E d.2 HB_BZ2_BUFSIZE
            (if d.2.file.bz2.avail_out ≠ 0 then t else 0) = u at *
          obtain ⟨u1, u2, u3, u4, u5, u6⟩ := uctl
          split at h
          · injection h with h
            subst h
            refine ⟨[Event.decompress d.1 c p, Event.uRead HB_BZ2_BUFSIZE (if d.2.file.bz2.avail_out ≠ 0 then t else 0) u.1 dat], ?_, ?_, ?_, ?_, ?_, ?_, ?_, ?_, ?_, ?_⟩
            · simp [utr, htr]
            · rw [ubz]; exact hhi'
            · rw [ubz, hlo']; simp [producedCount]
            · intro st c' p' hm hne _
              simp at hm
              exact absurd (hm.1.trans hok) hne
            · intro c' p' hm
              simp at hm
              rw [hok] at hm
              exact absurd hm.1 (by decide)
            · exact u1.trans c1
            · exact u2.trans c2
            · exact u5.trans c5
            · exact u6.trans c6
            · exact Or.inl ⟨u3.trans c3, u4.trans c4⟩
          · have hpost := ih _ _ _ _ h (by simpa [World.setBz, ubz] using hhi')
              (by simp only [World.setBz, ubz, hlo', hout]; exact n3)
            obtain ⟨evs, hpost⟩ := hpost
            refine ⟨[Event.decompress d.1 c p, Event.uRead HB_BZ2_BUFSIZE (if d.2.file.bz2.avail_out ≠ 0 then t else 0) u.1 dat] ++ evs, ?_⟩
            refine readLoopPost_prepend ?_ ?_ ?_ ?_ hpost
            · simp [World.setBz, utr, htr]
            · simp [World.setBz, ubz, hlo', producedCount]
            · exact ⟨u1.trans c1, u2.trans c2, u3.trans c3, u4.trans c4, u5.trans c5, u6.trans c6⟩
            · intro st c' p' hm
              simp at hm
              exact hm.1.trans hok
        · obtain ⟨evs, hpost⟩ := ih _ _ _ _ h hhi' (by rw [hlo', hout]; exact n3)
          refine ⟨[Event.decompress d.1 c p] ++ evs, ?_⟩
          refine readLoopPost_prepend htr ?_ ⟨c1, c2, c3, c4, c5, c6⟩ ?_ hpost
          · simp [hlo', producedCount]
          · intro st c' p' hm
            simp at hm
            exact hm.1.trans hok
    · injection h with h
      subst h
      exact ⟨[], by simp, hhi, by simp [producedCount], by simp, by simp,
        rfl, rfl, rfl, rfl, Or.inl ⟨rfl, rfl⟩⟩

/-- The result composition at the end of `s_fileRead`, given what the loop
guarantees. -/
theorem s_fileRead_finish {w3 w4 : World U K} {nR : Nat} {evs : List Event}
    (hpost : ReadLoopPost w3 (nR, w4) evs) (hlo0 : w3.file.bz2.total_out_lo32 = 0) :
    (∀ st c p, Event.decompress st c p ∈ evs → st ≠ BZ_OK → st ≠ BZ_STREAM_END →
        w4.fsError = HB_BZ2_ERROR_BASE - st ∧
        (producedCount evs = 0 →
          (if w4.file.bz2.total_out_lo32 ≠ 0 ∨ w4.file.bz2.total_out_hi32 ≠ 0 then
            (w4.file.bz2.total_out_hi32 * 2 ^ 32 % 2 ^ 64) ||| w4.file.bz2.total_out_lo32
           else nR) = HB_SIZE_ERROR)) ∧
    (0 < producedCount evs →
      (if w4.file.bz2.total_out_lo32 ≠ 0 ∨ w4.file.bz2.total_out_hi32 ≠ 0 then
        (w4.file.bz2.total_out_hi32 * 2 ^ 32 % 2 ^ 64) ||| w4.file.bz2.total_out_lo32
       else nR) = producedCount evs) := by
  obtain ⟨_, l2, l3, l4, _⟩ := hpost
  simp only at l2 l3 l4
  rw [hlo0, Nat.zero_add] at l3
  constructor
  · intro st c p hm h1 h2
    obtain ⟨e1, e2⟩ := l4 st c p hm h1 h2
    refine ⟨e2, ?_⟩
    intro hz
    simp [l2, l3, hz, e1]
  · intro hpos
    have hne : producedCount evs ≠ 0 := by omega
    simp [l2, l3, hne]

/-- The four ways a call of `s_fileRead` can go. -/
theorem s_fileRead_cases (E : Env U K) (fuel : Nat) (w : World U K) (buffer : Mem) (nSize : Nat)
    (nTimeout : Int) (out : Nat × World U K)
    (h : s_fileRead E fuel w buffer nSize nTimeout = some out) :
    (w.file.iMode = FO_WRITE ∧ out = (0, hb_fsSetError w HB_FILE_ERR_UNSUPPORTED)) ∨
    (w.file.iMode ≠ FO_WRITE ∧ w.file.fEof = true ∧ out = (0, hb_fsSetError w 0)) ∨
    (w.file.iMode ≠ FO_WRITE ∧ w.file.fEof = false ∧ w.file.fInited = false ∧
      (BZ2_bzDecompressInit E w).1 ≠ BZ_OK ∧
      out = (HB_SIZE_ERROR, hb_fsSetError (BZ2_bzDecompressInit E w).2
              (HB_BZ2_ERROR_BASE - (BZ2_bzDecompressInit E w).1))) ∨
    (w.file.iMode ≠ FO_WRITE ∧ w.file.fEof = false ∧ ∃ evs : List Event,
      newEvents w out.2 =
        (if w.file.fInited = false then [Event.decompressInit BZ_OK] else []) ++ evs ∧
      out.2.file.iMode = (if w.file.fInited = false then FO_READ else w.file.iMode) ∧
      out.2.file.nTimeout = w.file.nTimeout ∧ out.2.file.iBlockSize = w.file.iBlockSize ∧
      ((out.2.file.fEof = false ∧ out.2.file.fInited = true) ∨
        (out.2.file.fEof = true ∧ out.2.file.fInited = false)) ∧
      (∀ st c p, Event.decompress st c p ∈ evs → st ≠ BZ_OK → st ≠ BZ_STREAM_END →
        out.2.fsError = HB_BZ2_ERROR_BASE - st ∧ (producedCount evs = 0 → out.1 = HB_SIZE_ERROR)) ∧
      (∀ c p, Event.decompress BZ_STREAM_END c p ∈ evs → out.2.file.fEof = true) ∧
      (0 < producedCount evs → out.1 = producedCount evs) ∧
      out.2.file.seek_pos = w.file.seek_pos + (hb_fileResult out.1 : Int)) := by
  unfold s_fileRead at h
  split at h
  · rename_i hmode
    split at h
    · rename_i heof
      injection h with h
      exact Or.inr (Or.inl ⟨hmode, heof, h.symm⟩)
    · rename_i heof
      have heof : w.file.fEof = false := by simpa using heof
      by_cases hin : w.file.fInited = false
      · simp only [if_pos hin] at h
        split at h
        · rename_i hst
          injection h with h
          exact Or.inr (Or.inr (Or.inl ⟨hmode, heof, hin, hst, h.symm⟩))
        · rename_i hst
          have hst : (BZ2_bzDecompressInit E w).1 = BZ_OK := by simpa using hst
          refine Or.inr (Or.inr (Or.inr ⟨hmode, heof, ?_⟩))
          split at h
          · simp at h
          · rename_i nR w4 hloop
            injection h with h
            subst h
            obtain ⟨evs, hpost⟩ :=
              s_fileRead_loop_spec E fuel _ _ _ _ hloop (by simp [World.setBz, hb_fsSetError])
                (by simp only [World.setBz, hb_fsSetError]; omega)
            obtain ⟨f1, f2⟩ := s_fileRead_finish hpost rfl
            obtain ⟨l1, l2, l3, l4, l5, l6, l7, l8, l9, l10⟩ := hpost
            simp only [World.setBz, hb_fsSetError] at l1 l6 l7 l8 l9 l10
            refine ⟨evs, ?_, ?_, l7, l9, ?_, f1, l5, f2, ?_⟩
            · apply newEvents_of_append
              simp only [l1, if_pos hin]
              simp [BZ2_bzDecompressInit, World.setBz] at hst ⊢
              rw [hst]
            · simp only [if_pos hin]
              exact l8
            · rcases l10 with ⟨a, b⟩ | ⟨a, b⟩
              · left
                exact ⟨a.trans heof, b⟩
              · exact Or.inr ⟨a, b⟩
            · simp only [l6]
              rfl
      · have hin' : w.file.fInited = true := by simpa using hin
        simp only [if_neg hin] at h
        split at h
        · rename_i hst
          exact absurd rfl hst
        · refine Or.inr (Or.inr (Or.inr ⟨hmode, heof, ?_⟩))
          split at h
          · simp at h
          · rename_i nR w4 hloop
            injection h with h
            subst h
            obtain ⟨evs, hpost⟩ :=
              s_fileRead_loop_spec E fuel _ _ _ _ hloop (by simp [World.setBz, hb_fsSetError])
                (by simp only [World.setBz, hb_fsSetError]; omega)
            obtain ⟨f1, f2⟩ := s_fileRead_finish hpost rfl
            obtain ⟨l1, l2, l3, l4, l5, l6, l7, l8, l9, l10⟩ := hpost
            simp only [World.setBz, hb_fsSetError] at l1 l6 l7 l8 l9 l10
            refine ⟨evs, ?_, ?_, l7, l9, ?_, f1, l5, f2, ?_⟩
            · apply newEvents_of_append
              simp only [l1, if_neg hin, List.nil_append]
            · simp only [if_neg hin]
              exact l8
            · rcases l10 with ⟨a, b⟩ | ⟨a, b⟩
              · left
                exact ⟨a.trans heof, b.trans hin'⟩
              · exact Or.inr ⟨a, b⟩
            · simp only [l6]
  · rename_i hmode
    injection h with h
    exact Or.inl ⟨by simpa using hmode, h.symm⟩

theorem writeFailed_nil : ¬ writeFailed [] := by
  rintro ⟨d, t, h⟩
  simp at h

theorem s_bz2_write_loop_spec (E : Env U K) (rounds : Nat) :
    ∀ (w : World U K) (nSize nWritten : Nat) (t : Int),
      nWritten ≤ nSize → nSize < 2 ^ 64 →
      ∃ evs, DrainLoopPost w nSize nWritten (s_bz2_write_loop E rounds w nSize nWritten t) evs := by
  induction rounds with
  | zero =>
    intro w nSize nWritten t hle _
    refine ⟨[], by simp [s_bz2_write_loop], sameCtl_refl _, rfl, rfl, by simp, ?_, ?_, by simp⟩
    · simp [s_bz2_write_loop, writeFailed_nil]
    · intro n hn
      simp [s_bz2_write_loop] at hn
      omega
  | succ k ih =>
    intro w nSize nWritten t hle hlt
    unfold s_bz2_write_loop
    split
    · rename_i hlt2
      obtain ⟨utr, uctl, ubz, ubuf, ures⟩ := underlyingWrite_step E w nWritten (nSize - nWritten) t
      generalize underlyingWrite E w nWritten (nSize - nWritten) t = u at *
      simp only
      have hlen : (memLoad w.file.buffer (↑nWritten) (nSize - nWritten)).length = nSize - nWritten :=
        memLoad_length _ _ _
      split
      · rename_i herr
        refine ⟨[Event.uWrite (memLoad w.file.buffer (↑nWritten) (nSize - nWritten)) t u.1], utr, uctl, ubz, ubuf, ?_, ?_, by simp, ?_⟩
        · intro e he
          simp at he
          exact ⟨_, _, _, he, by rw [hlen]⟩
        · simp only [true_iff]
          exact ⟨memLoad w.file.buffer (↑nWritten) (nSize - nWritten), t, by simp [herr]⟩
        · intro d t' hm _
          simp at hm
          rw [herr] at hm
          exact absurd hm.2.2 (by decide)
      · rename_i hnerr
        split
        · rename_i hz
          refine ⟨[Event.uWrite (memLoad w.file.buffer (↑nWritten) (nSize - nWritten)) t u.1], utr, uctl, ubz, ubuf, ?_, ?_, ?_, by simp⟩
          · intro e he
            simp at he
            exact ⟨_, _, _, he, by rw [hlen]⟩
          · constructor
            · intro h
              simp at h
            · rintro ⟨d, t', hm⟩
              simp at hm
              exact absurd hm.2.2.symm hnerr
          · intro n hn
            simp at hn
            omega
        · rename_i hnz
          have hu : u.1 ≤ nSize - nWritten := by
            rcases ures with h | h
            · exact absurd h hnerr
            · exact h
          have hmod : (nWritten + u.1) % 2 ^ 64 = nWritten + u.1 := Nat.mod_eq_of_lt (by omega)
          rw [hmod]
          obtain ⟨evs, p1, p2, p3, p4, p5, p6, p7, p8⟩ :=
            ih u.2 nSize (nWritten + u.1) (if t > 0 then 0 else t) (by omega) hlt
          refine ⟨Event.uWrite (memLoad w.file.buffer (↑nWritten) (nSize - nWritten)) t u.1 :: evs, ?_, sameCtl_trans uctl p2, p3.trans ubz, p4.trans ubuf,
            ?_, ?_, ?_, ?_⟩
          · rw [p1, utr]; simp
          · intro e he
            rcases List.mem_cons.1 he with he | he
            · exact ⟨_, _, _, he, by rw [hlen]⟩
            · obtain ⟨d, t', res, h1, h2⟩ := p5 e he
              exact ⟨d, t', res, h1, by omega⟩
          · rw [p6]
            constructor
            · rintro ⟨d, t', hm⟩
              exact ⟨d, t', List.mem_cons_of_mem _ hm⟩
            · rintro ⟨d, t', hm⟩
              rcases List.mem_cons.1 hm with hm | hm
              · simp at hm
                exact absurd hm.2.2.symm hnerr
              · exact ⟨d, t', hm⟩
          · intro n hn
            have := p7 n hn
            omega
          · intro d t' hm hd
            rcases List.mem_cons.1 hm with hm | hm
            · simp at hm
              exact absurd hm.2.2.symm hnz
            · obtain ⟨d2, t2, res2, h1, h2⟩ := p5 _ hm
              simp at h1
              rw [← h1.1] at h2
              omega
    · refine ⟨[], by simp, sameCtl_refl _, rfl, rfl, by simp, ?_, ?_, by simp⟩
      · simp [writeFailed_nil]
      · intro n hn
        simp at hn
        omega

theorem s_bz2_write_spec (E : Env U K) (w : World U K) (t : Int) :
    ∃ evs, DrainPost w (s_bz2_write E w t) evs := by
  have hs : stagedSize w < 2 ^ 32 := Nat.mod_lt _ (by norm_num)
  obtain ⟨evs, p1, p2, p3, p4, p5, p6, p7, p8⟩ :=
    s_bz2_write_loop_spec E (stagedSize w) w (stagedSize w) 0 t (Nat.zero_le _) (by omega)
  refine ⟨evs, ?_⟩
  unfold s_bz2_write
  simp only
  change DrainPost w (match s_bz2_write_loop E (stagedSize w) w (stagedSize w) 0 t with
    | (none, w1) => _
    | (some nWritten, w1) => _) evs
  generalize s_bz2_write_loop E (stagedSize w) w (stagedSize w) 0 t = l at *
  obtain ⟨l1, l2⟩ := l
  cases l1 with
  | none =>
    simp only at p1 p2 p3 p4 p6 p7 p8 ⊢
    refine ⟨p1, p2, by rw [p3], ?_, ?_, ?_, ?_⟩
    · intro e he
      obtain ⟨d, t', res, h1, _⟩ := p5 e he
      exact ⟨d, t', res, h1⟩
    · simp only [true_iff]
      exact p6.1 trivial
    · intro h
      exact absurd rfl h
    · intro d t' hm hd
      have := p8 d t' hm (by simpa using hd)
      simp at this
  | some n =>
    simp only at p1 p2 p3 p4 p6 p7 p8 ⊢
    have hn := p7 n rfl
    have hnf : ¬ writeFailed evs := fun h => by
      have := p6.2 h
      simp at this
    have hne : n ≠ HB_SIZE_ERROR := by
      simp only [HB_SIZE_ERROR]
      omega
    have hev : ∀ e ∈ evs, ∃ d t res, e = Event.uWrite d t res := by
      intro e he
      obtain ⟨d, t', res, h1, _⟩ := p5 e he
      exact ⟨d, t', res, h1⟩
    have hst : ∀ d t, Event.uWrite d t 0 ∈ evs → d.length = stagedSize w → n = 0 := by
      intro d t' hm hd
      have := p8 d t' hm (by simpa using hd)
      simpa using this
    split
    · rename_i hpos
      obtain ⟨c1, c2, c3, c4, c5, c6⟩ := p2
      split
      · refine ⟨by simpa [World.setBz] using p1, ⟨c1, c2, c3, c4, c5, c6⟩, ?_, hev, ?_, ?_, ?_⟩
        · simp [World.setBz, p3]
        · exact ⟨fun h => absurd h hne, fun h => absurd h hnf⟩
        · intro _; exact hn.2
        · exact hst
      · refine ⟨by simpa [World.setBz] using p1, ⟨c1, c2, c3, c4, c5, c6⟩, ?_, hev, ?_, ?_, ?_⟩
        · simp [World.setBz, p3]
        · exact ⟨fun h => absurd h hne, fun h => absurd h hnf⟩
        · intro _; exact hn.2
        · exact hst
    · refine ⟨p1, p2, by rw [p3], hev, ?_, ?_, hst⟩
      · exact ⟨fun h => absurd h hne, fun h => absurd h hnf⟩
      · intro _; exact hn.2

theorem writeFailed_append (a b : List Event) :
    writeFailed (a ++ b) ↔ writeFailed a ∨ writeFailed b := by
  simp only [writeFailed, List.mem_append]
  constructor
  · rintro ⟨d, t, h | h⟩
    · exact Or.inl ⟨d, t, h⟩
    · exact Or.inr ⟨d, t, h⟩
  · rintro (⟨d, t, h⟩ | ⟨d, t, h⟩)
    · exact ⟨d, t, Or.inl h⟩
    · exact ⟨d, t, Or.inr h⟩

theorem encodeFailed_append (a b : List Event) :
    encodeFailed (a ++ b) ↔ encodeFailed a ∨ encodeFailed b := by
  simp only [encodeFailed, List.mem_append]
  constructor
  · rintro ⟨x, st, c, p, h | h, hne⟩
    · exact Or.inl ⟨x, st, c, p, h, hne⟩
    · exact Or.inr ⟨x, st, c, p, h, hne⟩
  · rintro (⟨x, st, c, p, h, hne⟩ | ⟨x, st, c, p, h, hne⟩)
    · exact ⟨x, st, c, p, Or.inl h, hne⟩
    · exact ⟨x, st, c, p, Or.inr h, hne⟩

theorem drainStalled_append (a b : List Event) :
    drainStalled (a ++ b) ↔ drainStalled a ∨ drainStalled b := by
  simp only [drainStalled, List.mem_append]
  constructor
  · rintro ⟨d, t, h | h, hl⟩
    · exact Or.inl ⟨d, t, h, hl⟩
    · exact Or.inr ⟨d, t, h, hl⟩
  · rintro (⟨d, t, h, hl⟩ | ⟨d, t, h, hl⟩)
    · exact ⟨d, t, Or.inl h, hl⟩
    · exact ⟨d, t, Or.inr h, hl⟩

theorem encodeFailed_nil : ¬ encodeFailed [] := by
  rintro ⟨a, st, c, p, h, _⟩
  simp at h

theorem drainStalled_nil : ¬ drainStalled [] := by
  rintro ⟨d, t, h, _⟩
  simp at h

theorem not_encodeFailed_of_writes {evs : List Event}
    (h : ∀ e ∈ evs, ∃ d t res, e = Event.uWrite d t res) : ¬ encodeFailed evs := by
  rintro ⟨a, st, c, p, hm, _⟩
  obtain ⟨d, t, res, he⟩ := h _ hm
  simp at he

theorem consumedCount_of_writes {evs : List Event}
    (h : ∀ e ∈ evs, ∃ d t res, e = Event.uWrite d t res) : consumedCount evs = 0 := by
  induction evs with
  | nil => rfl
  | cons e es ih =>
    obtain ⟨d, t, res, he⟩ := h e (List.mem_cons_self _ _)
    subst he
    simp only [consumedCount]
    exact ih (fun e he => h e (List.mem_cons_of_mem _ he))

theorem not_writeFailed_compress (a st : Int) (c p : List Nat) :
    ¬ writeFailed [Event.compress a st c p] := by
  rintro ⟨d, t, h⟩
  simp at h

theorem not_drainStalled_compress (a st : Int) (c p : List Nat) :
    ¬ drainStalled [Event.compress a st c p] := by
  rintro ⟨d, t, h, _⟩
  simp at h

theorem encodeFailed_compress (a st : Int) (c p : List Nat) :
    encodeFailed [Event.compress a st c p] ↔ st ≠ BZ_RUN_OK := by
  constructor
  · rintro ⟨a', st', c', p', h, hne⟩
    simp at h
    rw [← h.2.1]
    exact hne
  · intro h
    exact ⟨a, st, c, p, by simp, h⟩

/-- The conditional drain at the top of a round of the write loop. -/
theorem s_fileWrite_drain (E : Env U K) (w : World U K) (t : Int) (n : Nat) :
    ∃ devs,
      (if w.file.bz2.avail_out = 0 then s_bz2_write E w t else (n, w)).2.trace = w.trace ++ devs ∧
      SameCtl w (if w.file.bz2.avail_out = 0 then s_bz2_write E w t else (n, w)).2 ∧
      (if w.file.bz2.avail_out = 0 then s_bz2_write E w t else (n, w)).2.file.bz2.avail_in =
        w.file.bz2.avail_in ∧
      (∀ e ∈ devs, ∃ d t res, e = Event.uWrite d t res) ∧
      (writeFailed devs → w.file.bz2.avail_out = 0 ∧
        (if w.file.bz2.avail_out = 0 then s_bz2_write E w t else (n, w)).1 = HB_SIZE_ERROR) ∧
      (¬ writeFailed devs →
        (if w.file.bz2.avail_out = 0 then s_bz2_write E w t else (n, w)).1 = n ∨
        (if w.file.bz2.avail_out = 0 then s_bz2_write E w t else (n, w)).1 ≤ HB_BZ2_BUFSIZE) ∧
      (drainStalled devs → w.file.bz2.avail_out = 0 ∧
        (if w.file.bz2.avail_out = 0 then s_bz2_write E w t else (n, w)).1 = 0) := by
  by_cases h0 : w.file.bz2.avail_out = 0
  · simp only [if_pos h0]
    obtain ⟨devs, d1, d2, d3, d4, d5, d6, d7⟩ := s_bz2_write_spec E w t
    have hs : stagedSize w = HB_BZ2_BUFSIZE := by
      simp [stagedSize, h0, HB_BZ2_BUFSIZE]
    refine ⟨devs, d1, d2, d3, d4, ?_, ?_, ?_⟩
    · intro hf
      exact ⟨h0, d5.2 hf⟩
    · intro hf
      right
      rw [← hs]
      exact d6 (fun h => hf (d5.1 h))
    · rintro ⟨d, t', hm, hl⟩
      exact ⟨h0, d7 d t' hm (by rw [hs]; exact hl)⟩
  · rw [if_neg h0]
    exact ⟨[], by simp, sameCtl_refl _, rfl, by simp, fun h => absurd h writeFailed_nil,
      fun _ => Or.inl rfl, fun h => absurd h drainStalled_nil⟩

theorem s_fileWrite_loop_spec (E : Env U K) (fuel : Nat) :
    ∀ (w : World U K) (t : Int) (n : Nat) (r : Nat × World U K),
      s_fileWrite_loop E fuel w t n = some r → ∃ evs, WriteLoopPost w n r evs := by
  have base : ∀ (w : World U K) (n : Nat), WriteLoopPost w n (n, w) [] := by
    intro w n
    exact ⟨by simp, sameCtl_refl _, by simp [consumedCount],
      fun h => h.elim (fun h => absurd h writeFailed_nil) (fun h => absurd h encodeFailed_nil),
      fun _ _ => Or.inl rfl, fun h => absurd h drainStalled_nil, by simp⟩
  induction fuel with
  | zero =>
    intro w t n r h
    unfold s_fileWrite_loop at h
    split at h
    · simp at h
    · injection h with h
      subst h
      exact ⟨[], base w n⟩
  | succ k ih =>
    intro w t n r h
    unfold s_fileWrite_loop at h
    split at h
    · rename_i hin
      obtain ⟨devs, d1, d2, d3, d4, d5, d6, d7⟩ := s_fileWrite_drain E w t n
      simp only at h
      generalize (if w.file.bz2.avail_out = 0 then s_bz2_write E w t else (n, w)) = dr at *
      have hnec : ¬ encodeFailed devs := not_encodeFailed_of_writes d4
      have hcc : consumedCount devs = 0 := consumedCount_of_writes d4
      split at h
      · rename_i hstop
        injection h with h
        subst h
        refine ⟨devs, d1, d2, by rw [d3, hcc]; rfl, ?_, ?_, ?_, ?_⟩
        · rintro (hf | hf)
          · exact (d5 hf).2
          · exact absurd hf hnec
        · intro hf _
          exact d6 hf
        · intro hs
          exact ⟨by rw [d3]; exact hin, (d7 hs).2⟩
        · intro a st c p hm _
          obtain ⟨d, t', res, he⟩ := d4 _ hm
          simp at he
      · rename_i hgo
        have hnwf : ¬ writeFailed devs := fun hf => hgo ⟨(d5 hf).1, Or.inr (d5 hf).2⟩
        have hnst : ¬ drainStalled devs := fun hs => hgo ⟨(d7 hs).1, Or.inl (d7 hs).2⟩
        have hdr := d6 hnwf
        obtain ⟨cs, ps, ctr, hcs, _, cin, _, cctl, _⟩ := BZ2_bzCompress_step E dr.2 BZ_RUN
        generalize BZ2_bzCompress E dr.2 BZ_RUN = c at *
        split at h
        · rename_i hst
          injection h with h
          subst h
          refine ⟨devs ++ [Event.compress BZ_RUN c.1 cs ps], ?_, ?_, ?_, ?_, ?_, ?_, ?_⟩
          · simp [hb_fsSetError, ctr, d1]
          · exact sameCtl_trans d2 cctl
          · simp only [hb_fsSetError, consumedCount_append, hcc, consumedCount, cin, d3] at *
            omega
          · intro _
            rfl
          · intro _ hne
            exact absurd ((encodeFailed_append _ _).2 (Or.inr ((encodeFailed_compress _ _ _ _).2 hst))) hne
          · intro hs
            rcases (drainStalled_append _ _).1 hs with hs | hs
            · exact absurd hs hnst
            · exact absurd hs (not_drainStalled_compress _ _ _ _)
          · intro a st c' p' hm _
            rcases List.mem_append.1 hm with hm | hm
            · obtain ⟨d, t', res, he⟩ := d4 _ hm
              simp at he
            · simp at hm
              simp [hb_fsSetError, hm.2.1]
        · rename_i hst
          have hst : c.1 = BZ_RUN_OK := by simpa using hst
          obtain ⟨evs, e1, e2, e3, e4, e5, e6, e7⟩ := ih _ _ _ _ h
          refine ⟨devs ++ [Event.compress BZ_RUN c.1 cs ps] ++ evs, ?_, ?_, ?_, ?_, ?_, ?_, ?_⟩
          · simp [e1, ctr, d1]
          · exact sameCtl_trans (sameCtl_trans d2 cctl) e2
          · simp only [consumedCount_append, hcc, consumedCount, cin, d3] at *
            omega
          · rintro (hf | hf)
            · rcases (writeFailed_append _ _).1 hf with hf | hf
              · rcases (writeFailed_append _ _).1 hf with hf | hf
                · exact absurd hf hnwf
                · exact absurd hf (not_writeFailed_compress _ _ _ _)
              · exact e4 (Or.inl hf)
            · rcases (encodeFailed_append _ _).1 hf with hf | hf
              · rcases (encodeFailed_append _ _).1 hf with hf | hf
                · exact absurd hf hnec
                · exact absurd hst ((encodeFailed_compress _ _ _ _).1 hf)
              · exact e4 (Or.inr hf)
          · intro hw he
            have hw' : ¬ writeFailed evs := fun hf => hw ((writeFailed_append _ _).2 (Or.inr hf))
            have he' : ¬ encodeFailed evs := fun hf => he ((encodeFailed_append _ _).2 (Or.inr hf))
            rcases e5 hw' he' with h1 | h1
            · rcases hdr with h2 | h2
              · exact Or.inl (h1.trans h2)
              · exact Or.inr (by rw [h1]; exact h2)
            · exact Or.inr h1
          · intro hs
            rcases (drainStalled_append _ _).1 hs with hs | hs
            · rcases (drainStalled_append _ _).1 hs with hs | hs
              · exact absurd hs hnst
              · exact absurd hs (not_drainStalled_compress _ _ _ _)
            · exact e6 hs
          · intro a st c' p' hm hne
            rcases List.mem_append.1 hm with hm | hm
            · rcases List.mem_append.1 hm with hm | hm
              · obtain ⟨d, t', res, he⟩ := d4 _ hm
                simp at he
              · simp at hm
                exact absurd (hm.2.1.trans hst) hne
            · exact e7 a st c' p' hm hne
    · injection h with h
      subst h
      exact ⟨[], base w n⟩

/-- The three ways a call of `s_fileWrite` can go. -/
theorem s_fileWrite_cases (E : Env U K) (fuel : Nat) (w : World U K) (buffer : Mem) (nSize : Nat)
    (nTimeout : Int) (out : Nat × World U K)
    (h : s_fileWrite E fuel w buffer nSize nTimeout = some out) :
    (w.file.iMode = FO_READ ∧ out = (0, hb_fsSetError w HB_FILE_ERR_UNSUPPORTED)) ∨
    (w.file.iMode ≠ FO_READ ∧ w.file.fInited = false ∧
      (BZ2_bzCompressInit E (compressInitWorld w) w.file.iBlockSize).1 ≠ BZ_OK ∧
      out = (HB_SIZE_ERROR,
        hb_fsSetError (BZ2_bzCompressInit E (compressInitWorld w) w.file.iBlockSize).2
          (HB_BZ2_ERROR_BASE - (BZ2_bzCompressInit E (compressInitWorld w) w.file.iBlockSize).1))) ∨
    (w.file.iMode ≠ FO_READ ∧ ∃ (evs : List Event) (nR : Nat),
      newEvents w out.2 =
        (if w.file.fInited = false then [Event.compressInit w.file.iBlockSize BZ_OK] else []) ++ evs ∧
      out.2.file.iMode = (if w.file.fInited = false then FO_WRITE else w.file.iMode) ∧
      out.2.file.fInited = true ∧ out.2.file.fEof = w.file.fEof ∧
      out.2.file.nTimeout = w.file.nTimeout ∧ out.2.file.iBlockSize = w.file.iBlockSize ∧
      out.2.file.bz2.avail_in + consumedCount evs = nSize % 2 ^ 32 ∧
      (writeFailed evs ∨ encodeFailed evs → nR = HB_SIZE_ERROR) ∧
      (¬ writeFailed evs → ¬ encodeFailed evs → nR ≤ HB_BZ2_BUFSIZE) ∧
      (drainStalled evs → out.2.file.bz2.avail_in ≠ 0 ∧ nR = 0) ∧
      (∀ a st c p, Event.compress a st c p ∈ evs → st ≠ BZ_RUN_OK →
        out.2.fsError = HB_BZ2_ERROR_BASE - st) ∧
      out.1 = (if nR ≠ HB_SIZE_ERROR then (nSize + 2 ^ 64 - out.2.file.bz2.avail_in) % 2 ^ 64
               else nR) ∧
      out.2.file.seek_pos = w.file.seek_pos + (hb_fileResult out.1 : Int)) := by
  unfold s_fileWrite at h
  split at h
  · rename_i hmode
    by_cases hin : w.file.fInited = false
    · simp only [if_pos hin] at h
      split at h
      · rename_i hst
        injection h with h
        exact Or.inr (Or.inl ⟨hmode, hin, hst, h.symm⟩)
      · rename_i hst
        have hst : (BZ2_bzCompressInit E (compressInitWorld w) w.file.iBlockSize).1 = BZ_OK := by
          simpa using hst
        refine Or.inr (Or.inr ⟨hmode, ?_⟩)
        split at h
        · simp at h
        · rename_i nR w4 hloop
          injection h with h
          subst h
          obtain ⟨evs, l1, l2, l3, l4, l5, l6, l7⟩ := s_fileWrite_loop_spec E fuel _ _ _ _ hloop
          obtain ⟨c1, c2, c3, c4, c5, c6⟩ := l2
          simp only [World.setBz, hb_fsSetError] at l1 l3 c1 c2 c3 c4 c5 c6
          refine ⟨evs, nR, ?_, ?_, c4, ?_, ?_, ?_, l3, l4, ?_, l6, l7, rfl, ?_⟩
          · apply newEvents_of_append
            simp only [l1, if_pos hin]
            simp [BZ2_bzCompressInit, World.setBz, compressInitWorld] at hst ⊢
            rw [hst]
          · simp only [if_pos hin]
            exact c5
          · exact c3
          · exact c2
          · exact c6
          · intro h1 h2
            rcases l5 h1 h2 with h3 | h3
            · simp only at h3
              rw [h3]
              exact Nat.zero_le _
            · exact h3
          · simp only [c1]
            rfl
    · have hin' : w.file.fInited = true := by simpa using hin
      simp only [if_neg hin] at h
      split at h
      · rename_i hst
        exact absurd rfl hst
      · refine Or.inr (Or.inr ⟨hmode, ?_⟩)
        split at h
        · simp at h
        · rename_i nR w4 hloop
          injection h with h
          subst h
          obtain ⟨evs, l1, l2, l3, l4, l5, l6, l7⟩ := s_fileWrite_loop_spec E fuel _ _ _ _ hloop
          obtain ⟨c1, c2, c3, c4, c5, c6⟩ := l2
          simp only [World.setBz, hb_fsSetError] at l1 l3 c1 c2 c3 c4 c5 c6
          refine ⟨evs, nR, ?_, ?_, c4.trans hin', c3, c2, c6, l3, l4, ?_, l6, l7, rfl, ?_⟩
          · apply newEvents_of_append
            simp only [l1, if_neg hin, List.nil_append]
          · simp only [if_neg hin]
            exact c5
          · intro h1 h2
            rcases l5 h1 h2 with h3 | h3
            · simp only at h3
              rw [h3]
              exact Nat.zero_le _
            · exact h3
          · simp only [c1]
  · rename_i hmode
    injection h with h
    exact Or.inl ⟨by simpa using hmode, h.symm⟩

theorem stable_refl (w : World U K) : Stable w w := ⟨id, id, id, id⟩

theorem stable_trans {a b c : World U K} (h1 : Stable a b) (h2 : Stable b c) : Stable a c :=
  ⟨fun h => h2.1 (h1.1 h), fun h => h2.2.1 (h1.2.1 h), fun h => h2.2.2.1 (h1.2.2.1 h),
    fun h => h2.2.2.2 (h1.2.2.2 h)⟩

theorem stable_of_flags {w w1 : World U K} (h1 : w1.file.fEof = w.file.fEof)
    (h2 : w1.file.fInited = w.file.fInited) (h3 : w1.file.iMode = w.file.iMode) : Stable w w1 := by
  refine ⟨?_, ?_, ?_, ?_⟩
  · rintro ⟨a, b⟩
    exact ⟨by rw [h2, h3]; exact a, by rw [h1, h3]; exact b⟩
  · rw [h1]; exact id
  · rw [h3]; exact id
  · rw [h3]; exact id

theorem stable_of_sameCtl {w w1 : World U K} (h : SameCtl w w1) : Stable w w1 :=
  stable_of_flags h.2.2.1 h.2.2.2.1 h.2.2.2.2.1

theorem BZ2_bzCompressInit_step (E : Env U K) (w : World U K) (b : Int) :
    (BZ2_bzCompressInit E w b).2.trace = w.trace ++ [Event.compressInit b (BZ2_bzCompressInit E w b).1] ∧
      SameCtl w (BZ2_bzCompressInit E w b).2 ∧ (BZ2_bzCompressInit E w b).2.fsError = w.fsError :=
  ⟨rfl, ⟨rfl, rfl, rfl, rfl, rfl, rfl⟩, rfl⟩

theorem s_fileRead_stable (E : Env U K) (fuel : Nat) (w : World U K) (buffer : Mem) (nSize : Nat)
    (nTimeout : Int) (out : Nat × World U K)
    (h : s_fileRead E fuel w buffer nSize nTimeout = some out) : Stable w out.2 := by
  rcases s_fileRead_cases E fuel w buffer nSize nTimeout out h with
    ⟨_, rfl⟩ | ⟨_, _, rfl⟩ | ⟨_, _, _, _, rfl⟩ | ⟨hmode, heof, evs, _, hm, _, _, hfl, _⟩
  · exact stable_of_flags rfl rfl rfl
  · exact stable_of_flags rfl rfl rfl
  · exact stable_of_flags rfl rfl rfl
  · refine ⟨?_, ?_, ?_, ?_⟩
    · rintro ⟨i1, i2⟩
      by_cases hin : w.file.fInited = false
      · rw [if_pos hin] at hm
        exact ⟨fun _ => Or.inl hm, fun _ => hm⟩
      · rw [if_neg hin] at hm
        have hin' : w.file.fInited = true := by simpa using hin
        rcases i1 hin' with hr | hw
        · exact ⟨fun _ => Or.inl (hm.trans hr), fun _ => hm.trans hr⟩
        · exact absurd hw hmode
    · intro he
      rw [heof] at he
      exact absurd he (by decide)
    · intro hr
      by_cases hin : w.file.fInited = false
      · rw [if_pos hin] at hm; exact hm
      · rw [if_neg hin] at hm; exact hm.trans hr
    · intro hw
      exact absurd hw hmode

theorem s_fileWrite_stable (E : Env U K) (fuel : Nat) (w : World U K) (buffer : Mem) (nSize : Nat)
    (nTimeout : Int) (out : Nat × World U K)
    (h : s_fileWrite E fuel w buffer nSize nTimeout = some out) : Stable w out.2 := by
  rcases s_fileWrite_cases E fuel w buffer nSize nTimeout out h with
    ⟨_, rfl⟩ | ⟨_, _, _, rfl⟩ | ⟨hmode, evs, nR, _, hm, hi, he, _⟩
  · exact stable_of_flags rfl rfl rfl
  · exact stable_of_flags rfl rfl rfl
  · refine ⟨?_, ?_, ?_, ?_⟩
    · rintro ⟨i1, i2⟩
      refine ⟨fun _ => ?_, fun hh => ?_⟩
      · by_cases hin : w.file.fInited = false
        · rw [if_pos hin] at hm
          exact Or.inr hm
        · rw [if_neg hin] at hm
          rw [hm]
          exact i1 (by simpa using hin)
      · rw [he] at hh
        exact absurd (i2 hh) hmode
    · rw [he]; exact id
    · intro hr
      exact absurd hr hmode
    · intro hw
      by_cases hin : w.file.fInited = false
      · rw [if_pos hin] at hm; exact hm
      · rw [if_neg hin] at hm; exact hm.trans hw

theorem s_fileConfigure_stable (E : Env U K) (w : World U K) (i : Int) (v : Item) :
    Stable w (s_fileConfigure E w i v).2 := by
  unfold s_fileConfigure
  split
  · cases v <;> exact stable_of_flags rfl rfl rfl
  · split
    · exact stable_of_flags rfl rfl rfl
    · split
      · exact stable_of_flags rfl rfl rfl
      · split
        · simp only
          split <;> exact stable_of_flags rfl rfl rfl
        · exact stable_of_flags rfl rfl rfl

/-- Every operation keeps the invariant, a set end-of-stream flag and a fixed mode. -/
theorem applyOp_stable (E : Env U K) (fuel : Nat) (op : Op) (w w1 : World U K)
    (h : applyOp E fuel op w = some w1) : Stable w w1 := by
  cases op with
  | read b n t =>
    simp only [applyOp, Option.map_eq_some'] at h
    obtain ⟨out, h1, rfl⟩ := h
    exact s_fileRead_stable E fuel w b n t out h1
  | write b n t =>
    simp only [applyOp, Option.map_eq_some'] at h
    obtain ⟨out, h1, rfl⟩ := h
    exact s_fileWrite_stable E fuel w b n t out h1
  | readAt b n o =>
    simp only [applyOp, Option.map_eq_some', s_fileReadAt] at h
    obtain ⟨out, h1, rfl⟩ := h
    split at h1
    · exact s_fileRead_stable E fuel w b n _ out h1
    · injection h1 with h1
      subst h1
      exact stable_of_flags rfl rfl rfl
  | writeAt b n o =>
    simp only [applyOp, Option.map_eq_some', s_fileWriteAt] at h
    obtain ⟨out, h1, rfl⟩ := h
    split at h1
    · exact s_fileWrite_stable E fuel w b n _ out h1
    · injection h1 with h1
      subst h1
      exact stable_of_flags rfl rfl rfl
  | truncAt o =>
    simp only [applyOp, s_fileTruncAt] at h
    injection h with h
    subst h
    split <;> exact stable_of_flags rfl rfl rfl
  | seek o f =>
    simp only [applyOp, s_fileSeek] at h
    injection h with h
    subst h
    split <;> exact stable_of_flags rfl rfl rfl
  | size =>
    simp only [applyOp, s_fileSize] at h
    injection h with h
    subst h
    exact stable_of_flags rfl rfl rfl
  | eof =>
    simp only [applyOp, s_fileEof] at h
    injection h with h
    subst h
    split <;> exact stable_of_flags rfl rfl rfl
  | flush d =>
    simp only [applyOp, s_fileFlush] at h
    injection h with h
    subst h
    split <;> exact stable_of_flags rfl rfl rfl
  | commit =>
    simp only [applyOp, s_fileCommit, s_fileFlush] at h
    injection h with h
    subst h
    split
    · exact stable_of_flags rfl rfl rfl
    · exact stable_of_flags rfl rfl rfl
  | configure i v =>
    simp only [applyOp] at h
    injection h with h
    subst h
    exact s_fileConfigure_stable E w i v

theorem runOps_stable (E : Env U K) (fuel : Nat) (ops : List Op) :
    ∀ (w w1 : World U K), runOps E fuel ops w = some w1 → Stable w w1 := by
  induction ops with
  | nil =>
    intro w w1 h
    simp only [runOps] at h
    injection h with h
    subst h
    exact stable_refl _
  | cons op ops ih =>
    intro w w1 h
    simp only [runOps] at h
    split at h
    · simp at h
    · rename_i w2 h2
      exact stable_trans (applyOp_stable E fuel op w w2 h2) (ih w2 w1 h)

/-- More fuel does not change what the read loop returns. -/
theorem s_fileRead_loop_mono (E : Env U K) (fuel : Nat) :
    ∀ (w : World U K) (t : Int) (n : Nat) (r : Nat × World U K),
      s_fileRead_loop E fuel w t n = some r →
      ∀ k, s_fileRead_loop E (fuel + k) w t n = some r := by
  induction fuel with
  | zero =>
    intro w t n r h k
    unfold s_fileRead_loop at h
    split at h
    · simp at h
    · rename_i h0
      unfold s_fileRead_loop
      rw [if_neg h0]
      exact h
  | succ f ih =>
    intro w t n r h k
    rw [Nat.add_right_comm]
    unfold s_fileRead_loop at h ⊢
    by_cases h0 : w.file.bz2.avail_out ≠ 0
    · rw [if_pos h0] at h ⊢
      simp only at h ⊢
      by_cases h1 : (BZ2_bzDecompress E w).1 ≠ BZ_OK
      · rw [if_pos h1] at h ⊢
        exact h
      · rw [if_neg h1] at h ⊢
        by_cases h2 : (BZ2_bzDecompress E w).2.file.bz2.avail_in = 0
        · rw [if_pos h2] at h ⊢
          generalize underlyingRead E (BZ2_bzDecompress E w).2 HB_BZ2_BUFSIZE
            (if (BZ2_bzDecompress E w).2.file.bz2.avail_out ≠ 0 then t else 0) = u at h ⊢
          by_cases h3 : u.1 = 0 ∨ u.1 = HB_SIZE_ERROR
          · rw [if_pos h3] at h ⊢
            exact h
          · rw [if_neg h3] at h ⊢
            exact ih _ _ _ _ h k
        · rw [if_neg h2] at h ⊢
          exact ih _ _ _ _ h k
    · rw [if_neg h0] at h ⊢
      exact h

/-- More fuel does not change what `s_fileRead` returns. -/
theorem s_fileRead_mono (E : Env U K) (fuel : Nat) (w : World U K) (buffer : Mem) (nSize : Nat)
    (nTimeout : Int) (out : Nat × World U K)
    (h : s_fileRead E fuel w buffer nSize nTimeout = some out) (fuel1 : Nat) (hle : fuel ≤ fuel1) :
    s_fileRead E fuel1 w buffer nSize nTimeout = some out := by
  obtain ⟨k, rfl⟩ := Nat.exists_eq_add_of_le hle
  unfold s_fileRead at h ⊢
  by_cases h0 : w.file.iMode ≠ FO_WRITE
  · rw [if_pos h0] at h ⊢
    by_cases h1 : w.file.fEof = true
    · rw [if_pos h1] at h ⊢
      exact h
    · rw [if_neg h1] at h ⊢
      by_cases hin : w.file.fInited = false
      · simp only [if_pos hin] at h ⊢
        by_cases h2 : (BZ2_bzDecompressInit E w).1 ≠ BZ_OK
        · rw [if_pos h2] at h ⊢
          exact h
        · rw [if_neg h2] at h ⊢
          split at h
          · simp at h
          · rename_i nR w4 hloop
            rw [s_fileRead_loop_mono E fuel _ _ _ _ hloop k]
            exact h
      · simp only [if_neg hin] at h ⊢
        by_cases h2 : BZ_OK ≠ BZ_OK
        · exact absurd rfl h2
        · rw [if_neg h2] at h ⊢
          split at h
          · simp at h
          · rename_i nR w4 hloop
            rw [s_fileRead_loop_mono E fuel _ _ _ _ hloop k]
            exact h
  · rw [if_neg h0] at h ⊢
    exact h

/-- More fuel does not change what the write loop returns. -/
theorem s_fileWrite_loop_mono (E : Env U K) (fuel : Nat) :
    ∀ (w : World U K) (t : Int) (n : Nat) (r : Nat × World U K),
      s_fileWrite_loop E fuel w t n = some r →
      ∀ k, s_fileWrite_loop E (fuel + k) w t n = some r := by
  induction fuel with
  | zero =>
    intro w t n r h k
    unfold s_fileWrite_loop at h
    split at h
    · simp at h
    · rename_i h0
      unfold s_fileWrite_loop
      rw [if_neg h0]
      exact h
  | succ f ih =>
    intro w t n r h k
    rw [Nat.add_right_comm]
    unfold s_fileWrite_loop at h ⊢
    by_cases h0 : w.file.bz2.avail_in ≠ 0
    · rw [if_pos h0] at h ⊢
      simp only at h ⊢
      generalize (if w.file.bz2.avail_out = 0 then s_bz2_write E w t else (n, w)) = dr at h ⊢
      by_cases h1 : w.file.bz2.avail_out = 0 ∧ (dr.1 = 0 ∨ dr.1 = HB_SIZE_ERROR)
      · rw [if_pos h1] at h ⊢
        exact h
      · rw [if_neg h1] at h ⊢
        by_cases h2 : (BZ2_bzCompress E dr.2 BZ_RUN).1 ≠ BZ_RUN_OK
        · rw [if_pos h2] at h ⊢
          exact h
        · rw [if_neg h2] at h ⊢
          exact ih _ _ _ _ h k
    · rw [if_neg h0] at h ⊢
      exact h

/-- More fuel does not change what `s_fileWrite` returns. -/
theorem s_fileWrite_mono (E : Env U K) (fuel : Nat) (w : World U K) (buffer : Mem) (nSize : Nat)
    (nTimeout : Int) (out : Nat × World U K)
    (h : s_fileWrite E fuel w buffer nSize nTimeout = some out) (fuel1 : Nat) (hle : fuel ≤ fuel1) :
    s_fileWrite E fuel1 w buffer nSize nTimeout = some out := by
  obtain ⟨k, rfl⟩ := Nat.exists_eq_add_of_le hle
  unfold s_fileWrite at h ⊢
  by_cases h0 : w.file.iMode ≠ FO_READ
  · rw [if_pos h0] at h ⊢
    by_cases hin : w.file.fInited = false
    · simp only [if_pos hin] at h ⊢
      split at h
      · rename_i h2
        rw [if_pos h2]
        exact h
      · rename_i h2
        rw [if_neg h2]
        split at h
        · simp at h
        · rename_i nR w4 hloop
          rw [s_fileWrite_loop_mono E fuel _ _ _ _ hloop k]
          exact h
    · simp only [if_neg hin] at h ⊢
      split at h
      · rename_i h2
        exact absurd rfl h2
      · rename_i h2
        rw [if_neg h2]
        split at h
        · simp at h
        · rename_i nR w4 hloop
          rw [s_fileWrite_loop_mono E fuel _ _ _ _ hloop k]
          exact h
  · rw [if_neg h0] at h ⊢
    exact h

/-- The bound on the rounds of the drain loop is never what stops it: with at
least `nSize - nWritten` rounds allowed, allowing more changes nothing. -/
theorem s_bz2_write_loop_rounds (E : Env U K) (rounds : Nat) :
    ∀ (w : World U K) (nSize nWritten : Nat) (t : Int) (k : Nat),
      nSize - nWritten ≤ rounds → nWritten ≤ nSize → nSize < 2 ^ 64 →
      s_bz2_write_loop E (rounds + k) w nSize nWritten t =
        s_bz2_write_loop E rounds w nSize nWritten t := by
  induction rounds with
  | zero =>
    intro w nSize nWritten t k h0 hle _
    have hn : ¬ nWritten < nSize := by omega
    cases k with
    | zero => rfl
    | succ j =>
      rw [Nat.zero_add]
      unfold s_bz2_write_loop
      rw [if_neg hn]
  | succ r ih =>
    intro w nSize nWritten t k h0 hle hlt
    rw [Nat.add_right_comm]
    unfold s_bz2_write_loop
    by_cases hn : nWritten < nSize
    · rw [if_pos hn, if_pos hn]
      simp only
      obtain ⟨_, _, _, _, ures⟩ := underlyingWrite_step E w nWritten (nSize - nWritten) t
      generalize underlyingWrite E w nWritten (nSize - nWritten) t = u at ures ⊢
      by_cases h1 : u.1 = HB_SIZE_ERROR
      · rw [if_pos h1, if_pos h1]
      · rw [if_neg h1, if_neg h1]
        by_cases h2 : u.1 = 0
        · rw [if_pos h2, if_pos h2]
        · rw [if_neg h2, if_neg h2]
          have hu : u.1 ≤ nSize - nWritten := by
            rcases ures with h | h
            · exact absurd h h1
            · exact h
          have hmod : (nWritten + u.1) % 2 ^ 64 = nWritten + u.1 := Nat.mod_eq_of_lt (by omega)
          rw [hmod]
          exact ih _ _ _ _ k (by omega) (by omega) hlt
    · rw [if_neg hn, if_neg hn]

/-! ## The fresh handle and the small codec -/

/-- A handle made by `s_filebz2New` satisfies the state invariant, whatever
access bits were requested. -/
theorem handleInv_new (u : U) (iMode iBlockSize : Int) (k0 : K) (f : HB_FILE U K)
    (user : Mem) (err : Int) (tr : List Event)
    (h : s_filebz2New (some u) iMode iBlockSize k0 = some f) :
    HandleInv { file := f, user := user, fsError := err, trace := tr } := by
  simp only [s_filebz2New, Option.some.injEq] at h
  subst h
  exact ⟨fun h => absurd h (by simp), fun h => absurd h (by simp)⟩

/-- The small codec is an inverse pair: decoding the encoding of `bs` followed
by the end marker gives back `bs` and reports the end of the stream. -/
theorem toy_codec_inverse (bs : List Nat) :
    toyDecode false ((toyEncode bs (2 * bs.length)).1 ++ [0]) bs.length =
      (BZ_STREAM_END, 2 * bs.length + 1, bs, false) ∧
    (toyEncode bs (2 * bs.length)).2 = bs.length := by
  induction bs with
  | nil => exact ⟨rfl, rfl⟩
  | cons b rest ih =>
    have h2 : 2 * (b :: rest).length = (2 * rest.length + 1) + 1 := by
      simp only [List.length_cons]
      omega
    rw [h2]
    simp only [toyEncode, Nat.add_sub_cancel, List.length_cons, List.cons_append, toyDecode]
    obtain ⟨i1, i2⟩ := ih
    have i1b : toyDecode false ((toyEncode rest (2 * rest.length)).1.append [0]) rest.length =
        (BZ_STREAM_END, 2 * rest.length + 1, rest, false) := i1
    rw [i1b, i2]
    simp

/-! ## The claims -/

theorem newEvents_self (w : World U K) (e : Int) : newEvents w (hb_fsSetError w e) = [] := by
  simp [newEvents, hb_fsSetError]

/-- C3: in a call of `s_fileRead` in which a decode step reports an engine
failure (a status other than `BZ_OK` and `BZ_STREAM_END`), the call returns the
number `K` of plain bytes the decoder produced during the call when `K > 0`,
returns the failure sentinel when `K = 0`, and in both cases the last error is
`HB_BZ2_ERROR_BASE` minus the engine status; the call returns that same result
for every larger bound on the number of loop rounds. -/
theorem read_partial_progress_over_error (E : Env U K) (fuel : Nat) (w : World U K)
    (buffer : Mem) (nSize : Nat) (nTimeout : Int) (out : Nat × World U K)
    (hcall : s_fileRead E fuel w buffer nSize nTimeout = some out)
    (st : Int) (c p : List Nat)
    (hstep : Event.decompress st c p ∈ newEvents w out.2)
    (hfail : st ≠ BZ_OK ∧ st ≠ BZ_STREAM_END) :
    (0 < producedCount (newEvents w out.2) → out.1 = producedCount (newEvents w out.2)) ∧
    (producedCount (newEvents w out.2) = 0 → out.1 = HB_SIZE_ERROR) ∧
    out.2.fsError = HB_BZ2_ERROR_BASE - st ∧
    (∀ fuel1, fuel ≤ fuel1 → s_fileRead E fuel1 w buffer nSize nTimeout = some out) := by
  have hmono := s_fileRead_mono E fuel w buffer nSize nTimeout out hcall
  rcases s_fileRead_cases E fuel w buffer nSize nTimeout out hcall with
    ⟨_, rfl⟩ | ⟨_, _, rfl⟩ | ⟨_, _, _, _, rfl⟩ | ⟨_, _, evs, hev, _, _, _, _, hf, _, hk, _⟩
  · rw [newEvents_self] at hstep
    simp at hstep
  · rw [newEvents_self] at hstep
    simp at hstep
  · simp [newEvents, hb_fsSetError, BZ2_bzDecompressInit, World.setBz] at hstep
  · have hmem : Event.decompress st c p ∈ evs := by
      rw [hev] at hstep
      rcases List.mem_append.1 hstep with h | h
      · split at h <;> simp at h
      · exact h
    have hcount : producedCount (newEvents w out.2) = producedCount evs := by
      rw [hev, producedCount_append]
      split <;> simp [producedCount]
    rw [hcount]
    obtain ⟨h1, h2⟩ := hf st c p hmem hfail.1 hfail.2
    exact ⟨hk, h2, h1, hmono⟩

/-- C4: on a handle that satisfies the state invariant, once a decode step of
`s_fileRead` has reported `BZ_STREAM_END` the end-of-stream flag is set, it
stays set through every later sequence of operations, and every later
`s_fileRead`, for every buffer, size and timeout, returns 0 and changes
nothing but the last error, which becomes 0: handle state and trace (no codec
or underlying call) are the same. -/
theorem eof_stability (E : Env U K) (fuel0 : Nat) (w0 : World U K) (buffer0 : Mem) (nSize0 : Nat)
    (nTimeout0 : Int) (out : Nat × World U K) (hinv : HandleInv w0)
    (hread : s_fileRead E fuel0 w0 buffer0 nSize0 nTimeout0 = some out)
    (hend : ∃ c p, Event.decompress BZ_STREAM_END c p ∈ newEvents w0 out.2)
    (ops : List Op) (fuel : Nat) (w : World U K) (hrun : runOps E fuel ops out.2 = some w) :
    out.2.file.fEof = true ∧ w.file.fEof = true ∧
    ∀ (fuel2 : Nat) (buffer : Mem) (nSize : Nat) (nTimeout : Int),
      s_fileRead E fuel2 w buffer nSize nTimeout = some (0, { w with fsError := 0 }) := by
  obtain ⟨c, p, hend⟩ := hend
  have h1 : out.2.file.fEof = true := by
    rcases s_fileRead_cases E fuel0 w0 buffer0 nSize0 nTimeout0 out hread with
      ⟨_, rfl⟩ | ⟨_, _, rfl⟩ | ⟨_, _, _, _, rfl⟩ | ⟨_, _, evs, hev, _, _, _, _, _, he, _⟩
    · rw [newEvents_self] at hend
      simp at hend
    · assumption
    · simp [newEvents, hb_fsSetError, BZ2_bzDecompressInit, World.setBz] at hend
    · rw [hev] at hend
      rcases List.mem_append.1 hend with h | h
      · split at h <;> simp at h
      · exact he c p h
  have hs1 := s_fileRead_stable E fuel0 w0 buffer0 nSize0 nTimeout0 out hread
  have hs2 := runOps_stable E fuel ops out.2 w hrun
  have hinvw : HandleInv w := hs2.1 (hs1.1 hinv)
  have h2 : w.file.fEof = true := hs2.2.1 h1
  refine ⟨h1, h2, ?_⟩
  intro fuel2 buffer nSize nTimeout
  have hm : w.file.iMode ≠ FO_WRITE := by
    rw [hinvw.2 h2]
    decide
  unfold s_fileRead
  rw [if_pos hm, if_pos h2]
  rfl

/-- C5: on a handle that satisfies the state invariant, after one successful
`s_fileRead` the mode is `FO_READ` for good, and every later `s_fileWrite`
returns 0, sets `HB_FILE_ERR_UNSUPPORTED` and changes nothing else (handle
state and trace are the same); symmetrically after one successful
`s_fileWrite` every later `s_fileRead` is rejected in the same way. -/
theorem mode_lock (E : Env U K) (w0 : World U K) (hinv : HandleInv w0) :
    (∀ (fuel0 : Nat) (b0 : Mem) (n0 : Nat) (t0 : Int) (out : Nat × World U K),
      s_fileRead E fuel0 w0 b0 n0 t0 = some out → w0.file.iMode ≠ FO_WRITE →
      out.1 ≠ HB_SIZE_ERROR →
      ∀ (ops : List Op) (fuel : Nat) (w : World U K), runOps E fuel ops out.2 = some w →
        w.file.iMode = FO_READ ∧
        ∀ (fuel2 : Nat) (b : Mem) (n : Nat) (t : Int),
          s_fileWrite E fuel2 w b n t =
            some (0, { w with fsError := HB_FILE_ERR_UNSUPPORTED })) ∧
    (∀ (fuel0 : Nat) (b0 : Mem) (n0 : Nat) (t0 : Int) (out : Nat × World U K),
      s_fileWrite E fuel0 w0 b0 n0 t0 = some out → w0.file.iMode ≠ FO_READ →
      out.1 ≠ HB_SIZE_ERROR →
      ∀ (ops : List Op) (fuel : Nat) (w : World U K), runOps E fuel ops out.2 = some w →
        w.file.iMode = FO_WRITE ∧
        ∀ (fuel2 : Nat) (b : Mem) (n : Nat) (t : Int),
          s_fileRead E fuel2 w b n t =
            some (0, { w with fsError := HB_FILE_ERR_UNSUPPORTED })) := by
  constructor
  · intro fuel0 b0 n0 t0 out hcall hmode hok ops fuel w hrun
    have h1 : out.2.file.iMode = FO_READ := by
      rcases s_fileRead_cases E fuel0 w0 b0 n0 t0 out hcall with
        ⟨hm, _⟩ | ⟨_, he, rfl⟩ | ⟨_, _, _, _, rfl⟩ | ⟨_, _, evs, _, hm, _⟩
      · exact absurd hm hmode
      · exact hinv.2 he
      · exact absurd rfl hok
      · by_cases hin : w0.file.fInited = false
        · rw [if_pos hin] at hm; exact hm
        · rw [if_neg hin] at hm
          rcases hinv.1 (by simpa using hin) with h | h
          · exact hm.trans h
          · exact absurd h hmode
    have h2 : w.file.iMode = FO_READ := (runOps_stable E fuel ops out.2 w hrun).2.2.1 h1
    refine ⟨h2, ?_⟩
    intro fuel2 b n t
    unfold s_fileWrite
    rw [if_neg (by simpa using h2)]
    rfl
  · intro fuel0 b0 n0 t0 out hcall hmode hok ops fuel w hrun
    have h1 : out.2.file.iMode = FO_WRITE := by
      rcases s_fileWrite_cases E fuel0 w0 b0 n0 t0 out hcall with
        ⟨hm, _⟩ | ⟨_, _, _, rfl⟩ | ⟨_, evs, nR, _, hm, _⟩
      · exact absurd hm hmode
      · exact absurd rfl hok
      · by_cases hin : w0.file.fInited = false
        · rw [if_pos hin] at hm; exact hm
        · rw [if_neg hin] at hm
          rcases hinv.1 (by simpa using hin) with h | h
          · exact absurd h hmode
          · exact hm.trans h
    have h2 : w.file.iMode = FO_WRITE := (runOps_stable E fuel ops out.2 w hrun).2.2.2 h1
    refine ⟨h2, ?_⟩
    intro fuel2 b n t
    unfold s_fileRead
    rw [if_neg (by simpa using h2)]
    rfl

/-- C6: when `nOffset` equals `seek_pos`, `s_fileReadAt` and `s_fileWriteAt`
give the same result and world as `s_fileRead` and `s_fileWrite` called with
the handle's own `nTimeout` (in every mode); when `nOffset` differs they
return 0, set `HB_FILE_ERR_UNSUPPORTED` and change nothing else. -/
theorem positional_rule (E : Env U K) (fuel : Nat) (w : World U K) (buffer : Mem) (nSize : Nat)
    (nOffset : Int) :
    (nOffset = w.file.seek_pos →
      s_fileReadAt E fuel w buffer nSize nOffset =
        s_fileRead E fuel w buffer nSize w.file.nTimeout ∧
      s_fileWriteAt E fuel w buffer nSize nOffset =
        s_fileWrite E fuel w buffer nSize w.file.nTimeout) ∧
    (nOffset ≠ w.file.seek_pos →
      s_fileReadAt E fuel w buffer nSize nOffset =
        some (0, { w with fsError := HB_FILE_ERR_UNSUPPORTED }) ∧
      s_fileWriteAt E fuel w buffer nSize nOffset =
        some (0, { w with fsError := HB_FILE_ERR_UNSUPPORTED })) := by
  constructor
  · intro ho
    constructor
    · unfold s_fileReadAt
      by_cases hm : w.file.iMode ≠ FO_WRITE
      · rw [if_pos ⟨hm, ho.symm⟩]
      · rw [if_neg (fun h => hm h.1)]
        unfold s_fileRead
        rw [if_neg hm]
    · unfold s_fileWriteAt
      by_cases hm : w.file.iMode ≠ FO_READ
      · rw [if_pos ⟨hm, ho.symm⟩]
      · rw [if_neg (fun h => hm h.1)]
        unfold s_fileWrite
        rw [if_neg hm]
  · intro ho
    constructor
    · unfold s_fileReadAt
      rw [if_neg (fun h => ho h.2.symm)]
      rfl
    · unfold s_fileWriteAt
      rw [if_neg (fun h => ho h.2.symm)]
      rfl

/-- The events `s_fileWrite` records before its loop contain no write, no
encoder step and no stalled drain. -/
theorem compressInit_prefix (fInited : Bool) (b : Int) (evs : List Event) :
    (writeFailed ((if fInited = false then [Event.compressInit b BZ_OK] else []) ++ evs) ↔
      writeFailed evs) ∧
    (encodeFailed ((if fInited = false then [Event.compressInit b BZ_OK] else []) ++ evs) ↔
      encodeFailed evs) ∧
    (drainStalled ((if fInited = false then [Event.compressInit b BZ_OK] else []) ++ evs) ↔
      drainStalled evs) ∧
    consumedCount ((if fInited = false then [Event.compressInit b BZ_OK] else []) ++ evs) =
      consumedCount evs := by
  cases fInited
  · refine ⟨?_, ?_, ?_, ?_⟩
    · simp [writeFailed]
    · simp [encodeFailed]
    · simp [drainStalled]
    · simp [consumedCount]
  · simp

/-- C9, amended: in a call of `s_fileWrite` on a handle not in read mode whose
encoder session is live after the call, if no underlying write failed
outright and no encoder step failed, the call returns `nSize` minus the
unconsumed `avail_in`; that value is below `nSize` when a drain stalled with no
progress; and the call returns the failure sentinel whenever an underlying
write failed outright or an encoder step reported a status other than
`BZ_RUN_OK`, whatever had been consumed before.  The call returns that same
result for every larger bound on the number of loop rounds. -/
theorem write_result_composition (E : Env U K) (fuel : Nat) (w : World U K) (buffer : Mem)
    (nSize : Nat) (nTimeout : Int) (out : Nat × World U K)
    (hcall : s_fileWrite E fuel w buffer nSize nTimeout = some out)
    (hmode : w.file.iMode ≠ FO_READ) (hstart : out.2.file.fInited = true)
    (hsize : nSize < 2 ^ 64) :
    (¬ writeFailed (newEvents w out.2) → ¬ encodeFailed (newEvents w out.2) →
      out.1 = nSize - out.2.file.bz2.avail_in) ∧
    (drainStalled (newEvents w out.2) →
      out.1 = nSize - out.2.file.bz2.avail_in ∧ out.1 < nSize) ∧
    (writeFailed (newEvents w out.2) ∨ encodeFailed (newEvents w out.2) →
      out.1 = HB_SIZE_ERROR) ∧
    (∀ fuel1, fuel ≤ fuel1 → s_fileWrite E fuel1 w buffer nSize nTimeout = some out) := by
  have hmono := s_fileWrite_mono E fuel w buffer nSize nTimeout out hcall
  rcases s_fileWrite_cases E fuel w buffer nSize nTimeout out hcall with
    ⟨hm, _⟩ | ⟨_, hin, _, rfl⟩ | ⟨_, evs, nR, hev, _, _, _, _, _, hav, hfail, hok, hstall, _, hres, _⟩
  · exact absurd hm hmode
  · have : w.file.fInited = true := hstart
    rw [hin] at this
    exact absurd this (by decide)
  · obtain ⟨p1, p2, p3, _⟩ := compressInit_prefix w.file.fInited w.file.iBlockSize evs
    rw [hev, p1, p2, p3]
    have hle : out.2.file.bz2.avail_in ≤ nSize := by
      have := Nat.mod_le nSize (2 ^ 32)
      omega
    have hval : (nSize + 2 ^ 64 - out.2.file.bz2.avail_in) % 2 ^ 64 =
        nSize - out.2.file.bz2.avail_in := by
      have : nSize + 2 ^ 64 - out.2.file.bz2.avail_in =
          (nSize - out.2.file.bz2.avail_in) + 2 ^ 64 := by omega
      rw [this, Nat.add_mod_right]
      exact Nat.mod_eq_of_lt (by omega)
    refine ⟨?_, ?_, ?_, hmono⟩
    · intro h1 h2
      have hn : nR ≠ HB_SIZE_ERROR := by
        have := hok h1 h2
        simp only [HB_SIZE_ERROR, HB_BZ2_BUFSIZE] at *
        omega
      rw [hres, if_pos hn, hval]
    · intro hs
      obtain ⟨h1, h2⟩ := hstall hs
      have hn : nR ≠ HB_SIZE_ERROR := by
        rw [h2]
        decide
      rw [hres, if_pos hn, hval]
      exact ⟨rfl, by omega⟩
    · intro hf
      have hn := hfail hf
      rw [hres, if_neg (by simpa using hn)]
      exact hn

/-- C10, amended: in a call of `s_fileWrite` with `nSize < 2^32` on a handle
not in read mode, when the call does not return the failure sentinel the
returned count is the number of caller bytes the encoder consumed during the
call and `seek_pos` grows by exactly that number; when the call returns the
failure sentinel `seek_pos` is unchanged.  The call returns that same result
for every larger bound on the number of loop rounds. -/
theorem write_seek_pos_advance (E : Env U K) (fuel : Nat) (w : World U K) (buffer : Mem)
    (nSize : Nat) (nTimeout : Int) (out : Nat × World U K)
    (hcall : s_fileWrite E fuel w buffer nSize nTimeout = some out)
    (hmode : w.file.iMode ≠ FO_READ) (hsize : nSize < 2 ^ 32) :
    (out.1 ≠ HB_SIZE_ERROR →
      out.1 = consumedCount (newEvents w out.2) ∧
      out.2.file.seek_pos = w.file.seek_pos + (consumedCount (newEvents w out.2) : Int)) ∧
    (out.1 = HB_SIZE_ERROR → out.2.file.seek_pos = w.file.seek_pos) ∧
    (∀ fuel1, fuel ≤ fuel1 → s_fileWrite E fuel1 w buffer nSize nTimeout = some out) := by
  have hmono := s_fileWrite_mono E fuel w buffer nSize nTimeout out hcall
  rcases s_fileWrite_cases E fuel w buffer nSize nTimeout out hcall with
    ⟨hm, _⟩ | ⟨_, hin, _, rfl⟩ | ⟨_, evs, nR, hev, _, _, _, _, _, hav, _, _, _, _, hres, hseek⟩
  · exact absurd hm hmode
  · exact ⟨fun h => absurd rfl h, fun _ => rfl, hmono⟩
  · obtain ⟨_, _, _, p4⟩ := compressInit_prefix w.file.fInited w.file.iBlockSize evs
    rw [hev, p4]
    rw [Nat.mod_eq_of_lt hsize] at hav
    refine ⟨?_, ?_, hmono⟩
    · intro hne
      have hn : nR ≠ HB_SIZE_ERROR := by
        intro h
        rw [hres, if_neg (by simpa using h)] at hne
        exact hne h
      have hval : out.1 = consumedCount evs := by
        rw [hres, if_pos hn]
        have : nSize + 2 ^ 64 - out.2.file.bz2.avail_in = consumedCount evs + 2 ^ 64 := by omega
        rw [this, Nat.add_mod_right]
        exact Nat.mod_eq_of_lt (by omega)
      refine ⟨hval, ?_⟩
      rw [hseek, hb_fileResult, if_neg hne, hval]
    · intro he
      rw [hseek, hb_fileResult, if_pos he]
      simp

/-! ## Positional operations, seek and size -/

/-- C7, counterexample: on a handle opened for reading (`iMode = FO_READ`),
`s_fileTruncAt` at the current position returns false and sets
`HB_FILE_ERR_UNSUPPORTED`. -/
theorem truncAt_current_position_rejected_in_read_mode :
    (openWorld (Disk.holding [] []) FO_READ 9).map
        (fun w => (decide (w.file.seek_pos = 0), (s_fileTruncAt w 0).1,
                   (s_fileTruncAt w 0).2.fsError))
      = some (true, false, HB_FILE_ERR_UNSUPPORTED) := by
  decide

/-- C7, amended: on a handle whose mode is not `FO_READ`, `s_fileTruncAt` at the
current `seek_pos` returns true with last error 0; in every other case (another
offset, or mode `FO_READ`) it returns false with `HB_FILE_ERR_UNSUPPORTED`.  No
call changes anything but the last error. -/
theorem truncAt_rule (w : World U K) (nOffset : Int) :
    (w.file.iMode ≠ FO_READ ∧ nOffset = w.file.seek_pos →
      s_fileTruncAt w nOffset = (true, { w with fsError := 0 })) ∧
    (¬ (w.file.iMode ≠ FO_READ ∧ nOffset = w.file.seek_pos) →
      s_fileTruncAt w nOffset = (false, { w with fsError := HB_FILE_ERR_UNSUPPORTED })) := by
  constructor
  · rintro ⟨hm, ho⟩
    simp [s_fileTruncAt, hb_fsSetError, hm, ho]
  · intro h
    have h2 : ¬ (w.file.iMode ≠ FO_READ ∧ w.file.seek_pos = nOffset) := fun hh => h ⟨hh.1, hh.2.symm⟩
    simp only [s_fileTruncAt, hb_fsSetError, if_neg h2]

/-- C8: `s_fileSize` returns 0 and sets `HB_FILE_ERR_UNSUPPORTED`; `s_fileSeek`
returns the unchanged `seek_pos`, sets last error 0 exactly for
(`FS_SET`, the current position) and (`FS_RELATIVE`, 0), sets error 25 for
every other pair, and neither call changes anything but the last error. -/
theorem size_seek_contract (w : World U K) (nOffset : Int) (uiFlags : Nat) :
    s_fileSize w = (0, { w with fsError := HB_FILE_ERR_UNSUPPORTED }) ∧
    ((uiFlags = FS_SET ∧ nOffset = w.file.seek_pos) ∨ (uiFlags = FS_RELATIVE ∧ nOffset = 0) →
      s_fileSeek w nOffset uiFlags = (w.file.seek_pos, { w with fsError := 0 })) ∧
    (¬ ((uiFlags = FS_SET ∧ nOffset = w.file.seek_pos) ∨ (uiFlags = FS_RELATIVE ∧ nOffset = 0)) →
      s_fileSeek w nOffset uiFlags = (w.file.seek_pos, { w with fsError := 25 })) := by
  refine ⟨rfl, ?_, ?_⟩
  · intro h
    simp only [s_fileSeek, hb_fsSetError, if_pos h]
  · intro h
    simp only [s_fileSeek, hb_fsSetError, if_neg h]

/-! ## Evaluations, counterexamples and witnesses -/

/-- An optional value that is present equals `some` of its `getD`. -/
theorem eq_some_getD {α : Type} (o : Option α) (d : α) (h : o.isSome = true) :
    o = some (o.getD d) := by
  cases o with
  | none => simp at h
  | some a => rfl

/-- A stalled drain can be recognised call by call. -/
theorem drainStalled_of_any {evs : List Event} (h : evs.any stallEvent = true) :
    drainStalled evs := by
  obtain ⟨e, hm, he⟩ := List.any_eq_true.1 h
  cases e with
  | uWrite d t res =>
    simp only [stallEvent, Bool.and_eq_true, beq_iff_eq] at he
    obtain ⟨h1, h2⟩ := he
    subst h1
    exact ⟨d, t, hm, h2⟩
  | _ => simp [stallEvent] at he

/-- C1, evaluated at the failing input: with the byte store and the small
codec, the empty payload is stored as the single end marker `0`; reading it
back with a 4-byte buffer reports one byte read (the caller's untouched buffer
byte), so the counts sum to 1 and not to 0.  The three-byte payload
`65, 66, 67` comes back intact. -/
theorem roundTrip_empty_payload :
    roundTrip 9 [] 4 = some ([0], [0], 1) ∧
    roundTrip 9 [65, 66, 67] 4 = some ([1, 65, 1, 66, 1, 67, 0], [65, 66, 67], 3) := by
  constructor <;> decide!

/-- C2, evaluated at the failing input: the first `s_fileRead` on the stored
empty payload refills once (1 byte), the decoder then reports
`BZ_STREAM_END` having produced no byte, and the call returns 1, the refill
count, with last error 0; `seek_pos` moves from 0 to 1. -/
theorem read_returns_refill_count_at_stream_end :
    s_fileRead toyEnv 8 emptyStreamReader memZero 4 (-1) = some emptyStreamRead ∧
    newEvents emptyStreamReader emptyStreamRead.2 =
      [Event.decompressInit BZ_OK, Event.decompress BZ_OK [] [],
       Event.uRead 8192 (-1) 1 [0], Event.decompress BZ_STREAM_END [0] [],
       Event.decompressEnd] ∧
    producedCount (newEvents emptyStreamReader emptyStreamRead.2) = 0 ∧
    emptyStreamRead.1 = 1 ∧ emptyStreamRead.2.fsError = 0 ∧
    emptyStreamReader.file.seek_pos = 0 ∧ emptyStreamRead.2.file.seek_pos = 1 := by
  refine ⟨eq_some_getD _ _ (by decide!), ?_, ?_, ?_, ?_, ?_, ?_⟩ <;> decide!

/-- Witness for C3: on the stream `1, 65, 7` the decoder produces the byte 65
and then reports `BZ_DATA_ERROR`; the call returns 1 and the last error is 104. -/
theorem read_partial_progress_over_error_witness :
    producedCount (newEvents corruptReader corruptRead.2) = 1 ∧
    (0 < producedCount (newEvents corruptReader corruptRead.2) →
      corruptRead.1 = producedCount (newEvents corruptReader corruptRead.2)) ∧
    (producedCount (newEvents corruptReader corruptRead.2) = 0 →
      corruptRead.1 = HB_SIZE_ERROR) ∧
    corruptRead.2.fsError = HB_BZ2_ERROR_BASE - BZ_DATA_ERROR ∧
    (∀ fuel1, 8 ≤ fuel1 →
      s_fileRead toyEnv fuel1 corruptReader memZero 4 (-1) = some corruptRead) :=
  ⟨by decide!,
   read_partial_progress_over_error toyEnv 8 corruptReader memZero 4 (-1) corruptRead
     (eq_some_getD _ _ (by decide!)) BZ_DATA_ERROR [1, 65] [65] (by decide!)
     ⟨by decide, by decide⟩⟩

/-- Witness for C4: the reader of the empty payload reaches the end of the
stream in its first read; after a seek, a write attempt and a truncate attempt
every read still returns 0 and changes only the last error. -/
theorem eof_stability_witness :
    emptyStreamRead.2.file.fEof = true ∧ emptyStreamLater.file.fEof = true ∧
    ∀ (fuel2 : Nat) (buffer : Mem) (nSize : Nat) (nTimeout : Int),
      s_fileRead toyEnv fuel2 emptyStreamLater buffer nSize nTimeout =
        some (0, { emptyStreamLater with fsError := 0 }) :=
  eof_stability toyEnv 8 emptyStreamReader memZero 4 (-1) emptyStreamRead
    ⟨fun h => absurd h (by decide!), fun h => absurd h (by decide!)⟩
    (eq_some_getD _ _ (by decide!)) ⟨[0], [], by decide!⟩
    [Op.seek 0 FS_SET, Op.write (memOf [1]) 1 0, Op.truncAt 0] 8 emptyStreamLater
    (eq_some_getD _ _ (by decide!))

/-- Witness for C5: after the successful read of `plainReader` a write is
rejected, and after the successful write of `smallWriter` a read is rejected;
both leave the world as it was but for the last error. -/
theorem mode_lock_witness :
    s_fileWrite toyEnv 3 plainRead.2 (memOf [1]) 1 0 =
      some (0, { plainRead.2 with fsError := HB_FILE_ERR_UNSUPPORTED }) ∧
    s_fileRead toyEnv 3 smallWrite.2 memZero 1 0 =
      some (0, { smallWrite.2 with fsError := HB_FILE_ERR_UNSUPPORTED }) :=
  ⟨((mode_lock toyEnv plainReader
        ⟨fun h => absurd h (by decide!), fun h => absurd h (by decide!)⟩).1
      8 memZero 4 (-1) plainRead (eq_some_getD _ _ (by decide!)) (by decide!) (by decide!)
      [] 0 plainRead.2 rfl).2 3 (memOf [1]) 1 0,
   ((mode_lock toyEnv smallWriter
        ⟨fun h => absurd h (by decide!), fun h => absurd h (by decide!)⟩).2
      8 (memOf [65, 66, 67]) 3 (-1) smallWrite (eq_some_getD _ _ (by decide!)) (by decide!)
      (by decide!) [] 0 smallWrite.2 rfl).2 3 memZero 1 0⟩

/-- C9, counterexample: 4097 bytes are written to a store whose first `Write`
fails.  The encoder first consumes 4096 input bytes, which fills the staging
buffer (8192 bytes); the drain that follows fails outright and the call
returns the failure sentinel, after input bytes were consumed. -/
theorem write_fails_after_consuming_input :
    s_fileWrite toyEnv 8 failingWriter (fun _ => 65) 4097 (-1) = some failingWrite ∧
    (failingWrite.1, failingWrite.2.file.bz2.avail_in,
      (newEvents failingWriter failingWrite.2).map Event.brief) =
      (HB_SIZE_ERROR, 1,
        [Brief.codecInit BZ_OK, Brief.codecStep BZ_RUN_OK 4096 8192,
         Brief.write 8192 (-1) HB_SIZE_ERROR]) :=
  ⟨eq_some_getD _ _ (by decide!), by decide!⟩

/-- Witness for C9: 4097 bytes are written to a store whose first `Write` takes
nothing; the drain stalls and the call returns 4096, less than 4097. -/
theorem write_result_composition_witness :
    stalledWrite.1 = 4097 - stalledWrite.2.file.bz2.avail_in ∧ stalledWrite.1 < 4097 :=
  (write_result_composition toyEnv 8 stalledWriter (fun _ => 65) 4097 (-1) stalledWrite
    (eq_some_getD _ _ (by decide!)) (by decide!) (by decide!) (by decide)).2.1
    (drainStalled_of_any (by decide!))

/-- C10, counterexample: 5000 bytes are written to a store whose first `Write`
fails.  The encoder consumes 4096 input bytes before the failing drain, the
call returns the failure sentinel, and `seek_pos`, 0 before the call, is
still 0 after it. -/
theorem write_failure_leaves_seek_pos :
    s_fileWrite toyEnv 8 failingWriter (fun _ => 65) 5000 (-1) = some failingWrite5000 ∧
    (failingWrite5000.1, consumedCount (newEvents failingWriter failingWrite5000.2),
      failingWriter.file.seek_pos, failingWrite5000.2.file.seek_pos) =
      (HB_SIZE_ERROR, 4096, 0, 0) :=
  ⟨eq_some_getD _ _ (by decide!), by decide!⟩

/-- Witness for C10: three bytes written to a store that accepts everything;
the call returns 3 and `seek_pos` grows by 3. -/
theorem write_seek_pos_advance_witness :
    smallWrite.1 = consumedCount (newEvents smallWriter smallWrite.2) ∧
    smallWrite.2.file.seek_pos =
      smallWriter.file.seek_pos + (consumedCount (newEvents smallWriter smallWrite.2) : Int) :=
  (write_seek_pos_advance toyEnv 8 smallWriter (memOf [65, 66, 67]) 3 (-1) smallWrite
    (eq_some_getD _ _ (by decide!)) (by decide!) (by decide)).1 (by decide!)

/-! ## The name tag -/

theorem s_bz2io_name_cases (name : List Nat) (bs : Option Int) :
    (((charAt name 0 = 66 ∨ charAt name 0 = 98) ∧ (charAt name 1 = 90 ∨ charAt name 1 = 122) ∧
        charAt name 2 = 58) ∧ s_bz2io_name name bs = (3, bs)) ∨
    (((charAt name 0 = 66 ∨ charAt name 0 = 98) ∧ (charAt name 1 = 90 ∨ charAt name 1 = 122) ∧
        49 ≤ charAt name 2 ∧ charAt name 2 ≤ 57 ∧ charAt name 3 = 58) ∧
      s_bz2io_name name bs = (4, bs.map fun _ => (charAt name 2 : Int) - 48)) ∨
    (¬ ((charAt name 0 = 66 ∨ charAt name 0 = 98) ∧ (charAt name 1 = 90 ∨ charAt name 1 = 122) ∧
        (charAt name 2 = 58 ∨ (49 ≤ charAt name 2 ∧ charAt name 2 ≤ 57 ∧ charAt name 3 = 58))) ∧
      s_bz2io_name name bs = (0, bs)) := by
  have up : ∀ c t : Nat, 65 ≤ t → t ≤ 90 → (HB_TOUPPER c = t ↔ (c = t ∨ c = t + 32)) := by
    intro c t ht ht2
    unfold HB_TOUPPER
    split <;> omega
  have h0 := up (charAt name 0) 66 (by omega) (by omega)
  have h1 := up (charAt name 1) 90 (by omega) (by omega)
  unfold s_bz2io_name
  by_cases hb : HB_TOUPPER (charAt name 0) = 66 ∧ HB_TOUPPER (charAt name 1) = 90
  · rw [if_pos hb]
    have hb0 := h0.1 hb.1
    have hb1 := h1.1 hb.2
    by_cases hc : charAt name 2 = 58
    · rw [if_pos hc]
      exact Or.inl ⟨⟨by omega, by omega, hc⟩, rfl⟩
    · rw [if_neg hc]
      by_cases hd : 49 ≤ charAt name 2 ∧ charAt name 2 ≤ 57 ∧ charAt name 3 = 58
      · rw [if_pos hd]
        exact Or.inr (Or.inl ⟨⟨by omega, by omega, hd⟩, rfl⟩)
      · rw [if_neg hd]
        refine Or.inr (Or.inr ⟨?_, rfl⟩)
        rintro ⟨_, _, h | h⟩
        · exact hc h
        · exact hd h
  · rw [if_neg hb]
    refine Or.inr (Or.inr ⟨?_, rfl⟩)
    rintro ⟨a, b, _⟩
    exact hb ⟨h0.2 (by omega), h1.2 (by omega)⟩

/-- C19: a name is accepted by `s_fileAccept` exactly when it starts with `B`
or `b`, then `Z` or `z`, then either `:` or a digit `1`..`9` and `:`.  In the
first form `s_bz2io_name` returns the name advanced by 3 characters and leaves
the block size alone, so `s_fileOpen` opens the rest of the name and creates
the handle with block size 9; in the second form it advances by 4 characters
and the block size becomes the digit's value; every other name is returned
as it is with the block size untouched. -/
theorem name_tag_parsing (name : List Nat) (bs : Option Int)
    (hb_fileExtOpen : List Nat → Option U) (nExFlags : Nat) (k0 : K) :
    (s_fileAccept name = true ↔
      ((charAt name 0 = 66 ∨ charAt name 0 = 98) ∧ (charAt name 1 = 90 ∨ charAt name 1 = 122) ∧
        (charAt name 2 = 58 ∨ (49 ≤ charAt name 2 ∧ charAt name 2 ≤ 57 ∧ charAt name 3 = 58)))) ∧
    (s_fileAccept name = true → charAt name 2 = 58 →
      s_bz2io_name name bs = (3, bs) ∧
      (s_fileOpen hb_fileExtOpen name nExFlags k0).map (fun f => f.iBlockSize) =
        (hb_fileExtOpen (name.drop 3)).map (fun _ => HB_BZ2_BLOCKSIZE)) ∧
    (s_fileAccept name = true → charAt name 2 ≠ 58 →
      s_bz2io_name name bs = (4, bs.map fun _ => (charAt name 2 : Int) - 48) ∧
      (s_fileOpen hb_fileExtOpen name nExFlags k0).map (fun f => f.iBlockSize) =
        (hb_fileExtOpen (name.drop 4)).map (fun _ => (charAt name 2 : Int) - 48)) ∧
    (s_fileAccept name = false →
      s_bz2io_name name bs = (0, bs) ∧
      (s_fileOpen hb_fileExtOpen name nExFlags k0).map (fun f => f.iBlockSize) =
        (hb_fileExtOpen name).map (fun _ => HB_BZ2_BLOCKSIZE)) := by
  have hopen : ∀ (n : Nat) (b : Int), s_bz2io_name name (some HB_BZ2_BLOCKSIZE) = (n, some b) →
      (s_fileOpen hb_fileExtOpen name nExFlags k0).map (fun f => f.iBlockSize) =
        (hb_fileExtOpen (name.drop n)).map (fun _ => b) := by
    intro n b h
    unfold s_fileOpen
    simp only [h]
    cases hb_fileExtOpen (List.drop n name) <;> simp [s_filebz2New]
  have hacc : s_fileAccept name = decide ((s_bz2io_name name none).1 ≠ 0) := rfl
  rcases s_bz2io_name_cases name none with ⟨c, e⟩ | ⟨c, e⟩ | ⟨c, e⟩
  all_goals rcases s_bz2io_name_cases name bs with ⟨c1, e1⟩ | ⟨c1, e1⟩ | ⟨c1, e1⟩
  all_goals rcases s_bz2io_name_cases name (some HB_BZ2_BLOCKSIZE) with ⟨c2, e2⟩ | ⟨c2, e2⟩ | ⟨c2, e2⟩
  all_goals first
    | (exfalso; omega)
    | (refine ⟨?_, ?_, ?_, ?_⟩
       · rw [hacc, e]; simp; omega
       · intro h1 h2; first | (exfalso; omega) | (exfalso; simp [hacc, e] at h1; done) | exact ⟨e1, hopen _ _ e2⟩
       · intro h1 h2; first | (exfalso; omega) | (exfalso; simp [hacc, e] at h1; done) | exact ⟨e1, hopen _ _ e2⟩
       · intro h2; first | (exfalso; omega) | (exfalso; simp [hacc, e] at h2; done) | exact ⟨e1, hopen _ _ e2⟩)

/-! ## Induction principles for the loops

Each principle lists the ways one round of a loop can go; a property of a loop
run follows once it is shown for every way. -/

/-- Induction over the rounds of the read loop. -/
theorem s_fileRead_loop_induct (E : Env U K) (t : Int)
    (P : World U K → Nat → Nat × World U K → Prop)
    (hexit : ∀ w n, w.file.bz2.avail_out = 0 → P w n (n, w))
    (hend : ∀ w n, w.file.bz2.avail_out ≠ 0 → (BZ2_bzDecompress E w).1 = BZ_STREAM_END →
      P w n (n, { BZ2_bzDecompressEnd E (BZ2_bzDecompress E w).2 with
                  file := { (BZ2_bzDecompressEnd E (BZ2_bzDecompress E w).2).file with
                            fInited := false, fEof := true } }))
    (hfail : ∀ w n, w.file.bz2.avail_out ≠ 0 → (BZ2_bzDecompress E w).1 ≠ BZ_OK →
      (BZ2_bzDecompress E w).1 ≠ BZ_STREAM_END →
      P w n (HB_SIZE_ERROR, hb_fsSetError (BZ2_bzDecompress E w).2
              (HB_BZ2_ERROR_BASE - (BZ2_bzDecompress E w).1)))
    (hstop : ∀ w n (r : Nat × World U K), w.file.bz2.avail_out ≠ 0 →
      (BZ2_bzDecompress E w).1 = BZ_OK → (BZ2_bzDecompress E w).2.file.bz2.avail_in = 0 →
      r = underlyingRead E (BZ2_bzDecompress E w).2 HB_BZ2_BUFSIZE
            (if (BZ2_bzDecompress E w).2.file.bz2.avail_out ≠ 0 then t else 0) →
      r.1 = 0 ∨ r.1 = HB_SIZE_ERROR → P w n r)
    (hrefill : ∀ w n (r : Nat × World U K) res, w.file.bz2.avail_out ≠ 0 →
      (BZ2_bzDecompress E w).1 = BZ_OK → (BZ2_bzDecompress E w).2.file.bz2.avail_in = 0 →
      r = underlyingRead E (BZ2_bzDecompress E w).2 HB_BZ2_BUFSIZE
            (if (BZ2_bzDecompress E w).2.file.bz2.avail_out ≠ 0 then t else 0) →
      ¬ (r.1 = 0 ∨ r.1 = HB_SIZE_ERROR) →
      P (r.2.setBz { r.2.file.bz2 with next_in := .staging 0, avail_in := r.1 % 2 ^ 32 }) r.1 res →
      P w n res)
    (hcont : ∀ w n res, w.file.bz2.avail_out ≠ 0 → (BZ2_bzDecompress E w).1 = BZ_OK →
      (BZ2_bzDecompress E w).2.file.bz2.avail_in ≠ 0 → P (BZ2_bzDecompress E w).2 n res →
      P w n res) (fuel : Nat) :
    ∀ (w : World U K) (n : Nat) (r : Nat × World U K),
      s_fileRead_loop E fuel w t n = some r → P w n r := by
  induction fuel with
  | zero =>
    intro w n r h
    unfold s_fileRead_loop at h
    by_cases ha : w.file.bz2.avail_out ≠ 0
    · simp [ha] at h
    · rw [if_neg ha] at h
      injection h with h
      subst h
      exact hexit w n (by simpa using ha)
  | succ k ih =>
    intro w n r h
    unfold s_fileRead_loop at h
    by_cases ha : w.file.bz2.avail_out ≠ 0
    · rw [if_pos ha] at h
      simp only at h
      by_cases hok : (BZ2_bzDecompress E w).1 ≠ BZ_OK
      · rw [if_pos hok] at h
        by_cases hse : (BZ2_bzDecompress E w).1 = BZ_STREAM_END
        · rw [if_pos hse] at h
          injection h with h
          subst h
          exact hend w n ha hse
        · rw [if_neg hse] at h
          injection h with h
          subst h
          exact hfail w n ha hok hse
      · rw [if_neg hok] at h
        have hok : (BZ2_bzDecompress E w).1 = BZ_OK := by simpa using hok
        by_cases hin : (BZ2_bzDecompress E w).2.file.bz2.avail_in = 0
        · rw [if_pos hin] at h
          by_cases hr : (underlyingRead E (BZ2_bzDecompress E w).2 HB_BZ2_BUFSIZE
              (if (BZ2_bzDecompress E w).2.file.bz2.avail_out ≠ 0 then t else 0)).1 = 0 ∨
              (underlyingRead E (BZ2_bzDecompress E w).2 HB_BZ2_BUFSIZE
              (if (BZ2_bzDecompress E w).2.file.bz2.avail_out ≠ 0 then t else 0)).1 = HB_SIZE_ERROR
          · rw [if_pos hr] at h
            injection h with h
            subst h
            exact hstop w n _ ha hok hin rfl hr
          · rw [if_neg hr] at h
            exact hrefill w n _ r ha hok hin rfl hr (ih _ _ _ h)
        · rw [if_neg hin] at h
          exact hcont w n r ha hok hin (ih _ _ _ h)
    · rw [if_neg ha] at h
      injection h with h
      subst h
      exact hexit w n (by simpa using ha)

/-- Induction over the rounds of the drain loop of `s_bz2_write`. -/
theorem s_bz2_write_loop_induct (E : Env U K) (nSize : Nat) (hsz : nSize < 2 ^ 64)
    (P : World U K → Nat → Int → Option Nat × World U K → Prop)
    (hdone : ∀ w nWritten t, nWritten = nSize → P w nWritten t (some nWritten, w))
    (hfail : ∀ w nWritten t, nWritten < nSize →
      (underlyingWrite E w nWritten (nSize - nWritten) t).1 = HB_SIZE_ERROR →
      P w nWritten t (none, (underlyingWrite E w nWritten (nSize - nWritten) t).2))
    (hstall : ∀ w nWritten t, nWritten < nSize →
      (underlyingWrite E w nWritten (nSize - nWritten) t).1 = 0 →
      P w nWritten t (some nWritten, (underlyingWrite E w nWritten (nSize - nWritten) t).2))
    (hstep : ∀ w nWritten t res, nWritten < nSize →
      0 < (underlyingWrite E w nWritten (nSize - nWritten) t).1 →
      (underlyingWrite E w nWritten (nSize - nWritten) t).1 ≤ nSize - nWritten →
      (underlyingWrite E w nWritten (nSize - nWritten) t).1 ≠ HB_SIZE_ERROR →
      P (underlyingWrite E w nWritten (nSize - nWritten) t).2
        (nWritten + (underlyingWrite E w nWritten (nSize - nWritten) t).1)
        (if t > 0 then 0 else t) res →
      P w nWritten t res) (rounds : Nat) :
    ∀ (w : World U K) (nWritten : Nat) (t : Int),
      nWritten ≤ nSize → nSize - nWritten ≤ rounds →
      P w nWritten t (s_bz2_write_loop E rounds w nSize nWritten t) := by
  induction rounds with
  | zero =>
    intro w nWritten t hle hr
    unfold s_bz2_write_loop
    exact hdone w nWritten t (by omega)
  | succ k ih =>
    intro w nWritten t hle hr
    unfold s_bz2_write_loop
    by_cases hlt : nWritten < nSize
    · rw [if_pos hlt]
      simp only
      have hb := (underlyingWrite_step E w nWritten (nSize - nWritten) t).2.2.2.2
      by_cases he : (underlyingWrite E w nWritten (nSize - nWritten) t).1 = HB_SIZE_ERROR
      · rw [if_pos he]
        exact hfail w nWritten t hlt he
      · rw [if_neg he]
        have hb : (underlyingWrite E w nWritten (nSize - nWritten) t).1 ≤ nSize - nWritten := by
          rcases hb with hb | hb
          · exact absurd hb he
          · exact hb
        by_cases hz : (underlyingWrite E w nWritten (nSize - nWritten) t).1 = 0
        · rw [if_pos hz]
          exact hstall w nWritten t hlt hz
        · rw [if_neg hz]
          have hmod : (nWritten + (underlyingWrite E w nWritten (nSize - nWritten) t).1) % 2 ^ 64 =
              nWritten + (underlyingWrite E w nWritten (nSize - nWritten) t).1 :=
            Nat.mod_eq_of_lt (by omega)
          rw [hmod]
          exact hstep w nWritten t _ hlt (by omega) hb he (ih _ _ _ (by omega) (by omega))
    · rw [if_neg hlt]
      exact hdone w nWritten t (by omega)

/-- Induction over the rounds of the write loop. -/
theorem s_fileWrite_loop_induct (E : Env U K) (t : Int)
    (P : World U K → Nat → Nat × World U K → Prop)
    (hexit : ∀ w n, w.file.bz2.avail_in = 0 → P w n (n, w))
    (hdrain : ∀ w n, w.file.bz2.avail_in ≠ 0 → w.file.bz2.avail_out = 0 →
      (s_bz2_write E w t).1 = 0 ∨ (s_bz2_write E w t).1 = HB_SIZE_ERROR →
      P w n (s_bz2_write E w t))
    (hfail : ∀ w n (dr : Nat × World U K), w.file.bz2.avail_in ≠ 0 →
      dr = (if w.file.bz2.avail_out = 0 then s_bz2_write E w t else (n, w)) →
      ¬ (w.file.bz2.avail_out = 0 ∧ (dr.1 = 0 ∨ dr.1 = HB_SIZE_ERROR)) →
      (BZ2_bzCompress E dr.2 BZ_RUN).1 ≠ BZ_RUN_OK →
      P w n (HB_SIZE_ERROR, hb_fsSetError (BZ2_bzCompress E dr.2 BZ_RUN).2
              (HB_BZ2_ERROR_BASE - (BZ2_bzCompress E dr.2 BZ_RUN).1)))
    (hstep : ∀ w n (dr : Nat × World U K) res, w.file.bz2.avail_in ≠ 0 →
      dr = (if w.file.bz2.avail_out = 0 then s_bz2_write E w t else (n, w)) →
      ¬ (w.file.bz2.avail_out = 0 ∧ (dr.1 = 0 ∨ dr.1 = HB_SIZE_ERROR)) →
      (BZ2_bzCompress E dr.2 BZ_RUN).1 = BZ_RUN_OK →
      P (BZ2_bzCompress E dr.2 BZ_RUN).2 dr.1 res → P w n res) (fuel : Nat) :
    ∀ (w : World U K) (n : Nat) (r : Nat × World U K),
      s_fileWrite_loop E fuel w t n = some r → P w n r := by
  induction fuel with
  | zero =>
    intro w n r h
    unfold s_fileWrite_loop at h
    by_cases ha : w.file.bz2.avail_in ≠ 0
    · simp [ha] at h
    · rw [if_neg ha] at h
      injection h with h
      subst h
      exact hexit w n (by simpa using ha)
  | succ k ih =>
    intro w n r h
    unfold s_fileWrite_loop at h
    by_cases ha : w.file.bz2.avail_in ≠ 0
    · rw [if_pos ha] at h
      simp only at h
      by_cases hd : w.file.bz2.avail_out = 0 ∧
          ((if w.file.bz2.avail_out = 0 then s_bz2_write E w t else (n, w)).1 = 0 ∨
            (if w.file.bz2.avail_out = 0 then s_bz2_write E w t else (n, w)).1 = HB_SIZE_ERROR)
      · rw [if_pos hd] at h
        injection h with h
        subst h
        have h0 := hd.1
        rw [if_pos h0] at hd ⊢
        exact hdrain w n ha h0 hd.2
      · rw [if_neg hd] at h
        by_cases hc : (BZ2_bzCompress E
            (if w.file.bz2.avail_out = 0 then s_bz2_write E w t else (n, w)).2 BZ_RUN).1 ≠ BZ_RUN_OK
        · rw [if_pos hc] at h
          injection h with h
          subst h
          exact hfail w n _ ha rfl hd hc
        · rw [if_neg hc] at h
          exact hstep w n _ r ha rfl hd (by simpa using hc) (ih _ _ _ h)
    · rw [if_neg ha] at h
      injection h with h
      subst h
      exact hexit w n (by simpa using ha)

/-- Induction over the rounds of the loop of `s_bz2_flush`. -/
theorem s_bz2_flush_loop_induct (E : Env U K) (fClose : Bool)
    (P : World U K → Int → World U K × Option Int → Prop)
    (hexit : ∀ w err, ¬ w.file.bz2.avail_out < HB_BZ2_BUFSIZE → P w err (w, some err))
    (hearly : ∀ w err, w.file.bz2.avail_out < HB_BZ2_BUFSIZE →
      (s_bz2_write E w w.file.nTimeout).1 = 0 ∨ (s_bz2_write E w w.file.nTimeout).1 = HB_SIZE_ERROR →
      P w err ((s_bz2_write E w w.file.nTimeout).2, none))
    (hagain : ∀ w err res, w.file.bz2.avail_out < HB_BZ2_BUFSIZE →
      ¬ ((s_bz2_write E w w.file.nTimeout).1 = 0 ∨
          (s_bz2_write E w w.file.nTimeout).1 = HB_SIZE_ERROR) →
      err = BZ_FLUSH_OK ∨ err = BZ_FINISH_OK →
      P (BZ2_bzCompress E (s_bz2_write E w w.file.nTimeout).2
            (if fClose then BZ_FINISH else BZ_FLUSH)).2
        (BZ2_bzCompress E (s_bz2_write E w w.file.nTimeout).2
            (if fClose then BZ_FINISH else BZ_FLUSH)).1 res →
      P w err res)
    (hdrain : ∀ w err res, w.file.bz2.avail_out < HB_BZ2_BUFSIZE →
      ¬ ((s_bz2_write E w w.file.nTimeout).1 = 0 ∨
          (s_bz2_write E w w.file.nTimeout).1 = HB_SIZE_ERROR) →
      ¬ (err = BZ_FLUSH_OK ∨ err = BZ_FINISH_OK) →
      P (s_bz2_write E w w.file.nTimeout).2 err res → P w err res) (fuel : Nat) :
    ∀ (w : World U K) (err : Int) (r : World U K × Option Int),
      s_bz2_flush_loop E fuel w fClose err = some r → P w err r := by
  induction fuel with
  | zero =>
    intro w err r h
    unfold s_bz2_flush_loop at h
    by_cases ha : w.file.bz2.avail_out < HB_BZ2_BUFSIZE
    · simp [ha] at h
    · rw [if_neg ha] at h
      injection h with h
      subst h
      exact hexit w err ha
  | succ k ih =>
    intro w err r h
    unfold s_bz2_flush_loop at h
    by_cases ha : w.file.bz2.avail_out < HB_BZ2_BUFSIZE
    · rw [if_pos ha] at h
      simp only at h
      by_cases hd : (s_bz2_write E w w.file.nTimeout).1 = 0 ∨
          (s_bz2_write E w w.file.nTimeout).1 = HB_SIZE_ERROR
      · rw [if_pos hd] at h
        injection h with h
        subst h
        exact hearly w err ha hd
      · rw [if_neg hd] at h
        by_cases he : err = BZ_FLUSH_OK ∨ err = BZ_FINISH_OK
        · rw [if_pos he] at h
          exact hagain w err r ha hd he (ih _ _ _ h)
        · rw [if_neg he] at h
          exact hdrain w err r ha hd he (ih _ _ _ h)
    · rw [if_neg ha] at h
      injection h with h
      subst h
      exact hexit w err ha

/-! ## Which side of the staging buffer a call uses -/

theorem s_fileRead_loop_sides (E : Env U K) (t : Int) (fuel : Nat) (w : World U K) (n : Nat)
    (r : Nat × World U K) (h : s_fileRead_loop E fuel w t n = some r) :
    ∃ evs, r.2.trace = w.trace ++ evs ∧ ∀ e ∈ evs, e.onOutput = false := by
  refine s_fileRead_loop_induct E t
    (fun w _ r => ∃ evs, r.2.trace = w.trace ++ evs ∧ ∀ e ∈ evs, e.onOutput = false)
    ?_ ?_ ?_ ?_ ?_ ?_ fuel w n r h
  · intro w n _
    exact ⟨[], by simp, by simp⟩
  · intro w n _ _
    obtain ⟨c, p, htr, _⟩ := BZ2_bzDecompress_step E w
    refine ⟨[Event.decompress (BZ2_bzDecompress E w).1 c p, Event.decompressEnd], ?_, ?_⟩
    · simp [BZ2_bzDecompressEnd, World.setBz, htr]
    · simp [Event.onOutput]
  · intro w n _ _ _
    obtain ⟨c, p, htr, _⟩ := BZ2_bzDecompress_step E w
    exact ⟨[Event.decompress (BZ2_bzDecompress E w).1 c p], by simp [hb_fsSetError, htr],
      by simp [Event.onOutput]⟩
  · intro w n r _ _ _ hr _
    obtain ⟨c, p, htr, _⟩ := BZ2_bzDecompress_step E w
    obtain ⟨dat, utr, _⟩ := underlyingRead_step E (BZ2_bzDecompress E w).2 HB_BZ2_BUFSIZE
      (if (BZ2_bzDecompress E w).2.file.bz2.avail_out ≠ 0 then t else 0)
    rw [← hr] at utr
    exact ⟨[Event.decompress (BZ2_bzDecompress E w).1 c p, Event.uRead HB_BZ2_BUFSIZE
        (if (BZ2_bzDecompress E w).2.file.bz2.avail_out ≠ 0 then t else 0) r.1 dat],
      by simp [utr, htr], by simp [Event.onOutput]⟩
  · intro w n r res _ _ _ hr _ ih
    obtain ⟨c, p, htr, _⟩ := BZ2_bzDecompress_step E w
    obtain ⟨dat, utr, _⟩ := underlyingRead_step E (BZ2_bzDecompress E w).2 HB_BZ2_BUFSIZE
      (if (BZ2_bzDecompress E w).2.file.bz2.avail_out ≠ 0 then t else 0)
    rw [← hr] at utr
    obtain ⟨evs, e1, e2⟩ := ih
    refine ⟨[Event.decompress (BZ2_bzDecompress E w).1 c p, Event.uRead HB_BZ2_BUFSIZE
        (if (BZ2_bzDecompress E w).2.file.bz2.avail_out ≠ 0 then t else 0) r.1 dat] ++ evs,
      ?_, ?_⟩
    · simp [e1, World.setBz, utr, htr]
    · intro e he
      simp only [List.mem_append, List.mem_cons, List.mem_singleton, List.not_mem_nil,
        or_false] at he
      rcases he with (he | he) | he
      · subst he; rfl
      · subst he; rfl
      · exact e2 e he
  · intro w n res _ _ _ ih
    obtain ⟨c, p, htr, _⟩ := BZ2_bzDecompress_step E w
    obtain ⟨evs, e1, e2⟩ := ih
    refine ⟨[Event.decompress (BZ2_bzDecompress E w).1 c p] ++ evs, ?_, ?_⟩
    · simp [e1, htr]
    · intro e he
      simp only [List.mem_append, List.mem_singleton] at he
      rcases he with he | he
      · subst he; rfl
      · exact e2 e he

theorem s_fileWrite_loop_sides (E : Env U K) (t : Int) (fuel : Nat) (w : World U K) (n : Nat)
    (r : Nat × World U K) (h : s_fileWrite_loop E fuel w t n = some r) :
    ∃ evs, r.2.trace = w.trace ++ evs ∧ ∀ e ∈ evs, e.onInput = false := by
  have hdr : ∀ (w : World U K) (n : Nat), ∃ devs,
      (if w.file.bz2.avail_out = 0 then s_bz2_write E w t else (n, w)).2.trace = w.trace ++ devs ∧
      ∀ e ∈ devs, e.onInput = false := by
    intro w n
    obtain ⟨devs, d1, _, _, d4, _⟩ := s_fileWrite_drain E w t n
    refine ⟨devs, d1, ?_⟩
    intro e he
    obtain ⟨d, t, res, rfl⟩ := d4 e he
    rfl
  refine s_fileWrite_loop_induct E t
    (fun w _ r => ∃ evs, r.2.trace = w.trace ++ evs ∧ ∀ e ∈ evs, e.onInput = false)
    ?_ ?_ ?_ ?_ fuel w n r h
  · intro w n _
    exact ⟨[], by simp, by simp⟩
  · intro w n _ h0 _
    have := hdr w n
    rwa [if_pos h0] at this
  · intro w n dr _ hdr' _ _
    obtain ⟨devs, d1, d2⟩ := hdr w n
    rw [← hdr'] at d1
    obtain ⟨c, p, htr, _⟩ := BZ2_bzCompress_step E dr.2 BZ_RUN
    refine ⟨devs ++ [Event.compress BZ_RUN (BZ2_bzCompress E dr.2 BZ_RUN).1 c p], ?_, ?_⟩
    · simp [hb_fsSetError, htr, d1]
    · intro e he
      simp only [List.mem_append, List.mem_singleton] at he
      rcases he with he | he
      · exact d2 e he
      · subst he; rfl
  · intro w n dr res _ hdr' _ _ ih
    obtain ⟨devs, d1, d2⟩ := hdr w n
    rw [← hdr'] at d1
    obtain ⟨c, p, htr, _⟩ := BZ2_bzCompress_step E dr.2 BZ_RUN
    obtain ⟨evs, e1, e2⟩ := ih
    refine ⟨devs ++ [Event.compress BZ_RUN (BZ2_bzCompress E dr.2 BZ_RUN).1 c p] ++ evs, ?_, ?_⟩
    · simp [e1, htr, d1]
    · intro e he
      simp only [List.mem_append, List.mem_singleton] at he
      rcases he with (he | he) | he
      · exact d2 e he
      · subst he; rfl
      · exact e2 e he

theorem BZ2_bzDecompressInit_step (E : Env U K) (w : World U K) :
    (BZ2_bzDecompressInit E w).2.trace = w.trace ++ [Event.decompressInit (BZ2_bzDecompressInit E w).1] ∧
      SameCtl w (BZ2_bzDecompressInit E w).2 ∧ (BZ2_bzDecompressInit E w).2.fsError = w.fsError :=
  ⟨rfl, ⟨rfl, rfl, rfl, rfl, rfl, rfl⟩, rfl⟩

/-- What `s_fileRead` adds to the trace: nothing on the output side. -/
theorem s_fileRead_trace (E : Env U K) (fuel : Nat) (w : World U K) (buffer : Mem) (nSize : Nat)
    (nTimeout : Int) (out : Nat × World U K)
    (h : s_fileRead E fuel w buffer nSize nTimeout = some out) :
    ∃ evs, out.2.trace = w.trace ++ evs ∧ ∀ e ∈ evs, e.onOutput = false := by
  unfold s_fileRead at h
  by_cases hmode : w.file.iMode ≠ FO_WRITE
  · rw [if_pos hmode] at h
    by_cases heof : w.file.fEof = true
    · rw [if_pos heof] at h
      injection h with h
      subst h
      exact ⟨[], by simp [hb_fsSetError], by simp⟩
    · rw [if_neg heof] at h
      simp only at h
      have hi : ∃ ievs, (if w.file.fInited = false then BZ2_bzDecompressInit E w
          else (BZ_OK, w)).2.trace = w.trace ++ ievs ∧ ∀ e ∈ ievs, e.onOutput = false := by
        by_cases hin : w.file.fInited = false
        · rw [if_pos hin]
          exact ⟨[Event.decompressInit (BZ2_bzDecompressInit E w).1], rfl, by simp [Event.onOutput]⟩
        · rw [if_neg hin]
          exact ⟨[], by simp, by simp⟩
      obtain ⟨ievs, i1, i2⟩ := hi
      generalize (if w.file.fInited = false then BZ2_bzDecompressInit E w else (BZ_OK, w)) = i at *
      split at h
      · injection h with h
        subst h
        exact ⟨ievs, by simp [hb_fsSetError, i1], i2⟩
      · split at h
        · simp at h
        · rename_i nR w4 hloop
          injection h with h
          subst h
          obtain ⟨evs, e1, e2⟩ := s_fileRead_loop_sides E _ fuel _ _ _ hloop
          refine ⟨ievs ++ evs, ?_, ?_⟩
          · rw [e1]
            by_cases hin : w.file.fInited = false <;> simp [hin, World.setBz, hb_fsSetError, i1]
          · intro e he
            rcases List.mem_append.1 he with he | he
            · exact i2 e he
            · exact e2 e he
  · rw [if_neg hmode] at h
    injection h with h
    subst h
    exact ⟨[], by simp [hb_fsSetError], by simp⟩

/-- What `s_fileRead` adds to the trace: nothing on the output side, and
something on the input side only when the handle ends up in read mode. -/
theorem s_fileRead_sides (E : Env U K) (fuel : Nat) (w : World U K) (buffer : Mem) (nSize : Nat)
    (nTimeout : Int) (out : Nat × World U K)
    (h : s_fileRead E fuel w buffer nSize nTimeout = some out) (hinv : HandleInv w) :
    ∃ evs, out.2.trace = w.trace ++ evs ∧ (∀ e ∈ evs, e.onOutput = false) ∧
      ((∃ e ∈ evs, e.onInput = true) → out.2.file.iMode = FO_READ) := by
  obtain ⟨evs, e1, e2⟩ := s_fileRead_trace E fuel w buffer nSize nTimeout out h
  refine ⟨evs, e1, e2, ?_⟩
  have hnew := newEvents_of_append e1
  rintro ⟨e, he, hk⟩
  rcases s_fileRead_cases E fuel w buffer nSize nTimeout out h with
    ⟨_, a⟩ | ⟨_, _, a⟩ | ⟨_, _, _, _, a⟩ | ⟨hmode, _, _, _, a, _⟩
  · rw [a] at hnew
    simp only [newEvents_self] at hnew
    rw [← hnew] at he
    simp at he
  · rw [a] at hnew
    simp only [newEvents_self] at hnew
    rw [← hnew] at he
    simp at he
  · rw [a] at hnew
    have : newEvents w (hb_fsSetError (BZ2_bzDecompressInit E w).2
        (HB_BZ2_ERROR_BASE - (BZ2_bzDecompressInit E w).1)) =
        [Event.decompressInit (BZ2_bzDecompressInit E w).1] := newEvents_of_append rfl
    rw [this] at hnew
    rw [← hnew] at he
    simp only [List.mem_singleton] at he
    subst he
    simp [Event.onInput] at hk
  · rw [a]
    by_cases hin : w.file.fInited = false
    · rw [if_pos hin]
    · rw [if_neg hin]
      rcases hinv.1 (by simpa using hin) with h1 | h1
      · exact h1
      · exact absurd h1 hmode

/-- What `s_fileWrite` adds to the trace: nothing on the input side. -/
theorem s_fileWrite_trace (E : Env U K) (fuel : Nat) (w : World U K) (buffer : Mem) (nSize : Nat)
    (nTimeout : Int) (out : Nat × World U K)
    (h : s_fileWrite E fuel w buffer nSize nTimeout = some out) :
    ∃ evs, out.2.trace = w.trace ++ evs ∧ ∀ e ∈ evs, e.onInput = false := by
  unfold s_fileWrite at h
  by_cases hmode : w.file.iMode ≠ FO_READ
  · rw [if_pos hmode] at h
    simp only at h
    have hi : ∃ ievs, (if w.file.fInited = false then
          BZ2_bzCompressInit E
            (w.setBz { w.file.bz2 with next_out := .staging 0, avail_out := HB_BZ2_BUFSIZE })
            w.file.iBlockSize
        else (BZ_OK, w)).2.trace = w.trace ++ ievs ∧ ∀ e ∈ ievs, e.onInput = false := by
      by_cases hin : w.file.fInited = false
      · rw [if_pos hin]
        exact ⟨[Event.compressInit w.file.iBlockSize (BZ2_bzCompressInit E
            (w.setBz { w.file.bz2 with next_out := .staging 0, avail_out := HB_BZ2_BUFSIZE })
            w.file.iBlockSize).1], rfl, by simp [Event.onInput]⟩
      · rw [if_neg hin]
        exact ⟨[], by simp, by simp⟩
    obtain ⟨ievs, i1, i2⟩ := hi
    generalize (if w.file.fInited = false then
          BZ2_bzCompressInit E
            (w.setBz { w.file.bz2 with next_out := .staging 0, avail_out := HB_BZ2_BUFSIZE })
            w.file.iBlockSize
        else (BZ_OK, w)) = i at *
    split at h
    · injection h with h
      subst h
      exact ⟨ievs, by simp [hb_fsSetError, i1], i2⟩
    · split at h
      · simp at h
      · rename_i nR w4 hloop
        injection h with h
        subst h
        obtain ⟨evs, e1, e2⟩ := s_fileWrite_loop_sides E _ fuel _ _ _ hloop
        refine ⟨ievs ++ evs, ?_, ?_⟩
        · show w4.trace = _
          rw [e1]
          by_cases hin : w.file.fInited = false <;> simp [hin, World.setBz, hb_fsSetError, i1]
        · intro e he
          rcases List.mem_append.1 he with he | he
          · exact i2 e he
          · exact e2 e he
  · rw [if_neg hmode] at h
    injection h with h
    subst h
    exact ⟨[], by simp [hb_fsSetError], by simp⟩

/-- What `s_fileWrite` adds to the trace: nothing on the input side, and
something on the output side only when the handle ends up in write mode. -/
theorem s_fileWrite_sides (E : Env U K) (fuel : Nat) (w : World U K) (buffer : Mem) (nSize : Nat)
    (nTimeout : Int) (out : Nat × World U K)
    (h : s_fileWrite E fuel w buffer nSize nTimeout = some out) (hinv : HandleInv w) :
    ∃ evs, out.2.trace = w.trace ++ evs ∧ (∀ e ∈ evs, e.onInput = false) ∧
      ((∃ e ∈ evs, e.onOutput = true) → out.2.file.iMode = FO_WRITE) := by
  obtain ⟨evs, e1, e2⟩ := s_fileWrite_trace E fuel w buffer nSize nTimeout out h
  refine ⟨evs, e1, e2, ?_⟩
  have hnew := newEvents_of_append e1
  rintro ⟨e, he, hk⟩
  rcases s_fileWrite_cases E fuel w buffer nSize nTimeout out h with
    ⟨_, a⟩ | ⟨_, _, _, a⟩ | ⟨hmode, _, _, _, a, _⟩
  · rw [a] at hnew
    simp only [newEvents_self] at hnew
    rw [← hnew] at he
    simp at he
  · rw [a] at hnew
    have : newEvents w (hb_fsSetError
        (BZ2_bzCompressInit E (compressInitWorld w) w.file.iBlockSize).2
        (HB_BZ2_ERROR_BASE - (BZ2_bzCompressInit E (compressInitWorld w) w.file.iBlockSize).1)) =
        [Event.compressInit w.file.iBlockSize
          (BZ2_bzCompressInit E (compressInitWorld w) w.file.iBlockSize).1] :=
      newEvents_of_append rfl
    rw [this] at hnew
    rw [← hnew] at he
    simp only [List.mem_singleton] at he
    subst he
    simp [Event.onOutput] at hk
  · rw [a]
    by_cases hin : w.file.fInited = false
    · rw [if_pos hin]
    · rw [if_neg hin]
      rcases hinv.1 (by simpa using hin) with h1 | h1
      · exact absurd h1 hmode
      · exact h1

/-- What one operation adds to the trace, by side of the staging buffer. -/
theorem applyOp_sides (E : Env U K) (fuel : Nat) (op : Op) (w w1 : World U K)
    (h : applyOp E fuel op w = some w1) (hinv : HandleInv w) :
    ∃ evs, w1.trace = w.trace ++ evs ∧
      ((∃ e ∈ evs, e.onInput = true) → w1.file.iMode = FO_READ) ∧
      ((∃ e ∈ evs, e.onOutput = true) → w1.file.iMode = FO_WRITE) := by
  have hno : ∀ evs : List Event, (∀ e ∈ evs, e.onOutput = false) →
      ¬ ∃ e ∈ evs, e.onOutput = true := by
    rintro evs h1 ⟨e, he, hk⟩
    rw [h1 e he] at hk
    exact absurd hk (by decide)
  have hni : ∀ evs : List Event, (∀ e ∈ evs, e.onInput = false) →
      ¬ ∃ e ∈ evs, e.onInput = true := by
    rintro evs h1 ⟨e, he, hk⟩
    rw [h1 e he] at hk
    exact absurd hk (by decide)
  have hrd : ∀ b n t (out : Nat × World U K), s_fileRead E fuel w b n t = some out →
      ∃ evs, out.2.trace = w.trace ++ evs ∧
      ((∃ e ∈ evs, e.onInput = true) → out.2.file.iMode = FO_READ) ∧
      ((∃ e ∈ evs, e.onOutput = true) → out.2.file.iMode = FO_WRITE) := by
    intro b n t out ho
    obtain ⟨evs, e1, e2, e3⟩ := s_fileRead_sides E fuel w b n t out ho hinv
    exact ⟨evs, e1, e3, fun hx => absurd hx (hno evs e2)⟩
  have hwr : ∀ b n t (out : Nat × World U K), s_fileWrite E fuel w b n t = some out →
      ∃ evs, out.2.trace = w.trace ++ evs ∧
      ((∃ e ∈ evs, e.onInput = true) → out.2.file.iMode = FO_READ) ∧
      ((∃ e ∈ evs, e.onOutput = true) → out.2.file.iMode = FO_WRITE) := by
    intro b n t out ho
    obtain ⟨evs, e1, e2, e3⟩ := s_fileWrite_sides E fuel w b n t out ho hinv
    exact ⟨evs, e1, fun hx => absurd hx (hni evs e2), e3⟩
  have hcall : ∀ {α : Type} (r : CallRes U α) (ev : Event), ev.onInput = false →
      ev.onOutput = false →
      ∃ evs, (w.called r ev).trace = w.trace ++ evs ∧
      ((∃ e ∈ evs, e.onInput = true) → (w.called r ev).file.iMode = FO_READ) ∧
      ((∃ e ∈ evs, e.onOutput = true) → (w.called r ev).file.iMode = FO_WRITE) := by
    intro α r ev h1 h2
    refine ⟨[ev], rfl, ?_, ?_⟩
    · rintro ⟨e, he, hk⟩
      simp only [List.mem_singleton] at he
      subst he
      rw [h1] at hk
      exact absurd hk (by decide)
    · rintro ⟨e, he, hk⟩
      simp only [List.mem_singleton] at he
      subst he
      rw [h2] at hk
      exact absurd hk (by decide)
  have hnone : ∀ w1 : World U K, w1.trace = w.trace →
      ∃ evs, w1.trace = w.trace ++ evs ∧
      ((∃ e ∈ evs, e.onInput = true) → w1.file.iMode = FO_READ) ∧
      ((∃ e ∈ evs, e.onOutput = true) → w1.file.iMode = FO_WRITE) := by
    intro w1 ht
    exact ⟨[], by simp [ht], by simp, by simp⟩
  cases op with
  | read b n t =>
    simp only [applyOp, Option.map_eq_some'] at h
    obtain ⟨out, ho, rfl⟩ := h
    exact hrd b n t out ho
  | write b n t =>
    simp only [applyOp, Option.map_eq_some'] at h
    obtain ⟨out, ho, rfl⟩ := h
    exact hwr b n t out ho
  | readAt b n o =>
    simp only [applyOp, Option.map_eq_some'] at h
    obtain ⟨out, ho, rfl⟩ := h
    unfold s_fileReadAt at ho
    split at ho
    · exact hrd b n _ out ho
    · injection ho with ho
      subst ho
      exact hnone _ rfl
  | writeAt b n o =>
    simp only [applyOp, Option.map_eq_some'] at h
    obtain ⟨out, ho, rfl⟩ := h
    unfold s_fileWriteAt at ho
    split at ho
    · exact hwr b n _ out ho
    · injection ho with ho
      subst ho
      exact hnone _ rfl
  | truncAt o =>
    simp only [applyOp, Option.some.injEq] at h
    subst h
    unfold s_fileTruncAt
    split <;> exact hnone _ rfl
  | seek o f =>
    simp only [applyOp, Option.some.injEq] at h
    subst h
    unfold s_fileSeek
    split <;> exact hnone _ rfl
  | size =>
    simp only [applyOp, Option.some.injEq] at h
    subst h
    exact hnone _ rfl
  | eof =>
    simp only [applyOp, Option.some.injEq] at h
    subst h
    unfold s_fileEof
    split
    · exact hnone _ rfl
    · exact hcall _ _ rfl rfl
  | flush d =>
    simp only [applyOp, Option.some.injEq] at h
    subst h
    unfold s_fileFlush
    split
    · exact hcall _ _ rfl rfl
    · exact hnone _ rfl
  | commit =>
    simp only [applyOp, Option.some.injEq] at h
    subst h
    unfold s_fileCommit
    split
    · rename_i hc
      simp only [s_fileFlush, if_pos hc]
      refine ⟨[Event.uFlush true, Event.uCommit], by simp [World.called], ?_, ?_⟩
      · rintro ⟨e, he, hk⟩
        simp only [List.mem_cons, List.mem_singleton, List.not_mem_nil, or_false] at he
        rcases he with he | he <;> subst he <;> simp [Event.onInput] at hk
      · rintro ⟨e, he, hk⟩
        simp only [List.mem_cons, List.mem_singleton, List.not_mem_nil, or_false] at he
        rcases he with he | he <;> subst he <;> simp [Event.onOutput] at hk
    · exact hnone _ rfl
  | configure i v =>
    simp only [applyOp, Option.some.injEq] at h
    subst h
    unfold s_fileConfigure
    split
    · cases v <;> exact hnone _ rfl
    · split
      · exact hnone _ rfl
      · split
        · exact hcall _ _ rfl rfl
        · split
          · simp only
            split <;> exact hcall _ _ rfl rfl
          · exact hcall _ _ rfl rfl

/-- Calls on the input side are only in the trace of a handle in read mode,
calls on the output side only in the trace of a handle in write mode. -/
theorem runOps_sides (E : Env U K) (fuel : Nat) (ops : List Op) :
    ∀ (w w1 : World U K), runOps E fuel ops w = some w1 → HandleInv w →
      ((∃ e ∈ w.trace, e.onInput = true) → w.file.iMode = FO_READ) →
      ((∃ e ∈ w.trace, e.onOutput = true) → w.file.iMode = FO_WRITE) →
      ((∃ e ∈ w1.trace, e.onInput = true) → w1.file.iMode = FO_READ) ∧
      ((∃ e ∈ w1.trace, e.onOutput = true) → w1.file.iMode = FO_WRITE) := by
  induction ops with
  | nil =>
    intro w w1 h _ hi ho
    simp only [runOps, Option.some.injEq] at h
    subst h
    exact ⟨hi, ho⟩
  | cons op ops ih =>
    intro w w1 h hinv hi ho
    simp only [runOps] at h
    split at h
    · simp at h
    · rename_i w2 hop
      have hst := applyOp_stable E fuel op w w2 hop
      obtain ⟨evs, e1, e2, e3⟩ := applyOp_sides E fuel op w w2 hop hinv
      refine ih w2 w1 h (hst.1 hinv) ?_ ?_
      · rintro ⟨e, he, hk⟩
        rw [e1] at he
        rcases List.mem_append.1 he with he | he
        · exact hst.2.2.1 (hi ⟨e, he, hk⟩)
        · exact e2 ⟨e, he, hk⟩
      · rintro ⟨e, he, hk⟩
        rw [e1] at he
        rcases List.mem_append.1 he with he | he
        · exact hst.2.2.2 (ho ⟨e, he, hk⟩)
        · exact e3 ⟨e, he, hk⟩

/-- An operation that is none of the Read/Write entry points leaves `fInited`
as it is. -/
theorem applyOp_fInited (E : Env U K) (fuel : Nat) (op : Op) (w w1 : World U K)
    (h : applyOp E fuel op w = some w1) (hop : op.transfers = false) :
    w1.file.fInited = w.file.fInited := by
  cases op with
  | read b n t => simp [Op.transfers] at hop
  | write b n t => simp [Op.transfers] at hop
  | readAt b n o => simp [Op.transfers] at hop
  | writeAt b n o => simp [Op.transfers] at hop
  | truncAt o =>
    simp only [applyOp, Option.some.injEq] at h
    subst h
    unfold s_fileTruncAt
    split <;> rfl
  | seek o f =>
    simp only [applyOp, Option.some.injEq] at h
    subst h
    unfold s_fileSeek
    split <;> rfl
  | size =>
    simp only [applyOp, Option.some.injEq] at h
    subst h
    rfl
  | eof =>
    simp only [applyOp, Option.some.injEq] at h
    subst h
    unfold s_fileEof
    split <;> rfl
  | flush d =>
    simp only [applyOp, Option.some.injEq] at h
    subst h
    unfold s_fileFlush
    split <;> rfl
  | commit =>
    simp only [applyOp, Option.some.injEq] at h
    subst h
    unfold s_fileCommit
    split
    · rename_i hc
      simp only [s_fileFlush, if_pos hc]
      rfl
    · rfl
  | configure i v =>
    simp only [applyOp, Option.some.injEq] at h
    subst h
    unfold s_fileConfigure
    split
    · cases v <;> rfl
    · split
      · rfl
      · split
        · rfl
        · split
          · simp only
            split <;> rfl
          · rfl

theorem runOps_fInited (E : Env U K) (fuel : Nat) (ops : List Op) :
    ∀ (w w1 : World U K), runOps E fuel ops w = some w1 →
      (∀ op ∈ ops, op.transfers = false) → w1.file.fInited = w.file.fInited := by
  induction ops with
  | nil =>
    intro w w1 h _
    simp only [runOps, Option.some.injEq] at h
    subst h
    rfl
  | cons op ops ih =>
    intro w w1 h hops
    simp only [runOps] at h
    split at h
    · simp at h
    · rename_i w2 hop
      exact (ih w2 w1 h (fun o ho => hops o (List.mem_cons_of_mem _ ho))).trans
        (applyOp_fInited E fuel op w w2 hop (hops op (List.mem_cons_self _ _)))

/-! ## The state invariant and the idle close -/

/-- C13: a handle made by `s_filebz2New` (any mode, any block size) on which
only operations other than Read, Write, ReadAt and WriteAt were called is
closed by `s_fileClose` with exactly one call to a collaborator, the `Close` of
the underlying handle: no codec call and no underlying `Write`.  No fuel is
needed. -/
theorem idle_close (E : Env U K) (u : U) (iMode iBlockSize : Int) (k0 : K) (f : HB_FILE U K)
    (user : Mem) (err : Int) (tr : List Event)
    (hnew : s_filebz2New (some u) iMode iBlockSize k0 = some f)
    (fuel : Nat) (ops : List Op) (hops : ∀ op ∈ ops, op.transfers = false) (w : World U K)
    (hrun : runOps E fuel ops { file := f, user := user, fsError := err, trace := tr } = some w)
    (fuel2 : Nat) :
    ∃ w1, s_fileClose E fuel2 w = some w1 ∧ newEvents w w1 = [Event.uClose] := by
  have hf : f.fInited = false := by
    simp only [s_filebz2New, Option.some.injEq] at hnew
    subst hnew
    rfl
  have hin : w.file.fInited = false := (runOps_fInited E fuel ops _ w hrun hops).trans hf
  refine ⟨w.called (E.Close w.file.pFile) Event.uClose, ?_, ?_⟩
  · unfold s_fileClose
    simp [hin, World.called]
  · exact newEvents_of_append rfl

/-- C16: every state reached from a handle made by `s_filebz2New` (any
requested access bits) by any sequence of Read, Write, ReadAt, WriteAt,
TruncAt, Seek, Size, Eof, Flush, Commit and Configure calls satisfies:
`fInited` implies that `iMode` is `FO_READ` or `FO_WRITE`, and `fEof` implies
`iMode = FO_READ`; and the calls made so far never include both a use of the
staging buffer on the input side (refill, decoder step) and a use on the
output side (encoder step, drain). -/
theorem state_invariant (E : Env U K) (u : U) (iMode iBlockSize : Int) (k0 : K)
    (f : HB_FILE U K) (user : Mem) (err : Int)
    (hnew : s_filebz2New (some u) iMode iBlockSize k0 = some f)
    (fuel : Nat) (ops : List Op) (w : World U K)
    (hrun : runOps E fuel ops { file := f, user := user, fsError := err, trace := [] } = some w) :
    (w.file.fInited = true → w.file.iMode = FO_READ ∨ w.file.iMode = FO_WRITE) ∧
    (w.file.fEof = true → w.file.iMode = FO_READ) ∧
    ¬ ((∃ e ∈ w.trace, e.onInput = true) ∧ (∃ e ∈ w.trace, e.onOutput = true)) := by
  have h0 := handleInv_new u iMode iBlockSize k0 f user err [] hnew
  have hinv := (runOps_stable E fuel ops _ w hrun).1 h0
  obtain ⟨s1, s2⟩ := runOps_sides E fuel ops _ w hrun h0 (by simp) (by simp)
  refine ⟨hinv.1, hinv.2, ?_⟩
  rintro ⟨a, b⟩
  have h1 := s1 a
  have h2 := s2 b
  rw [h1] at h2
  exact absurd h2 (by decide)

/-- C13, witness: a handle opened for reading and writing on which only a
seek, a timeout setting, a flush and a commit were called. -/
theorem idle_close_witness :
    ∃ w1, s_fileClose toyEnv 0 idleUse = some w1 ∧ newEvents idleUse w1 = [Event.uClose] :=
  idle_close toyEnv (Disk.blank []) FO_READWRITE HB_BZ2_BLOCKSIZE Toy.fresh
    (toyOpen (Disk.blank []) FO_READWRITE).file memZero 0 [] rfl 0
    [Op.seek 0 FS_SET, Op.configure HB_VF_TIMEOUT (Item.num 50), Op.flush true, Op.commit]
    (by decide) idleUse (eq_some_getD _ _ (by decide!)) 0

/-- C16, witness: a handle opened for reading and writing, after a write, a
read attempt, a seek and an end-of-file query. -/
theorem state_invariant_witness :
    (mixedUse.file.fInited = true →
      mixedUse.file.iMode = FO_READ ∨ mixedUse.file.iMode = FO_WRITE) ∧
    (mixedUse.file.fEof = true → mixedUse.file.iMode = FO_READ) ∧
    ¬ ((∃ e ∈ mixedUse.trace, e.onInput = true) ∧ (∃ e ∈ mixedUse.trace, e.onOutput = true)) :=
  state_invariant toyEnv (Disk.blank []) FO_READWRITE HB_BZ2_BLOCKSIZE Toy.fresh
    (toyOpen (Disk.blank []) FO_READWRITE).file memZero 0 rfl 8
    [Op.write (memOf [65, 66, 67]) 3 (-1), Op.read memZero 4 (-1), Op.seek 0 FS_RELATIVE, Op.eof]
    mixedUse (eq_some_getD _ _ (by decide!))

/-! ## Timeouts of the drain -/

theorem s_bz2_write_loop_timeouts (E : Env U K) (nSize : Nat) (hsz : nSize < 2 ^ 64) (rounds : Nat)
    (w : World U K) (nWritten : Nat) (t : Int) (hle : nWritten ≤ nSize)
    (hr : nSize - nWritten ≤ rounds) :
    ∃ evs, (s_bz2_write_loop E rounds w nSize nWritten t).2.trace = w.trace ++ evs ∧
      (evs = [] ∨ ∃ d res rest, evs = Event.uWrite d t res :: rest ∧
        ∀ e ∈ rest, ∃ d1 r1, e = Event.uWrite d1 (if t > 0 then 0 else t) r1) := by
  refine s_bz2_write_loop_induct E nSize hsz
    (fun w _ t r => ∃ evs, r.2.trace = w.trace ++ evs ∧
      (evs = [] ∨ ∃ d res rest, evs = Event.uWrite d t res :: rest ∧
        ∀ e ∈ rest, ∃ d1 r1, e = Event.uWrite d1 (if t > 0 then 0 else t) r1))
    ?_ ?_ ?_ ?_ rounds w nWritten t hle hr
  · intro w nW t _
    exact ⟨[], by simp, Or.inl rfl⟩
  · intro w nW t _ _
    exact ⟨_, (underlyingWrite_step E w nW (nSize - nW) t).1, Or.inr ⟨_, _, [], rfl, by simp⟩⟩
  · intro w nW t _ _
    exact ⟨_, (underlyingWrite_step E w nW (nSize - nW) t).1, Or.inr ⟨_, _, [], rfl, by simp⟩⟩
  · intro w nW t res _ _ _ _ ih
    obtain ⟨evs, e1, e2⟩ := ih
    have htr := (underlyingWrite_step E w nW (nSize - nW) t).1
    refine ⟨Event.uWrite (memLoad w.file.buffer nW (nSize - nW)) t
      (underlyingWrite E w nW (nSize - nW) t).1 :: evs, by simp [e1, htr], Or.inr ⟨_, _, evs, rfl, ?_⟩⟩
    have hidem : (if (if t > 0 then 0 else t) > 0 then 0 else (if t > 0 then 0 else t)) =
        (if t > 0 then 0 else t) := by
      split <;> simp_all
    rcases e2 with e2 | ⟨d, r, rest, e2, e3⟩
    · simp [e2]
    · intro e he
      rw [e2] at he
      rcases List.mem_cons.1 he with he | he
      · exact ⟨d, r, he⟩
      · rw [hidem] at e3
        exact e3 e he

theorem stagedSize_lt (w : World U K) : stagedSize w < 2 ^ 64 := by
  unfold stagedSize
  have := Nat.mod_lt (HB_BZ2_BUFSIZE + 2 ^ 32 - w.file.bz2.avail_out % 2 ^ 32)
    (show 0 < 2 ^ 32 by norm_num)
  omega

/-- `s_bz2_write` in terms of its loop and `stagedSize`. -/
theorem s_bz2_write_eq (E : Env U K) (w : World U K) (t : Int) :
    s_bz2_write E w t =
      match s_bz2_write_loop E (stagedSize w) w (stagedSize w) 0 t with
      | (none, w1) => (HB_SIZE_ERROR, w1)
      | (some nWritten, w1) =>
        if nWritten > 0 then
          (nWritten,
            (if nWritten < stagedSize w then
              ({ w1 with file := { w1.file with
                  buffer := memMove w1.file.buffer 0 nWritten (stagedSize w - nWritten) } } :
                World U K)
             else w1).setBz
              { (if nWritten < stagedSize w then
                  ({ w1 with file := { w1.file with
                      buffer := memMove w1.file.buffer 0 nWritten (stagedSize w - nWritten) } } :
                    World U K)
                 else w1).file.bz2 with
                avail_out := ((if nWritten < stagedSize w then
                  ({ w1 with file := { w1.file with
                      buffer := memMove w1.file.buffer 0 nWritten (stagedSize w - nWritten) } } :
                    World U K)
                 else w1).file.bz2.avail_out + nWritten % 2 ^ 32) % 2 ^ 32
                next_out := (if nWritten < stagedSize w then
                  ({ w1 with file := { w1.file with
                      buffer := memMove w1.file.buffer 0 nWritten (stagedSize w - nWritten) } } :
                    World U K)
                 else w1).file.bz2.next_out.add (-(nWritten : Int)) })
        else (nWritten, w1) := rfl

/-- The trace `s_bz2_write` leaves is the trace its loop leaves. -/
theorem s_bz2_write_trace (E : Env U K) (w : World U K) (t : Int) :
    (s_bz2_write E w t).2.trace =
      (s_bz2_write_loop E (stagedSize w) w (stagedSize w) 0 t).2.trace := by
  rw [s_bz2_write_eq]
  generalize s_bz2_write_loop E (stagedSize w) w (stagedSize w) 0 t = l
  obtain ⟨l1, l2⟩ := l
  cases l1 with
  | none => rfl
  | some n =>
    simp only
    split
    · split <;> rfl
    · rfl

/-- C15, amended: in one call of `s_bz2_write` with timeout `t` every
call to the underlying handle is a `Write`; the first uses `t`, and every
retry uses 0 when `t` is positive and `t` itself when `t` is zero or
negative. -/
theorem drain_retry_timeouts (E : Env U K) (w : World U K) (t : Int) :
    newEvents w (s_bz2_write E w t).2 = [] ∨
    ∃ d res rest, newEvents w (s_bz2_write E w t).2 = Event.uWrite d t res :: rest ∧
      ∀ e ∈ rest, ∃ d1 r1, e = Event.uWrite d1 (if t > 0 then 0 else t) r1 := by
  obtain ⟨evs, e1, e2⟩ := s_bz2_write_loop_timeouts E (stagedSize w) (stagedSize_lt w)
    (stagedSize w) w 0 t (Nat.zero_le _) (by omega)
  rw [← s_bz2_write_trace] at e1
  rw [newEvents_of_append e1]
  exact e2

/-- C15, counterexample: six bytes are staged and the drain is called with
the default timeout -1 on a store that takes two bytes at first; the retry
for the other four bytes is issued with timeout -1, not 0. -/
theorem drain_retry_keeps_negative_timeout :
    (newEvents partialWrite.2 (s_bz2_write toyEnv partialWrite.2 (-1)).2).map Event.brief =
      [Brief.write 6 (-1) 2, Brief.write 4 (-1) 4] := by
  decide!

/-! ## The calls in terms of their loops -/

/-- A call of `s_fileRead` that gets past the mode test, the end-of-stream
test and the decoder init runs the read loop from a world whose relevant
parts are listed here, and returns the world the loop leaves but for
`seek_pos`. -/
theorem s_fileRead_run (E : Env U K) (fuel : Nat) (w : World U K) (buffer : Mem) (nSize : Nat)
    (nTimeout : Int) (out : Nat × World U K)
    (h : s_fileRead E fuel w buffer nSize nTimeout = some out)
    (hmode : w.file.iMode ≠ FO_WRITE) (heof : w.file.fEof = false)
    (hinit : w.file.fInited = false → (BZ2_bzDecompressInit E w).1 = BZ_OK) :
    ∃ (w3 : World U K) (nR : Nat) (w4 : World U K),
      s_fileRead_loop E fuel w3 (if nTimeout = -1 then w.file.nTimeout else nTimeout) 0 =
        some (nR, w4) ∧
      w3.trace = w.trace ++ (if w.file.fInited = false then [Event.decompressInit BZ_OK] else []) ∧
      w3.fsError = 0 ∧ w3.user = buffer ∧ w3.file.buffer = w.file.buffer ∧
      w3.file.bz2.next_out = .user 0 ∧ w3.file.bz2.avail_out = nSize % 2 ^ 32 ∧
      w3.file.bz2.next_in = w.file.bz2.next_in ∧ w3.file.bz2.avail_in = w.file.bz2.avail_in ∧
      out.2.trace = w4.trace ∧ out.2.fsError = w4.fsError ∧ out.2.user = w4.user ∧
      out.2.file.bz2 = w4.file.bz2 ∧ out.2.file.buffer = w4.file.buffer := by
  unfold s_fileRead at h
  rw [if_pos hmode, if_neg (by simp [heof])] at h
  simp only at h
  by_cases hin : w.file.fInited = false
  · have hst := hinit hin
    simp only [if_pos hin] at h ⊢
    rw [if_neg (by simpa using hst)] at h
    split at h
    · simp at h
    · rename_i nR w4 hloop
      injection h with h
      subst h
      refine ⟨_, nR, w4, hloop, ?_, rfl, rfl, rfl, rfl, rfl, rfl, rfl, rfl, rfl, rfl, rfl, rfl⟩
      simp only [World.setBz, hb_fsSetError, BZ2_bzDecompressInit] at hst ⊢
      rw [hst]
  · simp only [if_neg hin] at h ⊢
    rw [if_neg (by simp)] at h
    split at h
    · simp at h
    · rename_i nR w4 hloop
      injection h with h
      subst h
      exact ⟨_, nR, w4, hloop, by simp [World.setBz, hb_fsSetError], rfl, rfl, rfl, rfl, rfl,
        rfl, rfl, rfl, rfl, rfl, rfl, rfl⟩

/-- A call of `s_fileWrite` that gets past the mode test and the encoder init
runs the write loop from a world whose relevant parts are listed here, and
returns the world the loop leaves but for `seek_pos`. -/
theorem s_fileWrite_run (E : Env U K) (fuel : Nat) (w : World U K) (buffer : Mem) (nSize : Nat)
    (nTimeout : Int) (out : Nat × World U K)
    (h : s_fileWrite E fuel w buffer nSize nTimeout = some out)
    (hmode : w.file.iMode ≠ FO_READ)
    (hinit : w.file.fInited = false →
      (BZ2_bzCompressInit E (compressInitWorld w) w.file.iBlockSize).1 = BZ_OK) :
    ∃ (w3 : World U K) (nR : Nat) (w4 : World U K),
      s_fileWrite_loop E fuel w3 (if nTimeout = -1 then w.file.nTimeout else nTimeout) 0 =
        some (nR, w4) ∧
      w3.trace = w.trace ++
        (if w.file.fInited = false then [Event.compressInit w.file.iBlockSize BZ_OK] else []) ∧
      w3.fsError = 0 ∧ w3.user = buffer ∧ w3.file.buffer = w.file.buffer ∧
      w3.file.bz2.next_in = .user 0 ∧ w3.file.bz2.avail_in = nSize % 2 ^ 32 ∧
      w3.file.bz2.next_out = (if w.file.fInited = false then .staging 0 else w.file.bz2.next_out) ∧
      w3.file.bz2.avail_out =
        (if w.file.fInited = false then HB_BZ2_BUFSIZE else w.file.bz2.avail_out) ∧
      w3.file.fInited = true ∧
      w3.file.iMode = (if w.file.fInited = false then FO_WRITE else w.file.iMode) ∧
      w3.file.nTimeout = w.file.nTimeout ∧
      out.2.trace = w4.trace ∧ out.2.fsError = w4.fsError ∧ out.2.user = w4.user ∧
      out.2.file.bz2 = w4.file.bz2 ∧ out.2.file.buffer = w4.file.buffer ∧
      out.2.file.fInited = w4.file.fInited ∧ out.2.file.iMode = w4.file.iMode ∧
      out.2.file.nTimeout = w4.file.nTimeout ∧ out.2.file.pFile = w4.file.pFile ∧
      out.1 = (if nR ≠ HB_SIZE_ERROR then (nSize + 2 ^ 64 - w4.file.bz2.avail_in) % 2 ^ 64
               else nR) := by
  unfold s_fileWrite at h
  rw [if_pos hmode] at h
  simp only at h
  by_cases hin : w.file.fInited = false
  · have hst := hinit hin
    simp only [if_pos hin] at h ⊢
    rw [if_neg (by simpa [compressInitWorld] using hst)] at h
    split at h
    · simp at h
    · rename_i nR w4 hloop
      injection h with h
      subst h
      refine ⟨_, nR, w4, hloop, ?_, rfl, rfl, rfl, rfl, rfl, rfl, rfl, rfl, rfl, rfl, rfl, rfl,
        rfl, rfl, rfl, rfl, rfl, rfl, rfl, rfl⟩
      simp only [World.setBz, hb_fsSetError, BZ2_bzCompressInit, compressInitWorld] at hst ⊢
      rw [hst]
  · have hin' : w.file.fInited = true := by simpa using hin
    simp only [if_neg hin] at h ⊢
    rw [if_neg (by simp)] at h
    split at h
    · simp at h
    · rename_i nR w4 hloop
      injection h with h
      subst h
      exact ⟨_, nR, w4, hloop, by simp [World.setBz, hb_fsSetError], rfl, rfl, rfl, rfl, rfl,
        rfl, rfl, hin', rfl, rfl, rfl, rfl, rfl, rfl, rfl, rfl, rfl, rfl, rfl, rfl⟩

/-! ## Timeouts of the refills -/

theorem append_cons_eq_cons {α : Type} {pre post rest : List α} {e a : α}
    (h : pre ++ e :: post = a :: rest) :
    (pre = [] ∧ e = a ∧ post = rest) ∨ ∃ pre1, pre = a :: pre1 ∧ pre1 ++ e :: post = rest := by
  cases pre with
  | nil =>
    simp only [List.nil_append, List.cons.injEq] at h
    exact Or.inl ⟨rfl, h.1, h.2⟩
  | cons b pre1 =>
    simp only [List.cons_append, List.cons.injEq] at h
    exact Or.inr ⟨pre1, by rw [h.1], h.2⟩

theorem s_fileRead_loop_timeouts (E : Env U K) (t : Int) (fuel : Nat) (w : World U K) (n : Nat)
    (r : Nat × World U K) (h : s_fileRead_loop E fuel w t n = some r) :
    ∃ evs, r.2.trace = w.trace ++ evs ∧
      ∀ pre size t1 res d post, evs = pre ++ Event.uRead size t1 res d :: post →
        size = HB_BZ2_BUFSIZE ∧
        t1 = if producedCount pre < w.file.bz2.avail_out then t else 0 := by
  refine s_fileRead_loop_induct E t
    (fun w _ r => ∃ evs, r.2.trace = w.trace ++ evs ∧
      ∀ pre size t1 res d post, evs = pre ++ Event.uRead size t1 res d :: post →
        size = HB_BZ2_BUFSIZE ∧
        t1 = if producedCount pre < w.file.bz2.avail_out then t else 0)
    ?_ ?_ ?_ ?_ ?_ ?_ fuel w n r h
  · intro w n _
    refine ⟨[], by simp, ?_⟩
    intro pre size t1 res d post he
    simp at he
  · intro w n _ _
    obtain ⟨c, p, htr, _⟩ := BZ2_bzDecompress_step E w
    refine ⟨[Event.decompress (BZ2_bzDecompress E w).1 c p, Event.decompressEnd], ?_, ?_⟩
    · simp [BZ2_bzDecompressEnd, World.setBz, htr]
    · intro pre size t1 res d post he
      rcases append_cons_eq_cons he.symm with ⟨_, h1, _⟩ | ⟨pre1, _, h2⟩
      · cases h1
      · rcases append_cons_eq_cons h2 with ⟨_, h1, _⟩ | ⟨pre2, _, h3⟩
        · cases h1
        · simp at h3
  · intro w n _ _ _
    obtain ⟨c, p, htr, _⟩ := BZ2_bzDecompress_step E w
    refine ⟨[Event.decompress (BZ2_bzDecompress E w).1 c p], by simp [hb_fsSetError, htr], ?_⟩
    intro pre size t1 res d post he
    rcases append_cons_eq_cons he.symm with ⟨_, h1, _⟩ | ⟨pre1, _, h2⟩
    · cases h1
    · simp at h2
  · intro w n r _ _ _ hr _
    obtain ⟨c, p, htr, _, _, _, hout, _⟩ := BZ2_bzDecompress_step E w
    obtain ⟨dat, utr, _⟩ := underlyingRead_step E (BZ2_bzDecompress E w).2 HB_BZ2_BUFSIZE
      (if (BZ2_bzDecompress E w).2.file.bz2.avail_out ≠ 0 then t else 0)
    rw [← hr] at utr
    refine ⟨[Event.decompress (BZ2_bzDecompress E w).1 c p, Event.uRead HB_BZ2_BUFSIZE
        (if (BZ2_bzDecompress E w).2.file.bz2.avail_out ≠ 0 then t else 0) r.1 dat],
      by simp [utr, htr], ?_⟩
    intro pre size t1 res d post he
    rcases append_cons_eq_cons he.symm with ⟨_, h1, _⟩ | ⟨pre1, hp1, h2⟩
    · cases h1
    · rcases append_cons_eq_cons h2 with ⟨hp2, h1, _⟩ | ⟨pre2, _, h3⟩
      · injection h1 with a1 a2 a3 a4
        subst hp2
        subst hp1
        refine ⟨a1, ?_⟩
        rw [a2, hout]
        simp only [producedCount, Nat.add_zero]
        by_cases hlt : p.length < w.file.bz2.avail_out
        · rw [if_pos hlt, if_pos (by omega)]
        · rw [if_neg hlt, if_neg (by omega)]
      · simp at h3
  · intro w n r res _ _ _ hr _ ih
    obtain ⟨c, p, htr, _, _, _, hout, _⟩ := BZ2_bzDecompress_step E w
    obtain ⟨dat, utr, _, ubz, _⟩ := underlyingRead_step E (BZ2_bzDecompress E w).2 HB_BZ2_BUFSIZE
      (if (BZ2_bzDecompress E w).2.file.bz2.avail_out ≠ 0 then t else 0)
    rw [← hr] at utr ubz
    obtain ⟨evs, e1, e2⟩ := ih
    refine ⟨[Event.decompress (BZ2_bzDecompress E w).1 c p, Event.uRead HB_BZ2_BUFSIZE
        (if (BZ2_bzDecompress E w).2.file.bz2.avail_out ≠ 0 then t else 0) r.1 dat] ++ evs,
      by simp [e1, World.setBz, utr, htr], ?_⟩
    intro pre size t1 res d post he
    rcases append_cons_eq_cons he.symm with ⟨_, h1, _⟩ | ⟨pre1, hp1, h2⟩
    · cases h1
    · rcases append_cons_eq_cons h2 with ⟨hp2, h1, _⟩ | ⟨pre2, hp2, h3⟩
      · injection h1 with a1 a2 a3 a4
        subst hp2
        subst hp1
        refine ⟨a1, ?_⟩
        rw [a2, hout]
        simp only [producedCount, Nat.add_zero]
        by_cases hlt : p.length < w.file.bz2.avail_out
        · rw [if_pos hlt, if_pos (by omega)]
        · rw [if_neg hlt, if_neg (by omega)]
      · obtain ⟨b1, b2⟩ := e2 pre2 size t1 res d post h3.symm
        refine ⟨b1, ?_⟩
        rw [b2, hp1, hp2]
        simp only [World.setBz, ubz, hout, producedCount]
        by_cases hlt : producedCount pre2 < w.file.bz2.avail_out - p.length
        · rw [if_pos hlt, if_pos (by omega)]
        · rw [if_neg hlt, if_neg (by omega)]
  · intro w n res _ _ _ ih
    obtain ⟨c, p, htr, _, _, _, hout, _⟩ := BZ2_bzDecompress_step E w
    obtain ⟨evs, e1, e2⟩ := ih
    refine ⟨[Event.decompress (BZ2_bzDecompress E w).1 c p] ++ evs, by simp [e1, htr], ?_⟩
    intro pre size t1 res d post he
    rcases append_cons_eq_cons he.symm with ⟨_, h1, _⟩ | ⟨pre1, hp1, h2⟩
    · cases h1
    · obtain ⟨b1, b2⟩ := e2 pre1 size t1 res d post h2.symm
      refine ⟨b1, ?_⟩
      rw [b2, hp1]
      simp only [hout, producedCount]
      by_cases hlt : producedCount pre1 < w.file.bz2.avail_out - p.length
      · rw [if_pos hlt, if_pos (by omega)]
      · rw [if_neg hlt, if_neg (by omega)]

/-- The ways a call of `s_fileRead` can go, by what it adds to the trace: a
call that does not reach the read loop adds nothing or the failed decoder
init. -/
theorem s_fileRead_split (E : Env U K) (fuel : Nat) (w : World U K) (buffer : Mem) (nSize : Nat)
    (nTimeout : Int) (out : Nat × World U K)
    (h : s_fileRead E fuel w buffer nSize nTimeout = some out) :
    (out.2.trace = w.trace ∧ out.1 = 0) ∨
    (w.file.fInited = false ∧ (BZ2_bzDecompressInit E w).1 ≠ BZ_OK ∧
      out.2.trace = w.trace ++ [Event.decompressInit (BZ2_bzDecompressInit E w).1] ∧
      out.1 = HB_SIZE_ERROR ∧
      out.2.fsError = HB_BZ2_ERROR_BASE - (BZ2_bzDecompressInit E w).1) ∨
    (w.file.iMode ≠ FO_WRITE ∧ w.file.fEof = false ∧
      (w.file.fInited = false → (BZ2_bzDecompressInit E w).1 = BZ_OK)) := by
  rcases s_fileRead_cases E fuel w buffer nSize nTimeout out h with
    ⟨_, a⟩ | ⟨_, _, a⟩ | ⟨_, _, hin, hst, a⟩ | ⟨hmode, heof, _⟩
  · exact Or.inl (by rw [a]; exact ⟨rfl, rfl⟩)
  · exact Or.inl (by rw [a]; exact ⟨rfl, rfl⟩)
  · exact Or.inr (Or.inl ⟨hin, hst, by rw [a]; rfl, by rw [a], by rw [a]; rfl⟩)
  · by_cases hinit : w.file.fInited = false → (BZ2_bzDecompressInit E w).1 = BZ_OK
    · exact Or.inr (Or.inr ⟨hmode, heof, hinit⟩)
    · have hin : w.file.fInited = false := by
        by_contra hc
        exact hinit (fun h => absurd h hc)
      have hst : (BZ2_bzDecompressInit E w).1 ≠ BZ_OK := fun hc => hinit (fun _ => hc)
      unfold s_fileRead at h
      rw [if_pos hmode, if_neg (by simp [heof])] at h
      simp only [if_pos hin] at h
      rw [if_pos hst] at h
      injection h with h
      subst h
      exact Or.inr (Or.inl ⟨hin, hst, rfl, rfl, rfl⟩)

/-- C14, amended: in one call of `s_fileRead` every refill asks the
underlying handle for 8192 bytes; it is issued with the effective timeout (the
caller's, or the handle's when the caller passes -1) when the decoder steps
of the call before it have produced fewer bytes than the caller's buffer
holds, and with timeout 0 when they have filled the caller's buffer.  The
position of the refill in the call plays no part. -/
theorem read_refill_timeouts (E : Env U K) (fuel : Nat) (w : World U K) (buffer : Mem)
    (nSize : Nat) (nTimeout : Int) (out : Nat × World U K)
    (h : s_fileRead E fuel w buffer nSize nTimeout = some out) :
    ∀ pre size t res d post,
      newEvents w out.2 = pre ++ Event.uRead size t res d :: post →
      size = HB_BZ2_BUFSIZE ∧
      t = if producedCount pre < nSize % 2 ^ 32
          then (if nTimeout = -1 then w.file.nTimeout else nTimeout) else 0 := by
  intro pre size t res d post he
  rcases s_fileRead_split E fuel w buffer nSize nTimeout out h with
    ⟨a, _⟩ | ⟨_, _, a, _⟩ | ⟨hmode, heof, hinit⟩
  · rw [newEvents_of_append (show out.2.trace = w.trace ++ [] by simpa using a)] at he
    simp at he
  · rw [newEvents_of_append a] at he
    rcases append_cons_eq_cons he.symm with ⟨_, h1, _⟩ | ⟨pre1, _, h2⟩
    · cases h1
    · simp at h2
  · obtain ⟨w3, nR, w4, hloop, t3, _, _, _, _, a3, _, _, o4, _⟩ :=
      s_fileRead_run E fuel w buffer nSize nTimeout out h hmode heof hinit
    obtain ⟨evs, e1, e2⟩ := s_fileRead_loop_timeouts E _ fuel w3 0 _ hloop
    simp only at e1
    rw [a3] at e2
    have htr : out.2.trace = w.trace ++
        ((if w.file.fInited = false then [Event.decompressInit BZ_OK] else []) ++ evs) := by
      rw [o4, e1, t3, List.append_assoc]
    rw [newEvents_of_append htr] at he
    by_cases hin : w.file.fInited = false
    · simp only [if_pos hin, List.singleton_append] at he
      rcases append_cons_eq_cons he.symm with ⟨_, h1, _⟩ | ⟨pre1, hp1, h2⟩
      · cases h1
      · have := e2 pre1 size t res d post h2.symm
        rw [hp1]
        simpa [producedCount] using this
    · simp only [if_neg hin, List.nil_append] at he
      exact e2 pre size t res d post he

/-- C14, counterexample: a read with a 1-byte buffer and timeout 500 from a
store that hands out one byte at a time.  The second refill of the call is
issued with timeout 500, not 0; only the third, issued after the decoder has
filled the caller's buffer, uses 0. -/
theorem second_refill_keeps_timeout :
    (newEvents trickleReader trickleRead.2).map Event.brief =
      [Brief.codecInit 0, Brief.codecStep 0 0 0, Brief.read 8192 500 1,
       Brief.codecStep 0 1 0, Brief.read 8192 500 1,
       Brief.codecStep 0 1 1, Brief.read 8192 0 1] ∧
    trickleRead.1 = 1 := by
  decide!

/-- C14, witness: the second refill in the read of `trickleReader`; one byte
of room is left in the caller's buffer, and the refill is issued with the
caller's timeout 500. -/
theorem read_refill_timeouts_witness :
    8192 = HB_BZ2_BUFSIZE ∧
    (500 : Int) =
      if producedCount [Event.decompressInit 0, Event.decompress 0 [] [],
          Event.uRead 8192 500 1 [1], Event.decompress 0 [1] []] < 1 % 2 ^ 32
      then (if (500 : Int) = -1 then trickleReader.file.nTimeout else 500) else 0 :=
  read_refill_timeouts toyEnv 8 trickleReader memZero 1 500 trickleRead
    (eq_some_getD _ _ (by decide!))
    [Event.decompressInit 0, Event.decompress 0 [] [], Event.uRead 8192 500 1 [1],
      Event.decompress 0 [1] []]
    8192 500 1 [65] [Event.decompress 0 [65] [65], Event.uRead 8192 0 1 [1]] (by decide!)

/-! ## Memory -/

theorem memLoad_getElem_opt (m : Mem) (n : Nat) :
    ∀ (off : Int) (i : Nat), (memLoad m off n)[i]? = if i < n then some (m (off + i)) else none := by
  induction n with
  | zero =>
    intro off i
    simp [memLoad]
  | succ k ih =>
    intro off i
    cases i with
    | zero => simp [memLoad]
    | succ j =>
      simp only [memLoad, List.getElem?_cons_succ, ih, Nat.add_lt_add_iff_right]
      have : off + 1 + (j : Int) = off + ((j + 1 : Nat) : Int) := by push_cast; ring
      rw [this]

/-- Two loads agree when the memories agree on the loaded addresses. -/
theorem memLoad_congr (m1 m2 : Mem) (off1 off2 : Int) (n : Nat)
    (h : ∀ i : Nat, i < n → m1 (off1 + i) = m2 (off2 + i)) :
    memLoad m1 off1 n = memLoad m2 off2 n := by
  apply List.ext_getElem?
  intro i
  rw [memLoad_getElem_opt, memLoad_getElem_opt]
  by_cases hi : i < n
  · rw [if_pos hi, if_pos hi, h i hi]
  · rw [if_neg hi, if_neg hi]

theorem memLoad_add (m : Mem) (off : Int) (a b : Nat) :
    memLoad m off (a + b) = memLoad m off a ++ memLoad m (off + a) b := by
  apply List.ext_getElem?
  intro i
  rw [memLoad_getElem_opt]
  by_cases hi : i < a
  · rw [List.getElem?_append_left (by rw [memLoad_length]; exact hi), memLoad_getElem_opt,
      if_pos hi, if_pos (by omega)]
  · rw [List.getElem?_append_right (by rw [memLoad_length]; omega), memLoad_getElem_opt,
      memLoad_length]
    by_cases hi2 : i < a + b
    · rw [if_pos hi2, if_pos (by omega)]
      have : off + (a : Int) + ((i - a : Nat) : Int) = off + (i : Int) := by omega
      rw [this]
    · rw [if_neg hi2, if_neg (by omega)]

theorem memLoad_take (m : Mem) (off : Int) (n k : Nat) (h : k ≤ n) :
    (memLoad m off n).take k = memLoad m off k := by
  have : n = k + (n - k) := by omega
  rw [this, memLoad_add, List.take_left' (memLoad_length _ _ _)]

theorem memLoad_drop (m : Mem) (off : Int) (n k : Nat) (h : k ≤ n) :
    (memLoad m off n).drop k = memLoad m (off + k) (n - k) := by
  have : n = k + (n - k) := by omega
  rw [this, memLoad_add, List.drop_left' (memLoad_length _ _ _)]
  simp

/-- Loading what was just stored gives the stored bytes back. -/
theorem memLoad_memStore_self (m : Mem) (off : Int) (bs : List Nat) :
    memLoad (memStore m off bs) off bs.length = bs := by
  apply List.ext_getElem?
  intro i
  rw [memLoad_getElem_opt]
  by_cases hi : i < bs.length
  · rw [if_pos hi]
    simp only [memStore]
    rw [if_pos (by omega)]
    have : (off + (i : Int) - off).toNat = i := by simp
    rw [this, List.getD_eq_getElem?_getD, List.getElem?_eq_getElem hi]
    rfl
  · rw [if_neg hi, List.getElem?_eq_none (by omega)]

/-- A store does not change a load of addresses outside the stored range. -/
theorem memLoad_memStore_before (m : Mem) (off : Int) (bs : List Nat) (off2 : Int) (n : Nat)
    (h : off2 + n ≤ off) : memLoad (memStore m off bs) off2 n = memLoad m off2 n := by
  apply memLoad_congr
  intro i hi
  simp only [memStore]
  rw [if_neg (by omega)]

/-! ## Conservation of the staged bytes in a drain -/

theorem acceptedBytes_append (a b : List Event) :
    acceptedBytes (a ++ b) = acceptedBytes a ++ acceptedBytes b := by
  induction a with
  | nil => simp [acceptedBytes]
  | cons e es ih => cases e <;> simp [acceptedBytes, ih]

theorem emittedBytes_append (a b : List Event) :
    emittedBytes (a ++ b) = emittedBytes a ++ emittedBytes b := by
  induction a with
  | nil => simp [emittedBytes]
  | cons e es ih => cases e <;> simp [emittedBytes, ih]

theorem emittedBytes_of_writes {evs : List Event}
    (h : ∀ e ∈ evs, ∃ d t res, e = Event.uWrite d t res) : emittedBytes evs = [] := by
  induction evs with
  | nil => rfl
  | cons e es ih =>
    obtain ⟨d, t, res, rfl⟩ := h e (List.mem_cons_self _ _)
    simp only [emittedBytes]
    exact ih (fun e he => h e (List.mem_cons_of_mem _ he))

theorem stagedSize_of_le (w : World U K) (h : w.file.bz2.avail_out ≤ HB_BZ2_BUFSIZE) :
    stagedSize w = HB_BZ2_BUFSIZE - w.file.bz2.avail_out := by
  unfold stagedSize
  simp only [HB_BZ2_BUFSIZE] at h ⊢
  omega

/-- What the drain loop does with the staged bytes: the underlying handle
accepts one stretch of them after the other, and the loop ends by reaching the
end, by a `Write` that took nothing, or by a `Write` that failed. -/
theorem s_bz2_write_loop_conserves (E : Env U K) (nSize : Nat) (hsz : nSize < 2 ^ 64)
    (rounds : Nat) (w : World U K) (nWritten : Nat) (t : Int) (hle : nWritten ≤ nSize)
    (hr : nSize - nWritten ≤ rounds) :
    ∃ evs, (s_bz2_write_loop E rounds w nSize nWritten t).2.trace = w.trace ++ evs ∧
      (s_bz2_write_loop E rounds w nSize nWritten t).2.file.buffer = w.file.buffer ∧
      (s_bz2_write_loop E rounds w nSize nWritten t).2.file.bz2 = w.file.bz2 ∧
      (s_bz2_write_loop E rounds w nSize nWritten t).2.user = w.user ∧
      (∀ n, (s_bz2_write_loop E rounds w nSize nWritten t).1 = some n →
        nWritten ≤ n ∧ n ≤ nSize ∧
        acceptedBytes evs = memLoad w.file.buffer nWritten (n - nWritten) ∧
        (n < nSize → ∃ d t1, evs.getLast? = some (Event.uWrite d t1 0))) ∧
      ((s_bz2_write_loop E rounds w nSize nWritten t).1 = none →
        ∃ k, nWritten + k < nSize ∧ acceptedBytes evs = memLoad w.file.buffer nWritten k ∧
          ∃ d t1, evs.getLast? = some (Event.uWrite d t1 HB_SIZE_ERROR)) := by
  refine s_bz2_write_loop_induct E nSize hsz
    (fun w nWritten _ r => ∃ evs, r.2.trace = w.trace ++ evs ∧
      r.2.file.buffer = w.file.buffer ∧ r.2.file.bz2 = w.file.bz2 ∧ r.2.user = w.user ∧
      (∀ n, r.1 = some n →
        nWritten ≤ n ∧ n ≤ nSize ∧
        acceptedBytes evs = memLoad w.file.buffer nWritten (n - nWritten) ∧
        (n < nSize → ∃ d t1, evs.getLast? = some (Event.uWrite d t1 0))) ∧
      (r.1 = none →
        ∃ k, nWritten + k < nSize ∧ acceptedBytes evs = memLoad w.file.buffer nWritten k ∧
          ∃ d t1, evs.getLast? = some (Event.uWrite d t1 HB_SIZE_ERROR)))
    ?_ ?_ ?_ ?_ rounds w nWritten t hle hr
  · intro w nW t hn
    refine ⟨[], by simp, rfl, rfl, rfl, ?_, by simp⟩
    intro n h
    injection h with h
    subst h
    refine ⟨Nat.le_refl _, by omega, by simp [acceptedBytes, memLoad], ?_⟩
    intro h
    omega
  · intro w nW t hlt he
    obtain ⟨htr, _, hbz, hbuf, _⟩ := underlyingWrite_step E w nW (nSize - nW) t
    have husr : (underlyingWrite E w nW (nSize - nW) t).2.user = w.user := by
      unfold underlyingWrite
      simp only
      split <;> rfl
    refine ⟨_, htr, hbuf, hbz, husr, by simp, ?_⟩
    intro _
    exact ⟨0, by omega, by simp [acceptedBytes, he, memLoad], _, _, by rw [he]; rfl⟩
  · intro w nW t hlt hz
    obtain ⟨htr, _, hbz, hbuf, _⟩ := underlyingWrite_step E w nW (nSize - nW) t
    have husr : (underlyingWrite E w nW (nSize - nW) t).2.user = w.user := by
      unfold underlyingWrite
      simp only
      split <;> rfl
    refine ⟨_, htr, hbuf, hbz, husr, ?_, by simp⟩
    intro n h
    injection h with h
    subst h
    refine ⟨Nat.le_refl _, by omega, ?_, ?_⟩
    · simp [acceptedBytes, hz, memLoad, HB_SIZE_ERROR]
    · intro _
      exact ⟨_, _, by rw [hz]; rfl⟩
  · intro w nW t res hlt hpos hb hne ih
    obtain ⟨htr, _, hbz, hbuf, _⟩ := underlyingWrite_step E w nW (nSize - nW) t
    have husr : (underlyingWrite E w nW (nSize - nW) t).2.user = w.user := by
      unfold underlyingWrite
      simp only
      split <;> rfl
    obtain ⟨evs, e1, e2, e3, e4, e5, e6⟩ := ih
    generalize underlyingWrite E w nW (nSize - nW) t = u at *
    have hacc : acceptedBytes (Event.uWrite (memLoad w.file.buffer nW (nSize - nW)) t u.1 :: evs) =
        memLoad w.file.buffer nW u.1 ++ acceptedBytes evs := by
      simp only [acceptedBytes, if_neg hne]
      rw [memLoad_take _ _ _ _ hb]
    have hlast : ∀ x, evs.getLast? = some x →
        (Event.uWrite (memLoad w.file.buffer nW (nSize - nW)) t u.1 :: evs).getLast? = some x := by
      intro x hx
      cases evs with
      | nil => simp at hx
      | cons a as => simpa [List.getLast?_cons_cons] using hx
    refine ⟨Event.uWrite (memLoad w.file.buffer nW (nSize - nW)) t u.1 :: evs,
      by simp [e1, htr], e2.trans hbuf, e3.trans hbz, e4.trans husr, ?_, ?_⟩
    · intro n hn
      obtain ⟨a1, a2, a3, a4⟩ := e5 n hn
      refine ⟨by omega, a2, ?_, ?_⟩
      · rw [hacc, a3, hbuf]
        have hsplit : n - nW = u.1 + (n - (nW + u.1)) := by omega
        rw [hsplit, memLoad_add]
        push_cast
        rfl
      · intro hlt2
        obtain ⟨d, t1, hl⟩ := a4 hlt2
        exact ⟨d, t1, hlast _ hl⟩
    · intro hn
      obtain ⟨k, a1, a2, d, t1, hl⟩ := e6 hn
      refine ⟨u.1 + k, by omega, ?_, d, t1, hlast _ hl⟩
      rw [hacc, a2, hbuf, memLoad_add]
      push_cast
      rfl
theorem ptr_add_neg_zero (p : Ptr) : p.add (-((0 : Nat) : Int)) = p := by
  cases p <;> simp [Ptr.add]

theorem stagedBytes_after (w w2 : World U K) (n : Nat)
    (hav : w.file.bz2.avail_out ≤ HB_BZ2_BUFSIZE) (hn : n ≤ stagedSize w)
    (ha : w2.file.bz2.avail_out = w.file.bz2.avail_out + n)
    (hb : memLoad w2.file.buffer 0 (stagedSize w - n) =
      memLoad w.file.buffer (n : Int) (stagedSize w - n)) :
    stagedBytes w2 = (stagedBytes w).drop n := by
  have hs := stagedSize_of_le w hav
  have hs2 : stagedSize w2 = stagedSize w - n := by
    rw [stagedSize_of_le w2 (by rw [ha]; omega), ha, hs]
    omega
  unfold stagedBytes
  rw [hs2, hb, memLoad_drop _ _ _ _ hn, Int.zero_add]

/-- What `s_bz2_write` does with the staged bytes.  Either the call returns the
failure sentinel and leaves the buffer and the `bz_stream` as they were, though
the underlying handle may have accepted the first `k` staged bytes before it
failed; or it returns the number `n` of bytes the underlying handle accepted,
these are the first `n` staged bytes, the others are staged afterwards, and
the output cursor moved back by `n`. -/
theorem s_bz2_write_conserves (E : Env U K) (w : World U K) (t : Int)
    (hav : w.file.bz2.avail_out ≤ HB_BZ2_BUFSIZE) :
    ∃ evs, (s_bz2_write E w t).2.trace = w.trace ++ evs ∧
      (∀ e ∈ evs, ∃ d t1 res, e = Event.uWrite d t1 res) ∧
      (((s_bz2_write E w t).1 = HB_SIZE_ERROR ∧
          (s_bz2_write E w t).2.file.buffer = w.file.buffer ∧
          (s_bz2_write E w t).2.file.bz2 = w.file.bz2 ∧
          ∃ k, k < stagedSize w ∧ acceptedBytes evs = (stagedBytes w).take k ∧
            ∃ d t1, evs.getLast? = some (Event.uWrite d t1 HB_SIZE_ERROR)) ∨
       ((s_bz2_write E w t).1 ≤ stagedSize w ∧
          acceptedBytes evs = (stagedBytes w).take (s_bz2_write E w t).1 ∧
          stagedBytes (s_bz2_write E w t).2 = (stagedBytes w).drop (s_bz2_write E w t).1 ∧
          (s_bz2_write E w t).2.file.bz2.avail_out =
            w.file.bz2.avail_out + (s_bz2_write E w t).1 ∧
          (s_bz2_write E w t).2.file.bz2.next_out =
            w.file.bz2.next_out.add (-((s_bz2_write E w t).1 : Int)) ∧
          ((s_bz2_write E w t).1 < stagedSize w →
            ∃ d t1, evs.getLast? = some (Event.uWrite d t1 0)))) := by
  have hs := stagedSize_of_le w hav
  have hs64 := stagedSize_lt w
  obtain ⟨evs, l1, l2, l3, _, l5, l6⟩ := s_bz2_write_loop_conserves E (stagedSize w) hs64
    (stagedSize w) w 0 t (Nat.zero_le _) (by omega)
  obtain ⟨devs, d1, _, _, d4, _⟩ := s_bz2_write_spec E w t
  have hev : ∀ e ∈ evs, ∃ d t1 res, e = Event.uWrite d t1 res := by
    have : devs = evs := by
      have a := newEvents_of_append d1
      rw [s_bz2_write_trace, l1] at d1
      have := List.append_cancel_left d1
      exact this.symm
    rw [← this]
    exact d4
  refine ⟨evs, by rw [s_bz2_write_trace, l1], hev, ?_⟩
  rw [s_bz2_write_eq]
  generalize s_bz2_write_loop E (stagedSize w) w (stagedSize w) 0 t = l at *
  obtain ⟨r1, w1⟩ := l
  simp only at l1 l2 l3 l5 l6
  cases r1 with
  | none =>
    left
    obtain ⟨k, k1, k2, k3⟩ := l6 rfl
    refine ⟨rfl, l2, l3, k, by omega, ?_, k3⟩
    rw [k2]
    unfold stagedBytes
    rw [memLoad_take _ _ _ _ (by omega)]
    rfl
  | some n =>
    right
    obtain ⟨_, a2, a3, a4⟩ := l5 n rfl
    simp only [Nat.sub_zero] at a3
    have htake : acceptedBytes evs = (stagedBytes w).take n := by
      rw [a3]
      unfold stagedBytes
      rw [memLoad_take _ _ _ _ a2]
      rfl
    have hmod : (w.file.bz2.avail_out + n % 2 ^ 32) % 2 ^ 32 = w.file.bz2.avail_out + n := by
      simp only [HB_BZ2_BUFSIZE] at hav hs
      omega
    simp only
    by_cases hpos : n > 0
    · rw [if_pos hpos]
      by_cases hlt : n < stagedSize w
      · simp only [if_pos hlt, World.setBz]
        refine ⟨a2, htake, ?_, by rw [l3, hmod], by rw [l3], a4⟩
        apply stagedBytes_after w _ n hav a2
        · simp only [l3, hmod]
        · simp only [memMove]
          have hself := memLoad_memStore_self w1.file.buffer 0
            (memLoad w1.file.buffer (n : Int) (stagedSize w - n))
          rw [memLoad_length] at hself
          rw [hself, l2]
      · have hn : n = stagedSize w := by omega
        simp only [if_neg hlt, World.setBz]
        refine ⟨a2, htake, ?_, by rw [l3, hmod], by rw [l3], a4⟩
        apply stagedBytes_after w _ n hav a2
        · simp only [l3, hmod]
        · rw [hn, Nat.sub_self]
          rfl
    · have hn : n = 0 := by omega
      subst hn
      rw [if_neg hpos]
      refine ⟨a2, htake, ?_, by rw [l3]; rfl, by rw [l3, ptr_add_neg_zero], a4⟩
      apply stagedBytes_after w _ 0 hav a2
      · rw [l3]
        rfl
      · rw [l2]
        rfl
/-! ## Conservation of the staged bytes in the write path -/

/-- An encoder step appends what it emits to the staged bytes. -/
theorem BZ2_bzCompress_staged (E : Env U K) (w : World U K) (action : Int) (hst : Staging w) :
    ∃ c p : List Nat,
      (BZ2_bzCompress E w action).2.trace =
        w.trace ++ [Event.compress action (BZ2_bzCompress E w action).1 c p] ∧
      Staging (BZ2_bzCompress E w action).2 ∧
      stagedBytes (BZ2_bzCompress E w action).2 = stagedBytes w ++ p ∧
      (BZ2_bzCompress E w action).2.file.bz2.avail_out = w.file.bz2.avail_out - p.length ∧
      p.length ≤ w.file.bz2.avail_out := by
  obtain ⟨h1, h2⟩ := hst
  have hlen : ((E.bzCompress w.file.bz2.state action
      (w.load w.file.bz2.next_in w.file.bz2.avail_in) w.file.bz2.avail_out).produced.take
      w.file.bz2.avail_out).length ≤ w.file.bz2.avail_out := by
    rw [List.length_take]
    exact Nat.min_le_left _ _
  refine ⟨_, _, rfl, ?_, ?_, rfl, hlen⟩
  · refine ⟨?_, ?_⟩
    · show w.file.bz2.avail_out - _ ≤ _
      omega
    · simp only [BZ2_bzCompress, World.setBz, bz_stream.advance, world_store_bz2, h2, Ptr.add]
      congr 1
      omega
  · generalize hp : (E.bzCompress w.file.bz2.state action
      (w.load w.file.bz2.next_in w.file.bz2.avail_in) w.file.bz2.avail_out).produced.take
      w.file.bz2.avail_out = p at hlen
    have hs := stagedSize_of_le w h1
    have hav : (BZ2_bzCompress E w action).2.file.bz2.avail_out = w.file.bz2.avail_out - p.length := by
      simp only [BZ2_bzCompress, World.setBz, bz_stream.advance, hp]
    have hbuf : (BZ2_bzCompress E w action).2.file.buffer =
        memStore w.file.buffer (stagedSize w : Int) p := by
      simp only [BZ2_bzCompress, World.setBz, hp, h2, World.store, hs]
    have hs2 : stagedSize (BZ2_bzCompress E w action).2 = stagedSize w + p.length := by
      rw [stagedSize_of_le _ (by rw [hav]; omega), hav, hs]
      omega
    unfold stagedBytes
    rw [hs2, memLoad_add, hbuf, memLoad_memStore_before _ _ _ _ _ (by simp), Int.zero_add,
      memLoad_memStore_self]

/-! ## The write path under an underlying handle that always makes progress -/

theorem underlyingWrite_pos (E : Env U K) (hE : AcceptsSome E) (w : World U K) (off len : Nat)
    (t : Int) (hlen : 0 < len) (hsz : len < 2 ^ 64 - 1) :
    (underlyingWrite E w off len t).1 ≠ HB_SIZE_ERROR ∧ 0 < (underlyingWrite E w off len t).1 := by
  have hne : memLoad w.file.buffer off len ≠ [] := by
    intro h
    have := memLoad_length w.file.buffer len off
    rw [h] at this
    simp at this
    omega
  obtain ⟨n, h1, h2⟩ := hE w.file.pFile (memLoad w.file.buffer off len) t hne
  unfold underlyingWrite
  simp only [h1, HB_SIZE_ERROR]
  omega

/-- With an underlying handle that always makes progress the drain loop
writes all the staged bytes. -/
theorem s_bz2_write_loop_full (E : Env U K) (hE : AcceptsSome E) (nSize : Nat)
    (hsz : nSize < 2 ^ 32) (rounds : Nat) (w : World U K) (nWritten : Nat) (t : Int)
    (hle : nWritten ≤ nSize) (hr : nSize - nWritten ≤ rounds) :
    (s_bz2_write_loop E rounds w nSize nWritten t).1 = some nSize := by
  refine s_bz2_write_loop_induct E nSize (by omega) (fun _ _ _ r => r.1 = some nSize)
    ?_ ?_ ?_ ?_ rounds w nWritten t hle hr
  · intro w nW t h
    rw [h]
  · intro w nW t hlt he
    exact absurd he (underlyingWrite_pos E hE w nW (nSize - nW) t (by omega) (by omega)).1
  · intro w nW t hlt hz
    have := (underlyingWrite_pos E hE w nW (nSize - nW) t (by omega) (by omega)).2
    omega
  · intro w nW t res _ _ _ _ ih
    exact ih

/-- With an underlying handle that always makes progress `s_bz2_write` hands
over all the staged bytes and leaves the staging buffer empty. -/
theorem s_bz2_write_full (E : Env U K) (hE : AcceptsSome E) (w : World U K) (t : Int)
    (hst : Staging w) :
    ∃ evs, (s_bz2_write E w t).2.trace = w.trace ++ evs ∧
      (∀ e ∈ evs, ∃ d t1 res, e = Event.uWrite d t1 res) ∧
      (s_bz2_write E w t).1 = stagedSize w ∧
      acceptedBytes evs = stagedBytes w ∧
      stagedBytes (s_bz2_write E w t).2 = [] ∧
      (s_bz2_write E w t).2.file.bz2.avail_out = HB_BZ2_BUFSIZE ∧
      Staging (s_bz2_write E w t).2 := by
  obtain ⟨h1, h2⟩ := hst
  have hs := stagedSize_of_le w h1
  have hs32 : stagedSize w < 2 ^ 32 := by
    rw [hs]
    simp only [HB_BZ2_BUFSIZE]
    omega
  have hfull := s_bz2_write_loop_full E hE (stagedSize w) hs32 (stagedSize w) w 0 t
    (Nat.zero_le _) (by omega)
  have hval : (s_bz2_write E w t).1 = stagedSize w := by
    rw [s_bz2_write_eq]
    generalize s_bz2_write_loop E (stagedSize w) w (stagedSize w) 0 t = l at *
    obtain ⟨r1, w1⟩ := l
    simp only at hfull
    subst hfull
    simp only
    split
    · rfl
    · rfl
  obtain ⟨evs, e1, e2, e3⟩ := s_bz2_write_conserves E w t h1
  refine ⟨evs, e1, e2, hval, ?_⟩
  rcases e3 with ⟨a, _⟩ | ⟨_, b2, b3, b4, b5, _⟩
  · rw [hval] at a
    simp only [HB_SIZE_ERROR] at a
    omega
  · rw [hval] at b2 b3 b4 b5
    have hlen : (stagedBytes w).length = stagedSize w := memLoad_length _ _ _
    refine ⟨?_, ?_, ?_, ?_, ?_⟩
    · rw [b2, List.take_of_length_le (by omega)]
    · rw [b3, List.drop_of_length_le (by omega)]
    · rw [b4, hs]
      omega
    · rw [b4, hs]
      omega
    · rw [b5, h2, b4, hs]
      simp only [Ptr.add]
      congr 1
      omega
/-- Conservation composes along the trace. -/
theorem conserved_trans {s0 s1 s2 : List Nat} {a b : List Event}
    (h1 : s0 ++ emittedBytes a = acceptedBytes a ++ s1)
    (h2 : s1 ++ emittedBytes b = acceptedBytes b ++ s2) :
    s0 ++ emittedBytes (a ++ b) = acceptedBytes (a ++ b) ++ s2 := by
  rw [emittedBytes_append, acceptedBytes_append, ← List.append_assoc, h1, List.append_assoc, h2,
    List.append_assoc]

theorem moves_refl (w : World U K) (hst : Staging w) : Moves w w [] :=
  ⟨by simp, hst, sameCtl_refl w, by simp [emittedBytes, acceptedBytes]⟩

theorem moves_trans {w0 w1 w2 : World U K} {a b : List Event}
    (h1 : Moves w0 w1 a) (h2 : Moves w1 w2 b) : Moves w0 w2 (a ++ b) :=
  ⟨by rw [h2.1, h1.1, List.append_assoc], h2.2.1, sameCtl_trans h1.2.2.1 h2.2.2.1,
    conserved_trans h1.2.2.2 h2.2.2.2⟩

theorem BZ2_bzCompress_moves (E : Env U K) (w : World U K) (action : Int) (hst : Staging w) :
    ∃ evs, Moves w (BZ2_bzCompress E w action).2 evs := by
  obtain ⟨c, p, h1, h2, h3, _⟩ := BZ2_bzCompress_staged E w action hst
  obtain ⟨_, _, _, _, _, _, _, hctl, _⟩ := BZ2_bzCompress_step E w action
  exact ⟨_, h1, h2, hctl, by simp [emittedBytes, acceptedBytes, h3]⟩

theorem s_bz2_write_moves (E : Env U K) (hE : AcceptsSome E) (w : World U K) (t : Int)
    (hst : Staging w) : ∃ evs, Moves w (s_bz2_write E w t).2 evs := by
  obtain ⟨evs, e1, e2, _, e4, e5, _, e7⟩ := s_bz2_write_full E hE w t hst
  obtain ⟨_, _, hctl, _⟩ := s_bz2_write_spec E w t
  exact ⟨evs, e1, e7, hctl, by rw [emittedBytes_of_writes e2, e4, e5]⟩

/-- The write loop conserves the staged bytes when the underlying handle always
makes progress. -/
theorem s_fileWrite_loop_moves (E : Env U K) (hE : AcceptsSome E) (t : Int) (fuel : Nat)
    (w : World U K) (n : Nat) (r : Nat × World U K)
    (h : s_fileWrite_loop E fuel w t n = some r) (hst : Staging w) :
    ∃ evs, Moves w r.2 evs := by
  have hdr : ∀ (w : World U K) (n : Nat), Staging w → ∃ devs,
      Moves w (if w.file.bz2.avail_out = 0 then s_bz2_write E w t else (n, w)).2 devs := by
    intro w n hst
    by_cases h0 : w.file.bz2.avail_out = 0
    · rw [if_pos h0]
      exact s_bz2_write_moves E hE w t hst
    · rw [if_neg h0]
      exact ⟨[], moves_refl w hst⟩
  refine s_fileWrite_loop_induct E t (fun w _ r => Staging w → ∃ evs, Moves w r.2 evs)
    ?_ ?_ ?_ ?_ fuel w n r h hst
  · intro w n _ hst
    exact ⟨[], moves_refl w hst⟩
  · intro w n _ _ _ hst
    exact s_bz2_write_moves E hE w t hst
  · intro w n dr _ hd _ _ hst
    obtain ⟨devs, d⟩ := hdr w n hst
    rw [← hd] at d
    obtain ⟨cevs, c⟩ := BZ2_bzCompress_moves E dr.2 BZ_RUN d.2.1
    exact ⟨devs ++ cevs, moves_trans d c⟩
  · intro w n dr res _ hd _ _ ih hst
    obtain ⟨devs, d⟩ := hdr w n hst
    rw [← hd] at d
    obtain ⟨cevs, c⟩ := BZ2_bzCompress_moves E dr.2 BZ_RUN d.2.1
    obtain ⟨evs, e⟩ := ih c.2.1
    exact ⟨devs ++ cevs ++ evs, moves_trans (moves_trans d c) e⟩

/-- The loop of `s_bz2_flush` hands over everything when the underlying handle
always makes progress: it ends through its loop condition with nothing staged. -/
theorem s_bz2_flush_loop_moves (E : Env U K) (hE : AcceptsSome E) (fClose : Bool) (fuel : Nat)
    (w : World U K) (err : Int) (r : World U K × Option Int)
    (h : s_bz2_flush_loop E fuel w fClose err = some r) (hst : Staging w) :
    ∃ evs, Moves w r.1 evs ∧ stagedBytes r.1 = [] ∧ ∃ e, r.2 = some e := by
  refine s_bz2_flush_loop_induct E fClose
    (fun w _ r => Staging w → ∃ evs, Moves w r.1 evs ∧ stagedBytes r.1 = [] ∧ ∃ e, r.2 = some e)
    ?_ ?_ ?_ ?_ fuel w err r h hst
  · intro w err hge hst
    refine ⟨[], moves_refl w hst, ?_, err, rfl⟩
    have hs := stagedSize_of_le w hst.1
    unfold stagedBytes
    rw [hs, show HB_BZ2_BUFSIZE - w.file.bz2.avail_out = 0 by have := hst.1; omega]
    rfl
  · intro w err hlt hd hst
    obtain ⟨_, _, _, e3, _⟩ := s_bz2_write_full E hE w w.file.nTimeout hst
    have hs := stagedSize_of_le w hst.1
    rw [e3, hs] at hd
    simp only [HB_SIZE_ERROR, HB_BZ2_BUFSIZE] at hd hlt
    omega
  · intro w err res _ _ _ ih hst
    obtain ⟨devs, d⟩ := s_bz2_write_moves E hE w w.file.nTimeout hst
    obtain ⟨cevs, c⟩ := BZ2_bzCompress_moves E (s_bz2_write E w w.file.nTimeout).2
      (if fClose then BZ_FINISH else BZ_FLUSH) d.2.1
    obtain ⟨evs, e, e2⟩ := ih c.2.1
    exact ⟨devs ++ cevs ++ evs, moves_trans (moves_trans d c) e, e2⟩
  · intro w err res _ _ _ ih hst
    obtain ⟨devs, d⟩ := s_bz2_write_moves E hE w w.file.nTimeout hst
    obtain ⟨evs, e, e2⟩ := ih d.2.1
    exact ⟨devs ++ evs, moves_trans d e, e2⟩

/-- `s_bz2_flush` hands over everything staged and emitted when the underlying
handle always makes progress. -/
theorem s_bz2_flush_moves (E : Env U K) (hE : AcceptsSome E) (fuel : Nat) (w w1 : World U K)
    (fClose : Bool) (h : s_bz2_flush E fuel w fClose = some w1) (hst : Staging w) :
    ∃ evs, Moves w w1 evs ∧ stagedBytes w1 = [] := by
  unfold s_bz2_flush at h
  simp only at h
  have hfirst : ∃ fevs, Moves w
      (if w.file.bz2.avail_out > 0 then
          BZ2_bzCompress E w (if fClose then BZ_FINISH else BZ_FLUSH)
        else if w.file.bz2.avail_out < HB_BZ2_BUFSIZE then (BZ_FLUSH_OK, w)
        else (BZ_STREAM_END, w)).2 fevs := by
    by_cases hpos : w.file.bz2.avail_out > 0
    · rw [if_pos hpos]
      exact BZ2_bzCompress_moves E w (if fClose then BZ_FINISH else BZ_FLUSH) hst
    · rw [if_neg hpos]
      split <;> exact ⟨[], moves_refl w hst⟩
  obtain ⟨fevs, f⟩ := hfirst
  generalize (if w.file.bz2.avail_out > 0 then
          BZ2_bzCompress E w (if fClose then BZ_FINISH else BZ_FLUSH)
        else if w.file.bz2.avail_out < HB_BZ2_BUFSIZE then (BZ_FLUSH_OK, w)
        else (BZ_STREAM_END, w)) = first at *
  split at h
  · simp at h
  · rename_i w2 hloop
    obtain ⟨_, _, _, e, he⟩ := s_bz2_flush_loop_moves E hE fClose fuel first.2 first.1 _ hloop f.2.1
    simp at he
  · rename_i w2 err hloop
    obtain ⟨evs, m, hempty, _⟩ :=
      s_bz2_flush_loop_moves E hE fClose fuel first.2 first.1 _ hloop f.2.1
    have hall := moves_trans f m
    split at h <;>
    · injection h with h
      subst h
      exact ⟨fevs ++ evs, hall, hempty⟩

/-- The ways a call of `s_fileWrite` can go: rejected, failed encoder init, or
a run of the write loop. -/
theorem s_fileWrite_split (E : Env U K) (fuel : Nat) (w : World U K) (buffer : Mem) (nSize : Nat)
    (nTimeout : Int) (out : Nat × World U K)
    (h : s_fileWrite E fuel w buffer nSize nTimeout = some out) :
    (w.file.iMode = FO_READ ∧ out = (0, hb_fsSetError w HB_FILE_ERR_UNSUPPORTED)) ∨
    (w.file.iMode ≠ FO_READ ∧ w.file.fInited = false ∧
      (BZ2_bzCompressInit E (compressInitWorld w) w.file.iBlockSize).1 ≠ BZ_OK ∧
      out = (HB_SIZE_ERROR,
        hb_fsSetError (BZ2_bzCompressInit E (compressInitWorld w) w.file.iBlockSize).2
          (HB_BZ2_ERROR_BASE - (BZ2_bzCompressInit E (compressInitWorld w) w.file.iBlockSize).1))) ∨
    (w.file.iMode ≠ FO_READ ∧
      (w.file.fInited = false →
        (BZ2_bzCompressInit E (compressInitWorld w) w.file.iBlockSize).1 = BZ_OK)) := by
  rcases s_fileWrite_cases E fuel w buffer nSize nTimeout out h with
    a | ⟨hm, a⟩ | ⟨hmode, _⟩
  · exact Or.inl a
  · exact Or.inr (Or.inl ⟨hm, a⟩)
  · by_cases hinit : w.file.fInited = false →
        (BZ2_bzCompressInit E (compressInitWorld w) w.file.iBlockSize).1 = BZ_OK
    · exact Or.inr (Or.inr ⟨hmode, hinit⟩)
    · have hin : w.file.fInited = false := by
        by_contra hc
        exact hinit (fun h => absurd h hc)
      have hst : (BZ2_bzCompressInit E (compressInitWorld w) w.file.iBlockSize).1 ≠ BZ_OK :=
        fun hc => hinit (fun _ => hc)
      unfold s_fileWrite at h
      rw [if_pos hmode] at h
      simp only [if_pos hin] at h
      rw [if_pos (by simpa [compressInitWorld] using hst)] at h
      injection h with h
      exact Or.inr (Or.inl ⟨hmode, hin, hst, h.symm⟩)

/-- One `s_fileWrite` conserves the bytes the handle holds back. -/
theorem s_fileWrite_pending (E : Env U K) (hE : AcceptsSome E) (fuel : Nat) (w : World U K)
    (buffer : Mem) (nSize : Nat) (nTimeout : Int) (out : Nat × World U K)
    (h : s_fileWrite E fuel w buffer nSize nTimeout = some out) (hready : WriteReady w) :
    WriteReady out.2 ∧ ∃ evs, out.2.trace = w.trace ++ evs ∧
      pendingBytes w ++ emittedBytes evs = acceptedBytes evs ++ pendingBytes out.2 := by
  rcases s_fileWrite_split E fuel w buffer nSize nTimeout out h with
    ⟨_, a⟩ | ⟨_, hin, _, a⟩ | ⟨hmode, hinit⟩
  · rw [a]
    exact ⟨hready, [], by simp [hb_fsSetError], by simp [emittedBytes, acceptedBytes, pendingBytes, hb_fsSetError, stagedBytes, stagedSize]⟩
  · rw [a]
    have hf : (hb_fsSetError (BZ2_bzCompressInit E (compressInitWorld w) w.file.iBlockSize).2
        (HB_BZ2_ERROR_BASE -
          (BZ2_bzCompressInit E (compressInitWorld w) w.file.iBlockSize).1)).file.fInited = false :=
      hin
    refine ⟨fun hc => ?_, [Event.compressInit w.file.iBlockSize
        (BZ2_bzCompressInit E (compressInitWorld w) w.file.iBlockSize).1], rfl, ?_⟩
    · simp only at hc
      rw [hf] at hc
      exact absurd hc (by decide)
    · simp only [pendingBytes, hf, hin]
      simp [emittedBytes, acceptedBytes]
  · obtain ⟨w3, nR, w4, hloop, t3, _, _, b3, _, _, no3, ao3, in3, _, _, o1, _, _, o4, o5, o6, _⟩ :=
      s_fileWrite_run E fuel w buffer nSize nTimeout out h hmode hinit
    have hflags : out.2.file.fInited = true ∧ out.2.file.iMode ≠ FO_READ := by
      rcases s_fileWrite_cases E fuel w buffer nSize nTimeout out h with
        ⟨a, _⟩ | ⟨_, hin, hst, _⟩ | ⟨_, _, _, _, m, f, _⟩
      · exact absurd a hmode
      · exact absurd (hinit hin) hst
      · refine ⟨f, ?_⟩
        rw [m]
        split
        · decide
        · exact hmode
    have hst3 : Staging w3 ∧ stagedBytes w3 = pendingBytes w := by
      by_cases hin : w.file.fInited = false
      · rw [if_pos hin] at no3 ao3
        refine ⟨⟨by rw [ao3], by rw [no3, ao3]; rfl⟩, ?_⟩
        simp only [pendingBytes, hin]
        unfold stagedBytes stagedSize
        rw [ao3]
        rfl
      · rw [if_neg hin] at no3 ao3
        have hin' : w.file.fInited = true := by simpa using hin
        obtain ⟨_, s1, s2⟩ := hready hin'
        refine ⟨⟨by rw [ao3]; exact s1, by rw [no3, ao3]; exact s2⟩, ?_⟩
        simp only [pendingBytes, hin', if_true]
        unfold stagedBytes stagedSize
        rw [ao3, b3]
    obtain ⟨evs, m1, m2, _, m4⟩ := s_fileWrite_loop_moves E hE _ fuel w3 0 _ hloop hst3.1
    simp only at m1 m2 m4
    have hst4 : Staging out.2 := ⟨by rw [o4]; exact m2.1, by rw [o4]; exact m2.2⟩
    have hsb : stagedBytes out.2 = stagedBytes w4 := by
      unfold stagedBytes stagedSize
      rw [o4, o5]
    refine ⟨fun _ => ⟨hflags.2, hst4⟩, (if w.file.fInited = false then
        [Event.compressInit w.file.iBlockSize BZ_OK] else []) ++ evs, ?_, ?_⟩
    · rw [o1, m1, t3, List.append_assoc]
    · have hp : pendingBytes out.2 = stagedBytes w4 := by
        simp only [pendingBytes, hflags.1, if_true]
        exact hsb
      rw [hp, ← hst3.2, emittedBytes_append, acceptedBytes_append]
      have h1 : emittedBytes (if w.file.fInited = false then
          [Event.compressInit w.file.iBlockSize BZ_OK] else []) = [] := by
        split <;> rfl
      have h2 : acceptedBytes (if w.file.fInited = false then
          [Event.compressInit w.file.iBlockSize BZ_OK] else []) = [] := by
        split <;> rfl
      rw [h1, h2, List.nil_append, List.nil_append]
      exact m4

/-- `s_fileClose` hands over everything the handle holds back when the
underlying handle always makes progress. -/
theorem s_fileClose_pending (E : Env U K) (hE : AcceptsSome E) (fuel : Nat) (w w2 : World U K)
    (h : s_fileClose E fuel w = some w2) (hready : WriteReady w) :
    ∃ evs, w2.trace = w.trace ++ evs ∧ pendingBytes w ++ emittedBytes evs = acceptedBytes evs := by
  have htail : ∀ w1 : World U K, ∃ extras,
      (if (w1.called (E.Close w1.file.pFile) Event.uClose).file.fInited = true then
        if (w1.called (E.Close w1.file.pFile) Event.uClose).file.iMode = FO_READ then
          some (BZ2_bzDecompressEnd E (w1.called (E.Close w1.file.pFile) Event.uClose))
        else some (BZ2_bzCompressEnd E (w1.called (E.Close w1.file.pFile) Event.uClose))
       else some (w1.called (E.Close w1.file.pFile) Event.uClose)) = some w2 →
      w2.trace = w1.trace ++ extras ∧ emittedBytes extras = [] ∧ acceptedBytes extras = [] := by
    intro w1
    by_cases h1 : (w1.called (E.Close w1.file.pFile) Event.uClose).file.fInited = true
    · rw [if_pos h1]
      by_cases h2 : (w1.called (E.Close w1.file.pFile) Event.uClose).file.iMode = FO_READ
      · rw [if_pos h2]
        refine ⟨[Event.uClose, Event.decompressEnd], ?_⟩
        intro hh
        injection hh with hh
        subst hh
        exact ⟨by simp [BZ2_bzDecompressEnd, World.setBz, World.called], rfl, rfl⟩
      · rw [if_neg h2]
        refine ⟨[Event.uClose, Event.compressEnd], ?_⟩
        intro hh
        injection hh with hh
        subst hh
        exact ⟨by simp [BZ2_bzCompressEnd, World.setBz, World.called], rfl, rfl⟩
    · rw [if_neg h1]
      refine ⟨[Event.uClose], ?_⟩
      intro hh
      injection hh with hh
      subst hh
      exact ⟨rfl, rfl, rfl⟩
  unfold s_fileClose at h
  by_cases hc : w.file.iMode ≠ FO_READ ∧ w.file.fInited = true
  · rw [if_pos hc] at h
    cases hfl : s_bz2_flush E fuel w true with
    | none =>
      rw [hfl] at h
      simp at h
    | some w1 =>
      rw [hfl] at h
      simp only at h
      obtain ⟨extras, hx⟩ := htail w1
      obtain ⟨x1, x2, x3⟩ := hx h
      obtain ⟨evs, m, hempty⟩ := s_bz2_flush_moves E hE fuel w w1 true hfl (hready hc.2).2
      refine ⟨evs ++ extras, by rw [x1, m.1, List.append_assoc], ?_⟩
      have hp : pendingBytes w = stagedBytes w := by simp [pendingBytes, hc.2]
      rw [hp, emittedBytes_append, acceptedBytes_append, x2, x3, List.append_nil,
        List.append_nil, m.2.2.2, hempty, List.append_nil]
  · rw [if_neg hc] at h
    simp only at h
    obtain ⟨extras, hx⟩ := htail w
    obtain ⟨x1, x2, x3⟩ := hx h
    refine ⟨extras, x1, ?_⟩
    have hp : pendingBytes w = [] := by
      unfold pendingBytes
      split
      · rename_i hin
        exact absurd ⟨(hready hin).1, hin⟩ hc
      · rfl
    rw [hp, x2, x3]
    rfl

/-- A sequence of `s_fileWrite` calls conserves the bytes the handle holds
back. -/
theorem runOps_pending (E : Env U K) (hE : AcceptsSome E) (fuel : Nat) (ops : List Op) :
    ∀ (w w1 : World U K), (∀ op ∈ ops, ∃ b n t, op = Op.write b n t) →
      runOps E fuel ops w = some w1 → WriteReady w →
      WriteReady w1 ∧ ∃ evs, w1.trace = w.trace ++ evs ∧
        pendingBytes w ++ emittedBytes evs = acceptedBytes evs ++ pendingBytes w1 := by
  induction ops with
  | nil =>
    intro w w1 _ h hready
    simp only [runOps, Option.some.injEq] at h
    subst h
    exact ⟨hready, [], by simp, by simp [emittedBytes, acceptedBytes]⟩
  | cons op ops ih =>
    intro w w1 hops h hready
    simp only [runOps] at h
    split at h
    · simp at h
    · rename_i w2 hop
      obtain ⟨b, n, t, rfl⟩ := hops op (List.mem_cons_self _ _)
      simp only [applyOp, Option.map_eq_some'] at hop
      obtain ⟨out, ho, rfl⟩ := hop
      obtain ⟨r1, evs1, t1, c1⟩ := s_fileWrite_pending E hE fuel w b n t out ho hready
      obtain ⟨r2, evs2, t2, c2⟩ := ih out.2 w1 (fun o ho => hops o (List.mem_cons_of_mem _ ho)) h r1
      exact ⟨r2, evs1 ++ evs2, by rw [t2, t1, List.append_assoc], conserved_trans c1 c2⟩

theorem acceptsSome_halfEnv : AcceptsSome halfEnv := by
  intro u d t hd
  refine ⟨_, rfl, ?_⟩
  have : 0 < d.length := List.length_pos.2 hd
  rw [List.length_take]
  omega

/-! ## Write-path stream integrity -/

/-- C17: on a handle made by `s_filebz2New`, over an underlying handle whose
`Write` never fails and accepts at least one byte of every non-empty offer,
after any sequence of `s_fileWrite` calls followed by `s_fileClose` the bytes
the underlying handle accepted, in order, are exactly the bytes the encoder
emitted into the staging buffer over all its steps, in order. -/
theorem write_path_integrity (E : Env U K) (hE : AcceptsSome E) (u : U) (iMode iBlockSize : Int)
    (k0 : K) (f : HB_FILE U K) (user : Mem) (err : Int)
    (hnew : s_filebz2New (some u) iMode iBlockSize k0 = some f)
    (fuel : Nat) (ops : List Op) (hops : ∀ op ∈ ops, ∃ b n t, op = Op.write b n t)
    (w1 : World U K)
    (hrun : runOps E fuel ops { file := f, user := user, fsError := err, trace := [] } = some w1)
    (fuel2 : Nat) (w2 : World U K) (hclose : s_fileClose E fuel2 w1 = some w2) :
    acceptedBytes w2.trace = emittedBytes w2.trace := by
  have hf : f.fInited = false := by
    simp only [s_filebz2New, Option.some.injEq] at hnew
    subst hnew
    rfl
  have hready : WriteReady ({ file := f, user := user, fsError := err, trace := [] } : World U K) := by
    intro h
    rw [hf] at h
    exact absurd h (by decide)
  have hp0 : pendingBytes ({ file := f, user := user, fsError := err, trace := [] } : World U K) = [] := by
    simp [pendingBytes, hf]
  obtain ⟨r1, evs1, t1, c1⟩ := runOps_pending E hE fuel ops _ w1 hops hrun hready
  obtain ⟨evs2, t2, c2⟩ := s_fileClose_pending E hE fuel2 w1 w2 hclose r1
  rw [hp0, List.nil_append] at c1
  simp only [List.nil_append] at t1
  rw [t2, t1, acceptedBytes_append, emittedBytes_append, c1, List.append_assoc, c2]

/-- C17, witness: two writes and a close over a store that accepts half of
every offer. -/
theorem write_path_integrity_witness :
    acceptedBytes halfClosed.trace = emittedBytes halfClosed.trace :=
  write_path_integrity halfEnv acceptsSome_halfEnv (Disk.blank []) FO_WRITE HB_BZ2_BLOCKSIZE
    Toy.fresh (toyOpen (Disk.blank []) FO_WRITE).file memZero 0 rfl 8
    [Op.write (memOf [65, 66, 67]) 3 (-1), Op.write (memOf [68, 69]) 2 (-1)]
    (by
      intro op h
      simp only [List.mem_cons, List.mem_singleton, List.not_mem_nil, or_false] at h
      rcases h with rfl | rfl <;> exact ⟨_, _, _, rfl⟩)
    halfWrites (eq_some_getD _ _ (by decide!)) 8 halfClosed (eq_some_getD _ _ (by decide!))

/-! ## The flush -/

theorem lastStatus_append (acc : Option Int) (a b : List Event) :
    lastStatus acc (a ++ b) = lastStatus (lastStatus acc a) b := by
  induction a generalizing acc with
  | nil => rfl
  | cons e es ih => cases e <;> simp [lastStatus, ih]

theorem lastStatus_of_writes (acc : Option Int) {evs : List Event}
    (h : ∀ e ∈ evs, ∃ d t res, e = Event.uWrite d t res) : lastStatus acc evs = acc := by
  induction evs with
  | nil => rfl
  | cons e es ih =>
    obtain ⟨d, t, res, rfl⟩ := h e (List.mem_cons_self _ _)
    simp only [lastStatus]
    exact ih (fun e he => h e (List.mem_cons_of_mem _ he))

/-- What a drain in the flush loop does: it leaves the room within the buffer
size, adds only `Write` calls, and when it returns 0 or the failure sentinel
the room is as before and the last call is a `Write` that took nothing or
failed. -/
theorem s_bz2_write_in_flush (E : Env U K) (w : World U K) (t : Int)
    (hav : w.file.bz2.avail_out ≤ HB_BZ2_BUFSIZE) :
    ∃ evs, (s_bz2_write E w t).2.trace = w.trace ++ evs ∧
      (∀ e ∈ evs, ∃ d t1 res, e = Event.uWrite d t1 res) ∧
      (s_bz2_write E w t).2.file.bz2.avail_out ≤ HB_BZ2_BUFSIZE ∧
      ((s_bz2_write E w t).1 = 0 ∨ (s_bz2_write E w t).1 = HB_SIZE_ERROR →
        w.file.bz2.avail_out < HB_BZ2_BUFSIZE →
        (s_bz2_write E w t).2.file.bz2.avail_out < HB_BZ2_BUFSIZE ∧
        ∃ d t1 res, evs.getLast? = some (Event.uWrite d t1 res) ∧
          (res = 0 ∨ res = HB_SIZE_ERROR)) := by
  have hs := stagedSize_of_le w hav
  obtain ⟨evs, e1, e2, e3⟩ := s_bz2_write_conserves E w t hav
  refine ⟨evs, e1, e2, ?_, ?_⟩
  · rcases e3 with ⟨_, _, b, _⟩ | ⟨a, _, _, b, _⟩
    · rw [b]
      exact hav
    · rw [b]
      omega
  · intro hr hlt
    rcases e3 with ⟨_, _, b, _, _, _, d, t1, hl⟩ | ⟨a, _, _, b, _, c⟩
    · rw [b]
      exact ⟨hlt, d, t1, _, hl, Or.inr rfl⟩
    · have hz : (s_bz2_write E w t).1 = 0 := by
        rcases hr with hr | hr
        · exact hr
        · rw [hr, hs] at a
          simp only [HB_SIZE_ERROR, HB_BZ2_BUFSIZE] at a
          omega
      rw [b, hz]
      obtain ⟨d, t1, hl⟩ := c (by rw [hz]; omega)
      exact ⟨hlt, d, t1, _, hl, Or.inl rfl⟩

/-- What the loop of `s_bz2_flush` guarantees. -/
theorem s_bz2_flush_loop_spec (E : Env U K) (fClose : Bool) (fuel : Nat) (w : World U K)
    (err : Int) (r : World U K × Option Int)
    (h : s_bz2_flush_loop E fuel w fClose err = some r)
    (hav : w.file.bz2.avail_out ≤ HB_BZ2_BUFSIZE) :
    ∃ evs, r.1.trace = w.trace ++ evs ∧ r.1.file.bz2.avail_out ≤ HB_BZ2_BUFSIZE ∧
      (∀ a st c p, Event.compress a st c p ∈ evs → a = if fClose then BZ_FINISH else BZ_FLUSH) ∧
      (r.2 = none → r.1.file.bz2.avail_out < HB_BZ2_BUFSIZE ∧
        ∃ d t res, evs.getLast? = some (Event.uWrite d t res) ∧ (res = 0 ∨ res = HB_SIZE_ERROR)) ∧
      (∀ e, r.2 = some e → r.1.file.bz2.avail_out = HB_BZ2_BUFSIZE ∧
        lastStatus (some err) evs = some e ∧
        ((err = BZ_FLUSH_OK ∨ err = BZ_FINISH_OK) → w.file.bz2.avail_out < HB_BZ2_BUFSIZE →
          lastStatus none evs = some e)) := by
  refine s_bz2_flush_loop_induct E fClose
    (fun w err r => w.file.bz2.avail_out ≤ HB_BZ2_BUFSIZE →
      ∃ evs, r.1.trace = w.trace ++ evs ∧ r.1.file.bz2.avail_out ≤ HB_BZ2_BUFSIZE ∧
      (∀ a st c p, Event.compress a st c p ∈ evs → a = if fClose then BZ_FINISH else BZ_FLUSH) ∧
      (r.2 = none → r.1.file.bz2.avail_out < HB_BZ2_BUFSIZE ∧
        ∃ d t res, evs.getLast? = some (Event.uWrite d t res) ∧ (res = 0 ∨ res = HB_SIZE_ERROR)) ∧
      (∀ e, r.2 = some e → r.1.file.bz2.avail_out = HB_BZ2_BUFSIZE ∧
        lastStatus (some err) evs = some e ∧
        ((err = BZ_FLUSH_OK ∨ err = BZ_FINISH_OK) → w.file.bz2.avail_out < HB_BZ2_BUFSIZE →
          lastStatus none evs = some e)))
    ?_ ?_ ?_ ?_ fuel w err r h hav
  · intro w err hge hav
    refine ⟨[], by simp, hav, by simp, by simp, ?_⟩
    intro e he
    injection he with he
    subst he
    exact ⟨by show w.file.bz2.avail_out = _; omega, rfl, fun _ hlt => absurd hlt hge⟩
  · intro w err hlt hd hav
    obtain ⟨devs, d1, d2, d3, d4⟩ := s_bz2_write_in_flush E w w.file.nTimeout hav
    refine ⟨devs, d1, d3, ?_, fun _ => d4 hd hlt, by simp⟩
    intro a st c p hm
    obtain ⟨_, _, _, hh⟩ := d2 _ hm
    cases hh
  · intro w err res hlt _ herr ih hav
    obtain ⟨devs, d1, d2, d3, _⟩ := s_bz2_write_in_flush E w w.file.nTimeout hav
    obtain ⟨c, p, c1, _, c3, _, c5, _⟩ := BZ2_bzCompress_step E (s_bz2_write E w w.file.nTimeout).2
      (if fClose then BZ_FINISH else BZ_FLUSH)
    obtain ⟨evs, i1, i2, i3, i4, i5⟩ := ih (by rw [c5]; omega)
    refine ⟨devs ++ [Event.compress (if fClose then BZ_FINISH else BZ_FLUSH)
        (BZ2_bzCompress E (s_bz2_write E w w.file.nTimeout).2
          (if fClose then BZ_FINISH else BZ_FLUSH)).1 c p] ++ evs,
      by rw [i1, c1, d1]; simp only [List.append_assoc], i2, ?_, ?_, ?_⟩
    · intro a st c' p' hm
      simp only [List.mem_append, List.mem_singleton] at hm
      rcases hm with (hm | hm) | hm
      · obtain ⟨_, _, _, hh⟩ := d2 _ hm
        cases hh
      · injection hm with hm
      · exact i3 a st c' p' hm
    · intro hn
      obtain ⟨a, d, t, res, hl, hres⟩ := i4 hn
      refine ⟨a, d, t, res, ?_, hres⟩
      rw [List.getLast?_append, hl]
      rfl
    · intro e he
      obtain ⟨a, b, _⟩ := i5 e he
      have hls : ∀ acc, lastStatus acc (devs ++ [Event.compress (if fClose then BZ_FINISH else BZ_FLUSH)
          (BZ2_bzCompress E (s_bz2_write E w w.file.nTimeout).2
            (if fClose then BZ_FINISH else BZ_FLUSH)).1 c p] ++ evs) = some e := by
        intro acc
        rw [lastStatus_append, lastStatus_append, lastStatus_of_writes _ d2]
        exact b
      exact ⟨a, hls _, fun _ _ => hls _⟩
  · intro w err res hlt _ herr ih hav
    obtain ⟨devs, d1, d2, d3, _⟩ := s_bz2_write_in_flush E w w.file.nTimeout hav
    obtain ⟨evs, i1, i2, i3, i4, i5⟩ := ih d3
    refine ⟨devs ++ evs, by rw [i1, d1, List.append_assoc], i2, ?_, ?_, ?_⟩
    · intro a st c' p' hm
      rcases List.mem_append.1 hm with hm | hm
      · obtain ⟨_, _, _, hh⟩ := d2 _ hm
        cases hh
      · exact i3 a st c' p' hm
    · intro hn
      obtain ⟨a, d, t, res, hl, hres⟩ := i4 hn
      refine ⟨a, d, t, res, ?_, hres⟩
      rw [List.getLast?_append, hl]
      rfl
    · intro e he
      obtain ⟨a, b, _⟩ := i5 e he
      refine ⟨a, ?_, fun hc => absurd hc herr⟩
      rw [lastStatus_append, lastStatus_of_writes _ d2]
      exact b

/-- What `s_bz2_flush` guarantees. -/
theorem s_bz2_flush_spec (E : Env U K) (fuel : Nat) (w w1 : World U K) (fClose : Bool)
    (h : s_bz2_flush E fuel w fClose = some w1) (hav : w.file.bz2.avail_out ≤ HB_BZ2_BUFSIZE) :
    ∃ evs, w1.trace = w.trace ++ evs ∧
      (∀ a st c p, Event.compress a st c p ∈ evs → a = if fClose then BZ_FINISH else BZ_FLUSH) ∧
      ((w1.file.bz2.avail_out < HB_BZ2_BUFSIZE ∧
          ∃ d t res, evs.getLast? = some (Event.uWrite d t res) ∧
            (res = 0 ∨ res = HB_SIZE_ERROR)) ∨
       (w1.file.bz2.avail_out = HB_BZ2_BUFSIZE ∧
          ∃ st, lastStatus none evs = some st ∧
            w1.fsError = if st = BZ_STREAM_END ∨ st = BZ_RUN_OK then 0
                         else HB_BZ2_ERROR_BASE - st)) := by
  unfold s_bz2_flush at h
  simp only at h
  have hfirst : ∃ fevs,
      (if w.file.bz2.avail_out > 0 then
          BZ2_bzCompress E w (if fClose then BZ_FINISH else BZ_FLUSH)
        else if w.file.bz2.avail_out < HB_BZ2_BUFSIZE then (BZ_FLUSH_OK, w)
        else (BZ_STREAM_END, w)).2.trace = w.trace ++ fevs ∧
      (if w.file.bz2.avail_out > 0 then
          BZ2_bzCompress E w (if fClose then BZ_FINISH else BZ_FLUSH)
        else if w.file.bz2.avail_out < HB_BZ2_BUFSIZE then (BZ_FLUSH_OK, w)
        else (BZ_STREAM_END, w)).2.file.bz2.avail_out ≤ HB_BZ2_BUFSIZE ∧
      (∀ a st c p, Event.compress a st c p ∈ fevs → a = if fClose then BZ_FINISH else BZ_FLUSH) ∧
      ((fevs = [] ∧ (if w.file.bz2.avail_out > 0 then
            BZ2_bzCompress E w (if fClose then BZ_FINISH else BZ_FLUSH)
          else if w.file.bz2.avail_out < HB_BZ2_BUFSIZE then (BZ_FLUSH_OK, w)
          else (BZ_STREAM_END, w)) = (BZ_FLUSH_OK, w) ∧ w.file.bz2.avail_out < HB_BZ2_BUFSIZE) ∨
        ∀ acc, lastStatus acc fevs = some (if w.file.bz2.avail_out > 0 then
            BZ2_bzCompress E w (if fClose then BZ_FINISH else BZ_FLUSH)
          else if w.file.bz2.avail_out < HB_BZ2_BUFSIZE then (BZ_FLUSH_OK, w)
          else (BZ_STREAM_END, w)).1) := by
    by_cases hpos : w.file.bz2.avail_out > 0
    · rw [if_pos hpos]
      obtain ⟨c, p, c1, _, _, _, c5, _⟩ :=
        BZ2_bzCompress_step E w (if fClose then BZ_FINISH else BZ_FLUSH)
      refine ⟨_, c1, by rw [c5]; omega, ?_, Or.inr (fun _ => rfl)⟩
      intro a st c' p' hm
      simp only [List.mem_singleton] at hm
      injection hm with hm
    · rw [if_neg hpos]
      have hlt : w.file.bz2.avail_out < HB_BZ2_BUFSIZE := by
        simp only [HB_BZ2_BUFSIZE]
        omega
      rw [if_pos hlt]
      exact ⟨[], by simp, hav, by simp, Or.inl ⟨rfl, rfl, hlt⟩⟩
  obtain ⟨fevs, f1, f2, f3, f4⟩ := hfirst
  generalize (if w.file.bz2.avail_out > 0 then
          BZ2_bzCompress E w (if fClose then BZ_FINISH else BZ_FLUSH)
        else if w.file.bz2.avail_out < HB_BZ2_BUFSIZE then (BZ_FLUSH_OK, w)
        else (BZ_STREAM_END, w)) = first at *
  have hcomp : ∀ evs : List Event,
      (∀ a st c p, Event.compress a st c p ∈ evs → a = if fClose then BZ_FINISH else BZ_FLUSH) →
      ∀ a st c p, Event.compress a st c p ∈ fevs ++ evs →
        a = if fClose then BZ_FINISH else BZ_FLUSH := by
    intro evs h3 a st c p hm
    rcases List.mem_append.1 hm with hm | hm
    · exact f3 a st c p hm
    · exact h3 a st c p hm
  split at h
  · simp at h
  · rename_i w2 hloop
    injection h with h
    subst h
    obtain ⟨evs, l1, _, l3, l4, _⟩ := s_bz2_flush_loop_spec E fClose fuel first.2 first.1 _ hloop f2
    obtain ⟨a, d, t, res, hl, hres⟩ := l4 rfl
    refine ⟨fevs ++ evs, by rw [l1, f1, List.append_assoc], hcomp evs l3,
      Or.inl ⟨a, d, t, res, ?_, hres⟩⟩
    rw [List.getLast?_append, hl]
    rfl
  · rename_i w2 err hloop
    obtain ⟨evs, l1, _, l3, _, l5⟩ := s_bz2_flush_loop_spec E fClose fuel first.2 first.1 _ hloop f2
    obtain ⟨a, b, c⟩ := l5 err rfl
    simp only at l1 a
    have hlast : lastStatus none (fevs ++ evs) = some err := by
      rw [lastStatus_append]
      rcases f4 with ⟨g1, g2, g3⟩ | g
      · rw [g1]
        simp only [lastStatus]
        rw [g2] at c
        exact c (Or.inl rfl) g3
      · rw [g]
        exact b
    by_cases he : err = BZ_STREAM_END ∨ err = BZ_RUN_OK
    · rw [if_pos he] at h
      injection h with h
      subst h
      exact ⟨fevs ++ evs, by simp [hb_fsSetError, l1, f1], hcomp evs l3,
        Or.inr ⟨a, err, hlast, by rw [if_pos he]; rfl⟩⟩
    · rw [if_neg he] at h
      injection h with h
      subst h
      exact ⟨fevs ++ evs, by simp [hb_fsSetError, l1, f1], hcomp evs l3,
        Or.inr ⟨a, err, hlast, by rw [if_neg he]; rfl⟩⟩

/-! ## Finalization flush -/

/-- C11, amended: `s_bz2_flush` with `fClose` true, started with at
most 8192 bytes of room, calls the encoder only with `BZ_FINISH`; it returns
either right after an underlying `Write` that took nothing or failed, with
bytes still staged (`avail_out < 8192`), or with the staging buffer empty
(`avail_out = 8192`) after at least one encoder step, whatever the status of
the last step is; in the second case the last error is 0 when that status is
`BZ_STREAM_END` or `BZ_RUN_OK` and 100 minus the status otherwise. -/
theorem finalization_flush (E : Env U K) (fuel : Nat) (w w1 : World U K)
    (h : s_bz2_flush E fuel w true = some w1) (hav : w.file.bz2.avail_out ≤ HB_BZ2_BUFSIZE) :
    (∀ a st c p, Event.compress a st c p ∈ newEvents w w1 → a = BZ_FINISH) ∧
    ((w1.file.bz2.avail_out < HB_BZ2_BUFSIZE ∧
        ∃ d t res, (newEvents w w1).getLast? = some (Event.uWrite d t res) ∧
          (res = 0 ∨ res = HB_SIZE_ERROR)) ∨
     (w1.file.bz2.avail_out = HB_BZ2_BUFSIZE ∧
        ∃ st, lastStatus none (newEvents w w1) = some st ∧
          w1.fsError = if st = BZ_STREAM_END ∨ st = BZ_RUN_OK then 0
                       else HB_BZ2_ERROR_BASE - st)) := by
  obtain ⟨evs, e1, e2, e3⟩ := s_bz2_flush_spec E fuel w w1 true h hav
  rw [newEvents_of_append e1]
  exact ⟨fun a st c p hm => by simpa using e2 a st c p hm, e3⟩

/-- C11, counterexample: three bytes are staged and the engine answers the
finish step with `BZ_SEQUENCE_ERROR` and no output.  The flush writes the
three bytes in one `Write` and returns with last error 101: the encoder never
reported `BZ_STREAM_END` and no drain stalled or failed.  When the engine
answers the finish step with `BZ_RUN_OK` instead, the last error is 0, not
100 - 1. -/
theorem flush_returns_without_completion :
    (s_bz2_flush scriptedEnv 8
      (scriptedWrite { status := BZ_SEQUENCE_ERROR, consumed := 0, produced := [] }).2
      true).isSome = true ∧
    (newEvents (scriptedWrite { status := BZ_SEQUENCE_ERROR, consumed := 0, produced := [] }).2
      (scriptedFlush { status := BZ_SEQUENCE_ERROR, consumed := 0, produced := [] })).map
        Event.brief = [Brief.codecStep (-1) 0 0, Brief.write 3 (-1) 3] ∧
    (scriptedFlush { status := BZ_SEQUENCE_ERROR, consumed := 0, produced := [] }).fsError = 101 ∧
    (scriptedFlush
      { status := BZ_SEQUENCE_ERROR, consumed := 0, produced := [] }).file.bz2.avail_out = 8192 ∧
    (newEvents (scriptedWrite { status := BZ_RUN_OK, consumed := 0, produced := [] }).2
      (scriptedFlush { status := BZ_RUN_OK, consumed := 0, produced := [] })).map
        Event.brief = [Brief.codecStep 1 0 0, Brief.write 3 (-1) 3] ∧
    (scriptedFlush { status := BZ_RUN_OK, consumed := 0, produced := [] }).fsError = 0 := by
  decide!

/-- C11, witness: the flush after the three-byte write of `smallWriter`. -/
theorem finalization_flush_witness :
    (∀ a st c p, Event.compress a st c p ∈ newEvents smallWrite.2 smallFlush → a = BZ_FINISH) ∧
    ((smallFlush.file.bz2.avail_out < HB_BZ2_BUFSIZE ∧
        ∃ d t res, (newEvents smallWrite.2 smallFlush).getLast? = some (Event.uWrite d t res) ∧
          (res = 0 ∨ res = HB_SIZE_ERROR)) ∨
     (smallFlush.file.bz2.avail_out = HB_BZ2_BUFSIZE ∧
        ∃ st, lastStatus none (newEvents smallWrite.2 smallFlush) = some st ∧
          smallFlush.fsError = if st = BZ_STREAM_END ∨ st = BZ_RUN_OK then 0
                               else HB_BZ2_ERROR_BASE - st)) :=
  finalization_flush toyEnv 8 smallWrite.2 smallFlush (eq_some_getD _ _ (by decide!))
    (by decide!)

/-! ## The last error after a call -/

theorem underlyingRead_fsError (E : Env U K) (hq : QuietHandle E) (w : World U K) (size : Nat)
    (t : Int) (h0 : w.fsError = 0) : (underlyingRead E w size t).2.fsError = 0 := by
  have := hq.1 w.file.pFile size t
  unfold underlyingRead
  simp only
  split <;> simpa [World.called, h0] using this

theorem underlyingWrite_fsError (E : Env U K) (hq : QuietHandle E) (w : World U K) (off len : Nat)
    (t : Int) (h0 : w.fsError = 0) : (underlyingWrite E w off len t).2.fsError = 0 := by
  have := hq.2 w.file.pFile (memLoad w.file.buffer off len) t
  unfold underlyingWrite
  simp only
  split <;> simpa [World.called, h0] using this

theorem s_bz2_write_fsError (E : Env U K) (hq : QuietHandle E) (w : World U K) (t : Int)
    (h0 : w.fsError = 0) : (s_bz2_write E w t).2.fsError = 0 := by
  have hloop : (s_bz2_write_loop E (stagedSize w) w (stagedSize w) 0 t).2.fsError = 0 := by
    refine s_bz2_write_loop_induct E (stagedSize w) (stagedSize_lt w)
      (fun w _ _ r => w.fsError = 0 → r.2.fsError = 0) ?_ ?_ ?_ ?_ (stagedSize w) w 0 t
      (Nat.zero_le _) (by omega) h0
    · intro w nW t _ h
      exact h
    · intro w nW t _ _ h
      exact underlyingWrite_fsError E hq w _ _ t h
    · intro w nW t _ _ h
      exact underlyingWrite_fsError E hq w _ _ t h
    · intro w nW t res _ _ _ _ ih h
      exact ih (underlyingWrite_fsError E hq w _ _ t h)
  rw [s_bz2_write_eq]
  generalize s_bz2_write_loop E (stagedSize w) w (stagedSize w) 0 t = l at *
  obtain ⟨r1, w1⟩ := l
  cases r1 with
  | none => exact hloop
  | some n =>
    simp only
    split
    · split <;> exact hloop
    · exact hloop

/-- Over a quiet underlying handle the read loop leaves the last error at 0
unless a decoder step reports a status other than `BZ_OK` and `BZ_STREAM_END`. -/
theorem s_fileRead_loop_fsError (E : Env U K) (hq : QuietHandle E) (t : Int) (fuel : Nat)
    (w : World U K) (n : Nat) (r : Nat × World U K)
    (h : s_fileRead_loop E fuel w t n = some r) (h0 : w.fsError = 0) :
    ∃ evs, r.2.trace = w.trace ++ evs ∧
      ((∀ st c p, Event.decompress st c p ∈ evs → st = BZ_OK ∨ st = BZ_STREAM_END) →
        r.2.fsError = 0) := by
  refine s_fileRead_loop_induct E t
    (fun w _ r => w.fsError = 0 → ∃ evs, r.2.trace = w.trace ++ evs ∧
      ((∀ st c p, Event.decompress st c p ∈ evs → st = BZ_OK ∨ st = BZ_STREAM_END) →
        r.2.fsError = 0))
    ?_ ?_ ?_ ?_ ?_ ?_ fuel w n r h h0
  · intro w n _ h0
    exact ⟨[], by simp, fun _ => h0⟩
  · intro w n _ _ h0
    obtain ⟨c, p, htr, _, _, _, _, _, _, _, herr⟩ := BZ2_bzDecompress_step E w
    refine ⟨[Event.decompress (BZ2_bzDecompress E w).1 c p, Event.decompressEnd], ?_, ?_⟩
    · simp [BZ2_bzDecompressEnd, World.setBz, htr]
    · intro _
      show (BZ2_bzDecompress E w).2.fsError = 0
      rw [herr, h0]
  · intro w n _ hne hne2 h0
    obtain ⟨c, p, htr, _⟩ := BZ2_bzDecompress_step E w
    refine ⟨[Event.decompress (BZ2_bzDecompress E w).1 c p], by simp [hb_fsSetError, htr], ?_⟩
    intro hall
    rcases hall _ c p (List.mem_singleton.2 rfl) with h1 | h1
    · exact absurd h1 hne
    · exact absurd h1 hne2
  · intro w n r _ _ _ hr _ h0
    obtain ⟨c, p, htr, _, _, _, _, _, _, _, herr⟩ := BZ2_bzDecompress_step E w
    obtain ⟨dat, utr, _⟩ := underlyingRead_step E (BZ2_bzDecompress E w).2 HB_BZ2_BUFSIZE
      (if (BZ2_bzDecompress E w).2.file.bz2.avail_out ≠ 0 then t else 0)
    have hf := underlyingRead_fsError E hq (BZ2_bzDecompress E w).2 HB_BZ2_BUFSIZE
      (if (BZ2_bzDecompress E w).2.file.bz2.avail_out ≠ 0 then t else 0) (by rw [herr, h0])
    rw [← hr] at utr hf
    exact ⟨[Event.decompress (BZ2_bzDecompress E w).1 c p, Event.uRead HB_BZ2_BUFSIZE
        (if (BZ2_bzDecompress E w).2.file.bz2.avail_out ≠ 0 then t else 0) r.1 dat],
      by simp [utr, htr], fun _ => hf⟩
  · intro w n r res _ _ _ hr _ ih h0
    obtain ⟨c, p, htr, _, _, _, _, _, _, _, herr⟩ := BZ2_bzDecompress_step E w
    obtain ⟨dat, utr, _⟩ := underlyingRead_step E (BZ2_bzDecompress E w).2 HB_BZ2_BUFSIZE
      (if (BZ2_bzDecompress E w).2.file.bz2.avail_out ≠ 0 then t else 0)
    have hf := underlyingRead_fsError E hq (BZ2_bzDecompress E w).2 HB_BZ2_BUFSIZE
      (if (BZ2_bzDecompress E w).2.file.bz2.avail_out ≠ 0 then t else 0) (by rw [herr, h0])
    rw [← hr] at utr hf
    obtain ⟨evs, e1, e2⟩ := ih hf
    refine ⟨[Event.decompress (BZ2_bzDecompress E w).1 c p, Event.uRead HB_BZ2_BUFSIZE
        (if (BZ2_bzDecompress E w).2.file.bz2.avail_out ≠ 0 then t else 0) r.1 dat] ++ evs,
      by simp [e1, World.setBz, utr, htr], ?_⟩
    intro hall
    exact e2 (fun st c' p' hm => hall st c' p' (List.mem_append_right _ hm))
  · intro w n res _ _ _ ih h0
    obtain ⟨c, p, htr, _, _, _, _, _, _, _, herr⟩ := BZ2_bzDecompress_step E w
    obtain ⟨evs, e1, e2⟩ := ih (by rw [herr, h0])
    refine ⟨[Event.decompress (BZ2_bzDecompress E w).1 c p] ++ evs, by simp [e1, htr], ?_⟩
    intro hall
    exact e2 (fun st c' p' hm => hall st c' p' (List.mem_append_right _ hm))

/-- Over a quiet underlying handle the write loop leaves the last error at 0
unless an encoder step reports a status other than `BZ_RUN_OK`. -/
theorem s_fileWrite_loop_fsError (E : Env U K) (hq : QuietHandle E) (t : Int) (fuel : Nat)
    (w : World U K) (n : Nat) (r : Nat × World U K)
    (h : s_fileWrite_loop E fuel w t n = some r) (h0 : w.fsError = 0) :
    ∃ evs, r.2.trace = w.trace ++ evs ∧
      ((∀ a st c p, Event.compress a st c p ∈ evs → st = BZ_RUN_OK) → r.2.fsError = 0) := by
  have hdr : ∀ (w : World U K) (n : Nat), w.fsError = 0 → ∃ devs,
      (if w.file.bz2.avail_out = 0 then s_bz2_write E w t else (n, w)).2.trace = w.trace ++ devs ∧
      (if w.file.bz2.avail_out = 0 then s_bz2_write E w t else (n, w)).2.fsError = 0 := by
    intro w n h0
    obtain ⟨devs, d1, _⟩ := s_fileWrite_drain E w t n
    refine ⟨devs, d1, ?_⟩
    split
    · exact s_bz2_write_fsError E hq w t h0
    · exact h0
  refine s_fileWrite_loop_induct E t
    (fun w _ r => w.fsError = 0 → ∃ evs, r.2.trace = w.trace ++ evs ∧
      ((∀ a st c p, Event.compress a st c p ∈ evs → st = BZ_RUN_OK) → r.2.fsError = 0))
    ?_ ?_ ?_ ?_ fuel w n r h h0
  · intro w n _ h0
    exact ⟨[], by simp, fun _ => h0⟩
  · intro w n _ hz _ h0
    obtain ⟨devs, d1, d2⟩ := hdr w n h0
    rw [if_pos hz] at d1 d2
    exact ⟨devs, d1, fun _ => d2⟩
  · intro w n dr _ hd _ hne h0
    obtain ⟨devs, d1, d2⟩ := hdr w n h0
    rw [← hd] at d1 d2
    obtain ⟨c, p, htr, _⟩ := BZ2_bzCompress_step E dr.2 BZ_RUN
    refine ⟨devs ++ [Event.compress BZ_RUN (BZ2_bzCompress E dr.2 BZ_RUN).1 c p],
      by simp [hb_fsSetError, htr, d1], ?_⟩
    intro hall
    exact absurd (hall _ _ c p (List.mem_append_right _ (List.mem_singleton.2 rfl))) hne
  · intro w n dr res _ hd _ _ ih h0
    obtain ⟨devs, d1, d2⟩ := hdr w n h0
    rw [← hd] at d1 d2
    obtain ⟨c, p, htr, _, _, _, _, _, herr⟩ := BZ2_bzCompress_step E dr.2 BZ_RUN
    obtain ⟨evs, e1, e2⟩ := ih (by rw [herr, d2])
    refine ⟨devs ++ [Event.compress BZ_RUN (BZ2_bzCompress E dr.2 BZ_RUN).1 c p] ++ evs,
      by simp [e1, htr, d1], ?_⟩
    intro hall
    exact e2 (fun a st c' p' hm => hall a st c' p' (List.mem_append_right _ hm))

theorem quietHandle_steadyEnv : QuietHandle steadyEnv :=
  ⟨fun _ _ _ => rfl, fun _ _ _ => rfl⟩

/-! ## The status tests, place by place -/

/-- The status tests of the driver, place by place.  A decoder or encoder init
with a status other than `BZ_OK` makes the call fail with last error 100 minus
the status; a decoder step with a status other than `BZ_OK` and
`BZ_STREAM_END`, and an encoder step with a status other than `BZ_RUN_OK`,
leave 100 minus the status as the last error; `s_bz2_flush`, when it ends with
the staging buffer empty, records 0 for a final status `BZ_STREAM_END` or
`BZ_RUN_OK` and 100 minus the status otherwise.  100 minus the status is not 0
for any status of libbz2 (-9 to 4).  A call whose init and steps all pass the
test of their place ends with last error 0 when the underlying handle leaves
the last-error slot alone or clears it. -/
theorem status_tests_by_site (E : Env U K) :
    (∀ fuel w buffer nSize nTimeout out, s_fileRead E fuel w buffer nSize nTimeout = some out →
      w.file.iMode ≠ FO_WRITE → w.file.fEof = false → w.file.fInited = false →
      (BZ2_bzDecompressInit E w).1 ≠ BZ_OK →
      out.1 = HB_SIZE_ERROR ∧
      out.2.fsError = HB_BZ2_ERROR_BASE - (BZ2_bzDecompressInit E w).1) ∧
    (∀ fuel w buffer nSize nTimeout out, s_fileRead E fuel w buffer nSize nTimeout = some out →
      ∀ st c p, Event.decompress st c p ∈ newEvents w out.2 → st ≠ BZ_OK →
        st ≠ BZ_STREAM_END → out.2.fsError = HB_BZ2_ERROR_BASE - st) ∧
    (∀ fuel w buffer nSize nTimeout out, s_fileWrite E fuel w buffer nSize nTimeout = some out →
      w.file.iMode ≠ FO_READ → w.file.fInited = false →
      (BZ2_bzCompressInit E (compressInitWorld w) w.file.iBlockSize).1 ≠ BZ_OK →
      out.1 = HB_SIZE_ERROR ∧
      out.2.fsError = HB_BZ2_ERROR_BASE -
        (BZ2_bzCompressInit E (compressInitWorld w) w.file.iBlockSize).1) ∧
    (∀ fuel w buffer nSize nTimeout out, s_fileWrite E fuel w buffer nSize nTimeout = some out →
      ∀ a st c p, Event.compress a st c p ∈ newEvents w out.2 → st ≠ BZ_RUN_OK →
        out.2.fsError = HB_BZ2_ERROR_BASE - st) ∧
    (∀ fuel w w1 fClose, s_bz2_flush E fuel w fClose = some w1 →
      w.file.bz2.avail_out ≤ HB_BZ2_BUFSIZE → w1.file.bz2.avail_out = HB_BZ2_BUFSIZE →
      ∃ st, lastStatus none (newEvents w w1) = some st ∧
        w1.fsError = if st = BZ_STREAM_END ∨ st = BZ_RUN_OK then 0
                     else HB_BZ2_ERROR_BASE - st) ∧
    (∀ s : Int, -9 ≤ s → s ≤ 4 → HB_BZ2_ERROR_BASE - s ≠ 0) ∧
    (QuietHandle E →
      (∀ fuel w buffer nSize nTimeout out, s_fileRead E fuel w buffer nSize nTimeout = some out →
        w.file.iMode ≠ FO_WRITE → w.file.fEof = false →
        (w.file.fInited = false → (BZ2_bzDecompressInit E w).1 = BZ_OK) →
        (∀ st c p, Event.decompress st c p ∈ newEvents w out.2 →
          st = BZ_OK ∨ st = BZ_STREAM_END) →
        out.2.fsError = 0) ∧
      (∀ fuel w buffer nSize nTimeout out, s_fileWrite E fuel w buffer nSize nTimeout = some out →
        w.file.iMode ≠ FO_READ →
        (w.file.fInited = false →
          (BZ2_bzCompressInit E (compressInitWorld w) w.file.iBlockSize).1 = BZ_OK) →
        (∀ a st c p, Event.compress a st c p ∈ newEvents w out.2 → st = BZ_RUN_OK) →
        out.2.fsError = 0)) := by
  refine ⟨?_, ?_, ?_, ?_, ?_, ?_, ?_⟩
  · intro fuel w buffer nSize nTimeout out h hmode heof hin hne
    rcases s_fileRead_split E fuel w buffer nSize nTimeout out h with
      ⟨a, _⟩ | ⟨_, _, _, a, b⟩ | ⟨_, _, c⟩
    · rcases s_fileRead_cases E fuel w buffer nSize nTimeout out h with
        ⟨x, _⟩ | ⟨_, x, _⟩ | ⟨_, _, _, _, x⟩ | ⟨_, _, evs, x, _⟩
      · exact absurd x hmode
      · rw [heof] at x
        exact absurd x (by decide)
      · rw [x]
        exact ⟨rfl, rfl⟩
      · rw [newEvents_of_append (show out.2.trace = w.trace ++ [] by simpa using a), if_pos hin] at x
        simp at x
    · exact ⟨a, b⟩
    · exact absurd (c hin) hne
  · intro fuel w buffer nSize nTimeout out h st c p hm h1 h2
    rcases s_fileRead_cases E fuel w buffer nSize nTimeout out h with
      ⟨_, x⟩ | ⟨_, _, x⟩ | ⟨_, _, _, _, x⟩ | ⟨_, _, evs, x, _, _, _, _, f, _⟩
    · rw [x, newEvents_self] at hm
      simp at hm
    · rw [x, newEvents_self] at hm
      simp at hm
    · rw [x] at hm
      have : newEvents w (hb_fsSetError (BZ2_bzDecompressInit E w).2
          (HB_BZ2_ERROR_BASE - (BZ2_bzDecompressInit E w).1)) =
          [Event.decompressInit (BZ2_bzDecompressInit E w).1] := newEvents_of_append rfl
      rw [this] at hm
      simp at hm
    · rw [x] at hm
      rcases List.mem_append.1 hm with hm | hm
      · split at hm <;> simp at hm
      · exact (f st c p hm h1 h2).1
  · intro fuel w buffer nSize nTimeout out h hmode hin hne
    rcases s_fileWrite_split E fuel w buffer nSize nTimeout out h with
      ⟨a, _⟩ | ⟨_, _, _, a⟩ | ⟨_, c⟩
    · exact absurd a hmode
    · rw [a]
      exact ⟨rfl, rfl⟩
    · exact absurd (c hin) hne
  · intro fuel w buffer nSize nTimeout out h a st c p hm h1
    rcases s_fileWrite_cases E fuel w buffer nSize nTimeout out h with
      ⟨_, x⟩ | ⟨_, _, _, x⟩ | ⟨_, evs, nR, x, _, _, _, _, _, _, _, _, _, f, _⟩
    · rw [x, newEvents_self] at hm
      simp at hm
    · rw [x] at hm
      have : newEvents w (hb_fsSetError
          (BZ2_bzCompressInit E (compressInitWorld w) w.file.iBlockSize).2
          (HB_BZ2_ERROR_BASE -
            (BZ2_bzCompressInit E (compressInitWorld w) w.file.iBlockSize).1)) =
          [Event.compressInit w.file.iBlockSize
            (BZ2_bzCompressInit E (compressInitWorld w) w.file.iBlockSize).1] :=
        newEvents_of_append rfl
      rw [this] at hm
      simp at hm
    · rw [x] at hm
      rcases List.mem_append.1 hm with hm | hm
      · split at hm <;> simp at hm
      · exact f a st c p hm h1
  · intro fuel w w1 fClose h hav hfull
    obtain ⟨evs, e1, _, e3⟩ := s_bz2_flush_spec E fuel w w1 fClose h hav
    rw [newEvents_of_append e1]
    rcases e3 with ⟨a, _⟩ | ⟨_, b⟩
    · omega
    · exact b
  · intro s h1 h2
    simp only [HB_BZ2_ERROR_BASE]
    omega
  · intro hq
    constructor
    · intro fuel w buffer nSize nTimeout out h hmode heof hinit hall
      obtain ⟨w3, nR, w4, hloop, t3, f3, _, _, _, _, _, _, o1, o2, _⟩ :=
        s_fileRead_run E fuel w buffer nSize nTimeout out h hmode heof hinit
      obtain ⟨evs, e1, e2⟩ := s_fileRead_loop_fsError E hq _ fuel w3 0 _ hloop f3
      simp only at e1 e2
      rw [o2]
      apply e2
      intro st c p hm
      apply hall st c p
      rw [newEvents_of_append (show out.2.trace = w.trace ++ ((if w.file.fInited = false then
        [Event.decompressInit BZ_OK] else []) ++ evs) by rw [o1, e1, t3, List.append_assoc])]
      exact List.mem_append_right _ hm
    · intro fuel w buffer nSize nTimeout out h hmode hinit hall
      obtain ⟨w3, nR, w4, hloop, t3, f3, _, _, _, _, _, _, _, _, _, o1, o2, _⟩ :=
        s_fileWrite_run E fuel w buffer nSize nTimeout out h hmode hinit
      obtain ⟨evs, e1, e2⟩ := s_fileWrite_loop_fsError E hq _ fuel w3 0 _ hloop f3
      simp only at e1 e2
      rw [o2]
      apply e2
      intro a st c p hm
      apply hall a st c p
      rw [newEvents_of_append (show out.2.trace = w.trace ++ ((if w.file.fInited = false then
        [Event.compressInit w.file.iBlockSize BZ_OK] else []) ++ evs) by
          rw [o1, e1, t3, List.append_assoc])]
      exact List.mem_append_right _ hm

/-- Statuses libbz2 does not give at these places, fed by an engine with
scripted answers, are not treated alike by the tests of the driver: a decoder
init that reports `BZ_RUN_OK` leaves last error 99, a decoder step that
reports `BZ_RUN_OK` leaves 99, an encoder init that reports `BZ_STREAM_END`
leaves 96, an encoder step that reports `BZ_OK` leaves 100, and a finalization
flush whose final status is `BZ_OK` leaves 100; the read and write calls
return the failure sentinel. -/
theorem undocumented_statuses_differ_by_site :
    ((scriptedRead [{ status := BZ_RUN_OK, consumed := 0, produced := [] }]).1,
      (scriptedRead [{ status := BZ_RUN_OK, consumed := 0, produced := [] }]).2.fsError) =
        (HB_SIZE_ERROR, 99) ∧
    ((scriptedRead [{ status := BZ_OK, consumed := 0, produced := [] },
        { status := BZ_RUN_OK, consumed := 0, produced := [] }]).1,
      (scriptedRead [{ status := BZ_OK, consumed := 0, produced := [] },
        { status := BZ_RUN_OK, consumed := 0, produced := [] }]).2.fsError) =
        (HB_SIZE_ERROR, 99) ∧
    ((scriptedPut [{ status := BZ_STREAM_END, consumed := 0, produced := [] }]).1,
      (scriptedPut [{ status := BZ_STREAM_END, consumed := 0, produced := [] }]).2.fsError) =
        (HB_SIZE_ERROR, 96) ∧
    ((scriptedPut [{ status := BZ_OK, consumed := 0, produced := [] },
        { status := BZ_OK, consumed := 1, produced := [] }]).1,
      (scriptedPut [{ status := BZ_OK, consumed := 0, produced := [] },
        { status := BZ_OK, consumed := 1, produced := [] }]).2.fsError) =
        (HB_SIZE_ERROR, 100) ∧
    ((newEvents (scriptedWrite { status := BZ_OK, consumed := 0, produced := [] }).2
        (scriptedFlush { status := BZ_OK, consumed := 0, produced := [] })).map Event.brief,
      (scriptedFlush { status := BZ_OK, consumed := 0, produced := [] }).fsError) =
        ([Brief.codecStep 0 0 0, Brief.write 3 (-1) 3], 100) := by
  decide!

/-! ## Evaluations for the drain and for large requests -/

/-- C18, evaluation at the failing input: six bytes `1, 65, 1, 66, 1, 67` are
staged, the underlying handle accepts two of them and then fails.
`s_bz2_write` returns the failure sentinel and leaves `avail_out`, `next_out`
and the staged bytes as they were, so the two accepted bytes are still staged;
the close that follows writes them again and the store ends up holding
`1, 65, 1, 65, 1, 66, 1, 67, 0`. -/
theorem failed_drain_keeps_accepted_bytes :
    stagedBytes brokenWrite.2 = [1, 65, 1, 66, 1, 67] ∧
    brokenDrain.1 = HB_SIZE_ERROR ∧
    (newEvents brokenWrite.2 brokenDrain.2).map Event.brief =
      [Brief.write 6 (-1) 2, Brief.write 4 (-1) HB_SIZE_ERROR] ∧
    acceptedBytes (newEvents brokenWrite.2 brokenDrain.2) = [1, 65] ∧
    stagedBytes brokenDrain.2 = [1, 65, 1, 66, 1, 67] ∧
    (brokenWrite.2.file.bz2.avail_out, brokenDrain.2.file.bz2.avail_out) = (8186, 8186) ∧
    (brokenWrite.2.file.bz2.next_out, brokenDrain.2.file.bz2.next_out) =
      (Ptr.staging 6, Ptr.staging 6) ∧
    (s_fileClose toyEnv 8 brokenDrain.2).map (fun w => w.file.pFile.bytes) =
      some [1, 65, 1, 65, 1, 66, 1, 67, 0] := by
  decide!

/-- C20, evaluation at the failing input: a write of `2^32 + 5` bytes offers
the encoder 5 bytes (`avail_in` is `nSize` modulo `2^32`); the encoder consumes
these 5 bytes in one step, and the call returns `2^32 + 5` and advances
`seek_pos` by as much. -/
theorem huge_write_overcounts :
    (s_fileWrite toyEnv 8 smallWriter (fun _ => 65) (2 ^ 32 + 5) (-1)).isSome = true ∧
    (newEvents smallWriter hugeWrite.2).map Event.brief =
      [Brief.codecInit 0, Brief.codecStep 1 5 10] ∧
    consumedCount (newEvents smallWriter hugeWrite.2) = 5 ∧
    hugeWrite.1 = 2 ^ 32 + 5 ∧
    hugeWrite.2.fsError = 0 ∧
    hugeWrite.2.file.seek_pos = 2 ^ 32 + 5 := by
  decide!

/-! ## The input queue of the read path -/

theorem feedAll_append (q : InputQueue) (a b : List Event) :
    feedAll q (a ++ b) = (feedAll q a).bind fun q1 => feedAll q1 b := by
  induction a generalizing q with
  | nil => rfl
  | cons e es ih =>
    simp only [List.cons_append, feedAll]
    cases feed q e with
    | none => rfl
    | some q1 => exact ih q1

theorem deliveredBytes_append (a b : List Event) :
    deliveredBytes (a ++ b) = deliveredBytes a ++ deliveredBytes b := by
  induction a with
  | nil => simp [deliveredBytes]
  | cons e es ih => cases e <;> simp [deliveredBytes, ih]

theorem takenBytes_append (a b : List Event) :
    takenBytes (a ++ b) = takenBytes a ++ takenBytes b := by
  induction a with
  | nil => simp [takenBytes]
  | cons e es ih => cases e <;> simp [takenBytes, ih]

/-- What one replayed call does to the byte streams. -/
theorem feed_conserves (q q1 : InputQueue) (e : Event) (h : feed q e = some q1) :
    q.waiting ++ deliveredBytes [e] = takenBytes [e] ++ q1.waiting := by
  cases e with
  | uRead size t res d =>
    simp only [feed] at h
    split at h
    · rename_i hq
      split at h
      · split at h
        · rename_i hd
          injection h with h
          subst h
          simp [deliveredBytes, takenBytes, hd]
        · simp at h
      · split at h
        · injection h with h
          subst h
          simp [deliveredBytes, takenBytes, hq.1]
        · simp at h
    · simp at h
  | decompress st c p =>
    simp only [feed] at h
    split at h
    · rename_i hc
      injection h with h
      subst h
      simp only [deliveredBytes, takenBytes, List.append_nil]
      have hsplit := List.take_append_drop c.length q.waiting
      rw [hc] at hsplit
      exact hsplit.symm
    · simp at h
  | _ =>
    simp only [feed, Option.some.injEq] at h
    subst h
    simp [deliveredBytes, takenBytes]

/-- Replaying conserves the bytes: what waited before followed by what was
delivered is what the decoder consumed followed by what waits afterwards. -/
theorem feedAll_conserves (evs : List Event) :
    ∀ (q q1 : InputQueue), feedAll q evs = some q1 →
      q.waiting ++ deliveredBytes evs = takenBytes evs ++ q1.waiting := by
  induction evs with
  | nil =>
    intro q q1 h
    simp only [feedAll, Option.some.injEq] at h
    subst h
    simp [deliveredBytes, takenBytes]
  | cons e es ih =>
    intro q q1 h
    simp only [feedAll] at h
    split at h
    · simp at h
    · rename_i q2 he
      have h1 := feed_conserves q q2 e he
      have h2 := ih q2 q1 h
      have hd : deliveredBytes (e :: es) = deliveredBytes [e] ++ deliveredBytes es :=
        deliveredBytes_append [e] es
      have ht : takenBytes (e :: es) = takenBytes [e] ++ takenBytes es :=
        takenBytes_append [e] es
      rw [hd, ht, ← List.append_assoc, h1, List.append_assoc, h2, List.append_assoc]

/-- The input the next decoder step is given is the waiting bytes. -/
theorem inputHolds_load (w : World U K) (q : InputQueue) (h : InputHolds w q) :
    w.load w.file.bz2.next_in w.file.bz2.avail_in = q.waiting := by
  obtain ⟨h1, _, h3, h4⟩ := h
  by_cases hq : q.waiting = []
  · rw [h1, hq]
    cases w.file.bz2.next_in <;> rfl
  · rw [h3 hq, h1]
    exact h4

/-- `InputHolds` looks only at the input cursor and the staging buffer. -/
theorem inputHolds_congr {w w1 : World U K} {q : InputQueue} (h : InputHolds w q)
    (h1 : w1.file.bz2.avail_in = w.file.bz2.avail_in)
    (h2 : w1.file.bz2.next_in = w.file.bz2.next_in)
    (h3 : w1.file.buffer = w.file.buffer) : InputHolds w1 q :=
  ⟨h1.trans h.1, h.2.1, fun hq => h2.trans (h.2.2.1 hq), by rw [h3]; exact h.2.2.2⟩

/-- A decoder step whose output goes to the caller's buffer consumes bytes from
the head of the queue and leaves the cursor on the rest. -/
theorem BZ2_bzDecompress_feeds (E : Env U K) (w : World U K) (q : InputQueue)
    (h : InputHolds w q) (hout : ∃ o, w.file.bz2.next_out = .user o) :
    ∃ (c p : List Nat) (q1 : InputQueue),
      (BZ2_bzDecompress E w).2.trace =
        w.trace ++ [Event.decompress (BZ2_bzDecompress E w).1 c p] ∧
      feed q (Event.decompress (BZ2_bzDecompress E w).1 c p) = some q1 ∧
      InputHolds (BZ2_bzDecompress E w).2 q1 ∧
      ∃ o, (BZ2_bzDecompress E w).2.file.bz2.next_out = .user o := by
  have hload := inputHolds_load w q h
  obtain ⟨h1, h2, h3, h4⟩ := h
  obtain ⟨o, ho⟩ := hout
  obtain ⟨r, hr⟩ : ∃ r, r = E.bzDecompress w.file.bz2.state
      (w.load w.file.bz2.next_in w.file.bz2.avail_in) w.file.bz2.avail_out := ⟨_, rfl⟩
  have e1 : (BZ2_bzDecompress E w).2.trace = w.trace ++ [Event.decompress (BZ2_bzDecompress E w).1
      ((w.load w.file.bz2.next_in w.file.bz2.avail_in).take (min r.consumed w.file.bz2.avail_in))
      (r.produced.take w.file.bz2.avail_out)] := by
    subst hr
    rfl
  have e2 : (BZ2_bzDecompress E w).2.file.bz2.avail_in =
      w.file.bz2.avail_in - min r.consumed w.file.bz2.avail_in := by
    subst hr
    rfl
  have e3 : (BZ2_bzDecompress E w).2.file.bz2.next_in =
      w.file.bz2.next_in.add ((min r.consumed w.file.bz2.avail_in : Nat) : Int) := by
    subst hr
    simp only [BZ2_bzDecompress, World.setBz, bz_stream.advance]
  have e4 : (BZ2_bzDecompress E w).2.file.bz2.next_out =
      w.file.bz2.next_out.add (((r.produced.take w.file.bz2.avail_out).length : Nat) : Int) := by
    subst hr
    simp only [BZ2_bzDecompress, World.setBz, bz_stream.advance]
  have e5 : (BZ2_bzDecompress E w).2.file.buffer = w.file.buffer := by
    subst hr
    simp only [BZ2_bzDecompress, World.setBz, ho, World.store]
  rw [hload] at e1
  have hc : min r.consumed w.file.bz2.avail_in ≤ q.waiting.length := by
    rw [← h1]
    exact Nat.min_le_right _ _
  generalize min r.consumed w.file.bz2.avail_in = c at *
  have hlen : (q.waiting.take c).length = c := by
    rw [List.length_take]
    omega
  refine ⟨q.waiting.take c, r.produced.take w.file.bz2.avail_out,
    { taken := q.taken + c, waiting := q.waiting.drop c }, e1, ?_, ?_, ?_⟩
  · simp only [feed, hlen, if_true]
  · refine ⟨?_, ?_, ?_, ?_⟩
    · rw [e2, h1]
      simp only [List.length_drop]
    · simp only [List.length_drop]
      omega
    · intro hne
      have hq : q.waiting ≠ [] := by
        intro hq
        rw [hq] at hne
        simp at hne
      rw [e3, h3 hq]
      simp only [Ptr.add]
      push_cast
      rfl
    · rw [e5]
      simp only [List.length_drop]
      have := memLoad_drop w.file.buffer (q.taken : Int) q.waiting.length c hc
      rw [h4] at this
      rw [this]
      push_cast
      rfl
  · rw [e4, ho]
    exact ⟨_, rfl⟩

/-- A refill issued when no byte waits: a `Read` that returns 0 or fails leaves
the queue and the cursor alone; one that returns `n` bytes puts them at the
start of the staging buffer, and the cursor the loop sets up covers exactly
these `n` bytes. -/
theorem underlyingRead_feeds (E : Env U K) (w : World U K) (q : InputQueue) (t : Int)
    (h : InputHolds w q) (hz : w.file.bz2.avail_in = 0) :
    ∃ d : List Nat,
      (underlyingRead E w HB_BZ2_BUFSIZE t).2.trace =
        w.trace ++ [Event.uRead HB_BZ2_BUFSIZE t (underlyingRead E w HB_BZ2_BUFSIZE t).1 d] ∧
      ((underlyingRead E w HB_BZ2_BUFSIZE t).1 = 0 ∨
          (underlyingRead E w HB_BZ2_BUFSIZE t).1 = HB_SIZE_ERROR →
        feed q (Event.uRead HB_BZ2_BUFSIZE t (underlyingRead E w HB_BZ2_BUFSIZE t).1 d) = some q ∧
        InputHolds (underlyingRead E w HB_BZ2_BUFSIZE t).2 q) ∧
      (¬ ((underlyingRead E w HB_BZ2_BUFSIZE t).1 = 0 ∨
          (underlyingRead E w HB_BZ2_BUFSIZE t).1 = HB_SIZE_ERROR) →
        feed q (Event.uRead HB_BZ2_BUFSIZE t (underlyingRead E w HB_BZ2_BUFSIZE t).1 d) =
          some { taken := 0, waiting := d } ∧
        InputHolds
          ((underlyingRead E w HB_BZ2_BUFSIZE t).2.setBz
            { (underlyingRead E w HB_BZ2_BUFSIZE t).2.file.bz2 with
              next_in := .staging 0
              avail_in := (underlyingRead E w HB_BZ2_BUFSIZE t).1 % 2 ^ 32 })
          { taken := 0, waiting := d }) := by
  obtain ⟨h1, h2, h3, h4⟩ := h
  have hq : q.waiting = [] := by
    rw [hz] at h1
    exact List.length_eq_zero.1 h1.symm
  unfold underlyingRead
  simp only
  cases hv : (E.Read w.file.pFile HB_BZ2_BUFSIZE t).value with
  | none =>
    simp only
    refine ⟨[], rfl, ?_, ?_⟩
    · intro _
      refine ⟨by simp [feed, hq], ?_⟩
      exact ⟨h1, h2, h3, h4⟩
    · intro hn
      exact absurd (Or.inr trivial) hn
  | some bs =>
    simp only
    have hlen : (bs.take HB_BZ2_BUFSIZE).length ≤ HB_BZ2_BUFSIZE := by
      rw [List.length_take]
      exact Nat.min_le_left _ _
    refine ⟨bs.take HB_BZ2_BUFSIZE, rfl, ?_, ?_⟩
    · intro hr
      have hz2 : (bs.take HB_BZ2_BUFSIZE).length = 0 := by
        rcases hr with hr | hr
        · exact hr
        · simp only [HB_SIZE_ERROR, HB_BZ2_BUFSIZE] at hr hlen
          omega
      have hd : bs.take HB_BZ2_BUFSIZE = [] := List.length_eq_zero.1 hz2
      refine ⟨by simp [feed, hq, hd], ?_⟩
      refine ⟨h1, h2, fun hne => absurd hq hne, ?_⟩
      rw [hq]
      rfl
    · intro hn
      have hpos : (bs.take HB_BZ2_BUFSIZE).length ≠ 0 := fun hc => hn (Or.inl hc)
      have hne : (bs.take HB_BZ2_BUFSIZE).length ≠ HB_SIZE_ERROR := fun hc => hn (Or.inr hc)
      refine ⟨?_, ?_, ?_, ?_, ?_⟩
      · simp only [feed, hq, true_and, if_true]
        rw [if_neg hn]
        simp [hlen]
      · show (bs.take HB_BZ2_BUFSIZE).length % 2 ^ 32 = _
        simp only [HB_BZ2_BUFSIZE] at hlen ⊢
        omega
      · simp only [Nat.zero_add]
        exact hlen
      · intro _
        rfl
      · show memLoad (memStore w.file.buffer 0 (bs.take HB_BZ2_BUFSIZE)) ((0 : Nat) : Int)
          (bs.take HB_BZ2_BUFSIZE).length = _
        exact memLoad_memStore_self _ _ _

theorem feedAll_pair (q q1 q2 : InputQueue) (a b : Event) (h1 : feed q a = some q1)
    (h2 : feed q1 b = some q2) : feedAll q [a, b] = some q2 := by
  simp only [feedAll, h1, h2]

theorem feedAll_single (q q1 : InputQueue) (a : Event) (h1 : feed q a = some q1) :
    feedAll q [a] = some q1 := by
  simp only [feedAll, h1]

theorem feedAll_then (q q1 q2 : InputQueue) (a b : List Event) (h1 : feedAll q a = some q1)
    (h2 : feedAll q1 b = some q2) : feedAll q (a ++ b) = some q2 := by
  rw [feedAll_append, h1]
  exact h2

/-- The read loop keeps to the queue discipline: its calls replay on the queue
the cursor stood for, and the cursor it leaves stands for the replayed queue. -/
theorem s_fileRead_loop_feeds (E : Env U K) (t : Int) (fuel : Nat) (w : World U K) (n : Nat)
    (r : Nat × World U K) (h : s_fileRead_loop E fuel w t n = some r) (q : InputQueue)
    (hq : InputHolds w q) (hout : ∃ o, w.file.bz2.next_out = .user o) :
    ∃ evs q1, r.2.trace = w.trace ++ evs ∧ feedAll q evs = some q1 ∧ InputHolds r.2 q1 := by
  refine s_fileRead_loop_induct E t
    (fun w _ r => ∀ q, InputHolds w q → (∃ o, w.file.bz2.next_out = .user o) →
      ∃ evs q1, r.2.trace = w.trace ++ evs ∧ feedAll q evs = some q1 ∧ InputHolds r.2 q1)
    ?_ ?_ ?_ ?_ ?_ ?_ fuel w n r h q hq hout
  · intro w n _ q hq _
    exact ⟨[], q, by simp, rfl, hq⟩
  · intro w n _ _ q hq hout
    obtain ⟨c, p, q1, d1, d2, d3, _⟩ := BZ2_bzDecompress_feeds E w q hq hout
    refine ⟨[Event.decompress (BZ2_bzDecompress E w).1 c p, Event.decompressEnd], q1, ?_,
      feedAll_pair q q1 q1 _ _ d2 rfl, inputHolds_congr d3 rfl rfl rfl⟩
    simp [BZ2_bzDecompressEnd, World.setBz, d1]
  · intro w n _ _ _ q hq hout
    obtain ⟨c, p, q1, d1, d2, d3, _⟩ := BZ2_bzDecompress_feeds E w q hq hout
    exact ⟨[Event.decompress (BZ2_bzDecompress E w).1 c p], q1, by simp [hb_fsSetError, d1],
      feedAll_single q q1 _ d2, inputHolds_congr d3 rfl rfl rfl⟩
  · intro w n r _ _ hin hr hstop q hq hout
    obtain ⟨c, p, q1, d1, d2, d3, _⟩ := BZ2_bzDecompress_feeds E w q hq hout
    obtain ⟨dat, u1, u2, _⟩ := underlyingRead_feeds E (BZ2_bzDecompress E w).2 q1
      (if (BZ2_bzDecompress E w).2.file.bz2.avail_out ≠ 0 then t else 0) d3 hin
    rw [← hr] at u1 u2
    obtain ⟨f1, f2⟩ := u2 hstop
    exact ⟨[Event.decompress (BZ2_bzDecompress E w).1 c p, Event.uRead HB_BZ2_BUFSIZE
        (if (BZ2_bzDecompress E w).2.file.bz2.avail_out ≠ 0 then t else 0) r.1 dat], q1,
      by simp [u1, d1], feedAll_pair q q1 q1 _ _ d2 f1, f2⟩
  · intro w n r res _ _ hin hr hgo ih q hq hout
    obtain ⟨c, p, q1, d1, d2, d3, o, d4⟩ := BZ2_bzDecompress_feeds E w q hq hout
    obtain ⟨dat, u1, _, u3⟩ := underlyingRead_feeds E (BZ2_bzDecompress E w).2 q1
      (if (BZ2_bzDecompress E w).2.file.bz2.avail_out ≠ 0 then t else 0) d3 hin
    obtain ⟨_, _, _, ubz, _⟩ := underlyingRead_step E (BZ2_bzDecompress E w).2 HB_BZ2_BUFSIZE
      (if (BZ2_bzDecompress E w).2.file.bz2.avail_out ≠ 0 then t else 0)
    rw [← hr] at u1 u3 ubz
    obtain ⟨f1, f2⟩ := u3 hgo
    obtain ⟨evs, q2, i1, i2, i3⟩ := ih _ f2 ⟨o, by simp only [World.setBz, ubz, d4]⟩
    refine ⟨[Event.decompress (BZ2_bzDecompress E w).1 c p, Event.uRead HB_BZ2_BUFSIZE
        (if (BZ2_bzDecompress E w).2.file.bz2.avail_out ≠ 0 then t else 0) r.1 dat] ++ evs, q2,
      ?_, feedAll_then q _ q2 _ evs (feedAll_pair q q1 _ _ _ d2 f1) i2, i3⟩
    simp [i1, World.setBz, u1, d1]
  · intro w n res _ _ _ ih q hq hout
    obtain ⟨c, p, q1, d1, d2, d3, d4⟩ := BZ2_bzDecompress_feeds E w q hq hout
    obtain ⟨evs, q2, i1, i2, i3⟩ := ih q1 d3 d4
    exact ⟨[Event.decompress (BZ2_bzDecompress E w).1 c p] ++ evs, q2, by simp [i1, d1],
      feedAll_then q q1 q2 _ evs (feedAll_single q q1 _ d2) i2, i3⟩

/-- One `s_fileRead` keeps to the queue discipline. -/
theorem s_fileRead_feeds (E : Env U K) (fuel : Nat) (w : World U K) (buffer : Mem) (nSize : Nat)
    (nTimeout : Int) (out : Nat × World U K)
    (h : s_fileRead E fuel w buffer nSize nTimeout = some out) (q : InputQueue)
    (hq : InputHolds w q) :
    ∃ evs q1, out.2.trace = w.trace ++ evs ∧ feedAll q evs = some q1 ∧ InputHolds out.2 q1 := by
  by_cases hrun : w.file.iMode ≠ FO_WRITE ∧ w.file.fEof = false ∧
      (w.file.fInited = false → (BZ2_bzDecompressInit E w).1 = BZ_OK)
  · obtain ⟨hmode, heof, hinit⟩ := hrun
    obtain ⟨w3, nR, w4, hloop, t3, _, _, b3, no3, _, ni3, ai3, o1, _, _, o4, o5⟩ :=
      s_fileRead_run E fuel w buffer nSize nTimeout out h hmode heof hinit
    have hq3 : InputHolds w3 q := inputHolds_congr hq ai3 ni3 b3
    obtain ⟨evs, q1, e1, e2, e3⟩ := s_fileRead_loop_feeds E _ fuel w3 0 _ hloop q hq3 ⟨0, no3⟩
    simp only at e1 e3
    refine ⟨(if w.file.fInited = false then [Event.decompressInit BZ_OK] else []) ++ evs, q1,
      by rw [o1, e1, t3, List.append_assoc], ?_,
      inputHolds_congr e3 (by rw [o4]) (by rw [o4]) o5⟩
    refine feedAll_then q q q1 _ evs ?_ e2
    split <;> rfl
  · rcases s_fileRead_cases E fuel w buffer nSize nTimeout out h with
      ⟨_, a⟩ | ⟨_, _, a⟩ | ⟨_, _, _, _, a⟩ | ⟨hmode, heof, _⟩
    · rw [a]
      exact ⟨[], q, by simp [hb_fsSetError], rfl, inputHolds_congr hq rfl rfl rfl⟩
    · rw [a]
      exact ⟨[], q, by simp [hb_fsSetError], rfl, inputHolds_congr hq rfl rfl rfl⟩
    · rw [a]
      exact ⟨[Event.decompressInit (BZ2_bzDecompressInit E w).1], q, rfl, rfl,
        inputHolds_congr hq rfl rfl rfl⟩
    · have hin : w.file.fInited = false := by
        by_contra hc
        exact hrun ⟨hmode, heof, fun h => absurd h hc⟩
      have hst : (BZ2_bzDecompressInit E w).1 ≠ BZ_OK :=
        fun hc => hrun ⟨hmode, heof, fun _ => hc⟩
      unfold s_fileRead at h
      rw [if_pos hmode, if_neg (by simp [heof])] at h
      simp only [if_pos hin] at h
      rw [if_pos hst] at h
      injection h with h
      subst h
      exact ⟨[Event.decompressInit (BZ2_bzDecompressInit E w).1], q, rfl, rfl,
        inputHolds_congr hq rfl rfl rfl⟩

/-- A call to the underlying handle that is neither a refill nor a decoder step
leaves the queue alone. -/
theorem called_feeds {α : Type} (w : World U K) (r : CallRes U α) (ev : Event) (q : InputQueue)
    (hq : InputHolds w q) (hev : feed q ev = some q) :
    ∃ evs q1, (w.called r ev).trace = w.trace ++ evs ∧ feedAll q evs = some q1 ∧
      InputHolds (w.called r ev) q1 :=
  ⟨[ev], q, rfl, feedAll_single q q ev hev, inputHolds_congr hq rfl rfl rfl⟩

/-- A step that touches neither the trace nor the input cursor nor the staging
buffer leaves the queue alone. -/
theorem quiet_feeds (w w1 : World U K) (q : InputQueue) (hq : InputHolds w q)
    (ht : w1.trace = w.trace) (h1 : w1.file.bz2.avail_in = w.file.bz2.avail_in)
    (h2 : w1.file.bz2.next_in = w.file.bz2.next_in) (h3 : w1.file.buffer = w.file.buffer) :
    ∃ evs q1, w1.trace = w.trace ++ evs ∧ feedAll q evs = some q1 ∧ InputHolds w1 q1 :=
  ⟨[], q, by simp [ht], rfl, inputHolds_congr hq h1 h2 h3⟩

/-- One `s_fileWrite` on a handle that is not in write mode afterwards keeps to
the queue discipline: it was rejected, or its encoder could not be set up. -/
theorem s_fileWrite_feeds (E : Env U K) (fuel : Nat) (w : World U K) (buffer : Mem) (nSize : Nat)
    (nTimeout : Int) (out : Nat × World U K)
    (h : s_fileWrite E fuel w buffer nSize nTimeout = some out) (hinv : HandleInv w)
    (hfin : out.2.file.iMode ≠ FO_WRITE) (q : InputQueue) (hq : InputHolds w q) :
    ∃ evs q1, out.2.trace = w.trace ++ evs ∧ feedAll q evs = some q1 ∧ InputHolds out.2 q1 := by
  rcases s_fileWrite_cases E fuel w buffer nSize nTimeout out h with
    ⟨_, a⟩ | ⟨_, _, _, a⟩ | ⟨hmode, _, _, _, hm, _⟩
  · rw [a]
    exact quiet_feeds w _ q hq rfl rfl rfl rfl
  · rw [a]
    exact ⟨[Event.compressInit w.file.iBlockSize
        (BZ2_bzCompressInit E (compressInitWorld w) w.file.iBlockSize).1], q, rfl, rfl,
      inputHolds_congr hq rfl rfl rfl⟩
  · exfalso
    by_cases hin : w.file.fInited = false
    · rw [if_pos hin] at hm
      exact hfin hm
    · rw [if_neg hin] at hm
      rcases hinv.1 (by simpa using hin) with hr | hw
      · exact hmode hr
      · exact hfin (hm.trans hw)

/-- Every operation on a handle that is not in write mode afterwards keeps to
the queue discipline. -/
theorem applyOp_feeds (E : Env U K) (fuel : Nat) (op : Op) (w w1 : World U K)
    (h : applyOp E fuel op w = some w1) (hinv : HandleInv w) (hfin : w1.file.iMode ≠ FO_WRITE)
    (q : InputQueue) (hq : InputHolds w q) :
    ∃ evs q1, w1.trace = w.trace ++ evs ∧ feedAll q evs = some q1 ∧ InputHolds w1 q1 := by
  cases op with
  | read b n t =>
    simp only [applyOp, Option.map_eq_some'] at h
    obtain ⟨out, ho, rfl⟩ := h
    exact s_fileRead_feeds E fuel w b n t out ho q hq
  | write b n t =>
    simp only [applyOp, Option.map_eq_some'] at h
    obtain ⟨out, ho, rfl⟩ := h
    exact s_fileWrite_feeds E fuel w b n t out ho hinv hfin q hq
  | readAt b n o =>
    simp only [applyOp, Option.map_eq_some'] at h
    obtain ⟨out, ho, rfl⟩ := h
    unfold s_fileReadAt at ho
    split at ho
    · exact s_fileRead_feeds E fuel w b n _ out ho q hq
    · injection ho with ho
      subst ho
      exact quiet_feeds w _ q hq rfl rfl rfl rfl
  | writeAt b n o =>
    simp only [applyOp, Option.map_eq_some'] at h
    obtain ⟨out, ho, rfl⟩ := h
    unfold s_fileWriteAt at ho
    split at ho
    · exact s_fileWrite_feeds E fuel w b n _ out ho hinv hfin q hq
    · injection ho with ho
      subst ho
      exact quiet_feeds w _ q hq rfl rfl rfl rfl
  | truncAt o =>
    simp only [applyOp, Option.some.injEq] at h
    subst h
    unfold s_fileTruncAt
    split <;> exact quiet_feeds w _ q hq rfl rfl rfl rfl
  | seek o f =>
    simp only [applyOp, Option.some.injEq] at h
    subst h
    unfold s_fileSeek
    split <;> exact quiet_feeds w _ q hq rfl rfl rfl rfl
  | size =>
    simp only [applyOp, Option.some.injEq] at h
    subst h
    exact quiet_feeds w _ q hq rfl rfl rfl rfl
  | eof =>
    simp only [applyOp, Option.some.injEq] at h
    subst h
    unfold s_fileEof
    split
    · exact quiet_feeds w _ q hq rfl rfl rfl rfl
    · exact called_feeds w _ _ q hq rfl
  | flush d =>
    simp only [applyOp, Option.some.injEq] at h
    subst h
    unfold s_fileFlush
    split
    · exact called_feeds w _ _ q hq rfl
    · exact quiet_feeds w _ q hq rfl rfl rfl rfl
  | commit =>
    simp only [applyOp, Option.some.injEq] at h
    subst h
    unfold s_fileCommit
    split
    · rename_i hc
      simp only [s_fileFlush, if_pos hc]
      exact ⟨[Event.uFlush true, Event.uCommit], q, by simp [World.called],
        feedAll_pair q q q _ _ rfl rfl, inputHolds_congr hq rfl rfl rfl⟩
    · exact quiet_feeds w _ q hq rfl rfl rfl rfl
  | configure i v =>
    simp only [applyOp, Option.some.injEq] at h
    subst h
    unfold s_fileConfigure
    split
    · cases v <;> exact quiet_feeds w _ q hq rfl rfl rfl rfl
    · split
      · exact quiet_feeds w _ q hq rfl rfl rfl rfl
      · split
        · exact called_feeds w _ _ q hq rfl
        · split
          · simp only
            split <;> exact called_feeds w _ _ q hq rfl
          · exact called_feeds w _ _ q hq rfl

/-- Every sequence of operations on a handle that is not in write mode
afterwards keeps to the queue discipline. -/
theorem runOps_feeds (E : Env U K) (fuel : Nat) (ops : List Op) :
    ∀ (w w1 : World U K), runOps E fuel ops w = some w1 → HandleInv w →
      w1.file.iMode ≠ FO_WRITE → ∀ q, InputHolds w q →
      ∃ evs q1, w1.trace = w.trace ++ evs ∧ feedAll q evs = some q1 ∧ InputHolds w1 q1 := by
  induction ops with
  | nil =>
    intro w w1 h _ _ q hq
    simp only [runOps] at h
    injection h with h
    subst h
    exact ⟨[], q, by simp, rfl, hq⟩
  | cons op ops ih =>
    intro w w1 h hinv hfin q hq
    simp only [runOps] at h
    cases hop : applyOp E fuel op w with
    | none => simp [hop] at h
    | some w2 =>
      simp only [hop] at h
      have hs := applyOp_stable E fuel op w w2 hop
      have hfin2 : w2.file.iMode ≠ FO_WRITE :=
        fun hc => hfin ((runOps_stable E fuel ops w2 w1 h).2.2.2 hc)
      obtain ⟨evs, q1, a1, a2, a3⟩ := applyOp_feeds E fuel op w w2 hop hinv hfin2 q hq
      obtain ⟨evs2, q2, b1, b2, b3⟩ := ih w2 w1 h (hs.1 hinv) hfin q1 a3
      exact ⟨evs ++ evs2, q2, by rw [b1, a1, List.append_assoc],
        feedAll_then q q1 q2 evs evs2 a2 b2, b3⟩

theorem feedAll_at (q0 q : InputQueue) (pre post : List Event) (e : Event)
    (h : feedAll q0 (pre ++ e :: post) = some q) :
    ∃ q1 q2, feedAll q0 pre = some q1 ∧ feed q1 e = some q2 ∧ feedAll q2 post = some q := by
  rw [feedAll_append] at h
  cases h1 : feedAll q0 pre with
  | none => simp [h1] at h
  | some q1 =>
    simp only [h1, Option.some_bind, feedAll] at h
    cases h2 : feed q1 e with
    | none => simp [h2] at h
    | some q2 =>
      simp only [h2] at h
      exact ⟨q1, q2, rfl, h2, h⟩

/-- A decoder step replays only when what it took heads the waiting bytes. -/
theorem feed_decompress_inv (q q2 : InputQueue) (st : Int) (c p : List Nat)
    (h : feed q (Event.decompress st c p) = some q2) : q.waiting = c ++ q2.waiting := by
  simp only [feed] at h
  split at h
  · rename_i hc
    injection h with h
    subst h
    have hsplit := List.take_append_drop c.length q.waiting
    rw [hc] at hsplit
    exact hsplit.symm
  · exact absurd h (by simp)

/-- A refill replays only on an empty queue, with the whole staging buffer on
offer and at most that much delivered; afterwards what it delivered waits. -/
theorem feed_uRead_inv (q q2 : InputQueue) (size : Nat) (t : Int) (res : Nat) (d : List Nat)
    (h : feed q (Event.uRead size t res d) = some q2) :
    q.waiting = [] ∧ size = HB_BZ2_BUFSIZE ∧ q2.waiting = d ∧ d.length ≤ HB_BZ2_BUFSIZE ∧
      (res = d.length ∨ (res = HB_SIZE_ERROR ∧ d = [])) ∧
      (res ≠ 0 → res ≠ HB_SIZE_ERROR → q2.taken = 0 ∧ d.length = res) := by
  simp only [feed] at h
  split at h
  · rename_i hc
    obtain ⟨hw, hs⟩ := hc
    split at h
    · rename_i hr
      split at h
      · rename_i hd
        injection h with h
        subst h
        refine ⟨hw, hs, by rw [hw, hd], by rw [hd]; exact Nat.zero_le _, ?_, ?_⟩
        · rcases hr with hr | hr
          · exact Or.inl (by rw [hr, hd]; rfl)
          · exact Or.inr ⟨hr, hd⟩
        · intro h0 h1
          rcases hr with hr | hr
          · exact absurd hr h0
          · exact absurd hr h1
      · exact absurd h (by simp)
    · split at h
      · rename_i hd
        injection h with h
        subst h
        exact ⟨hw, hs, rfl, by rw [hd.1]; exact hd.2, Or.inl hd.1.symm, fun _ _ => ⟨rfl, hd.1⟩⟩
      · exact absurd h (by simp)
  · exact absurd h (by simp)

/-- C21: on a handle that is not in write mode, after any sequence of
operations that returned: (1) the bytes the underlying `Read` calls delivered,
in order, are the bytes the decoder took, in order, followed by the bytes
under the input cursor; (2) what a decoder step took continues what the
earlier steps took as a part of what was delivered before it; (3) a refill is
issued only when everything delivered before was taken, it offers the whole
staging buffer and delivers at most `HB_BZ2_BUFSIZE` bytes; (4) what the
decoder step right after a refill took is the head of what the refill
delivered; (5) right after a refill of `res` bytes the input cursor is at the
start of the staging buffer and covers `res` bytes, which are the delivered
ones; (6) the input cursor never covers more than the staging buffer. -/
theorem read_path_integrity (E : Env U K) (u : U) (iMode iBlockSize : Int) (k0 : K)
    (f : HB_FILE U K) (user : Mem) (err : Int)
    (hnew : s_filebz2New (some u) iMode iBlockSize k0 = some f)
    (fuel : Nat) (ops : List Op) (w : World U K)
    (hrun : runOps E fuel ops { file := f, user := user, fsError := err, trace := [] } = some w)
    (hmode : w.file.iMode ≠ FO_WRITE) :
    deliveredBytes w.trace =
      takenBytes w.trace ++ w.load w.file.bz2.next_in w.file.bz2.avail_in ∧
    (∀ pre st c p post, w.trace = pre ++ Event.decompress st c p :: post →
      ∃ rest, deliveredBytes pre = takenBytes pre ++ (c ++ rest)) ∧
    (∀ pre size t res d post, w.trace = pre ++ Event.uRead size t res d :: post →
      deliveredBytes pre = takenBytes pre ∧ size = HB_BZ2_BUFSIZE ∧
      d.length ≤ HB_BZ2_BUFSIZE ∧ (res = d.length ∨ (res = HB_SIZE_ERROR ∧ d = []))) ∧
    (∀ pre size t res d st c p post,
      w.trace = pre ++ Event.uRead size t res d :: Event.decompress st c p :: post →
      c <+: d) ∧
    (∀ pre size t res d, w.trace = pre ++ [Event.uRead size t res d] → res ≠ 0 →
      res ≠ HB_SIZE_ERROR →
      w.file.bz2.next_in = .staging 0 ∧ w.file.bz2.avail_in = res ∧ res ≤ HB_BZ2_BUFSIZE ∧
      memLoad w.file.buffer 0 res = d) ∧
    w.file.bz2.avail_in ≤ HB_BZ2_BUFSIZE ∧
    (w.file.bz2.avail_in ≠ 0 →
      ∃ k : Nat, w.file.bz2.next_in = .staging (k : Int) ∧
        k + w.file.bz2.avail_in ≤ HB_BZ2_BUFSIZE) := by
  have h0 := handleInv_new u iMode iBlockSize k0 f user err [] hnew
  have hq0 : InputHolds ({ file := f, user := user, fsError := err, trace := [] } : World U K)
      { taken := 0, waiting := [] } := by
    simp only [s_filebz2New, Option.some.injEq] at hnew
    subst hnew
    exact ⟨rfl, by decide, fun h => absurd rfl h, rfl⟩
  obtain ⟨evs, q, ht, hfeed, hq⟩ := runOps_feeds E fuel ops _ w hrun h0 hmode _ hq0
  simp only [List.nil_append] at ht
  rw [← ht] at hfeed
  refine ⟨?_, ?_, ?_, ?_, ?_, ?_, ?_⟩
  · have hc := feedAll_conserves w.trace _ q hfeed
    rw [inputHolds_load w q hq]
    simpa using hc
  · intro pre st c p post hp
    rw [hp] at hfeed
    obtain ⟨q1, q2, a1, a2, _⟩ := feedAll_at _ q pre post _ hfeed
    have hc := feedAll_conserves pre _ q1 a1
    rw [feed_decompress_inv q1 q2 st c p a2] at hc
    exact ⟨q2.waiting, by simpa using hc⟩
  · intro pre size t res d post hp
    rw [hp] at hfeed
    obtain ⟨q1, q2, a1, a2, _⟩ := feedAll_at _ q pre post _ hfeed
    have hc := feedAll_conserves pre _ q1 a1
    obtain ⟨b1, b2, _, b4, b5, _⟩ := feed_uRead_inv q1 q2 size t res d a2
    rw [b1] at hc
    exact ⟨by simpa using hc, b2, b4, b5⟩
  · intro pre size t res d st c p post hp
    rw [hp] at hfeed
    obtain ⟨q1, q2, _, a2, a3⟩ := feedAll_at _ q pre _ _ hfeed
    obtain ⟨_, q3, a4, a5, _⟩ := feedAll_at q2 q [] post _ a3
    simp only [feedAll, Option.some.injEq] at a4
    subst a4
    obtain ⟨_, _, b3, _⟩ := feed_uRead_inv q1 _ size t res d a2
    have hd := feed_decompress_inv _ q3 st c p a5
    rw [b3] at hd
    exact ⟨q3.waiting, hd.symm⟩
  · intro pre size t res d hp hr0 hr1
    rw [hp] at hfeed
    obtain ⟨q1, q2, _, a2, a3⟩ := feedAll_at _ q pre [] _ hfeed
    simp only [feedAll, Option.some.injEq] at a3
    subst a3
    obtain ⟨_, _, b3, b4, _, b6⟩ := feed_uRead_inv q1 _ size t res d a2
    obtain ⟨c1, c2⟩ := b6 hr0 hr1
    obtain ⟨i1, _, i3, i4⟩ := hq
    rw [b3] at i1 i3 i4
    rw [c1] at i3 i4
    rw [c2] at i1 i4 b4
    have hne : d ≠ [] := by
      intro hd
      rw [hd] at c2
      exact hr0 c2.symm
    exact ⟨by simpa using i3 hne, i1, b4, by simpa using i4⟩
  · obtain ⟨i1, i2, _, _⟩ := hq
    rw [i1]
    exact le_trans (Nat.le_add_left _ _) i2
  · intro hne
    obtain ⟨i1, i2, i3, _⟩ := hq
    have hw : q.waiting ≠ [] := by
      intro hc
      rw [hc] at i1
      exact hne i1
    exact ⟨q.taken, i3 hw, by rw [i1]; exact i2⟩

/-- C21, witness: two 1-byte reads over a store that hands out the stream in
pieces of three, one and two bytes; the last call of the run is a refill. -/
theorem read_path_integrity_witness :
    pacedReads.file.iMode ≠ FO_WRITE ∧
    pacedReads.trace =
      [Event.decompressInit 0, Event.decompress 0 [] [], Event.uRead 8192 500 3 [1, 65, 1],
        Event.decompress 0 [1, 65, 1] [65], Event.uRead 8192 0 1 [66], Event.uEof false,
        Event.decompress 0 [66] [66], Event.uRead 8192 0 2 [1, 67]] ∧
    (deliveredBytes pacedReads.trace =
      takenBytes pacedReads.trace ++
        pacedReads.load pacedReads.file.bz2.next_in pacedReads.file.bz2.avail_in ∧
    (∀ pre st c p post, pacedReads.trace = pre ++ Event.decompress st c p :: post →
      ∃ rest, deliveredBytes pre = takenBytes pre ++ (c ++ rest)) ∧
    (∀ pre size t res d post, pacedReads.trace = pre ++ Event.uRead size t res d :: post →
      deliveredBytes pre = takenBytes pre ∧ size = HB_BZ2_BUFSIZE ∧
      d.length ≤ HB_BZ2_BUFSIZE ∧ (res = d.length ∨ (res = HB_SIZE_ERROR ∧ d = []))) ∧
    (∀ pre size t res d st c p post,
      pacedReads.trace = pre ++ Event.uRead size t res d :: Event.decompress st c p :: post →
      c <+: d) ∧
    (∀ pre size t res d, pacedReads.trace = pre ++ [Event.uRead size t res d] → res ≠ 0 →
      res ≠ HB_SIZE_ERROR →
      pacedReads.file.bz2.next_in = .staging 0 ∧ pacedReads.file.bz2.avail_in = res ∧
      res ≤ HB_BZ2_BUFSIZE ∧ memLoad pacedReads.file.buffer 0 res = d) ∧
    pacedReads.file.bz2.avail_in ≤ HB_BZ2_BUFSIZE ∧
    (pacedReads.file.bz2.avail_in ≠ 0 →
      ∃ k : Nat, pacedReads.file.bz2.next_in = .staging (k : Int) ∧
        k + pacedReads.file.bz2.avail_in ≤ HB_BZ2_BUFSIZE)) :=
  ⟨by decide!, by decide!,
    read_path_integrity toyEnv (Disk.holding [1, 65, 1, 66, 1, 67, 0] [some 3, some 1, some 2])
      FO_READWRITE HB_BZ2_BLOCKSIZE Toy.fresh pacedReader.file memZero 0 rfl 8
      [Op.read memZero 1 500, Op.eof, Op.read memZero 1 500] pacedReads
      (eq_some_getD _ _ (by decide!)) (by decide!)⟩

/-! ## Error mapping on the statuses libbz2 documents -/

theorem docInit_noError {s : Int} (h : DocInit s) (hn : NoError s) : s = BZ_OK := by
  simp only [DocInit, BzError, NoError, BZ_OK, BZ_RUN_OK, BZ_STREAM_END] at *
  omega

theorem docDecompress_noError {s : Int} (h : DocDecompress s) (hn : NoError s) :
    s = BZ_OK ∨ s = BZ_STREAM_END := by
  simp only [DocDecompress, BzError, NoError, BZ_OK, BZ_RUN_OK, BZ_STREAM_END] at *
  omega

theorem docCompress_run_noError {s : Int} (h : DocCompress BZ_RUN s) (hn : NoError s) :
    s = BZ_RUN_OK := by
  simp only [DocCompress, BzError, NoError, BZ_OK, BZ_RUN_OK, BZ_STREAM_END, BZ_RUN, BZ_FLUSH,
    BZ_FINISH, BZ_FLUSH_OK, BZ_FINISH_OK] at *
  omega

theorem docInit_range {s : Int} (h : DocInit s) : -9 ≤ s ∧ s ≤ 4 := by
  simp only [DocInit, BzError, BZ_OK] at *
  omega

theorem docDecompress_range {s : Int} (h : DocDecompress s) : -9 ≤ s ∧ s ≤ 4 := by
  simp only [DocDecompress, BzError, BZ_OK, BZ_STREAM_END] at *
  omega

theorem docCompress_range {a s : Int} (h : DocCompress a s) : -9 ≤ s ∧ s ≤ 4 ∧ s ≠ BZ_OK := by
  simp only [DocCompress, BzError, BZ_OK, BZ_RUN_OK, BZ_STREAM_END, BZ_RUN, BZ_FLUSH,
    BZ_FINISH, BZ_FLUSH_OK, BZ_FINISH_OK] at *
  omega

theorem specError_of_error {s : Int} (h1 : -9 ≤ s) (h2 : s ≤ 4) (hn : ¬ NoError s) :
    specError s = HB_BZ2_ERROR_BASE - s ∧ specError s ≠ 0 := by
  have hn1 : ¬ (s = BZ_OK ∨ s = BZ_RUN_OK ∨ s = BZ_STREAM_END) := hn
  have hs : specError s = HB_BZ2_ERROR_BASE - s := by
    unfold specError
    rw [if_neg hn1]
  refine ⟨hs, ?_⟩
  rw [hs]
  simp only [HB_BZ2_ERROR_BASE]
  omega

theorem specError_of_noError {s : Int} (hn : NoError s) : specError s = 0 := by
  have hn1 : s = BZ_OK ∨ s = BZ_RUN_OK ∨ s = BZ_STREAM_END := hn
  unfold specError
  rw [if_pos hn1]

theorem toyDecode_status (input : List Nat) :
    ∀ (lit : Bool) (room : Nat), DocDecompress (toyDecode lit input room).1 := by
  induction input with
  | nil =>
    intro lit room
    cases lit <;> exact Or.inl rfl
  | cons t rest ih =>
    intro lit room
    cases lit with
    | false =>
      unfold toyDecode
      split
      · exact Or.inr (Or.inl rfl)
      · split
        · exact ih true room
        · exact Or.inr (Or.inr ⟨by decide, by decide⟩)
    | true =>
      cases room with
      | zero => exact Or.inl rfl
      | succ n =>
        unfold toyDecode
        exact ih false n

theorem toyCompress_status (k : Toy) (a : Int) (input : List Nat) (room : Nat)
    (ha : a = BZ_RUN ∨ a = BZ_FLUSH ∨ a = BZ_FINISH) :
    DocCompress a (toyCompress k a input room).status := by
  unfold toyCompress
  simp only
  rcases ha with ha | ha | ha
  · subst ha
    rw [if_pos rfl]
    split_ifs <;>
      first
        | exact Or.inl ⟨rfl, rfl⟩
        | exact Or.inr (Or.inr (Or.inr ⟨by decide, by decide⟩))
  · subst ha
    rw [if_neg (by decide), if_neg (by decide)]
    split_ifs <;>
      first
        | exact Or.inr (Or.inl ⟨rfl, Or.inr rfl⟩)
        | exact Or.inr (Or.inl ⟨rfl, Or.inl rfl⟩)
  · subst ha
    rw [if_neg (by decide), if_pos rfl]
    split_ifs <;>
      first
        | exact Or.inr (Or.inr (Or.inl ⟨rfl, Or.inr rfl⟩))
        | exact Or.inr (Or.inr (Or.inl ⟨rfl, Or.inl rfl⟩))

theorem documentedStatuses_toyEnv : DocumentedStatuses toyEnv :=
  ⟨fun _ => Or.inl rfl, fun k i r => toyDecode_status i k.literal r, fun _ _ => Or.inl rfl,
    fun k a i r ha => toyCompress_status k a i r ha⟩

theorem documentedStatuses_steadyEnv : DocumentedStatuses steadyEnv :=
  ⟨fun _ => Or.inl rfl, fun k i r => toyDecode_status i k.literal r, fun _ _ => Or.inl rfl,
    fun k a i r ha => toyCompress_status k a i r ha⟩

theorem encodeStep_of_writes {evs : List Event}
    (h : ∀ e ∈ evs, ∃ d t res, e = Event.uWrite d t res) : ∀ e ∈ evs, e.encodeStep := by
  intro e he
  obtain ⟨d, t, res, rfl⟩ := h e he
  exact trivial

theorem no_compress_of_writes {evs : List Event}
    (h : ∀ e ∈ evs, ∃ d t res, e = Event.uWrite d t res) (a st : Int) (c p : List Nat) :
    Event.compress a st c p ∉ evs := by
  intro hm
  obtain ⟨_, _, _, hh⟩ := h _ hm
  cases hh

/-- The calls of a read loop are refills, decoder steps with a documented
status, and the end of the decoder session. -/
theorem s_fileRead_loop_steps (E : Env U K) (hdoc : DocumentedStatuses E) (t : Int)
    (fuel : Nat) (w : World U K) (n : Nat) (r : Nat × World U K)
    (h : s_fileRead_loop E fuel w t n = some r) :
    ∃ evs, r.2.trace = w.trace ++ evs ∧ ∀ e ∈ evs, e.readStep := by
  have hdec : ∀ (w : World U K) (c p : List Nat),
      (Event.decompress (BZ2_bzDecompress E w).1 c p).readStep :=
    fun w _ _ => hdoc.2.1 w.file.bz2.state _ _
  refine s_fileRead_loop_induct E t
    (fun w _ r => ∃ evs, r.2.trace = w.trace ++ evs ∧ ∀ e ∈ evs, e.readStep)
    ?_ ?_ ?_ ?_ ?_ ?_ fuel w n r h
  · intro w n _
    exact ⟨[], by simp, by simp⟩
  · intro w n _ _
    obtain ⟨c, p, d1, _⟩ := BZ2_bzDecompress_step E w
    refine ⟨[Event.decompress (BZ2_bzDecompress E w).1 c p, Event.decompressEnd],
      by simp [BZ2_bzDecompressEnd, World.setBz, d1], ?_⟩
    intro e he
    simp only [List.mem_cons, List.mem_singleton, List.not_mem_nil, or_false] at he
    rcases he with rfl | rfl
    · exact hdec w c p
    · exact trivial
  · intro w n _ _ _
    obtain ⟨c, p, d1, _⟩ := BZ2_bzDecompress_step E w
    refine ⟨[Event.decompress (BZ2_bzDecompress E w).1 c p], by simp [hb_fsSetError, d1], ?_⟩
    intro e he
    simp only [List.mem_singleton] at he
    subst he
    exact hdec w c p
  · intro w n r _ _ _ hr _
    obtain ⟨c, p, d1, _⟩ := BZ2_bzDecompress_step E w
    obtain ⟨dat, u1, _⟩ := underlyingRead_step E (BZ2_bzDecompress E w).2 HB_BZ2_BUFSIZE
      (if (BZ2_bzDecompress E w).2.file.bz2.avail_out ≠ 0 then t else 0)
    rw [← hr] at u1
    refine ⟨[Event.decompress (BZ2_bzDecompress E w).1 c p, Event.uRead HB_BZ2_BUFSIZE
        (if (BZ2_bzDecompress E w).2.file.bz2.avail_out ≠ 0 then t else 0) r.1 dat],
      by simp [u1, d1], ?_⟩
    intro e he
    simp only [List.mem_cons, List.mem_singleton, List.not_mem_nil, or_false] at he
    rcases he with rfl | rfl
    · exact hdec w c p
    · exact trivial
  · intro w n r res _ _ _ hr _ ih
    obtain ⟨c, p, d1, _⟩ := BZ2_bzDecompress_step E w
    obtain ⟨dat, u1, _⟩ := underlyingRead_step E (BZ2_bzDecompress E w).2 HB_BZ2_BUFSIZE
      (if (BZ2_bzDecompress E w).2.file.bz2.avail_out ≠ 0 then t else 0)
    rw [← hr] at u1
    obtain ⟨evs, i1, i2⟩ := ih
    refine ⟨[Event.decompress (BZ2_bzDecompress E w).1 c p, Event.uRead HB_BZ2_BUFSIZE
        (if (BZ2_bzDecompress E w).2.file.bz2.avail_out ≠ 0 then t else 0) r.1 dat] ++ evs,
      by simp [i1, World.setBz, u1, d1], ?_⟩
    intro e he
    simp only [List.mem_append, List.mem_cons, List.mem_singleton, List.not_mem_nil,
      or_false] at he
    rcases he with (rfl | rfl) | he
    · exact hdec w c p
    · exact trivial
    · exact i2 e he
  · intro w n res _ _ _ ih
    obtain ⟨c, p, d1, _⟩ := BZ2_bzDecompress_step E w
    obtain ⟨evs, i1, i2⟩ := ih
    refine ⟨[Event.decompress (BZ2_bzDecompress E w).1 c p] ++ evs, by simp [i1, d1], ?_⟩
    intro e he
    simp only [List.mem_append, List.mem_singleton] at he
    rcases he with rfl | he
    · exact hdec w c p
    · exact i2 e he

/-- The calls of a write loop are writes to the underlying handle and encoder
steps in `BZ_RUN` mode with a documented status. -/
theorem s_fileWrite_loop_steps (E : Env U K) (hdoc : DocumentedStatuses E) (t : Int)
    (fuel : Nat) (w : World U K) (n : Nat) (r : Nat × World U K)
    (h : s_fileWrite_loop E fuel w t n = some r) :
    ∃ evs, r.2.trace = w.trace ++ evs ∧ (∀ e ∈ evs, e.encodeStep) ∧
      ∀ a st c p, Event.compress a st c p ∈ evs → a = BZ_RUN := by
  have henc : ∀ (w : World U K) (c p : List Nat),
      (Event.compress BZ_RUN (BZ2_bzCompress E w BZ_RUN).1 c p).encodeStep :=
    fun w _ _ => hdoc.2.2.2 w.file.bz2.state BZ_RUN _ _ (Or.inl rfl)
  refine s_fileWrite_loop_induct E t
    (fun w _ r => ∃ evs, r.2.trace = w.trace ++ evs ∧ (∀ e ∈ evs, e.encodeStep) ∧
      ∀ a st c p, Event.compress a st c p ∈ evs → a = BZ_RUN)
    ?_ ?_ ?_ ?_ fuel w n r h
  · intro w n _
    exact ⟨[], by simp, by simp, by simp⟩
  · intro w n _ hz _
    obtain ⟨devs, d1, _, _, d4, _⟩ := s_fileWrite_drain E w t n
    rw [if_pos hz] at d1
    exact ⟨devs, d1, encodeStep_of_writes d4,
      fun a st c p hm => absurd hm (no_compress_of_writes d4 a st c p)⟩
  · intro w n dr _ hd _ _
    obtain ⟨devs, d1, _, _, d4, _⟩ := s_fileWrite_drain E w t n
    rw [← hd] at d1
    obtain ⟨c, p, htr, _⟩ := BZ2_bzCompress_step E dr.2 BZ_RUN
    refine ⟨devs ++ [Event.compress BZ_RUN (BZ2_bzCompress E dr.2 BZ_RUN).1 c p],
      by simp [hb_fsSetError, htr, d1], ?_, ?_⟩
    · intro e he
      simp only [List.mem_append, List.mem_singleton] at he
      rcases he with he | rfl
      · exact encodeStep_of_writes d4 e he
      · exact henc dr.2 c p
    · intro a st c' p' hm
      simp only [List.mem_append, List.mem_singleton] at hm
      rcases hm with hm | hm
      · exact absurd hm (no_compress_of_writes d4 a st c' p')
      · injection hm with hm
  · intro w n dr res _ hd _ _ ih
    obtain ⟨devs, d1, _, _, d4, _⟩ := s_fileWrite_drain E w t n
    rw [← hd] at d1
    obtain ⟨c, p, htr, _⟩ := BZ2_bzCompress_step E dr.2 BZ_RUN
    obtain ⟨evs, i1, i2, i3⟩ := ih
    refine ⟨devs ++ [Event.compress BZ_RUN (BZ2_bzCompress E dr.2 BZ_RUN).1 c p] ++ evs,
      by simp [i1, htr, d1], ?_, ?_⟩
    · intro e he
      simp only [List.mem_append, List.mem_singleton] at he
      rcases he with (he | rfl) | he
      · exact encodeStep_of_writes d4 e he
      · exact henc dr.2 c p
      · exact i2 e he
    · intro a st c' p' hm
      simp only [List.mem_append, List.mem_singleton] at hm
      rcases hm with (hm | hm) | hm
      · exact absurd hm (no_compress_of_writes d4 a st c' p')
      · injection hm with hm
      · exact i3 a st c' p' hm

/-- The calls of the flush loop are writes to the underlying handle and encoder
steps with a status documented for their action. -/
theorem s_bz2_flush_loop_steps (E : Env U K) (hdoc : DocumentedStatuses E) (fClose : Bool)
    (fuel : Nat) (w : World U K) (err : Int) (r : World U K × Option Int)
    (h : s_bz2_flush_loop E fuel w fClose err = some r) :
    ∃ evs, r.1.trace = w.trace ++ evs ∧ ∀ e ∈ evs, e.encodeStep := by
  have henc : ∀ (w : World U K) (c p : List Nat),
      (Event.compress (if fClose then BZ_FINISH else BZ_FLUSH)
        (BZ2_bzCompress E w (if fClose then BZ_FINISH else BZ_FLUSH)).1 c p).encodeStep := by
    intro w c p
    refine hdoc.2.2.2 w.file.bz2.state _ _ _ ?_
    cases fClose
    · exact Or.inr (Or.inl rfl)
    · exact Or.inr (Or.inr rfl)
  refine s_bz2_flush_loop_induct E fClose
    (fun w _ r => ∃ evs, r.1.trace = w.trace ++ evs ∧ ∀ e ∈ evs, e.encodeStep)
    ?_ ?_ ?_ ?_ fuel w err r h
  · intro w err _
    exact ⟨[], by simp, by simp⟩
  · intro w err _ _
    obtain ⟨devs, d1, _, _, d4, _⟩ := s_bz2_write_spec E w w.file.nTimeout
    exact ⟨devs, d1, encodeStep_of_writes d4⟩
  · intro w err res _ _ _ ih
    obtain ⟨devs, d1, _, _, d4, _⟩ := s_bz2_write_spec E w w.file.nTimeout
    obtain ⟨c, p, c1, _⟩ := BZ2_bzCompress_step E (s_bz2_write E w w.file.nTimeout).2
      (if fClose then BZ_FINISH else BZ_FLUSH)
    obtain ⟨evs, i1, i2⟩ := ih
    refine ⟨devs ++ [Event.compress (if fClose then BZ_FINISH else BZ_FLUSH)
        (BZ2_bzCompress E (s_bz2_write E w w.file.nTimeout).2
          (if fClose then BZ_FINISH else BZ_FLUSH)).1 c p] ++ evs,
      by rw [i1, c1, d1]; simp only [List.append_assoc], ?_⟩
    intro e he
    simp only [List.mem_append, List.mem_singleton] at he
    rcases he with (he | rfl) | he
    · exact encodeStep_of_writes d4 e he
    · exact henc _ c p
    · exact i2 e he
  · intro w err res _ _ _ ih
    obtain ⟨devs, d1, _, _, d4, _⟩ := s_bz2_write_spec E w w.file.nTimeout
    obtain ⟨evs, i1, i2⟩ := ih
    refine ⟨devs ++ evs, by rw [i1, d1, List.append_assoc], ?_⟩
    intro e he
    rcases List.mem_append.1 he with he | he
    · exact encodeStep_of_writes d4 e he
    · exact i2 e he

theorem readStep_status {e : Event} {st : Int} (hs : e.readStep) (hst : e.status = some st) :
    ∃ c p, e = Event.decompress st c p ∧ DocDecompress st := by
  cases e with
  | decompress s c p =>
    simp only [Event.status, Option.some.injEq] at hst
    subst hst
    exact ⟨c, p, rfl, hs⟩
  | _ =>
    first
      | exact False.elim hs
      | exact absurd hst (by simp [Event.status])

theorem encodeStep_status {e : Event} {st : Int} (hs : e.encodeStep)
    (hst : e.status = some st) : ∃ a c p, e = Event.compress a st c p ∧ DocCompress a st := by
  cases e with
  | compress a s c p =>
    simp only [Event.status, Option.some.injEq] at hst
    subst hst
    exact ⟨a, c, p, rfl, hs⟩
  | _ =>
    first
      | exact False.elim hs
      | exact absurd hst (by simp [Event.status])

theorem lastStatus_mem (evs : List Event) :
    ∀ (acc : Option Int) (st : Int), lastStatus acc evs = some st →
      acc = some st ∨ ∃ a c p, Event.compress a st c p ∈ evs := by
  induction evs with
  | nil =>
    intro acc st h
    exact Or.inl h
  | cons e es ih =>
    intro acc st h
    cases e with
    | compress a s c p =>
      simp only [lastStatus] at h
      rcases ih _ _ h with h1 | ⟨a1, c1, p1, h1⟩
      · injection h1 with h1
        subst h1
        exact Or.inr ⟨a, c, p, List.mem_cons_self _ _⟩
      · exact Or.inr ⟨a1, c1, p1, List.mem_cons_of_mem _ h1⟩
    | _ =>
      simp only [lastStatus] at h
      rcases ih _ _ h with h1 | ⟨a1, c1, p1, h1⟩
      · exact Or.inl h1
      · exact Or.inr ⟨a1, c1, p1, List.mem_cons_of_mem _ h1⟩

/-- The calls of one `s_fileRead`: none; or a decoder init that failed; or a
decoder init that reported `BZ_OK`, if the session was not set up yet, and
then the calls of the read loop. -/
theorem s_fileRead_steps (E : Env U K) (hdoc : DocumentedStatuses E) (fuel : Nat)
    (w : World U K) (buffer : Mem) (nSize : Nat) (nTimeout : Int) (out : Nat × World U K)
    (h : s_fileRead E fuel w buffer nSize nTimeout = some out) :
    newEvents w out.2 = [] ∨
    ((BZ2_bzDecompressInit E w).1 ≠ BZ_OK ∧
      newEvents w out.2 = [Event.decompressInit (BZ2_bzDecompressInit E w).1] ∧
      out.2.fsError = HB_BZ2_ERROR_BASE - (BZ2_bzDecompressInit E w).1) ∨
    (w.file.iMode ≠ FO_WRITE ∧ w.file.fEof = false ∧
      (w.file.fInited = false → (BZ2_bzDecompressInit E w).1 = BZ_OK) ∧
      ∃ evs, newEvents w out.2 =
        (if w.file.fInited = false then [Event.decompressInit BZ_OK] else []) ++ evs ∧
        ∀ e ∈ evs, e.readStep) := by
  rcases s_fileRead_split E fuel w buffer nSize nTimeout out h with
    ⟨a, _⟩ | ⟨_, b, c, _, d⟩ | ⟨hmode, heof, hinit⟩
  · exact Or.inl (newEvents_of_append (by simpa using a))
  · exact Or.inr (Or.inl ⟨b, newEvents_of_append c, d⟩)
  · obtain ⟨w3, nR, w4, hloop, t3, _, _, _, _, _, _, _, o1, _⟩ :=
      s_fileRead_run E fuel w buffer nSize nTimeout out h hmode heof hinit
    obtain ⟨evs, e1, e2⟩ := s_fileRead_loop_steps E hdoc _ fuel w3 0 _ hloop
    simp only at e1
    exact Or.inr (Or.inr ⟨hmode, heof, hinit, evs,
      newEvents_of_append (by rw [o1, e1, t3, List.append_assoc]), e2⟩)

/-- The calls of one `s_fileWrite`: none; or an encoder init that failed; or an
encoder init that reported `BZ_OK`, if the session was not set up yet, and
then the calls of the write loop. -/
theorem s_fileWrite_steps (E : Env U K) (hdoc : DocumentedStatuses E) (fuel : Nat)
    (w : World U K) (buffer : Mem) (nSize : Nat) (nTimeout : Int) (out : Nat × World U K)
    (h : s_fileWrite E fuel w buffer nSize nTimeout = some out) :
    newEvents w out.2 = [] ∨
    ((BZ2_bzCompressInit E (compressInitWorld w) w.file.iBlockSize).1 ≠ BZ_OK ∧
      newEvents w out.2 = [Event.compressInit w.file.iBlockSize
        (BZ2_bzCompressInit E (compressInitWorld w) w.file.iBlockSize).1] ∧
      out.2.fsError = HB_BZ2_ERROR_BASE -
        (BZ2_bzCompressInit E (compressInitWorld w) w.file.iBlockSize).1) ∨
    (w.file.iMode ≠ FO_READ ∧
      (w.file.fInited = false →
        (BZ2_bzCompressInit E (compressInitWorld w) w.file.iBlockSize).1 = BZ_OK) ∧
      ∃ evs, newEvents w out.2 =
        (if w.file.fInited = false then [Event.compressInit w.file.iBlockSize BZ_OK]
          else []) ++ evs ∧
        (∀ e ∈ evs, e.encodeStep) ∧
        ∀ a st c p, Event.compress a st c p ∈ evs → a = BZ_RUN) := by
  rcases s_fileWrite_split E fuel w buffer nSize nTimeout out h with
    ⟨_, a⟩ | ⟨_, _, b, c⟩ | ⟨hmode, hinit⟩
  · rw [a]
    exact Or.inl (newEvents_self w _)
  · rw [c]
    exact Or.inr (Or.inl ⟨b, newEvents_of_append rfl, rfl⟩)
  · obtain ⟨w3, nR, w4, hloop, t3, _, _, _, _, _, _, _, _, _, _, o1, _⟩ :=
      s_fileWrite_run E fuel w buffer nSize nTimeout out h hmode hinit
    obtain ⟨evs, e1, e2, e3⟩ := s_fileWrite_loop_steps E hdoc _ fuel w3 0 _ hloop
    simp only at e1
    exact Or.inr (Or.inr ⟨hmode, hinit, evs,
      newEvents_of_append (by rw [o1, e1, t3, List.append_assoc]), e2, e3⟩)

/-- The calls of one `s_bz2_flush` are writes to the underlying handle and
encoder steps with a status documented for their action. -/
theorem s_bz2_flush_steps (E : Env U K) (hdoc : DocumentedStatuses E) (fuel : Nat)
    (w w1 : World U K) (fClose : Bool) (h : s_bz2_flush E fuel w fClose = some w1) :
    ∀ e ∈ newEvents w w1, e.encodeStep := by
  unfold s_bz2_flush at h
  simp only at h
  have hfirst : ∃ fevs,
      (if w.file.bz2.avail_out > 0 then
          BZ2_bzCompress E w (if fClose then BZ_FINISH else BZ_FLUSH)
        else if w.file.bz2.avail_out < HB_BZ2_BUFSIZE then (BZ_FLUSH_OK, w)
        else (BZ_STREAM_END, w)).2.trace = w.trace ++ fevs ∧ ∀ e ∈ fevs, e.encodeStep := by
    by_cases hpos : w.file.bz2.avail_out > 0
    · rw [if_pos hpos]
      obtain ⟨c, p, c1, _⟩ := BZ2_bzCompress_step E w (if fClose then BZ_FINISH else BZ_FLUSH)
      refine ⟨_, c1, ?_⟩
      intro e he
      simp only [List.mem_singleton] at he
      subst he
      refine hdoc.2.2.2 w.file.bz2.state _ _ _ ?_
      cases fClose
      · exact Or.inr (Or.inl rfl)
      · exact Or.inr (Or.inr rfl)
    · rw [if_neg hpos]
      split <;> exact ⟨[], by simp, by simp⟩
  obtain ⟨fevs, f1, f2⟩ := hfirst
  generalize (if w.file.bz2.avail_out > 0 then
          BZ2_bzCompress E w (if fClose then BZ_FINISH else BZ_FLUSH)
        else if w.file.bz2.avail_out < HB_BZ2_BUFSIZE then (BZ_FLUSH_OK, w)
        else (BZ_STREAM_END, w)) = first at *
  have hall : ∀ (r : World U K × Option Int),
      s_bz2_flush_loop E fuel first.2 fClose first.1 = some r →
      ∀ e ∈ newEvents w r.1, e.encodeStep := by
    intro r hr
    obtain ⟨evs, e1, e2⟩ := s_bz2_flush_loop_steps E hdoc fClose fuel first.2 first.1 r hr
    rw [newEvents_of_append (show r.1.trace = w.trace ++ (fevs ++ evs) by
      rw [e1, f1, List.append_assoc])]
    intro e he
    rcases List.mem_append.1 he with he | he
    · exact f2 e he
    · exact e2 e he
  cases hloop : s_bz2_flush_loop E fuel first.2 fClose first.1 with
  | none => simp [hloop] at h
  | some r =>
    have hr := hall r hloop
    rw [hloop] at h
    obtain ⟨w2, o⟩ := r
    cases o with
    | none =>
      simp only [Option.some.injEq] at h
      subst h
      exact hr
    | some err =>
      simp only at h
      split at h <;>
        · injection h with h
          subst h
          exact hr

/-- C12: with an engine that keeps to the statuses libbz2 documents, the error
the driver leaves for an engine status `st` is the spec's mapping `specError`:
0 for ok, run-ok and stream-end, the nonzero value 100 minus `st` otherwise.
In `s_fileRead` and `s_fileWrite` this holds for the status of the init and of
every step of the call that is not one of the three; when all statuses of the
call are among the three, the error slot keeps the 0 stored before the loop,
provided the underlying handle leaves the slot alone or clears it.  In
`s_bz2_flush` that ends with the staging buffer empty it holds for the final
status. -/
theorem error_mapping (E : Env U K) (hdoc : DocumentedStatuses E) :
    (∀ fuel w buffer nSize nTimeout out, s_fileRead E fuel w buffer nSize nTimeout = some out →
      (∀ e ∈ newEvents w out.2, ∀ st, e.status = some st → ¬ NoError st →
        out.2.fsError = specError st ∧ specError st = HB_BZ2_ERROR_BASE - st ∧
          specError st ≠ 0) ∧
      (QuietHandle E → (∀ e ∈ newEvents w out.2, ∀ st, e.status = some st → NoError st) →
        ∀ e ∈ newEvents w out.2, ∀ st, e.status = some st →
          out.2.fsError = specError st ∧ specError st = 0)) ∧
    (∀ fuel w buffer nSize nTimeout out, s_fileWrite E fuel w buffer nSize nTimeout = some out →
      (∀ e ∈ newEvents w out.2, ∀ st, e.status = some st → ¬ NoError st →
        out.2.fsError = specError st ∧ specError st = HB_BZ2_ERROR_BASE - st ∧
          specError st ≠ 0) ∧
      (QuietHandle E → (∀ e ∈ newEvents w out.2, ∀ st, e.status = some st → NoError st) →
        ∀ e ∈ newEvents w out.2, ∀ st, e.status = some st →
          out.2.fsError = specError st ∧ specError st = 0)) ∧
    (∀ fuel w w1 fClose, s_bz2_flush E fuel w fClose = some w1 →
      w.file.bz2.avail_out ≤ HB_BZ2_BUFSIZE → w1.file.bz2.avail_out = HB_BZ2_BUFSIZE →
      ∃ st, lastStatus none (newEvents w w1) = some st ∧ w1.fsError = specError st ∧
        (NoError st → specError st = 0) ∧
        (¬ NoError st → specError st = HB_BZ2_ERROR_BASE - st ∧ specError st ≠ 0)) := by
  obtain ⟨_, old2, _, old4, old5, _, old7⟩ := status_tests_by_site E
  refine ⟨?_, ?_, ?_⟩
  · intro fuel w buffer nSize nTimeout out h
    have hsteps := s_fileRead_steps E hdoc fuel w buffer nSize nTimeout out h
    constructor
    · intro e he st hst hno
      rcases hsteps with hnil | ⟨_, hev, herr⟩ | ⟨_, _, _, evs, hev, hrs⟩
      · rw [hnil] at he
        cases he
      · rw [hev] at he
        simp only [List.mem_singleton] at he
        subst he
        simp only [Event.status, Option.some.injEq] at hst
        subst hst
        obtain ⟨r1, r2⟩ := docInit_range (hdoc.1 w.file.bz2.state)
        obtain ⟨s1, s2⟩ := specError_of_error r1 r2 hno
        exact ⟨herr.trans s1.symm, s1, s2⟩
      · have he0 := he
        rw [hev] at he
        rcases List.mem_append.1 he with he | he
        · split at he
          · simp only [List.mem_singleton] at he
            subst he
            simp only [Event.status, Option.some.injEq] at hst
            subst hst
            exact absurd (Or.inl rfl) hno
          · cases he
        · obtain ⟨c, p, rfl, hd⟩ := readStep_status (hrs e he) hst
          obtain ⟨r1, r2⟩ := docDecompress_range hd
          obtain ⟨s1, s2⟩ := specError_of_error r1 r2 hno
          have hf := old2 fuel w buffer nSize nTimeout out h st c p he0
            (fun hc => hno (Or.inl hc)) (fun hc => hno (Or.inr (Or.inr hc)))
          exact ⟨hf.trans s1.symm, s1, s2⟩
    · intro hq hall e he st hst
      have hz := specError_of_noError (hall e he st hst)
      refine ⟨?_, hz⟩
      rw [hz]
      rcases hsteps with hnil | ⟨hne, hev, _⟩ | ⟨hmode, heof, hinit, evs, hev, hrs⟩
      · rw [hnil] at he
        cases he
      · exfalso
        apply hne
        refine docInit_noError (hdoc.1 w.file.bz2.state)
          (hall (Event.decompressInit (BZ2_bzDecompressInit E w).1) ?_ _ rfl)
        rw [hev]
        exact List.mem_singleton.2 rfl
      · refine (old7 hq).1 fuel w buffer nSize nTimeout out h hmode heof hinit ?_
        intro st1 c p hm
        have hm0 := hm
        rw [hev] at hm
        rcases List.mem_append.1 hm with hm | hm
        · split at hm
          · simp only [List.mem_singleton] at hm
            cases hm
          · cases hm
        · exact docDecompress_noError (hrs _ hm) (hall _ hm0 st1 rfl)
  · intro fuel w buffer nSize nTimeout out h
    have hsteps := s_fileWrite_steps E hdoc fuel w buffer nSize nTimeout out h
    constructor
    · intro e he st hst hno
      rcases hsteps with hnil | ⟨_, hev, herr⟩ | ⟨_, _, evs, hev, hrs, _⟩
      · rw [hnil] at he
        cases he
      · rw [hev] at he
        simp only [List.mem_singleton] at he
        subst he
        simp only [Event.status, Option.some.injEq] at hst
        subst hst
        obtain ⟨r1, r2⟩ := docInit_range (hdoc.2.2.1 (compressInitWorld w).file.bz2.state
          w.file.iBlockSize)
        obtain ⟨s1, s2⟩ := specError_of_error r1 r2 hno
        exact ⟨herr.trans s1.symm, s1, s2⟩
      · have he0 := he
        rw [hev] at he
        rcases List.mem_append.1 he with he | he
        · split at he
          · simp only [List.mem_singleton] at he
            subst he
            simp only [Event.status, Option.some.injEq] at hst
            subst hst
            exact absurd (Or.inl rfl) hno
          · cases he
        · obtain ⟨a, c, p, rfl, hd⟩ := encodeStep_status (hrs e he) hst
          obtain ⟨r1, r2, _⟩ := docCompress_range hd
          obtain ⟨s1, s2⟩ := specError_of_error r1 r2 hno
          have hf := old4 fuel w buffer nSize nTimeout out h a st c p he0
            (fun hc => hno (Or.inr (Or.inl hc)))
          exact ⟨hf.trans s1.symm, s1, s2⟩
    · intro hq hall e he st hst
      have hz := specError_of_noError (hall e he st hst)
      refine ⟨?_, hz⟩
      rw [hz]
      rcases hsteps with hnil | ⟨hne, hev, _⟩ | ⟨hmode, hinit, evs, hev, hrs, hact⟩
      · rw [hnil] at he
        cases he
      · exfalso
        apply hne
        refine docInit_noError (hdoc.2.2.1 (compressInitWorld w).file.bz2.state
          w.file.iBlockSize)
          (hall (Event.compressInit w.file.iBlockSize
            (BZ2_bzCompressInit E (compressInitWorld w) w.file.iBlockSize).1) ?_ _ rfl)
        rw [hev]
        exact List.mem_singleton.2 rfl
      · refine (old7 hq).2 fuel w buffer nSize nTimeout out h hmode hinit ?_
        intro a st1 c p hm
        have hm0 := hm
        rw [hev] at hm
        rcases List.mem_append.1 hm with hm | hm
        · split at hm
          · simp only [List.mem_singleton] at hm
            cases hm
          · cases hm
        · have ha := hact a st1 c p hm
          subst ha
          exact docCompress_run_noError (hrs _ hm) (hall _ hm0 st1 rfl)
  · intro fuel w w1 fClose h hav hfull
    obtain ⟨st, h1, h2⟩ := old5 fuel w w1 fClose h hav hfull
    have hsteps := s_bz2_flush_steps E hdoc fuel w w1 fClose h
    rcases lastStatus_mem _ _ _ h1 with hn | ⟨a, c, p, hm⟩
    · cases hn
    · have hd : DocCompress a st := hsteps _ hm
      obtain ⟨r1, r2, r3⟩ := docCompress_range hd
      refine ⟨st, h1, ?_, specError_of_noError, specError_of_error r1 r2⟩
      rw [h2]
      unfold specError
      by_cases hc : st = BZ_STREAM_END ∨ st = BZ_RUN_OK
      · rw [if_pos hc, if_pos (by tauto)]
      · rw [if_neg hc, if_neg (by tauto)]

/-- C12, witness: over the small codec, which keeps to the documented
statuses, the read of `corruptReader`, whose second decoder step reports
`BZ_DATA_ERROR`, leaves 104; the read of `plainReader` over a store that never
fails, whose decoder reports `BZ_OK` and `BZ_STREAM_END`, leaves 0; and the
finalization flush after a three-byte write, whose finish step reports
`BZ_STREAM_END`, leaves the spec's value for that status. -/
theorem error_mapping_witness :
    (corruptRead.2.fsError = specError BZ_DATA_ERROR ∧
      specError BZ_DATA_ERROR = HB_BZ2_ERROR_BASE - BZ_DATA_ERROR ∧
      specError BZ_DATA_ERROR ≠ 0) ∧
    (steadyRead.2.fsError = specError BZ_STREAM_END ∧ specError BZ_STREAM_END = 0) ∧
    (∃ st, lastStatus none (newEvents smallWrite.2 smallFlush) = some st ∧
      smallFlush.fsError = specError st ∧ (NoError st → specError st = 0) ∧
      (¬ NoError st → specError st = HB_BZ2_ERROR_BASE - st ∧ specError st ≠ 0)) :=
  ⟨((error_mapping toyEnv documentedStatuses_toyEnv).1 8 corruptReader memZero 4 (-1)
      corruptRead (eq_some_getD _ _ (by decide!))).1
      (Event.decompress BZ_DATA_ERROR [1, 65] [65]) (by decide!) BZ_DATA_ERROR rfl
      (by unfold NoError; decide),
   ((error_mapping steadyEnv documentedStatuses_steadyEnv).1 8 plainReader memZero 4 (-1)
      steadyRead (eq_some_getD _ _ (by decide!))).2 quietHandle_steadyEnv
      (by
        intro e he st hst
        rw [show newEvents plainReader steadyRead.2 =
          [Event.decompressInit 0, Event.decompress 0 [] [], Event.uRead 8192 (-1) 3 [1, 65, 0],
            Event.decompress 4 [1, 65, 0] [65], Event.decompressEnd] by decide!] at he
        simp only [List.mem_cons, List.mem_singleton, List.not_mem_nil, or_false] at he
        rcases he with rfl | rfl | rfl | rfl | rfl
        · injection hst with hst
          exact Or.inl hst.symm
        · injection hst with hst
          exact Or.inl hst.symm
        · cases hst
        · injection hst with hst
          exact Or.inr (Or.inr hst.symm)
        · cases hst)
      (Event.decompress BZ_STREAM_END [1, 65, 0] [65]) (by decide!) BZ_STREAM_END rfl,
   (error_mapping toyEnv documentedStatuses_toyEnv).2.2 8 smallWrite.2 smallFlush true
      (eq_some_getD _ _ (by decide!)) (by decide!) (by decide!)⟩

end HbBz2
